import Mathlib

/-!
# hw-qemud: the qemud serial multiplexer

A shallow embedding of `external/qemu/android/hw-qemud.c` and proofs about it.

Conventions of the embedding.

* A byte (`uint8_t`) is a `Nat`; a byte string is a `List Nat`.
* A C `(pointer, length)` pair that denotes a slice is the list of the bytes of
  the slice.
* C `int` values that can be negative (`hex2int` results, `overflow`, channel
  ids) are `Int`; lengths of buffers are `Nat`.  All lengths are assumed to fit
  a C `int`.
* `qemu_chr_write(s->cs, ...)` appends to the field `cs` of the serial object,
  which therefore holds every byte written to the transport so far.
* A `QemudSink` does not own its buffer (`buff` is a pointer into storage of
  the enclosing object); the embedding passes that storage explicitly.
* Loops whose termination depends on the state take a fuel argument and
  return `none` when the fuel is exhausted.
-/

namespace Qemud

/-! ## Helpers that live outside hw-qemud.c -/

/-- Bytes of an ASCII string literal. -/
def bytes (s : String) : List Nat := s.toList.map Char.toNat

/-- Modelled from the spec: value of one hexadecimal digit as read by `hex2int`
of android/utils/misc.c, which is not among the sources; both cases are
accepted, anything else is not a digit. -/
def hexdigit (c : Nat) : Option Nat :=
  if 48 ≤ c ∧ c < 58 then some (c - 48)
  else if 97 ≤ c ∧ c < 103 then some (c - 97 + 10)
  else if 65 ≤ c ∧ c < 71 then some (c - 65 + 10)
  else none

/-- Modelled from the spec: accumulator loop of `hex2int` (android/utils/misc.c,
not among the sources): big-endian, `-1` at the first byte that is not a
hexadecimal digit. -/
def hex2int_loop : List Nat → Int → Int
  | [], result => result
  | c :: hex, result =>
    match hexdigit c with
    | none => -1
    | some d => hex2int_loop hex (result * 16 + d)

/-- Modelled from the spec: `hex2int(hex, len)` of android/utils/misc.c (not
among the sources): the `len` first bytes of `hex` read as big-endian
hexadecimal digits, `-1` if one of them is not a digit. -/
def hex2int (hex : List Nat) (len : Nat) : Int :=
  hex2int_loop (hex.take len) 0

/-- Modelled from the spec: the digit table of `int2hex`, lowercase. -/
def hexchar (d : Nat) : Nat :=
  if d < 10 then 48 + d else 97 + (d - 10)

/-- Modelled from the spec: `int2hex(hex, len, val)` of android/utils/misc.c
(not among the sources): the `len` low hexadecimal digits of `val`, most
significant first, lowercase. -/
def int2hex : Nat → Nat → List Nat
  | 0, _ => []
  | len + 1, val => hexchar ((val / 16 ^ len) % 16) :: int2hex len val

/-- The conversion `%02x` of printf: lowercase hexadecimal, at least two
digits. -/
def fmt_02x (v : Nat) : List Nat :=
  let d := (Nat.toDigits 16 v).map Char.toNat
  List.replicate (2 - d.length) 48 ++ d

/-- Modelled from the spec: `bufprint(tmp, end, ...)` of
android/utils/bufprint.c (not among the sources) writes the formatted text
into a buffer of `cap` bytes, truncated so that a final zero fits, and returns
the end of the text. The result is the text written. -/
def bufprint (cap : Nat) (text : List Nat) : List Nat :=
  text.take (cap - 1)

/-- Effect of `memcpy(dst + off, src, |src|)` on the bytes of `dst`. -/
def memcpy (dst : List Nat) (off : Nat) (src : List Nat) : List Nat :=
  dst.take off ++ src ++ dst.drop (off + src.length)

/-! ## QemudSink -/

def MAX_SERIAL_PAYLOAD : Nat := 4000
def MAX_FRAME_PAYLOAD : Nat := 65535
def HEADER_SIZE : Nat := 6
def LENGTH_OFFSET : Nat := 2
def LENGTH_SIZE : Nat := 4
def CHANNEL_OFFSET : Nat := 0
def CHANNEL_SIZE : Nat := 2
def LEGACY_LENGTH_OFFSET : Nat := 0
def LEGACY_CHANNEL_OFFSET : Nat := 4
def FRAME_HEADER_SIZE : Nat := 4

/-- The struct `QemudSink` without its `buff` pointer. Every call of
`qemud_sink_reset` in the file passes a positive size, so `len` and `size`
are naturals. -/
structure QemudSink where
  len : Nat
  size : Nat
deriving DecidableEq, Repr

/-- The function `qemud_sink_reset`; the new destination buffer is chosen by
the caller. -/
def qemud_sink_reset (_ss : QemudSink) (size : Nat) : QemudSink :=
  { len := 0, size := size }

/-- The function `qemud_sink_fill(ss, &msg, &len)`: `buff` is the storage
`ss->buff` points to and `msg` the source slice. Returns the sink, the storage,
the rest of the source and whether the sink is full. -/
def qemud_sink_fill (ss : QemudSink) (buff : List Nat) (msg : List Nat) :
    QemudSink × List Nat × List Nat × Bool :=
  let avail := ss.size - ss.len
  if ss.size ≤ ss.len then (ss, buff, msg, true)
  else
    let avail := if avail > msg.length then msg.length else avail
    let buff := memcpy buff ss.len (msg.take avail)
    let ss1 : QemudSink := { ss with len := ss.len + avail }
    (ss1, buff, msg.drop avail, ss1.len == ss1.size)

/-- The function `qemud_sink_needed`. -/
def qemud_sink_needed (ss : QemudSink) : Int :=
  (ss.size : Int) - (ss.len : Int)

/-! ## QemudSerial -/

inductive QemudVersion where
  | UNKNOWN
  | LEGACY
  | NORMAL
deriving DecidableEq, Repr

/-- The struct `QemudSerial`. Both sinks write into `data0`. The receiver
callback is a parameter of `qemud_serial_read`. -/
structure QemudSerial where
  cs : List Nat
  need_header : Bool
  overflow : Int
  in_size : Int
  in_channel : Int
  version : QemudVersion
  header : QemudSink
  payload : QemudSink
  data0 : List Nat
deriving DecidableEq, Repr

/-- The function `qemud_serial_can_read`. -/
def qemud_serial_can_read (s : QemudSerial) : Int :=
  if s.overflow > 0 then s.overflow
  else if s.need_header then qemud_sink_needed s.header
  else qemud_sink_needed s.payload

/-- How one iteration of a `while (len > 0)` loop ends: `brk` is a `break`,
`cont` a `continue` or the end of the loop body, with the input that is left. -/
inductive LoopStep (σ : Type) where
  | brk : σ → LoopStep σ
  | cont : σ → List Nat → LoopStep σ

/-- The part of `qemud_serial_read` between the header fill and the validity
checks: legacy detection, parsing of `in_size` and `in_channel`, and
`s->header->len = 0`. -/
def qemud_serial_read_parse (s : QemudSerial) : QemudSerial :=
  let s :=
    if s.version = QemudVersion.UNKNOWN then
      if s.data0.take 6 = bytes "001200" then
        { s with version := QemudVersion.LEGACY }
      else
        { s with version := QemudVersion.NORMAL }
    else s
  let s :=
    if s.version = QemudVersion.LEGACY then
      { s with
        in_size := hex2int (s.data0.drop LEGACY_LENGTH_OFFSET) LENGTH_SIZE
        in_channel := hex2int (s.data0.drop LEGACY_CHANNEL_OFFSET) CHANNEL_SIZE }
    else
      { s with
        in_size := hex2int (s.data0.drop LENGTH_OFFSET) LENGTH_SIZE
        in_channel := hex2int (s.data0.drop CHANNEL_OFFSET) CHANNEL_SIZE }
  { s with header := { s.header with len := 0 } }

/-- The end of the loop body of `qemud_serial_read`, from "read payload
bytes" on. `recv` is `s->recv_func` applied to `s->recv_opaque`: it is given
the state `a` behind the opaque pointer and the serial object (which the
multiplexer's receiver reaches through that pointer), the channel and the
payload slice, and is `none` if it does not return. -/
def qemud_serial_read_payload {α : Type}
    (recv : α → QemudSerial → Int → List Nat → Option (α × QemudSerial))
    (a : α) (s : QemudSerial) (frm : List Nat) : Option (LoopStep (α × QemudSerial)) :=
  match qemud_sink_fill s.payload s.data0 frm with
  | (payload, data0, frm, full) =>
    let s := { s with payload := payload, data0 := data0 }
    if !full then some (LoopStep.brk (a, s))
    else
      /- zero-terminate payload, then send it to receiver -/
      let s := { s with data0 := s.data0.set s.payload.size 0 }
      match recv a s s.in_channel (s.data0.take s.payload.size) with
      | none => none
      | some (a, s) =>
        /- prepare for new header -/
        some (LoopStep.cont (a, { s with need_header := true }) frm)

/-- One iteration of the `while (len > 0)` loop of `qemud_serial_read`, entered
with input left. -/
def qemud_serial_read_body {α : Type}
    (recv : α → QemudSerial → Int → List Nat → Option (α × QemudSerial))
    (a : α) (s : QemudSerial) (frm : List Nat) : Option (LoopStep (α × QemudSerial)) :=
  /- skip overflow bytes -/
  if s.overflow > 0 then
    let avail : Int := if s.overflow > frm.length then frm.length else s.overflow
    some (LoopStep.cont (a, s) (frm.drop avail.toNat))
  else if s.need_header then
    /- read header if needed -/
    match qemud_sink_fill s.header s.data0 frm with
    | (header, data0, frm, full) =>
      let s := { s with header := header, data0 := data0 }
      if !full then some (LoopStep.brk (a, s))
      else
        let s := qemud_serial_read_parse s
        if s.in_size ≤ 0 ∨ s.in_channel < 0 then
          some (LoopStep.cont (a, s) frm)
        else if s.in_size > MAX_SERIAL_PAYLOAD then
          some (LoopStep.cont (a, { s with overflow := s.in_size }) frm)
        else
          /- prepare 'in_data' for payload -/
          let s := { s with need_header := false }
          let s := { s with payload := qemud_sink_reset s.payload s.in_size.toNat }
          qemud_serial_read_payload recv a s frm
  else
    qemud_serial_read_payload recv a s frm

/-- The `while (len > 0)` loop of `qemud_serial_read`. -/
def qemud_serial_read_loop {α : Type}
    (recv : α → QemudSerial → Int → List Nat → Option (α × QemudSerial)) :
    Nat → α → QemudSerial → List Nat → Option (α × QemudSerial)
  | 0, a, s, frm => if frm.length > 0 then none else some (a, s)
  | fuel + 1, a, s, frm =>
    if frm.length > 0 then
      match qemud_serial_read_body recv a s frm with
      | none => none
      | some (LoopStep.brk r) => some r
      | some (LoopStep.cont (a, s) frm) => qemud_serial_read_loop recv fuel a s frm
    else some (a, s)

/-- The function `qemud_serial_read(opaque, from, len)`: the loop, with fuel
for two iterations per input byte and two more. -/
def qemud_serial_read {α : Type}
    (recv : α → QemudSerial → Int → List Nat → Option (α × QemudSerial))
    (a : α) (s : QemudSerial) (frm : List Nat) : Option (α × QemudSerial) :=
  qemud_serial_read_loop recv (2 * frm.length + 2) a s frm

/-- The bytes the charpipe delivers, one call of `qemud_serial_read` per
chunk. -/
def qemud_serial_read_chunks {α : Type}
    (recv : α → QemudSerial → Int → List Nat → Option (α × QemudSerial)) :
    α → QemudSerial → List (List Nat) → Option (α × QemudSerial)
  | a, s, [] => some (a, s)
  | a, s, chunk :: rest =>
    match qemud_serial_read recv a s chunk with
    | none => none
    | some (a, s) => qemud_serial_read_chunks recv a s rest

/-- The bytes written by `qemud_serial_send_legacy_probe`. -/
def qemud_serial_send_legacy_probe (s : QemudSerial) : QemudSerial :=
  let tab : List Nat := List.replicate 194 0
  { s with cs := s.cs ++ bytes "000100X" ++ bytes "000b00connect:gsm"
                  ++ bytes "000b00connect:gps" ++ bytes "000f00connect:control"
                  ++ bytes "00c210" ++ tab }

/-- The function `qemud_serial_init` on an object whose `data0` holds
`data0`; `cs` is the output written to the charpipe so far. -/
def qemud_serial_init (cs : List Nat) (data0 : List Nat) : QemudSerial :=
  qemud_serial_send_legacy_probe
    { cs := cs, need_header := true, overflow := 0,
      header := { len := 0, size := HEADER_SIZE },
      in_size := 0, in_channel := -1,
      version := QemudVersion.UNKNOWN,
      payload := { len := 0, size := 0 },
      data0 := data0 }

/-- The six header bytes `qemud_serial_send` builds for a packet of `avail`
bytes. -/
def serial_header (version : QemudVersion) (avail : Nat) (channel : Nat) : List Nat :=
  if version = QemudVersion.LEGACY then
    /- length at LEGACY_LENGTH_OFFSET = 0, channel at LEGACY_CHANNEL_OFFSET = 4 -/
    int2hex LENGTH_SIZE avail ++ int2hex CHANNEL_SIZE channel
  else
    /- channel at CHANNEL_OFFSET = 0, length at LENGTH_OFFSET = 2 -/
    int2hex CHANNEL_SIZE channel ++ int2hex LENGTH_SIZE avail

/-- The packetizing `while (len > 0)` loop of `qemud_serial_send`; `cs` is the
transport output. -/
def qemud_serial_send_loop (version : QemudVersion) (channel : Int) (msglen : Int)
    (framing : Bool) (msg : List Nat) (len : Int) (cs : List Nat) : List Nat :=
  if _h : len > 0 then
    let avail : Int := if len > MAX_SERIAL_PAYLOAD then MAX_SERIAL_PAYLOAD else len
    let cs := cs ++ serial_header version avail.toNat channel.toNat
    if framing then
      let cs := cs ++ int2hex FRAME_HEADER_SIZE msglen.toNat
      let avail1 := avail - FRAME_HEADER_SIZE
      let len1 := len - FRAME_HEADER_SIZE
      let cs := cs ++ msg.take avail1.toNat
      qemud_serial_send_loop version channel msglen false (msg.drop avail1.toNat)
        (len1 - avail1) cs
    else
      let cs := cs ++ msg.take avail.toNat
      qemud_serial_send_loop version channel msglen false (msg.drop avail.toNat)
        (len - avail) cs
  else cs
termination_by len.toNat
decreasing_by
  all_goals simp_wf
  all_goals simp only [MAX_SERIAL_PAYLOAD, FRAME_HEADER_SIZE] at *
  all_goals split <;> omega

/-- The function `qemud_serial_send(s, channel, framing, msg, msglen)`. -/
def qemud_serial_send (s : QemudSerial) (channel : Int) (framing : Bool)
    (msg : List Nat) : QemudSerial :=
  let msglen : Int := msg.length
  if msglen ≤ 0 ∨ channel < 0 then s
  else
    let len := if framing then msglen + FRAME_HEADER_SIZE else msglen
    { s with cs := qemud_serial_send_loop s.version channel msglen framing msg len s.cs }

/-! ## QemudClient -/

/-- The value of a `clie_recv` field: `NULL`, the control-message handler
`qemud_multiplexer_control_recv` of the channel 0 client, or a callback of a
service implementation, which is outside this file: its calls are recorded. -/
inductive QemudClientRecv where
  | null
  | control
  | user
deriving DecidableEq, Repr

/-- The struct `QemudClient`. `addr` is the address of the object, `service`
the address of its service (`none` for NULL). The links `next`, `pref` and
`next_serv` are the positions in the list of the multiplexer and in the list
of the service. `clie_close` tells whether the close callback is set;
`payload_buff` is the heap array `payload->buff` points to. -/
structure QemudClient where
  addr : Nat
  channel : Int
  clie_opaque : Nat
  clie_recv : QemudClientRecv
  clie_close : Bool
  service : Option Nat
  framing : Bool
  need_header : Bool
  header : QemudSink
  header0 : List Nat
  payload : QemudSink
  payload_buff : List Nat
deriving DecidableEq, Repr

/-- The end of the loop body of `qemud_client_recv`, from "read the payload"
on. `calls` are the messages handed to `c->clie_recv` so far. -/
def qemud_client_recv_payload (c : QemudClient) (calls : List (List Nat)) (msg : List Nat) :
    LoopStep (QemudClient × List (List Nat)) :=
  match qemud_sink_fill c.payload c.payload_buff msg with
  | (payload, buff, msg, full) =>
    let c := { c with payload := payload, payload_buff := buff }
    if !full then LoopStep.brk (c, calls)
    else
      let c := { c with payload_buff := c.payload_buff.set c.payload.size 0 }
      let calls :=
        if c.clie_recv ≠ QemudClientRecv.null then
          calls ++ [c.payload_buff.take c.payload.size]
        else calls
      /- AFREE(c->payload->buff) -/
      let c := { c with payload_buff := [] }
      LoopStep.cont ({ c with need_header := true }, calls) msg

/-- One iteration of the `while (msglen > 0)` loop of `qemud_client_recv`. -/
def qemud_client_recv_body (c : QemudClient) (calls : List (List Nat)) (msg : List Nat) :
    LoopStep (QemudClient × List (List Nat)) :=
  if c.need_header then
    match qemud_sink_fill c.header c.header0 msg with
    | (header, header0, msg, full) =>
      let c := { c with header := header, header0 := header0 }
      if !full then LoopStep.brk (c, calls)
      else
        let frame_size := hex2int c.header0 4
        if frame_size = 0 then
          /- ignoring empty frame -/
          LoopStep.cont (c, calls) msg
        else if frame_size < 0 then
          /- ignoring corrupted frame header -/
          LoopStep.cont (c, calls) msg
        else
          /- AARRAY_NEW(data, frame_size+1) -/
          let c := { c with payload := qemud_sink_reset c.payload frame_size.toNat,
                            payload_buff := List.replicate (frame_size.toNat + 1) 0 }
          let c := { c with need_header := false }
          let c := { c with header := { c.header with len := 0 } }
          qemud_client_recv_payload c calls msg
  else
    qemud_client_recv_payload c calls msg

/-- The `while (msglen > 0)` loop of `qemud_client_recv`. -/
def qemud_client_recv_loop :
    Nat → QemudClient → List (List Nat) → List Nat → Option (QemudClient × List (List Nat))
  | 0, c, calls, msg => if msg.length > 0 then none else some (c, calls)
  | fuel + 1, c, calls, msg =>
    if msg.length > 0 then
      match qemud_client_recv_body c calls msg with
      | LoopStep.brk r => some r
      | LoopStep.cont (c, calls) msg => qemud_client_recv_loop fuel c calls msg
    else some (c, calls)

/-- The function `qemud_client_recv(opaque, msg, msglen)`. The result is the
client and the messages handed to `c->clie_recv`, in order; `none` if the loop
does not end. -/
def qemud_client_recv (c : QemudClient) (msg : List Nat) :
    Option (QemudClient × List (List Nat)) :=
  /- no framing, things are simple -/
  if !c.framing then
    some (c, if c.clie_recv ≠ QemudClientRecv.null then [msg] else [])
  else
    let len := hex2int msg FRAME_HEADER_SIZE
    if msg.length > FRAME_HEADER_SIZE ∧ c.need_header = true ∧ qemud_sink_needed c.header = 0
        ∧ len ≥ 0 ∧ (msg.length : Int) = len + FRAME_HEADER_SIZE then
      some (c, if c.clie_recv ≠ QemudClientRecv.null then [msg.drop FRAME_HEADER_SIZE] else [])
    else
      qemud_client_recv_loop (2 * msg.length + 2) c [] msg

/-! ## QemudService and QemudMultiplexer -/

/-- What a `serv_connect` callback does, as far as this file is concerned:
it accepts by calling `qemud_client_new(sv, channel, ...)` with callbacks of
its choice and returning that client, or it refuses by returning NULL. -/
inductive QemudServiceConnect where
  | accept ( clie_opaque : Nat) (clie_recv : QemudClientRecv) (clie_close : Bool)
  | refuse
deriving DecidableEq, Repr

/-- The struct `QemudService`. `addr` is the address of the object, `name` the
bytes of the C string without its final zero, `clients` the addresses of the
clients in list order; the `next` link is the position in the registry. -/
structure QemudService where
  addr : Nat
  name : List Nat
  max_clients : Int
  num_clients : Int
  clients : List Nat
  serv_connect : QemudServiceConnect
  serv_opaque : Nat
deriving DecidableEq, Repr

/-- A call of a callback that is outside this file. -/
inductive QemudEvent where
  | recv ( clie_opaque : Nat) (msg : List Nat) (client : Nat)
  | close ( clie_opaque : Nat)
  | connect ( serv_opaque : Nat) (service : Nat) (channel : Int)
deriving DecidableEq, Repr

/-- The struct `QemudMultiplexer`, with the allocator (`next_addr` is the next
fresh address) and the record of the callbacks called. `clients` is the global
list, head first. -/
structure QemudMultiplexer where
  serial : QemudSerial
  clients : List QemudClient
  services : List QemudService
  next_addr : Nat
  events : List QemudEvent
deriving DecidableEq, Repr

/-- Unlinking of the node at address `a` from a list of clients. -/
def unlink_client (a : Nat) : List QemudClient → List QemudClient
  | [] => []
  | node :: rest => if node.addr = a then rest else node :: unlink_client a rest

/-- The function `qemud_client_remove`: remove a client from the global
list. -/
def qemud_client_remove (m : QemudMultiplexer) (c : QemudClient) : QemudMultiplexer :=
  { m with clients := unlink_client c.addr m.clients }

/-- The function `qemud_client_prepend`: add a client to the global list. -/
def qemud_client_prepend (m : QemudMultiplexer) (c : QemudClient) : QemudMultiplexer :=
  { m with clients := c :: m.clients }

/-- The function `qemud_client_alloc`; `serial` and `pclients` are those of
the multiplexer. -/
def qemud_client_alloc (m : QemudMultiplexer) (channel_id : Int) ( clie_opaque : Nat)
    (clie_recv : QemudClientRecv) (clie_close : Bool) : QemudMultiplexer × QemudClient :=
  let c : QemudClient :=
    { addr := m.next_addr, channel := channel_id, clie_opaque := clie_opaque,
      clie_recv := clie_recv, clie_close := clie_close, service := none,
      framing := false, need_header := true,
      header := { len := 0, size := FRAME_HEADER_SIZE },
      header0 := List.replicate FRAME_HEADER_SIZE 0,
      payload := { len := 0, size := 0 }, payload_buff := [] }
  (qemud_client_prepend { m with next_addr := m.next_addr + 1 } c, c)

/-- Assignment through a client pointer: `f` applied to the object at `a`. -/
def update_client (a : Nat) (f : QemudClient → QemudClient) (l : List QemudClient) :
    List QemudClient :=
  l.map (fun c => if c.addr = a then f c else c)

/-- Assignment through a service pointer: `f` applied to the object at `a`. -/
def update_service (a : Nat) (f : QemudService → QemudService) (l : List QemudService) :
    List QemudService :=
  l.map (fun s => if s.addr = a then f s else s)

/-- The function `qemud_service_add_client(s, c)`, on the objects at the
addresses `s` and `c`. -/
def qemud_service_add_client (m : QemudMultiplexer) (s : Nat) (c : Nat) : QemudMultiplexer :=
  { m with
    clients := update_client c (fun x => { x with service := some s }) m.clients
    services := update_service s
      (fun sv => { sv with clients := c :: sv.clients, num_clients := sv.num_clients + 1 })
      m.services }

/-- The loop of `qemud_service_remove_client` over the list of the service:
the list without the node `c`, or `none` if the end is reached first. -/
def remove_node (c : Nat) : List Nat → Option (List Nat)
  | [] => none
  | node :: rest =>
    if node = c then some rest
    else match remove_node c rest with
      | none => none
      | some l => some (node :: l)

/-- The function `qemud_service_remove_client(s, c)`. -/
def qemud_service_remove_client (s : QemudService) (c : Nat) : QemudService :=
  match remove_node c s.clients with
  | none => s
  | some l => { s with clients := l, num_clients := s.num_clients - 1 }

/-- The function `qemud_client_disconnect`, on a client object `c`. The
object is freed at the end, so the assignments to `c->clie_close`,
`c->clie_recv` and `c->service` leave no trace. -/
def qemud_client_disconnect (m : QemudMultiplexer) (c : QemudClient) : QemudMultiplexer :=
  /- remove from current list -/
  let m := qemud_client_remove m c
  /- send a disconnect command to the daemon -/
  let m :=
    if c.channel > 0 then
      let tmp := bufprint 128 (bytes "disconnect:" ++ fmt_02x c.channel.toNat)
      { m with serial := qemud_serial_send m.serial 0 false tmp }
    else m
  /- call the client close callback -/
  let m :=
    if c.clie_close then { m with events := m.events ++ [QemudEvent.close c.clie_opaque] }
    else m
  /- remove from service list, if any -/
  match c.service with
  | some sv =>
    { m with services := update_service sv (fun s => qemud_service_remove_client s c.addr)
                m.services }
  | none => m

/-- The function `qemud_client_new(service, channelId, ...)`, with the address
of the service. -/
def qemud_client_new (m : QemudMultiplexer) (service : Nat) (channelId : Int)
    ( clie_opaque : Nat) (clie_recv : QemudClientRecv) (clie_close : Bool) :
    QemudMultiplexer × QemudClient :=
  let (m, c) := qemud_client_alloc m channelId clie_opaque clie_recv clie_close
  (qemud_service_add_client m service c.addr, { c with service := some service })

/-- The function `qemud_multiplexer_connect`: the multiplexer and the value
returned. The call of `sv->serv_connect` is recorded. -/
def qemud_multiplexer_connect (m : QemudMultiplexer) (service_name : List Nat)
    (channel_id : Int) : QemudMultiplexer × Int :=
  /- find the corresponding registered service by name -/
  match m.services.find? (fun sv => sv.name = service_name) with
  | none => (m, -1)
  | some sv =>
    /- check service's client count -/
    if sv.max_clients > 0 ∧ sv.num_clients ≥ sv.max_clients then (m, -2)
    else
      /- ask the service to create a new QemudClient -/
      let m := { m with events :=
        m.events ++ [QemudEvent.connect sv.serv_opaque sv.addr channel_id] }
      match sv.serv_connect with
      | QemudServiceConnect.accept o r cl =>
        /- the callback calls qemud_client_new and returns the client -/
        ((qemud_client_new m sv.addr channel_id o r cl).1, 0)
      | QemudServiceConnect.refuse => (m, -1)

/-- The function `qemud_multiplexer_disconnect`. -/
def qemud_multiplexer_disconnect (m : QemudMultiplexer) (channel : Int) : QemudMultiplexer :=
  /- find the client by its channel id, then disconnect it -/
  match m.clients.find? (fun c => c.channel = channel) with
  | some c =>
    /- no need to send disconnect:<id> -/
    qemud_client_disconnect m { c with channel := -1 }
  | none => m

/-- The function `strchr(s, ch)` on the bytes from `s` on: the offset of the
first `ch`, `none` if the final zero comes first. -/
def strchr (ch : Nat) : List Nat → Option Nat
  | [] => none
  | b :: rest =>
    if b = ch then some 0
    else if b = 0 then none
    else match strchr ch rest with
      | none => none
      | some i => some (i + 1)

/-- The C string that starts at a pointer: the bytes before the first zero. -/
def cstr (s : List Nat) : List Nat := s.takeWhile (fun b => b ≠ 0)

/-- The multiplexer after a zero byte has been stored at offset `q` of the
message the control handler was given, which lies at the start of
`mult->serial->data0`. -/
def store_zero (m : QemudMultiplexer) (q : Nat) : QemudMultiplexer :=
  { m with serial := { m.serial with data0 := m.serial.data0.set q 0 } }

/-- The function `qemud_multiplexer_control_recv(opaque, msg, msglen, client)`.
The message is zero-terminated: `msg[msglen]` is the zero that
`qemud_serial_read` stores behind the payload. The pointer `msg` is the one
`qemud_serial_read` hands over, `s->payload->buff`, which is `s->data0`: the
control client is not in framing mode, so `qemud_client_recv` passes the
pointer on as it is. The zero that `*q++ = 0` stores in the message is
therefore stored in `mult->serial->data0`, at the offset of the ':'. -/
def qemud_multiplexer_control_recv (mult : QemudMultiplexer) (msg : List Nat) :
    QemudMultiplexer :=
  let msglen := msg.length
  let buf := msg ++ [0]
  /- handle connection attempts -/
  if msglen > 8 ∧ msg.take 8 = bytes "connect:" then
    match strchr 58 (buf.drop 8) with
    | none => mult
    | some i =>
      let q := 8 + i
      if q + 3 ≠ msglen then mult
      else
        /- zero-terminate service name, in the message itself -/
        let buf := buf.set q 0
        let mult :=
          { mult with serial := { mult.serial with data0 := mult.serial.data0.set q 0 } }
        let service_name := cstr (buf.drop 8)
        let channel := hex2int (buf.drop (q + 1)) 2
        if channel ≤ 0 then mult
        else
          let (mult, ret) := qemud_multiplexer_connect mult service_name channel
          let tmp :=
            if ret < 0 then
              if ret = -1 then
                bufprint 64 (bytes "ko:connect:" ++ fmt_02x channel.toNat
                  ++ bytes ":unknown service")
              else
                bufprint 64 (bytes "ko:connect:" ++ fmt_02x channel.toNat
                  ++ bytes ":service busy")
            else
              bufprint 64 (bytes "ok:connect:" ++ fmt_02x channel.toNat)
          { mult with serial := qemud_serial_send mult.serial 0 false tmp }
  /- handle client disconnections -/
  else if msglen = 13 ∧ msg.take 11 = bytes "disconnect:" then
    let channel_id := hex2int (msg.drop 11) 2
    if channel_id ≤ 0 then mult
    else qemud_multiplexer_disconnect mult channel_id
  /- legacy ok:connect:<service>:<id> -/
  else if msglen > 11 ∧ msg.take 11 = bytes "ok:connect:" then
    match strchr 58 (buf.drop 11) with
    | none => mult
    | some i =>
      let q := 11 + i
      if q + 3 ≠ msglen then mult
      else
        /- zero-terminate service name, in the message itself -/
        let buf := buf.set q 0
        let mult :=
          { mult with serial := { mult.serial with data0 := mult.serial.data0.set q 0 } }
        let service_name := cstr (buf.drop 11)
        let channel := hex2int (buf.drop (q + 1)) 2
        if channel ≤ 0 then mult
        else
          /- "hw-control" was called "control" in 1.0/1.1 -/
          let name :=
            if service_name = bytes "control" then bytes "hw-control" else service_name
          match mult.serial.version with
          | QemudVersion.UNKNOWN =>
            let mult :=
              { mult with serial := { mult.serial with version := QemudVersion.LEGACY } }
            (qemud_multiplexer_connect mult name channel).1
          | QemudVersion.LEGACY =>
            (qemud_multiplexer_connect mult name channel).1
          | QemudVersion.NORMAL => mult
  /- anything else, don't answer for legacy -/
  else if mult.serial.version = QemudVersion.LEGACY then mult
  else
    /- anything else is a problem -/
    { mult with serial :=
        qemud_serial_send mult.serial 0 false (bufprint 64 (bytes "ko:unknown command")) }

/-- The calls `c->clie_recv(c->clie_opaque, msg, msglen, c)` made by
`qemud_client_recv` for the client `c`, one after the other. -/
def client_deliver (c : QemudClient) : QemudMultiplexer → List (List Nat) → QemudMultiplexer
  | m, [] => m
  | m, msg :: rest =>
    let m :=
      match c.clie_recv with
      | QemudClientRecv.null => m
      | QemudClientRecv.control => qemud_multiplexer_control_recv m msg
      | QemudClientRecv.user =>
        { m with events := m.events ++ [QemudEvent.recv c.clie_opaque msg c.addr] }
    client_deliver c m rest

/-- The function `qemud_multiplexer_serial_recv(opaque, channel, msg, msglen)`;
`none` if `qemud_client_recv` does not return. -/
def qemud_multiplexer_serial_recv (m : QemudMultiplexer) (channel : Int) (msg : List Nat) :
    Option QemudMultiplexer :=
  /- dispatch to an existing client if possible -/
  match m.clients.find? (fun c => c.channel = channel) with
  | some c =>
    match qemud_client_recv c msg with
    | none => none
    | some (c1, calls) =>
      let m := { m with clients := update_client c.addr (fun _ => c1) m.clients }
      some (client_deliver c m calls)
  | none => some m

/-- The receiver `qemud_multiplexer_init` passes to `qemud_serial_init`: the
serial object is the one inside the multiplexer. -/
def multiplexer_recv (m : QemudMultiplexer) (s : QemudSerial) (channel : Int)
    (msg : List Nat) : Option (QemudMultiplexer × QemudSerial) :=
  match qemud_multiplexer_serial_recv { m with serial := s } channel msg with
  | none => none
  | some m => some (m, m.serial)

/-- The function `qemud_multiplexer_init` on a multiplexer without clients
and services; `cs` is what the transport holds and `data0` the content of
the scratch array. -/
def qemud_multiplexer_init (cs : List Nat) (data0 : List Nat) : QemudMultiplexer :=
  let mult : QemudMultiplexer :=
    { serial := qemud_serial_init cs data0, clients := [], services := [],
      next_addr := 1, events := [] }
  /- setup listener for channel 0 -/
  (qemud_client_alloc mult 0 0 QemudClientRecv.control false).1

/-- The function `qemud_client_send`. -/
def qemud_client_send (m : QemudMultiplexer) (client : QemudClient) (msg : List Nat) :
    QemudMultiplexer :=
  { m with serial := qemud_serial_send m.serial client.channel client.framing msg }

/-- The function `qemud_client_set_framing`. -/
def qemud_client_set_framing (client : QemudClient) (framing : Bool) : QemudClient :=
  /- release dynamic buffer if we're disabling framing -/
  let client :=
    if client.framing ∧ !client.need_header then
      { client with payload_buff := [], need_header := true }
    else client
  { client with framing := framing }

/-- The function `qemud_client_close`. -/
def qemud_client_close (m : QemudMultiplexer) (client : QemudClient) : QemudMultiplexer :=
  qemud_client_disconnect m client

/-- The function `qemud_service_new`, which `qemud_service_register` calls
with the registry of the multiplexer. -/
def qemud_service_new (m : QemudMultiplexer) (name : List Nat) (max_clients : Int)
    ( serv_opaque : Nat) (serv_connect : QemudServiceConnect) :
    QemudMultiplexer × QemudService :=
  let s : QemudService :=
    { addr := m.next_addr, name := cstr name, max_clients := max_clients, num_clients := 0,
      clients := [], serv_opaque := serv_opaque, serv_connect := serv_connect }
  ({ m with services := s :: m.services, next_addr := m.next_addr + 1 }, s)

/-- The function `qemud_service_broadcast`: `qemud_client_send` to the clients
of the service, in list order. -/
def qemud_service_broadcast (m : QemudMultiplexer) (sv : QemudService) (msg : List Nat) :
    QemudMultiplexer :=
  sv.clients.foldl
    (fun m a =>
      match m.clients.find? (fun c => c.addr = a) with
      | some c => qemud_client_send m c msg
      | none => m)
    m

/-! ## Predicates, harnesses and example states used in the statements -/

/-- Receiver-side well-formedness of the serial object between two loop
iterations. -/
structure Good (s : QemudSerial) : Prop where
  hsize : s.header.size = 6
  hlen : s.header.len < 6
  plen : s.need_header = false → s.payload.len < s.payload.size

/-- A receiver callback that leaves the header sink of the serial object
alone. -/
def RecvKeeps {α : Type}
    (recv : α → QemudSerial → Int → List Nat → Option (α × QemudSerial)) : Prop :=
  ∀ a s c m a1 s1, recv a s c m = some (a1, s1) → s1.header = s.header

/-- An iteration ends in a well-formed state, and with less input if the loop
goes on. -/
def StepGood {α : Type} (x : List Nat) : LoopStep (α × QemudSerial) → Prop
  | LoopStep.brk p => Good p.2
  | LoopStep.cont p y => Good p.2 ∧ y.length < x.length

/-- The result of the loop after one iteration that ended with `r`. -/
def loop_after {α : Type}
    (recv : α → QemudSerial → Int → List Nat → Option (α × QemudSerial))
    (fuel : Nat) : Option (LoopStep (α × QemudSerial)) → Option (α × QemudSerial)
  | none => none
  | some (LoopStep.brk r) => some r
  | some (LoopStep.cont (a, s) frm) => qemud_serial_read_loop recv fuel a s frm

/-- The serial object once the six bytes `hdr` have filled the header sink
and have been parsed. -/
def after_header (s : QemudSerial) (hdr : List Nat) : QemudSerial :=
  qemud_serial_read_parse { s with header := ⟨6, 6⟩, data0 := memcpy s.data0 0 hdr }

/-- The serial object as the receiver sees it when `body` has been read as the
payload announced by the header parsed into `sp`. -/
def delivered (sp : QemudSerial) (body : List Nat) : QemudSerial :=
  { sp with need_header := false,
            payload := ⟨body.length, body.length⟩,
            data0 := (memcpy sp.data0 0 body).set body.length 0 }

/-- Header state: the reader waits for the first byte of a header. -/
structure HeaderState (s : QemudSerial) : Prop where
  need : s.need_header = true
  sink : s.header = ⟨0, 6⟩
  over : s.overflow = 0

/-- The successive chunks of at most `MAX_SERIAL_PAYLOAD` bytes of a byte
string. -/
def mtu_chunks (m : List Nat) : List (List Nat) :=
  if _h : m = [] then [] else m.take MAX_SERIAL_PAYLOAD :: mtu_chunks (m.drop MAX_SERIAL_PAYLOAD)
termination_by m.length
decreasing_by
  simp_wf
  have : 0 < m.length := List.length_pos.mpr _h
  simp only [MAX_SERIAL_PAYLOAD]
  omega

/-- One record on the wire: header, then payload. -/
def wire_record (version : QemudVersion) (channel : Nat) (body : List Nat) : List Nat :=
  serial_header version body.length channel ++ body

/-- A receiver that records the records it is handed, in order, and leaves the
serial object alone. -/
def recv_log (a : List (Int × List Nat)) (s : QemudSerial) (channel : Int) (msg : List Nat) :
    Option (List (Int × List Nat) × QemudSerial) :=
  some (a ++ [(channel, msg)], s)

/-- Sender and receiver use the same header orientation. -/
def SameOrientation (tx rx : QemudVersion) : Prop :=
  (tx = QemudVersion.LEGACY ∧ rx = QemudVersion.LEGACY) ∨
  (tx ≠ QemudVersion.LEGACY ∧ (rx = QemudVersion.NORMAL ∨ rx = QemudVersion.UNKNOWN))

/-- A serial object in header state with the given version, nothing written
yet. -/
def serial_idle (v : QemudVersion) : QemudSerial :=
  { cs := [], need_header := true, overflow := 0, in_size := 0, in_channel := -1,
    version := v, header := { len := 0, size := HEADER_SIZE },
    payload := { len := 0, size := 0 }, data0 := List.replicate (MAX_SERIAL_PAYLOAD + 1) 0 }

/-- The serial receiver that hands every record, whatever its channel, to
`qemud_client_recv` of one client, and collects the messages the receive
callback of the client is called with. -/
def recv_client (a : QemudClient × List (List Nat)) (s : QemudSerial) (_channel : Int)
    (msg : List Nat) : Option ((QemudClient × List (List Nat)) × QemudSerial) :=
  match qemud_client_recv a.1 msg with
  | none => none
  | some r => some ((r.1, a.2 ++ r.2), s)

/-- The messages `msgs` handed one after the other to `qemud_client_recv`. -/
def client_feed :
    QemudClient × List (List Nat) → List (List Nat) → Option (QemudClient × List (List Nat))
  | a, [] => some a
  | a, msg :: rest =>
    match qemud_client_recv a.1 msg with
    | none => none
    | some r => client_feed (r.1, a.2 ++ r.2) rest

/-- A framing client between two frames, with a receive callback. -/
structure ClientIdle (c : QemudClient) : Prop where
  framing : c.framing = true
  need : c.need_header = true
  sink : c.header = ⟨0, 4⟩
  recv : c.clie_recv ≠ QemudClientRecv.null

/-- A framing client that has read the bytes `pre` of a frame of `n` bytes. -/
structure ClientMid (c : QemudClient) (n : Nat) (pre : List Nat) : Prop where
  framing : c.framing = true
  need : c.need_header = false
  sink : c.header = ⟨0, 4⟩
  recv : c.clie_recv ≠ QemudClientRecv.null
  pay : c.payload = ⟨pre.length, n⟩
  buff : c.payload_buff.take pre.length = pre
  lt : pre.length < n

/-- A framing client with a receive callback, waiting for a frame header. -/
def client_idle : QemudClient :=
  { addr := 1, channel := 1, clie_opaque := 0, clie_recv := QemudClientRecv.user,
    clie_close := false, service := none, framing := true, need_header := true,
    header := { len := 0, size := FRAME_HEADER_SIZE },
    header0 := List.replicate FRAME_HEADER_SIZE 0,
    payload := { len := 0, size := 0 }, payload_buff := [] }

/-- The result of the loop of `qemud_client_recv` after one iteration that
ended with `r`. -/
def client_loop_after (fuel : Nat) :
    LoopStep (QemudClient × List (List Nat)) → Option (QemudClient × List (List Nat))
  | LoopStep.brk r => some r
  | LoopStep.cont (c, calls) msg => qemud_client_recv_loop fuel c calls msg

/-- The reply of `qemud_multiplexer_control_recv` to a `connect:` request for
channel `channel` when `qemud_multiplexer_connect` returned `ret`. -/
def connect_reply (ret : Int) (channel : Int) : List Nat :=
  if ret < 0 then
    if ret = -1 then
      bufprint 64 (bytes "ko:connect:" ++ fmt_02x channel.toNat ++ bytes ":unknown service")
    else
      bufprint 64 (bytes "ko:connect:" ++ fmt_02x channel.toNat ++ bytes ":service busy")
  else
    bufprint 64 (bytes "ok:connect:" ++ fmt_02x channel.toNat)

/-- The control message `connect:<name>:<hh>`. -/
def connect_msg (name hh : List Nat) : List Nat :=
  bytes "connect:" ++ name ++ 58 :: hh

/-- A service name as the control protocol can carry it: no ':' and no zero
byte. -/
def NameOk (name : List Nat) : Prop := ∀ b ∈ name, b ≠ 58 ∧ b ≠ 0

/-- The control message `disconnect:<hh>`. -/
def disconnect_msg (hh : List Nat) : List Nat :=
  bytes "disconnect:" ++ hh

/-- The control messages `connect:<name>:<hh>` for the channel ids `hhs`,
handled one after the other. -/
def connect_all (m : QemudMultiplexer) (name : List Nat) : List (List Nat) → QemudMultiplexer
  | [] => m
  | hh :: rest => connect_all (qemud_multiplexer_control_recv m (connect_msg name hh)) name rest

/-- The records expected in answer to requests for the channel ids `hhs` when
the service has room for `room` more clients: "ok:connect:<hh>" while there is
room, "ko:connect:<hh>:service busy" after that. -/
def capacity_replies (v : QemudVersion) : Nat → List (List Nat) → List Nat
  | _, [] => []
  | 0, hh :: rest =>
    wire_record v 0
        (bytes "ko:connect:" ++ int2hex 2 (hex2int hh 2).toNat ++ bytes ":service busy")
      ++ capacity_replies v 0 rest
  | room + 1, hh :: rest =>
    wire_record v 0 (bytes "ok:connect:" ++ int2hex 2 (hex2int hh 2).toNat)
      ++ capacity_replies v room rest

/-- A channel id of the control protocol: two hex digits with a value in
[1,255]. -/
def ChannelOk (hh : List Nat) : Prop :=
  hh.length = 2 ∧ 1 ≤ hex2int hh 2 ∧ hex2int hh 2 ≤ 255

/-- A service "gsm" that accepts one client at a time, with the given
clients. -/
def gsm_service (num_clients : Int) (clients : List Nat) : QemudService :=
  { addr := 2, name := bytes "gsm", max_clients := 1, num_clients := num_clients,
    clients := clients,
    serv_connect := QemudServiceConnect.accept 5 QemudClientRecv.user true,
    serv_opaque := 77 }

/-- The client of the control channel, as `qemud_multiplexer_init` makes
it. -/
def control_client : QemudClient :=
  { addr := 1, channel := 0, clie_opaque := 0, clie_recv := QemudClientRecv.control,
    clie_close := false, service := none, framing := false, need_header := true,
    header := { len := 0, size := 4 }, header0 := [0, 0, 0, 0],
    payload := { len := 0, size := 0 }, payload_buff := [] }

/-- A client of "gsm" on channel 0x42. -/
def gsm_client : QemudClient :=
  { addr := 3, channel := 66, clie_opaque := 5, clie_recv := QemudClientRecv.user,
    clie_close := true, service := some 2, framing := false, need_header := true,
    header := { len := 0, size := 4 }, header0 := [0, 0, 0, 0],
    payload := { len := 0, size := 0 }, payload_buff := [] }

/-- A multiplexer in NORMAL mode with the control client and one service,
"gsm", that accepts one client at a time. -/
def mux_example : QemudMultiplexer :=
  { serial := serial_idle QemudVersion.NORMAL
    clients := [control_client]
    services := [gsm_service 0 []]
    next_addr := 3
    events := [] }

/-- The multiplexer `mux_example` once a client is connected to "gsm" on
channel 0x42. -/
def mux_connected : QemudMultiplexer :=
  { serial := serial_idle QemudVersion.NORMAL
    clients := [gsm_client, control_client]
    services := [gsm_service 1 [3]]
    next_addr := 4
    events := [] }

/-- What makes the rest of a message that starts with "connect:" malformed:
there is no ':' in it, or what follows the first ':' is not exactly two bytes,
or these are "00" or not two hexadecimal digits. -/
def MalformedConnect (rest : List Nat) : Prop :=
  58 ∉ rest ∨
  ∃ name tail, rest = name ++ 58 :: tail ∧ 58 ∉ name ∧
    (tail.length ≠ 2 ∨ tail = bytes "00" ∨ ∃ b ∈ tail, hexdigit b = none)

/-- The 262 bytes `qemud_serial_send_legacy_probe` writes. -/
def legacy_probe : List Nat :=
  bytes "000100X" ++ bytes "000b00connect:gsm" ++ bytes "000b00connect:gps"
    ++ bytes "000f00connect:control" ++ bytes "00c210" ++ List.replicate 194 0

/-- The bytes the charpipe delivers to the multiplexer, one call of
`qemud_serial_read` on `mult->serial` per chunk, with the receiver that
`qemud_multiplexer_init` installs. -/
def multiplexer_read (m : QemudMultiplexer) (chunks : List (List Nat)) :
    Option QemudMultiplexer :=
  match qemud_serial_read_chunks multiplexer_recv m m.serial chunks with
  | none => none
  | some (m1, s1) => some { m1 with serial := s1 }

/-- The control message `ok:connect:<name>:<hh>` of a legacy daemon. -/
def legacy_connect_msg (name hh : List Nat) : List Nat :=
  bytes "ok:connect:" ++ name ++ 58 :: hh

/-- A freshly initialised multiplexer on which one service, "hw-control", has
been registered; its connect callback accepts through `qemud_client_new`.
The second component is the service object. -/
def hw_control_mux (cs data0 : List Nat) (max_clients : Int) ( serv_opaque : Nat)
    ( clie_opaque : Nat) (clie_recv : QemudClientRecv) (clie_close : Bool) :
    QemudMultiplexer × QemudService :=
  qemud_service_new (qemud_multiplexer_init cs data0) (bytes "hw-control") max_clients
    serv_opaque (QemudServiceConnect.accept clie_opaque clie_recv clie_close)

/-- A second client of "gsm", on channel 0x43. -/
def gsm_client2 : QemudClient :=
  { addr := 4, channel := 67, clie_opaque := 6, clie_recv := QemudClientRecv.user,
    clie_close := true, service := some 2, framing := false, need_header := true,
    header := { len := 0, size := 4 }, header0 := [0, 0, 0, 0],
    payload := { len := 0, size := 0 }, payload_buff := [] }

/-- A service "gsm" without a limit on its clients, with two clients, the one
of channel 0x43 attached last. -/
def gsm_service2 : QemudService :=
  { addr := 2, name := bytes "gsm", max_clients := 0, num_clients := 2,
    clients := [4, 3],
    serv_connect := QemudServiceConnect.accept 5 QemudClientRecv.user true,
    serv_opaque := 77 }

/-- A multiplexer in NORMAL mode with two clients connected to "gsm". -/
def mux_two : QemudMultiplexer :=
  { serial := serial_idle QemudVersion.NORMAL
    clients := [gsm_client2, gsm_client, control_client]
    services := [gsm_service2]
    next_addr := 5
    events := [] }

/-- One iteration of the loop of `qemud_service_broadcast`, for the client at
address `a`. -/
def broadcast_step (msg : List Nat) (m : QemudMultiplexer) (a : Nat) : QemudMultiplexer :=
  match m.clients.find? (fun c => c.addr = a) with
  | some c => qemud_client_send m c msg
  | none => m

/-- The client states that can be reached from `qemud_client_alloc` through
`qemud_client_new` (which attaches the client to a service),
`qemud_client_set_framing` and calls of `qemud_client_recv` that return. -/
inductive ClientReachable : QemudClient → Prop where
  | alloc (m : QemudMultiplexer) (channel_id : Int) ( clie_opaque : Nat)
      (clie_recv : QemudClientRecv) (clie_close : Bool) :
      ClientReachable (qemud_client_alloc m channel_id clie_opaque clie_recv clie_close).2
  | new (m : QemudMultiplexer) (service : Nat) (channel_id : Int) ( clie_opaque : Nat)
      (clie_recv : QemudClientRecv) (clie_close : Bool) :
      ClientReachable (qemud_client_new m service channel_id clie_opaque clie_recv clie_close).2
  | set_framing (c : QemudClient) (framing : Bool) :
      ClientReachable c → ClientReachable (qemud_client_set_framing c framing)
  | recv (c c1 : QemudClient) (msg : List Nat) (calls : List (List Nat)) :
      ClientReachable c → qemud_client_recv c msg = some (c1, calls) → ClientReachable c1

/-- A client in the middle of a frame: it has read the frame header "0005"
and the two bytes "he". -/
def client_mid_frame : QemudClient :=
  { addr := 3, channel := 66, clie_opaque := 5, clie_recv := QemudClientRecv.user,
    clie_close := true, service := none, framing := true, need_header := false,
    header := { len := 0, size := 4 }, header0 := bytes "0005",
    payload := { len := 2, size := 5 }, payload_buff := [104, 101, 0, 0, 0, 0] }

/-- The condition under which `qemud_client_recv` takes its special case (the
block under `#if 1`): framing is on, the message is longer than a frame
header, a header is awaited, the header sink needs nothing, and the first four
bytes are the length of the rest of the message. -/
def fast_path (c : QemudClient) (msg : List Nat) : Prop :=
  c.framing = true ∧ msg.length > FRAME_HEADER_SIZE ∧ c.need_header = true
    ∧ qemud_sink_needed c.header = 0
    ∧ hex2int msg FRAME_HEADER_SIZE ≥ 0
    ∧ (msg.length : Int) = hex2int msg FRAME_HEADER_SIZE + FRAME_HEADER_SIZE

/-- The function `qemud_client_recv` with the special case removed (the block
under `#if 1` compiled out). -/
def qemud_client_recv_slow (c : QemudClient) (msg : List Nat) :
    Option (QemudClient × List (List Nat)) :=
  /- no framing, things are simple -/
  if !c.framing then
    some (c, if c.clie_recv ≠ QemudClientRecv.null then [msg] else [])
  else
    qemud_client_recv_loop (2 * msg.length + 2) c [] msg

/-- The state an iteration of a loop ends with. -/
def LoopStep.state {σ : Type} : LoopStep σ → σ
  | LoopStep.brk p => p
  | LoopStep.cont p _ => p

/-- A receiver that does not change a version that is known. -/
def VersionKeeps {α : Type}
    (recv : α → QemudSerial → Int → List Nat → Option (α × QemudSerial)) : Prop :=
  ∀ a s c m a1 s1, recv a s c m = some (a1, s1) → s.version ≠ QemudVersion.UNKNOWN →
    s1.version = s.version

/-- A receiver that changes nothing of the serial object but the transport
output, the version and bytes of the scratch array `data0`, whose size it
keeps: this is all the code of this file can change through
`qemud_serial_send` and the control handler, which writes into the message it
is given. The sinks, `need_header`, `in_size`, `in_channel` and `overflow` are
as before. -/
def RecvFrame {α : Type}
    (recv : α → QemudSerial → Int → List Nat → Option (α × QemudSerial)) : Prop :=
  ∀ a s c m a1 s1, recv a s c m = some (a1, s1) →
    s1 = { s with cs := s1.cs, version := s1.version, data0 := s1.data0 }
    ∧ s1.data0.length = s.data0.length

/-- The states of the serial object reachable from `qemud_serial_init`, whose
scratch array `data0` has `MAX_SERIAL_PAYLOAD + 1` bytes, by calls of
`qemud_serial_read` that return. -/
inductive SerialReachable {α : Type}
    (recv : α → QemudSerial → Int → List Nat → Option (α × QemudSerial)) :
    QemudSerial → Prop where
  | init (cs data0 : List Nat) : data0.length = MAX_SERIAL_PAYLOAD + 1 →
      SerialReachable recv (qemud_serial_init cs data0)
  | read (a a1 : α) (s s1 : QemudSerial) (chunk : List Nat) :
      SerialReachable recv s → qemud_serial_read recv a s chunk = some (a1, s1) →
      SerialReachable recv s1

/-- Safety of the scratch array between two loop iterations of
`qemud_serial_read`. In the list model a `memcpy` beyond the end of `data0`
would make the list longer, so `dlen` says that every copy so far was inside
the array. -/
structure Safe (s : QemudSerial) : Prop where
  hsize : s.header.size = 6
  hlen : s.header.len < 6
  dlen : s.data0.length = MAX_SERIAL_PAYLOAD + 1
  size1 : s.need_header = false → 1 ≤ s.in_size ∧ s.in_size ≤ MAX_SERIAL_PAYLOAD
  psize : s.need_header = false → (s.payload.size : Int) = s.in_size
  plen : s.need_header = false → s.payload.len < s.payload.size

/-- The receiver `recv` behind a check of what it is handed: a payload of 1 to
`MAX_SERIAL_PAYLOAD` bytes that is the start of `data0`, with a zero byte
stored right behind it, inside the array. A delivery that fails the check is
an error (`none`). -/
def recv_checked {α : Type}
    (recv : α → QemudSerial → Int → List Nat → Option (α × QemudSerial))
    (a : α) (s : QemudSerial) (channel : Int) (msg : List Nat) : Option (α × QemudSerial) :=
  if 1 ≤ msg.length ∧ msg.length ≤ MAX_SERIAL_PAYLOAD
      ∧ s.data0.length = MAX_SERIAL_PAYLOAD + 1
      ∧ s.data0[msg.length]? = some 0 ∧ s.data0.take msg.length = msg then
    recv a s channel msg
  else none

/-- The serial object `s1` is `s` but for the transport output, the version
and bytes of the scratch array `data0`, which has the size it had. -/
def SerialSame (s1 s : QemudSerial) : Prop :=
  s1 = { s with cs := s1.cs, version := s1.version, data0 := s1.data0 }
  ∧ s1.data0.length = s.data0.length

/-- What a control message, or any inbound record, can do to the lists of the
multiplexer: nothing (`same`), create a client of a registered service on a
positive channel through `qemud_client_new` (`new`), or disconnect a client
that has a positive channel id, found by that id (`drop`). The transport
output, the version and the record of the callbacks are left open. -/
inductive Step (m : QemudMultiplexer) : QemudMultiplexer → Prop where
  | same (s : QemudSerial) (ev : List QemudEvent) : Step m { m with serial := s, events := ev }
  | new (m1 : QemudMultiplexer) (s : QemudSerial) (sv : QemudService) (channel : Int)
      (o : Nat) (r : QemudClientRecv) (cl : Bool) :
      m1.clients = m.clients → m1.services = m.services → m1.next_addr = m.next_addr →
      sv ∈ m.services → 0 < channel →
      Step m { (qemud_client_new m1 sv.addr channel o r cl).1 with serial := s }
  | drop (c : QemudClient) : c ∈ m.clients → 0 < c.channel →
      Step m (qemud_client_disconnect m { c with channel := -1 })

/-- Bookkeeping of the lists: no two clients and no two services at one
address, every address below the next fresh one, and for every service:
`num_clients` is the length of its client list, which has no duplicate and
holds only clients of the global list whose `service` field is that service. -/
structure Bookkeeping (m : QemudMultiplexer) : Prop where
  cnodup : (m.clients.map (fun x => x.addr)).Nodup
  cfresh : ∀ c ∈ m.clients, c.addr < m.next_addr
  snodup : (m.services.map (fun x => x.addr)).Nodup
  sfresh : ∀ sv ∈ m.services, sv.addr < m.next_addr
  count : ∀ sv ∈ m.services, sv.num_clients = (sv.clients.length : Int)
  lnodup : ∀ sv ∈ m.services, sv.clients.Nodup
  back : ∀ sv ∈ m.services, ∀ a ∈ sv.clients,
    ∃ c ∈ m.clients, c.addr = a ∧ c.service = some sv.addr

/-- The states reachable from `qemud_multiplexer_init` through
`qemud_service_register`, `qemud_client_new` on a registered service,
`qemud_client_close` of a client of the global list, and the handling of
control messages. -/
inductive ServiceReachable : QemudMultiplexer → Prop where
  | init (cs data0 : List Nat) : ServiceReachable (qemud_multiplexer_init cs data0)
  | register (m : QemudMultiplexer) (name : List Nat) (max_clients : Int) (so : Nat)
      (cb : QemudServiceConnect) :
      ServiceReachable m → ServiceReachable (qemud_service_new m name max_clients so cb).1
  | client_new (m : QemudMultiplexer) (sv : QemudService) (channel : Int) (o : Nat)
      (r : QemudClientRecv) (cl : Bool) :
      ServiceReachable m → sv ∈ m.services →
      ServiceReachable (qemud_client_new m sv.addr channel o r cl).1
  | close (m : QemudMultiplexer) (c : QemudClient) :
      ServiceReachable m → c ∈ m.clients → ServiceReachable (qemud_client_close m c)
  | control (m : QemudMultiplexer) (msg : List Nat) :
      ServiceReachable m → ServiceReachable (qemud_multiplexer_control_recv m msg)

/-- A multiplexer on which "gsm" has been registered and which then handled
the control message "connect:gsm:42". -/
def mux_after_connect : QemudMultiplexer :=
  qemud_multiplexer_control_recv
    (qemud_service_new (qemud_multiplexer_init [] []) (bytes "gsm") 1 7
      (QemudServiceConnect.accept 5 QemudClientRecv.user true)).1
    (bytes "connect:gsm:42")

/-- A receiver that keeps a property of the object it is called with. -/
def RecvInv {α : Type} (P : α → Prop)
    (recv : α → QemudSerial → Int → List Nat → Option (α × QemudSerial)) : Prop :=
  ∀ a s c m a1 s1, P a → recv a s c m = some (a1, s1) → P a1

/-- The control client and the channel id 0: the client made by
`qemud_multiplexer_init` is in the global list, it is the only one with
channel id 0, no client is in framing mode, and the lists are well formed. -/
structure ControlInv (m : QemudMultiplexer) : Prop where
  bk : Bookkeeping m
  ctl : control_client ∈ m.clients
  only : ∀ c ∈ m.clients, c.channel = 0 → c = control_client
  noframe : ∀ c ∈ m.clients, c.framing = false

/-- The states reachable from `qemud_multiplexer_init` through
`qemud_service_register` and the processing of inbound transport bytes, in
any number of chunks, by calls of `qemud_serial_read` that return. -/
inductive InboundReachable : QemudMultiplexer → Prop where
  | init (cs data0 : List Nat) : InboundReachable (qemud_multiplexer_init cs data0)
  | register (m : QemudMultiplexer) (name : List Nat) (max_clients : Int) (so : Nat)
      (cb : QemudServiceConnect) :
      InboundReachable m → InboundReachable (qemud_service_new m name max_clients so cb).1
  | read (m m1 : QemudMultiplexer) (chunks : List (List Nat)) :
      InboundReachable m → multiplexer_read m chunks = some m1 → InboundReachable m1

/-- A freshly initialised multiplexer, with a scratch array of
`MAX_SERIAL_PAYLOAD + 1` bytes, on which the service "gsm" has been
registered; its connect callback accepts through `qemud_client_new`. -/
def gsm_mux : QemudMultiplexer :=
  (qemud_service_new (qemud_multiplexer_init [] (List.replicate 4001 0)) (bytes "gsm") 1 7
    (QemudServiceConnect.accept 5 QemudClientRecv.user true)).1

/-- The multiplexer as the control handler finds it when `qemud_serial_read`
has read the record with header `hdr` and payload `body`: the payload lies at
the start of `data0`, with a zero behind it. -/
def handler_state (m : QemudMultiplexer) (hdr body : List Nat) : QemudMultiplexer :=
  { m with serial := delivered (after_header m.serial hdr) body }

/-! # Theorems -/

/-! ## Facts about `memcpy` and the loop of `qemud_serial_read` -/

theorem memcpy_nil (dst : List Nat) (off : Nat) : memcpy dst off [] = dst := by
  simp [memcpy]

theorem memcpy_memcpy (dst : List Nat) (off : Nat) (x y : List Nat) :
    memcpy (memcpy dst off x) (off + x.length) y = memcpy dst off (x ++ y) := by
  unfold memcpy
  by_cases h : off ≤ dst.length
  · have h1 : (List.take off dst).length = off := by simp [h]
    have e1 : List.take (off + x.length) (List.take off dst ++ x ++ List.drop (off + x.length) dst)
        = List.take off dst ++ x := by
      rw [List.take_append_eq_append_take]
      simp [h1]
    have e2 : List.drop (off + x.length + y.length)
        (List.take off dst ++ x ++ List.drop (off + x.length) dst)
        = List.drop (off + (x ++ y).length) dst := by
      have hl : (List.take off dst ++ x).length = off + x.length := by simp [h1]
      rw [show off + x.length + y.length = (List.take off dst ++ x).length + y.length by rw [hl]]
      rw [List.drop_append]
      simp [List.drop_drop, Nat.add_assoc, Nat.add_comm]
    rw [e1, e2]
    simp
  · have h' : dst.length < off := by omega
    have t1 : List.take off dst = dst := List.take_of_length_le (by omega)
    have d1 : List.drop (off + x.length) dst = [] := List.drop_of_length_le (by omega)
    have d2 : List.drop (off + (x ++ y).length) dst = [] := List.drop_of_length_le (by simp; omega)
    rw [t1, d1, d2]
    simp
    rw [List.take_of_length_le (by simp; omega)]
    rw [List.drop_of_length_le (by simp; omega)]
    simp

theorem memcpy_zero_take (dst src : List Nat) :
    (memcpy dst 0 src).take src.length = src := by
  simp [memcpy]

theorem loop_nil {α : Type}
    (recv : α → QemudSerial → Int → List Nat → Option (α × QemudSerial))
    (fuel : Nat) (a : α) (s : QemudSerial) :
    qemud_serial_read_loop recv fuel a s [] = some (a, s) := by
  cases fuel <;> simp [qemud_serial_read_loop]

/-! ## The sink and the invariant of the reader -/

theorem fill_full (ss : QemudSink) (d x : List Nat) (h : ss.size ≤ ss.len) :
    qemud_sink_fill ss d x = (ss, d, x, true) := by
  simp [qemud_sink_fill, h]

theorem fill_lt (ss : QemudSink) (d x : List Nat) (h : ss.len < ss.size) :
    qemud_sink_fill ss d x =
      (⟨ss.len + min (ss.size - ss.len) x.length, ss.size⟩,
        memcpy d ss.len (x.take (min (ss.size - ss.len) x.length)),
        x.drop (min (ss.size - ss.len) x.length),
        decide (ss.len + min (ss.size - ss.len) x.length = ss.size)) := by
  have h1 : ¬ ss.size ≤ ss.len := by omega
  simp only [qemud_sink_fill, h1, if_false]
  by_cases h2 : ss.size - ss.len > x.length
  · have : min (ss.size - ss.len) x.length = x.length := by omega
    simp only [h2, this, if_true, Prod.mk.injEq, true_and]
    rw [Bool.eq_iff_iff]; simp
  · have : min (ss.size - ss.len) x.length = ss.size - ss.len := by omega
    simp only [h2, this, if_false, Prod.mk.injEq, true_and]
    rw [Bool.eq_iff_iff]; simp

theorem parse_header (s : QemudSerial) :
    (qemud_serial_read_parse s).header = ⟨0, s.header.size⟩ := by
  unfold qemud_serial_read_parse
  simp only
  split_ifs <;> rfl

theorem parse_need_header (s : QemudSerial) :
    (qemud_serial_read_parse s).need_header = s.need_header := by
  unfold qemud_serial_read_parse
  simp only
  split_ifs <;> rfl

theorem parse_overflow (s : QemudSerial) :
    (qemud_serial_read_parse s).overflow = s.overflow := by
  unfold qemud_serial_read_parse
  simp only
  split_ifs <;> rfl

theorem parse_payload (s : QemudSerial) :
    (qemud_serial_read_parse s).payload = s.payload := by
  unfold qemud_serial_read_parse
  simp only
  split_ifs <;> rfl

theorem parse_data0 (s : QemudSerial) :
    (qemud_serial_read_parse s).data0 = s.data0 := by
  unfold qemud_serial_read_parse
  simp only
  split_ifs <;> rfl

theorem parse_cs (s : QemudSerial) :
    (qemud_serial_read_parse s).cs = s.cs := by
  unfold qemud_serial_read_parse
  simp only
  split_ifs <;> rfl

/-- What the payload part of an iteration leaves behind. -/
theorem payload_step_good {α : Type}
    (recv : α → QemudSerial → Int → List Nat → Option (α × QemudSerial))
    (hr : RecvKeeps recv) (a : α) (s : QemudSerial) (x : List Nat)
    (hs : s.header.size = 6) (hl : s.header.len < 6)
    (hp : s.payload.len < s.payload.size)
    (r : LoopStep (α × QemudSerial))
    (h : qemud_serial_read_payload recv a s x = some r) : StepGood x r := by
  unfold qemud_serial_read_payload at h
  rw [fill_lt _ _ _ hp] at h
  simp only at h
  split_ifs at h with hfull
  · cases h
    simp only [Bool.not_eq_true', decide_eq_false_iff_not] at hfull
    refine ⟨hs, hl, fun _ => ?_⟩
    simp only
    omega
  · revert h
    split
    · intro h; cases h
    · rename_i a1 s1 heq
      intro h
      cases h
      have := hr _ _ _ _ _ _ heq
      simp only at this
      refine ⟨⟨?_, ?_, ?_⟩, ?_⟩
      · simp [this, hs]
      · simp [this, hl]
      · intro h; simp at h
      · simp only [Bool.not_eq_true', decide_eq_false_iff_not, not_not] at hfull
        simp only [List.length_drop]
        omega

/-- What one iteration leaves behind. -/
theorem body_step_good {α : Type}
    (recv : α → QemudSerial → Int → List Nat → Option (α × QemudSerial))
    (hr : RecvKeeps recv) (a : α) (s : QemudSerial) (x : List Nat)
    (hg : Good s) (hx : x ≠ [])
    (r : LoopStep (α × QemudSerial))
    (h : qemud_serial_read_body recv a s x = some r) : StepGood x r := by
  have hxl : 0 < x.length := List.length_pos.mpr hx
  unfold qemud_serial_read_body at h
  by_cases hov : s.overflow > 0
  · rw [if_pos hov] at h
    cases h
    refine ⟨hg, ?_⟩
    simp only [List.length_drop]
    split_ifs <;> omega
  rw [if_neg hov] at h
  by_cases hnh : s.need_header = true
  · rw [if_pos hnh] at h
    have hlt : s.header.len < s.header.size := by rw [hg.hsize]; exact hg.hlen
    rw [fill_lt _ _ _ hlt] at h
    simp only at h
    split_ifs at h with hfull hbad hbig
    · cases h
      simp only [Bool.not_eq_true', decide_eq_false_iff_not] at hfull
      refine ⟨hg.hsize, ?_, fun hh => ?_⟩
      · have := hg.hsize
        simp only
        omega
      · simp [hnh] at hh
    · cases h
      simp only [Bool.not_eq_true', decide_eq_false_iff_not, not_not] at hfull
      refine ⟨⟨?_, ?_, ?_⟩, ?_⟩
      · rw [parse_header]; exact hg.hsize
      · rw [parse_header]; simp
      · rw [parse_need_header]; simp [hnh]
      · simp only [List.length_drop]; omega
    · cases h
      simp only [Bool.not_eq_true', decide_eq_false_iff_not, not_not] at hfull
      refine ⟨⟨?_, ?_, ?_⟩, ?_⟩
      · simp only; rw [parse_header]; exact hg.hsize
      · simp only; rw [parse_header]; simp
      · simp only; rw [parse_need_header]; simp [hnh]
      · simp only [List.length_drop]; omega
    · simp only [Bool.not_eq_true', decide_eq_false_iff_not, not_not] at hfull
      have := payload_step_good recv hr a _ _ ?_ ?_ ?_ r h
      · revert this
        cases r with
        | brk p => exact fun t => t
        | cont p y =>
          intro t
          refine ⟨t.1, ?_⟩
          have := t.2
          simp only [List.length_drop] at this
          omega
      · simp only; rw [parse_header]; exact hg.hsize
      · simp only; rw [parse_header]; simp
      · simp only [qemud_sink_reset]
        simp only [not_or, not_le, not_lt] at hbad
        omega
  · rw [if_neg hnh] at h
    have hp := hg.plen (by simpa using hnh)
    exact payload_step_good recv hr a s x hg.hsize hg.hlen hp r h

theorem loop_good {α : Type}
    (recv : α → QemudSerial → Int → List Nat → Option (α × QemudSerial))
    (hr : RecvKeeps recv) (fuel : Nat) :
    ∀ (a : α) (s : QemudSerial) (x : List Nat) (r : α × QemudSerial), Good s →
      qemud_serial_read_loop recv fuel a s x = some r → Good r.2 := by
  induction fuel with
  | zero =>
    intro a s x r hg h
    simp only [qemud_serial_read_loop] at h
    split_ifs at h
    cases h; exact hg
  | succ n ih =>
    intro a s x r hg h
    simp only [qemud_serial_read_loop] at h
    split_ifs at h with hx
    · have hx1 : x ≠ [] := List.length_pos.mp hx
      revert h
      split
      · intro h; cases h
      · rename_i p heq
        intro h; cases h
        exact body_step_good recv hr a s x hg hx1 _ heq
      · rename_i a1 s1 y heq
        intro h
        have := body_step_good recv hr a s x hg hx1 _ heq
        exact ih a1 s1 y r this.1 h
    · cases h; exact hg

/-- With enough fuel the result of the loop does not depend on the fuel. -/
theorem loop_fuel {α : Type}
    (recv : α → QemudSerial → Int → List Nat → Option (α × QemudSerial))
    (hr : RecvKeeps recv) (f1 : Nat) :
    ∀ (f2 : Nat) (a : α) (s : QemudSerial) (x : List Nat), Good s →
      x.length ≤ f1 → x.length ≤ f2 →
      qemud_serial_read_loop recv f1 a s x = qemud_serial_read_loop recv f2 a s x := by
  induction f1 with
  | zero =>
    intro f2 a s x _ h1 _
    have : x = [] := List.length_eq_zero.mp (by omega)
    subst this
    rw [loop_nil, loop_nil]
  | succ n ih =>
    intro f2 a s x hg h1 h2
    cases f2 with
    | zero =>
      have : x = [] := List.length_eq_zero.mp (by omega)
      subst this
      rw [loop_nil, loop_nil]
    | succ m =>
      simp only [qemud_serial_read_loop]
      split_ifs with hx
      · have hx1 : x ≠ [] := List.length_pos.mp hx
        cases heq : qemud_serial_read_body recv a s x with
        | none => rfl
        | some r =>
          cases r with
          | brk p => rfl
          | cont p y =>
            obtain ⟨a1, s1⟩ := p
            have := body_step_good recv hr a s x hg hx1 _ heq
            simp only
            exact ih m a1 s1 y this.1 (by have := this.2; omega) (by have := this.2; omega)
      · rfl

/-- Once `overflow` is positive the loop only discards: the counter is never
decremented. -/
theorem loop_overflow {α : Type}
    (recv : α → QemudSerial → Int → List Nat → Option (α × QemudSerial))
    (fuel : Nat) :
    ∀ (a : α) (s : QemudSerial) (x : List Nat), s.overflow > 0 → x.length ≤ fuel →
      qemud_serial_read_loop recv fuel a s x = some (a, s) := by
  induction fuel with
  | zero =>
    intro a s x _ h
    have : x = [] := List.length_eq_zero.mp (by omega)
    subst this
    rw [loop_nil]
  | succ n ih =>
    intro a s x hov h
    simp only [qemud_serial_read_loop]
    split_ifs with hx
    · simp only [qemud_serial_read_body, hov, if_true]
      apply ih _ _ _ hov
      simp only [List.length_drop]
      split_ifs <;> omega
    · rfl

theorem fill_cons_last (ss : QemudSink) (d x : List Nat) (b : Nat)
    (h : ss.len + 1 = ss.size) :
    qemud_sink_fill ss d (b :: x) = (⟨ss.size, ss.size⟩, memcpy d ss.len [b], x, true) := by
  rw [fill_lt _ _ _ (by omega)]
  have : min (ss.size - ss.len) (b :: x).length = 1 := by simp; omega
  rw [this]
  simp [h]

theorem fill_single (ss : QemudSink) (d : List Nat) (b : Nat)
    (h : ss.len + 1 < ss.size) :
    qemud_sink_fill ss d [b] = (⟨ss.len + 1, ss.size⟩, memcpy d ss.len [b], [], false) := by
  rw [fill_lt _ _ _ (by omega)]
  have : min (ss.size - ss.len) [b].length = 1 := by simp; omega
  rw [this]
  simp
  omega

theorem fill_empty (ss : QemudSink) (d : List Nat)
    (h : ss.len < ss.size) :
    qemud_sink_fill ss d [] = (ss, d, [], false) := by
  rw [fill_lt _ _ _ h]
  simp [memcpy_nil]
  omega

theorem fill_cons_more (ss : QemudSink) (d x : List Nat) (b : Nat)
    (h : ss.len + 1 < ss.size) :
    qemud_sink_fill ss d (b :: x)
      = qemud_sink_fill ⟨ss.len + 1, ss.size⟩ (memcpy d ss.len [b]) x := by
  rw [fill_lt _ _ _ (by omega), fill_lt _ _ _ (by simpa using h)]
  have e : min (ss.size - ss.len) (b :: x).length = 1 + min (ss.size - (ss.len + 1)) x.length := by
    simp only [List.length_cons]; omega
  rw [e]
  simp only [Prod.mk.injEq, QemudSink.mk.injEq]
  refine ⟨⟨by omega, trivial⟩, ?_, ?_, ?_⟩
  · have := memcpy_memcpy d ss.len [b] (x.take (min (ss.size - (ss.len + 1)) x.length))
    simp only [List.length_singleton] at this
    rw [this]
    simp [Nat.add_comm 1, List.take_succ_cons]
  · simp [Nat.add_comm 1]
  · rw [Bool.eq_iff_iff]; simp; omega

theorem loop_after_none {α : Type}
    (recv : α → QemudSerial → Int → List Nat → Option (α × QemudSerial)) (fuel : Nat) :
    loop_after recv fuel none = none := rfl

theorem loop_after_brk {α : Type}
    (recv : α → QemudSerial → Int → List Nat → Option (α × QemudSerial)) (fuel : Nat)
    (r : α × QemudSerial) :
    loop_after recv fuel (some (LoopStep.brk r)) = some r := rfl

theorem loop_after_cont {α : Type}
    (recv : α → QemudSerial → Int → List Nat → Option (α × QemudSerial)) (fuel : Nat)
    (a : α) (s : QemudSerial) (y : List Nat) :
    loop_after recv fuel (some (LoopStep.cont (a, s) y))
      = qemud_serial_read_loop recv fuel a s y := rfl

theorem loop_succ {α : Type}
    (recv : α → QemudSerial → Int → List Nat → Option (α × QemudSerial))
    (fuel : Nat) (a : α) (s : QemudSerial) (x : List Nat) (hx : x ≠ []) :
    qemud_serial_read_loop recv (fuel + 1) a s x
      = loop_after recv fuel (qemud_serial_read_body recv a s x) := by
  have hxl : x.length > 0 := List.length_pos.mpr hx
  simp only [qemud_serial_read_loop, hxl, if_true]
  cases qemud_serial_read_body recv a s x with
  | none => rfl
  | some r =>
    cases r with
    | brk p => rfl
    | cont p y => rfl

theorem payload_peel {α : Type}
    (recv : α → QemudSerial → Int → List Nat → Option (α × QemudSerial))
    (hr : RecvKeeps recv) (fuel : Nat) (a : α) (s : QemudSerial) (b : Nat) (x : List Nat)
    (hs : s.header.size = 6) (hl : s.header.len < 6)
    (hov : ¬ s.overflow > 0) (hn : s.need_header = false)
    (hp : s.payload.len < s.payload.size) (hx : x.length ≤ fuel) :
    loop_after recv fuel (qemud_serial_read_payload recv a s (b :: x))
      = (loop_after recv 0 (qemud_serial_read_payload recv a s [b])).bind
          (fun r => qemud_serial_read_loop recv (fuel + 1) r.1 r.2 x) := by
  by_cases h1 : s.payload.len + 1 = s.payload.size
  · unfold qemud_serial_read_payload
    rw [fill_cons_last _ _ _ _ h1, fill_cons_last _ _ _ _ h1]
    simp only [Bool.not_true, Bool.false_eq_true, if_false]
    cases heq : recv a
        { s with payload := ⟨s.payload.size, s.payload.size⟩,
                 data0 := (memcpy s.data0 s.payload.len [b]).set s.payload.size 0 }
        s.in_channel (((memcpy s.data0 s.payload.len [b]).set s.payload.size 0).take s.payload.size) with
    | none => simp [loop_after_none]
    | some p =>
      obtain ⟨a1, s1⟩ := p
      simp only [loop_after_cont, loop_nil, Option.some_bind]
      have hk := hr _ _ _ _ _ _ heq
      simp only at hk
      apply loop_fuel recv hr
      · exact ⟨by simp [hk, hs], by simp [hk, hl], by simp⟩
      · exact hx
      · omega
  · have h2 : s.payload.len + 1 < s.payload.size := by omega
    cases x with
    | nil =>
      unfold qemud_serial_read_payload
      rw [fill_single _ _ _ h2]
      simp [loop_after_brk, loop_nil]
    | cons c y =>
      rw [show qemud_serial_read_payload recv a s [b]
          = some (LoopStep.brk (a, { s with payload := ⟨s.payload.len + 1, s.payload.size⟩,
                                             data0 := memcpy s.data0 s.payload.len [b] })) by
        unfold qemud_serial_read_payload
        rw [fill_single _ _ _ h2]
        simp]
      simp only [loop_after_brk, Option.some_bind]
      rw [loop_succ _ _ _ _ _ (by simp)]
      congr 1
      unfold qemud_serial_read_body
      simp only [hov, if_false, hn, Bool.false_eq_true]
      unfold qemud_serial_read_payload
      rw [fill_cons_more _ _ _ _ h2]
      simp only [hn]

theorem payload_empty {α : Type}
    (recv : α → QemudSerial → Int → List Nat → Option (α × QemudSerial))
    (a : α) (s : QemudSerial) (hp : s.payload.len < s.payload.size) :
    qemud_serial_read_payload recv a s [] = some (LoopStep.brk (a, s)) := by
  unfold qemud_serial_read_payload
  rw [fill_empty _ _ hp]
  simp

theorem payload_start {α : Type}
    (recv : α → QemudSerial → Int → List Nat → Option (α × QemudSerial))
    (fuel : Nat) (a : α) (s : QemudSerial) (x : List Nat)
    (hov : ¬ s.overflow > 0) (hn : s.need_header = false)
    (hp : s.payload.len < s.payload.size) :
    loop_after recv fuel (qemud_serial_read_payload recv a s x)
      = (loop_after recv 0 (qemud_serial_read_payload recv a s [])).bind
          (fun r => qemud_serial_read_loop recv (fuel + 1) r.1 r.2 x) := by
  rw [payload_empty recv a s hp]
  simp only [loop_after_brk, Option.some_bind]
  cases x with
  | nil => rw [payload_empty recv a s hp, loop_nil, loop_after_brk]
  | cons c y =>
    rw [loop_succ _ _ _ _ _ (by simp)]
    congr 1
    unfold qemud_serial_read_body
    simp only [hov, if_false, hn, Bool.false_eq_true]

/-- Reading `b :: x` is reading `b` and then `x`. -/
theorem loop_peel {α : Type}
    (recv : α → QemudSerial → Int → List Nat → Option (α × QemudSerial))
    (hr : RecvKeeps recv) (fuel : Nat) (a : α) (s : QemudSerial) (b : Nat) (x : List Nat)
    (hg : Good s) (hx : x.length ≤ fuel) :
    qemud_serial_read_loop recv (fuel + 1) a s (b :: x)
      = (qemud_serial_read_loop recv 1 a s [b]).bind
          (fun r => qemud_serial_read_loop recv (fuel + 1) r.1 r.2 x) := by
  by_cases hov : s.overflow > 0
  · rw [loop_overflow recv _ a s _ hov (by simp; omega),
      loop_overflow recv _ a s _ hov (by simp)]
    simp only [Option.some_bind]
    rw [loop_overflow recv _ a s _ hov (by omega)]
  rw [loop_succ _ _ _ _ _ (by simp), loop_succ _ _ _ _ _ (by simp)]
  by_cases hnh : s.need_header = true
  · unfold qemud_serial_read_body
    rw [if_neg hov, if_pos hnh, if_neg hov, if_pos hnh]
    by_cases h1 : s.header.len + 1 = s.header.size
    · rw [fill_cons_last _ _ _ _ h1, fill_cons_last _ _ _ _ h1]
      simp only [Bool.not_true, Bool.false_eq_true, if_false]
      generalize hs1 : qemud_serial_read_parse
        { s with header := ⟨s.header.size, s.header.size⟩,
                 data0 := memcpy s.data0 s.header.len [b] } = s1
      have e1 : s1.header = ⟨0, s.header.size⟩ := by rw [← hs1, parse_header]
      have e2 : s1.need_header = true := by rw [← hs1, parse_need_header]; exact hnh
      have e3 : s1.overflow = s.overflow := by rw [← hs1, parse_overflow]
      have g1 : Good s1 := ⟨by rw [e1]; exact hg.hsize, by rw [e1]; simp, by simp [e2]⟩
      by_cases hbad : s1.in_size ≤ 0 ∨ s1.in_channel < 0
      · simp only [hbad, if_true, loop_after_cont, loop_nil, Option.some_bind]
        exact loop_fuel recv hr _ _ _ _ _ g1 hx (by omega)
      · simp only [hbad, if_false]
        by_cases hbig : s1.in_size > MAX_SERIAL_PAYLOAD
        · simp only [hbig, if_true, loop_after_cont, loop_nil, Option.some_bind]
          refine loop_fuel recv hr _ _ _ _ _ ⟨?_, ?_, ?_⟩ hx (by omega)
          · exact g1.hsize
          · exact g1.hlen
          · simp [e2]
        · simp only [hbig, if_false]
          apply payload_start
          · show ¬ s1.overflow > 0
            rw [e3]; exact hov
          · rfl
          · show 0 < s1.in_size.toNat
            simp only [not_or, not_le, not_lt] at hbad
            omega
    · have h2 : s.header.len + 1 < s.header.size := by
        have := hg.hsize; have := hg.hlen; omega
      cases x with
      | nil =>
        rw [fill_single _ _ _ h2]
        simp [loop_after_brk, loop_nil]
      | cons c y =>
        rw [fill_cons_more _ _ _ _ h2, fill_single _ _ _ h2]
        simp only [Bool.not_false, if_true, loop_after_brk, Option.some_bind]
        rw [loop_succ _ _ _ _ _ (by simp)]
        congr 1
        unfold qemud_serial_read_body
        rw [if_neg hov, if_pos hnh]
  · have hn : s.need_header = false := by simpa using hnh
    unfold qemud_serial_read_body
    simp only [hov, if_false, hn, Bool.false_eq_true]
    exact payload_peel recv hr fuel a s b x hg.hsize hg.hlen hov hn (hg.plen hn) hx

/-- Reading `x ++ y` is reading `x` and then `y`. -/
theorem loop_append {α : Type}
    (recv : α → QemudSerial → Int → List Nat → Option (α × QemudSerial))
    (hr : RecvKeeps recv) (fuel : Nat) (x : List Nat) :
    ∀ (y : List Nat) (a : α) (s : QemudSerial), Good s → x.length + y.length ≤ fuel →
      qemud_serial_read_loop recv fuel a s (x ++ y)
        = (qemud_serial_read_loop recv fuel a s x).bind
            (fun r => qemud_serial_read_loop recv fuel r.1 r.2 y) := by
  induction x with
  | nil =>
    intro y a s _ _
    rw [loop_nil]
    rfl
  | cons b x ih =>
    intro y a s hg hf
    cases fuel with
    | zero => simp at hf
    | succ n =>
      simp only [List.length_cons] at hf
      rw [List.cons_append, loop_peel recv hr n a s b (x ++ y) hg (by simp; omega),
        loop_peel recv hr n a s b x hg (by omega)]
      cases h1 : qemud_serial_read_loop recv 1 a s [b] with
      | none => rfl
      | some r =>
        simp only [Option.some_bind]
        exact ih y r.1 r.2 (loop_good recv hr 1 a s [b] r hg h1) (by omega)

/-- The result of `qemud_serial_read`, with any sufficient fuel. -/
theorem read_eq_loop {α : Type}
    (recv : α → QemudSerial → Int → List Nat → Option (α × QemudSerial))
    (hr : RecvKeeps recv) (fuel : Nat) (a : α) (s : QemudSerial) (x : List Nat)
    (hg : Good s) (hf : x.length ≤ fuel) :
    qemud_serial_read recv a s x = qemud_serial_read_loop recv fuel a s x :=
  loop_fuel recv hr _ _ a s x hg (by omega) hf

theorem read_good {α : Type}
    (recv : α → QemudSerial → Int → List Nat → Option (α × QemudSerial))
    (hr : RecvKeeps recv) (a : α) (s : QemudSerial) (x : List Nat) (r : α × QemudSerial)
    (hg : Good s) (h : qemud_serial_read recv a s x = some r) : Good r.2 :=
  loop_good recv hr _ a s x r hg h

/-- However the transport cuts the bytes into chunks, the reader does what it
does on the whole byte string. -/
theorem read_chunks_join {α : Type}
    (recv : α → QemudSerial → Int → List Nat → Option (α × QemudSerial))
    (hr : RecvKeeps recv) (chunks : List (List Nat)) :
    ∀ (a : α) (s : QemudSerial), Good s →
      qemud_serial_read_chunks recv a s chunks = qemud_serial_read recv a s chunks.flatten := by
  induction chunks with
  | nil =>
    intro a s _
    simp [qemud_serial_read_chunks, qemud_serial_read, loop_nil]
  | cons c rest ih =>
    intro a s hg
    simp only [qemud_serial_read_chunks, List.flatten_cons]
    rw [read_eq_loop recv hr (c.length + rest.flatten.length) a s (c ++ rest.flatten) hg (by simp),
      loop_append recv hr _ c rest.flatten a s hg (le_refl _),
      ← read_eq_loop recv hr (c.length + rest.flatten.length) a s c hg (by omega)]
    cases h1 : qemud_serial_read recv a s c with
    | none => rfl
    | some r =>
      obtain ⟨a1, s1⟩ := r
      have g1 : Good s1 := read_good recv hr a s c _ hg h1
      simp only [Option.some_bind]
      rw [ih a1 s1 g1]
      exact read_eq_loop recv hr _ a1 s1 _ g1 (by omega)

/-! ## Hexadecimal helpers -/

theorem int2hex_length (n v : Nat) : (int2hex n v).length = n := by
  induction n with
  | zero => rfl
  | succ k ih => simp [int2hex, ih]

theorem hexdigit_hexchar (d : Nat) (h : d < 16) : hexdigit (hexchar d) = some d := by
  interval_cases d <;> rfl

theorem hex2int_loop_int2hex (n : Nat) : ∀ (v : Nat) (tl : List Nat) (acc : Int),
    hex2int_loop (int2hex n v ++ tl) acc
      = hex2int_loop tl (acc * 16 ^ n + ((v % 16 ^ n : Nat) : Int)) := by
  induction n with
  | zero => intro v tl acc; simp [int2hex, Nat.mod_one]
  | succ k ih =>
    intro v tl acc
    simp only [int2hex, List.cons_append, hex2int_loop]
    rw [hexdigit_hexchar _ (Nat.mod_lt _ (by norm_num))]
    show hex2int_loop (int2hex k v ++ tl) _ = _
    rw [ih]
    congr 1
    rw [Nat.mod_pow_succ]
    push_cast
    ring

theorem hex2int_int2hex (n v : Nat) (tl : List Nat) (h : v < 16 ^ n) :
    hex2int (int2hex n v ++ tl) n = v := by
  unfold hex2int
  rw [List.take_left' (int2hex_length n v)]
  have := hex2int_loop_int2hex n v [] 0
  simp only [List.append_nil] at this
  rw [this]
  simp [hex2int_loop, Nat.mod_eq_of_lt h]

theorem hex2int_take (x : List Nat) (n : Nat) : hex2int (x.take n) n = hex2int x n := by
  simp only [hex2int, List.take_take, min_self]

/-! ## One record at the head of the input -/

theorem HeaderState.good {s : QemudSerial} (h : HeaderState s) : Good s :=
  ⟨by rw [h.sink], by rw [h.sink]; simp, by simp [h.need]⟩

theorem fill_all (ss : QemudSink) (d x rest : List Nat)
    (h0 : ss.len = 0) (hx : x.length = ss.size) (hpos : 0 < ss.size) :
    qemud_sink_fill ss d (x ++ rest) = (⟨ss.size, ss.size⟩, memcpy d 0 x, rest, true) := by
  rw [fill_lt _ _ _ (by omega)]
  have : min (ss.size - ss.len) (x ++ rest).length = x.length := by simp; omega
  rw [this, h0]
  simp [hx]

theorem header_step {α : Type}
    (recv : α → QemudSerial → Int → List Nat → Option (α × QemudSerial))
    (a : α) (s : QemudSerial) (hdr rest : List Nat)
    (hs : HeaderState s) (hh : hdr.length = 6) :
    qemud_serial_read_body recv a s (hdr ++ rest) =
      if (after_header s hdr).in_size ≤ 0 ∨ (after_header s hdr).in_channel < 0 then
        some (LoopStep.cont (a, after_header s hdr) rest)
      else if (after_header s hdr).in_size > MAX_SERIAL_PAYLOAD then
        some (LoopStep.cont
          (a, { after_header s hdr with overflow := (after_header s hdr).in_size }) rest)
      else
        qemud_serial_read_payload recv a
          { after_header s hdr with
            need_header := false,
            payload := ⟨0, (after_header s hdr).in_size.toNat⟩ } rest := by
  unfold qemud_serial_read_body
  rw [if_neg (by rw [hs.over]; decide), if_pos hs.need]
  rw [fill_all _ _ hdr rest (by rw [hs.sink]) (by rw [hs.sink]; exact hh) (by rw [hs.sink]; decide)]
  simp only [Bool.not_true, Bool.false_eq_true, if_false, hs.sink]
  rfl

theorem take_set_self (d : List Nat) (n v : Nat) : (d.set n v).take n = d.take n := by
  induction d generalizing n with
  | nil => simp
  | cons x xs ih =>
    cases n with
    | zero => simp
    | succ k => simp [List.set, ih]

theorem payload_step {α : Type}
    (recv : α → QemudSerial → Int → List Nat → Option (α × QemudSerial))
    (a : α) (s : QemudSerial) (body rest : List Nat)
    (hp : s.payload = ⟨0, body.length⟩) (hb : 0 < body.length) :
    qemud_serial_read_payload recv a s (body ++ rest) =
      (recv a { s with payload := ⟨body.length, body.length⟩,
                       data0 := (memcpy s.data0 0 body).set body.length 0 }
          s.in_channel body).bind
        (fun r => some (LoopStep.cont (r.1, { r.2 with need_header := true }) rest)) := by
  unfold qemud_serial_read_payload
  rw [fill_all _ _ body rest (by rw [hp]) (by rw [hp]) (by rw [hp]; exact hb)]
  simp only [Bool.not_true, Bool.false_eq_true, if_false, hp]
  rw [take_set_self, memcpy_zero_take]
  cases recv a { s with payload := ⟨body.length, body.length⟩,
                        data0 := (memcpy s.data0 0 body).set body.length 0 }
      s.in_channel body with
  | none => rfl
  | some r => rfl

/-- A well-formed record at the head of the input is handed to the receiver,
and the loop goes on with what follows it. -/
theorem record_step {α : Type}
    (recv : α → QemudSerial → Int → List Nat → Option (α × QemudSerial))
    (fuel : Nat) (a : α) (s : QemudSerial) (hdr body rest : List Nat)
    (hs : HeaderState s) (hh : hdr.length = 6)
    (h1 : 0 < (after_header s hdr).in_size)
    (h2 : (after_header s hdr).in_size ≤ MAX_SERIAL_PAYLOAD)
    (h3 : 0 ≤ (after_header s hdr).in_channel)
    (hb : (body.length : Int) = (after_header s hdr).in_size) :
    qemud_serial_read_loop recv (fuel + 1) a s (hdr ++ body ++ rest) =
      (recv a (delivered (after_header s hdr) body) (after_header s hdr).in_channel body).bind
        (fun r => qemud_serial_read_loop recv fuel r.1 { r.2 with need_header := true } rest) := by
  have hne : hdr ++ body ++ rest ≠ [] := by
    intro h
    have := congrArg List.length h
    simp [hh] at this
  rw [loop_succ _ _ _ _ _ hne, List.append_assoc, header_step recv a s hdr _ hs hh]
  rw [if_neg (by omega), if_neg (by omega)]
  have hbl : (after_header s hdr).in_size.toNat = body.length := by omega
  rw [hbl, payload_step recv a _ body rest rfl (by omega)]
  unfold delivered
  cases recv a _ (after_header s hdr).in_channel body with
  | none => rfl
  | some r => rfl

/-- A header whose length or channel field does not parse is dropped. -/
theorem bad_header_step {α : Type}
    (recv : α → QemudSerial → Int → List Nat → Option (α × QemudSerial))
    (fuel : Nat) (a : α) (s : QemudSerial) (hdr rest : List Nat)
    (hs : HeaderState s) (hh : hdr.length = 6)
    (h1 : (after_header s hdr).in_size ≤ 0 ∨ (after_header s hdr).in_channel < 0) :
    qemud_serial_read_loop recv (fuel + 1) a s (hdr ++ rest) =
      qemud_serial_read_loop recv fuel a (after_header s hdr) rest := by
  have hne : hdr ++ rest ≠ [] := by
    intro h
    have := congrArg List.length h
    simp [hh] at this
  rw [loop_succ _ _ _ _ _ hne, header_step recv a s hdr _ hs hh, if_pos h1]
  rfl

/-- A header that announces more than the MTU puts the reader into overflow
mode. -/
theorem big_header_step {α : Type}
    (recv : α → QemudSerial → Int → List Nat → Option (α × QemudSerial))
    (fuel : Nat) (a : α) (s : QemudSerial) (hdr rest : List Nat)
    (hs : HeaderState s) (hh : hdr.length = 6)
    (h1 : (after_header s hdr).in_size > MAX_SERIAL_PAYLOAD)
    (h2 : 0 ≤ (after_header s hdr).in_channel) :
    qemud_serial_read_loop recv (fuel + 1) a s (hdr ++ rest) =
      qemud_serial_read_loop recv fuel a
        { after_header s hdr with overflow := (after_header s hdr).in_size } rest := by
  have hne : hdr ++ rest ≠ [] := by
    intro h
    have := congrArg List.length h
    simp [hh] at this
  have hm : (MAX_SERIAL_PAYLOAD : Int) = 4000 := rfl
  rw [loop_succ _ _ _ _ _ hne, header_step recv a s hdr _ hs hh,
    if_neg (by omega), if_pos h1]
  rfl

theorem hex2int_drop_append (x t : List Nat) (off n : Nat) (h : off + n ≤ x.length) :
    hex2int ((x ++ t).drop off) n = hex2int (x.drop off) n := by
  unfold hex2int
  rw [List.drop_append_of_le_length (by omega), List.take_append_of_le_length (by simp; omega)]

theorem memcpy_zero (d x : List Nat) : memcpy d 0 x = x ++ d.drop x.length := by
  simp [memcpy]

/-- Parsing of a header in normal orientation: channel first. -/
theorem after_header_normal (s : QemudSerial) (hdr : List Nat) (hh : hdr.length = 6)
    (hv : s.version ≠ QemudVersion.LEGACY)
    (hu : s.version = QemudVersion.UNKNOWN → hdr ≠ bytes "001200") :
    after_header s hdr =
      { s with version := QemudVersion.NORMAL,
               in_size := hex2int (hdr.drop 2) 4,
               in_channel := hex2int hdr 2,
               header := ⟨0, 6⟩,
               data0 := memcpy s.data0 0 hdr } := by
  have e6 : (memcpy s.data0 0 hdr).take 6 = hdr := by
    rw [← hh]; exact memcpy_zero_take _ _
  have e1 : hex2int ((memcpy s.data0 0 hdr).drop 2) 4 = hex2int (hdr.drop 2) 4 := by
    rw [memcpy_zero]; exact hex2int_drop_append _ _ _ _ (by omega)
  have e2 : hex2int ((memcpy s.data0 0 hdr).drop 0) 2 = hex2int hdr 2 := by
    rw [memcpy_zero, hex2int_drop_append _ _ _ _ (by omega)]; rfl
  unfold after_header qemud_serial_read_parse
  simp only [LENGTH_OFFSET, LENGTH_SIZE, CHANNEL_OFFSET, CHANNEL_SIZE, e6]
  cases hver : s.version with
  | LEGACY => exact absurd hver hv
  | UNKNOWN =>
    have := hu hver
    simp [this, e1, e2]
    exact e2
  | NORMAL =>
    simp [e1, e2]
    exact e2

/-- Parsing of a header in legacy orientation: length first. -/
theorem after_header_legacy (s : QemudSerial) (hdr : List Nat) (hh : hdr.length = 6)
    (hv : s.version = QemudVersion.LEGACY) :
    after_header s hdr =
      { s with in_size := hex2int hdr 4,
               in_channel := hex2int (hdr.drop 4) 2,
               header := ⟨0, 6⟩,
               data0 := memcpy s.data0 0 hdr } := by
  have e1 : hex2int ((memcpy s.data0 0 hdr).drop 4) 2 = hex2int (hdr.drop 4) 2 := by
    rw [memcpy_zero]; exact hex2int_drop_append _ _ _ _ (by omega)
  have e2 : hex2int ((memcpy s.data0 0 hdr).drop 0) 4 = hex2int hdr 4 := by
    rw [memcpy_zero, hex2int_drop_append _ _ _ _ (by omega)]; rfl
  unfold after_header qemud_serial_read_parse
  simp only [LEGACY_LENGTH_OFFSET, LENGTH_SIZE, LEGACY_CHANNEL_OFFSET, CHANNEL_SIZE, hv]
  simp [e1]
  exact e2

/-! ## What `qemud_serial_send` writes -/

theorem mtu_chunks_nil : mtu_chunks [] = [] := by
  rw [mtu_chunks]; simp

theorem mtu_chunks_cons (m : List Nat) (h : m ≠ []) :
    mtu_chunks m = m.take MAX_SERIAL_PAYLOAD :: mtu_chunks (m.drop MAX_SERIAL_PAYLOAD) := by
  rw [mtu_chunks]; simp [h]

theorem send_loop_unframed (version : QemudVersion) (channel msglen : Int) (n : Nat) :
    ∀ (msg cs : List Nat), msg.length = n →
      qemud_serial_send_loop version channel msglen false msg msg.length cs
        = cs ++ (mtu_chunks msg).flatMap (wire_record version channel.toNat) := by
  induction n using Nat.strong_induction_on with
  | _ n ih =>
    intro msg cs hn
    rw [qemud_serial_send_loop]
    by_cases h0 : msg = []
    · subst h0
      simp [mtu_chunks_nil]
    · have hpos : 0 < msg.length := List.length_pos.mpr h0
      have hlen : ((msg.length : Nat) : Int) > 0 := by omega
      rw [dif_pos hlen, mtu_chunks_cons msg h0]
      simp only [Bool.false_eq_true, if_false]
      have hav : (if (msg.length : Int) > (MAX_SERIAL_PAYLOAD : Nat) then ((MAX_SERIAL_PAYLOAD : Nat) : Int)
          else (msg.length : Int)) = ((min MAX_SERIAL_PAYLOAD msg.length : Nat) : Int) := by
        split_ifs with h <;> simp only [MAX_SERIAL_PAYLOAD] at * <;> omega
      rw [hav]
      simp only [Int.toNat_ofNat]
      have hd : ((msg.length : Int) - ((min MAX_SERIAL_PAYLOAD msg.length : Nat) : Int))
          = (((msg.drop (min MAX_SERIAL_PAYLOAD msg.length)).length : Nat) : Int) := by
        simp only [List.length_drop]; omega
      rw [hd]
      rw [ih (msg.drop (min MAX_SERIAL_PAYLOAD msg.length)).length
        (by simp only [List.length_drop, MAX_SERIAL_PAYLOAD]; omega) _ _ rfl]
      have ht : msg.take (min MAX_SERIAL_PAYLOAD msg.length) = msg.take MAX_SERIAL_PAYLOAD := by
        rw [List.take_eq_take]; simp
      have hdr : msg.drop (min MAX_SERIAL_PAYLOAD msg.length) = msg.drop MAX_SERIAL_PAYLOAD := by
        by_cases hc : MAX_SERIAL_PAYLOAD ≤ msg.length
        · rw [min_eq_left hc]
        · rw [min_eq_right (by omega), List.drop_length, List.drop_of_length_le (by omega)]
      rw [ht, hdr]
      simp only [List.flatMap_cons, wire_record, List.length_take, List.append_assoc]

theorem send_loop_framed (version : QemudVersion) (channel : Int) (msg cs : List Nat)
    (h0 : msg ≠ []) :
    qemud_serial_send_loop version channel msg.length true msg
        ((msg.length : Int) + (FRAME_HEADER_SIZE : Nat)) cs
      = cs ++ (mtu_chunks (int2hex FRAME_HEADER_SIZE msg.length ++ msg)).flatMap
          (wire_record version channel.toNat) := by
  have hpos : 0 < msg.length := List.length_pos.mpr h0
  rw [qemud_serial_send_loop]
  have hlen : (msg.length : Int) + (FRAME_HEADER_SIZE : Nat) > 0 := by
    simp only [FRAME_HEADER_SIZE]; omega
  rw [dif_pos hlen]
  simp only [if_true]
  have hav : (if (msg.length : Int) + (FRAME_HEADER_SIZE : Nat) > (MAX_SERIAL_PAYLOAD : Nat)
      then ((MAX_SERIAL_PAYLOAD : Nat) : Int)
      else (msg.length : Int) + (FRAME_HEADER_SIZE : Nat))
        = ((min MAX_SERIAL_PAYLOAD (msg.length + 4) : Nat) : Int) := by
    split_ifs with h <;> simp only [MAX_SERIAL_PAYLOAD, FRAME_HEADER_SIZE] at * <;> omega
  rw [hav]
  have hk : (((min MAX_SERIAL_PAYLOAD (msg.length + 4) : Nat) : Int) - (FRAME_HEADER_SIZE : Nat)).toNat
      = min 3996 msg.length := by
    simp only [MAX_SERIAL_PAYLOAD, FRAME_HEADER_SIZE]; omega
  rw [hk]
  have hd : ((msg.length : Int) + (FRAME_HEADER_SIZE : Nat) - (FRAME_HEADER_SIZE : Nat)
        - (((min MAX_SERIAL_PAYLOAD (msg.length + 4) : Nat) : Int) - (FRAME_HEADER_SIZE : Nat)))
      = (((msg.drop (min 3996 msg.length)).length : Nat) : Int) := by
    simp only [List.length_drop, MAX_SERIAL_PAYLOAD, FRAME_HEADER_SIZE]; omega
  rw [hd, send_loop_unframed version channel msg.length _ _ _ rfl]
  have hne : int2hex FRAME_HEADER_SIZE msg.length ++ msg ≠ [] := by simp [h0]
  rw [mtu_chunks_cons _ hne]
  have hl4 : (int2hex FRAME_HEADER_SIZE msg.length).length = 4 := int2hex_length _ _
  have ht : (int2hex FRAME_HEADER_SIZE msg.length ++ msg).take MAX_SERIAL_PAYLOAD
      = int2hex FRAME_HEADER_SIZE msg.length ++ msg.take (min 3996 msg.length) := by
    rw [List.take_append_eq_append_take, hl4, List.take_of_length_le (by rw [hl4]; decide)]
    congr 1
    rw [List.take_eq_take]; simp [MAX_SERIAL_PAYLOAD]
  have hdr : (int2hex FRAME_HEADER_SIZE msg.length ++ msg).drop MAX_SERIAL_PAYLOAD
      = msg.drop (min 3996 msg.length) := by
    rw [List.drop_append_eq_append_drop, hl4, List.drop_of_length_le (by rw [hl4]; decide)]
    simp only [List.nil_append, MAX_SERIAL_PAYLOAD]
    by_cases hc : 3996 ≤ msg.length
    · rw [min_eq_left hc]
    · rw [min_eq_right (by omega), List.drop_length, List.drop_of_length_le (by omega)]
  rw [ht, hdr]
  simp only [List.flatMap_cons, wire_record, List.length_append, hl4, List.length_take,
    List.append_assoc, Int.toNat_ofNat]
  have : min MAX_SERIAL_PAYLOAD (msg.length + 4) = 4 + min (min 3996 msg.length) msg.length := by
    simp only [MAX_SERIAL_PAYLOAD]; omega
  rw [this]

/-- What `qemud_serial_send` writes without framing: the chunks of the message,
each behind its header. -/
theorem send_unframed (s : QemudSerial) (channel : Int) (msg : List Nat)
    (h0 : msg ≠ []) (hc : 0 ≤ channel) :
    qemud_serial_send s channel false msg
      = { s with cs := s.cs ++ (mtu_chunks msg).flatMap (wire_record s.version channel.toNat) } := by
  have hpos : 0 < msg.length := List.length_pos.mpr h0
  unfold qemud_serial_send
  simp only [Bool.false_eq_true, if_false]
  rw [if_neg (by omega), send_loop_unframed s.version channel msg.length _ _ _ rfl]

/-- What `qemud_serial_send` writes with framing: the chunks of the frame
header followed by the message, each behind its header. -/
theorem send_framed (s : QemudSerial) (channel : Int) (msg : List Nat)
    (h0 : msg ≠ []) (hc : 0 ≤ channel) :
    qemud_serial_send s channel true msg
      = { s with cs := s.cs ++ ((mtu_chunks (int2hex FRAME_HEADER_SIZE msg.length ++ msg)).flatMap
            (wire_record s.version channel.toNat)) } := by
  have hpos : 0 < msg.length := List.length_pos.mpr h0
  unfold qemud_serial_send
  simp only [if_true]
  rw [if_neg (by omega)]
  have := send_loop_framed s.version channel msg s.cs h0
  simp only [Int.toNat_ofNat] at this ⊢
  rw [this]

/-! ### The chunks -/

theorem mtu_chunks_flatten (n : Nat) : ∀ (m : List Nat), m.length = n →
    (mtu_chunks m).flatten = m := by
  induction n using Nat.strong_induction_on with
  | _ n ih =>
    intro m hn
    by_cases h0 : m = []
    · subst h0; simp [mtu_chunks_nil]
    · have hpos : 0 < m.length := List.length_pos.mpr h0
      rw [mtu_chunks_cons m h0, List.flatten_cons,
        ih (m.drop MAX_SERIAL_PAYLOAD).length
          (by simp only [List.length_drop, MAX_SERIAL_PAYLOAD]; omega) _ rfl]
      exact List.take_append_drop _ _

theorem mtu_chunks_length (n : Nat) : ∀ (m : List Nat), m.length = n →
    (mtu_chunks m).length = (n + 3999) / 4000 := by
  induction n using Nat.strong_induction_on with
  | _ n ih =>
    intro m hn
    by_cases h0 : m = []
    · subst h0; subst hn; simp [mtu_chunks_nil]
    · have hpos : 0 < m.length := List.length_pos.mpr h0
      rw [mtu_chunks_cons m h0, List.length_cons,
        ih (m.drop MAX_SERIAL_PAYLOAD).length
          (by simp only [List.length_drop, MAX_SERIAL_PAYLOAD]; omega) _ rfl]
      simp only [List.length_drop, MAX_SERIAL_PAYLOAD]
      omega

/-- Chunk `i` is the slice of the message that starts at `4000 * i`. -/
theorem mtu_chunks_get (n : Nat) : ∀ (m : List Nat) (i : Nat), m.length = n →
    i < (mtu_chunks m).length →
    (mtu_chunks m)[i]? = some ((m.drop (MAX_SERIAL_PAYLOAD * i)).take MAX_SERIAL_PAYLOAD) := by
  induction n using Nat.strong_induction_on with
  | _ n ih =>
    intro m i hn hi
    by_cases h0 : m = []
    · subst h0; simp [mtu_chunks_nil] at hi
    · have hpos : 0 < m.length := List.length_pos.mpr h0
      rw [mtu_chunks_cons m h0] at hi ⊢
      cases i with
      | zero => simp
      | succ j =>
        simp only [List.length_cons, Nat.add_lt_add_iff_right] at hi
        rw [List.getElem?_cons_succ,
          ih (m.drop MAX_SERIAL_PAYLOAD).length
            (by simp only [List.length_drop, MAX_SERIAL_PAYLOAD]; omega) _ j rfl hi]
        rw [List.drop_drop]
        congr 3
        ring

/-! ## The serial codec: round trip, fragmentation, bad headers -/

theorem recv_log_keeps : RecvKeeps recv_log := by
  intro a s c m a1 s1 h
  simp only [recv_log, Option.some.injEq, Prod.mk.injEq] at h
  rw [← h.2]

theorem serial_header_length (v : QemudVersion) (L c : Nat) :
    (serial_header v L c).length = 6 := by
  unfold serial_header
  split_ifs <;> simp [int2hex_length, LENGTH_SIZE, CHANNEL_SIZE]

/-- The receiver reads back the fields the sender wrote into a header. -/
theorem after_header_serial_header (rx : QemudSerial) (tx : QemudVersion) (L c : Nat)
    (hs : HeaderState rx) (hv : SameOrientation tx rx.version)
    (hL : L ≤ MAX_SERIAL_PAYLOAD) (hc : c ≤ 255) :
    after_header rx (serial_header tx L c) =
      { rx with version := if tx = QemudVersion.LEGACY then QemudVersion.LEGACY
                           else QemudVersion.NORMAL,
                in_size := L, in_channel := c, header := ⟨0, 6⟩,
                data0 := memcpy rx.data0 0 (serial_header tx L c) } := by
  have hL' : L < 16 ^ 4 := by simp only [MAX_SERIAL_PAYLOAD] at hL; omega
  have hc' : c < 16 ^ 2 := by omega
  rcases hv with ⟨h1, h2⟩ | ⟨h1, h2⟩
  · rw [after_header_legacy rx _ (serial_header_length _ _ _) h2]
    simp only [serial_header, h1, if_true, LENGTH_SIZE, CHANNEL_SIZE]
    rw [hex2int_int2hex 4 L _ hL', List.drop_left' (int2hex_length 4 L)]
    have := hex2int_int2hex 2 c [] hc'
    rw [List.append_nil] at this
    rw [this]
    cases rx
    simp_all
  · have hne : rx.version ≠ QemudVersion.LEGACY := by
      rcases h2 with h | h <;> rw [h] <;> decide
    have e1 : hex2int ((serial_header tx L c).drop 2) 4 = L := by
      simp only [serial_header, h1, if_false, LENGTH_SIZE, CHANNEL_SIZE]
      rw [List.drop_left' (int2hex_length 2 c)]
      have := hex2int_int2hex 4 L [] hL'
      rw [List.append_nil] at this
      exact this
    have e2 : hex2int (serial_header tx L c) 2 = c := by
      simp only [serial_header, h1, if_false, LENGTH_SIZE, CHANNEL_SIZE]
      exact hex2int_int2hex 2 c _ hc'
    rw [after_header_normal rx _ (serial_header_length _ _ _) hne]
    · rw [e1, e2]
      simp [h1]
    · intro _ hb
      rw [hb] at e1
      have : hex2int ((bytes "001200").drop 2) 4 = 4608 := by decide
      rw [this] at e1
      simp only [MAX_SERIAL_PAYLOAD] at hL
      omega

theorem mtu_chunks_single (p : List Nat) (h1 : 1 ≤ p.length) (h2 : p.length ≤ MAX_SERIAL_PAYLOAD) :
    mtu_chunks p = [p] := by
  have h0 : p ≠ [] := List.length_pos.mp h1
  rw [mtu_chunks_cons p h0, List.take_of_length_le h2, List.drop_of_length_le h2, mtu_chunks_nil]

/-- C1. Unframed transport round trip: for a channel in [0,255] and a payload
of 1 to 4000 bytes, the bytes `qemud_serial_send` writes without framing,
cut into chunks in any way and fed to `qemud_serial_read` of a codec in header
state with the same header orientation (both LEGACY, or sender not LEGACY and
receiver NORMAL or still UNKNOWN), invoke the receive upcall exactly once, with
that channel and that payload, and leave the codec in header state. -/
theorem C1_unframed_round_trip (c : Nat) (p : List Nat) (tx rx : QemudSerial)
    (chunks : List (List Nat))
    (hc : c ≤ 255) (hp1 : 1 ≤ p.length) (hp2 : p.length ≤ MAX_SERIAL_PAYLOAD)
    (hrx : HeaderState rx) (hv : SameOrientation tx.version rx.version)
    (hB : (qemud_serial_send tx c false p).cs = tx.cs ++ chunks.flatten) :
    ∃ rx1, qemud_serial_read_chunks recv_log [] rx chunks = some ([((c : Int), p)], rx1)
      ∧ rx1.need_header = true ∧ rx1.header.len = 0 ∧ rx1.overflow = 0 := by
  have h0 : p ≠ [] := List.length_pos.mp hp1
  rw [send_unframed tx c p h0 (by omega), mtu_chunks_single p hp1 hp2] at hB
  simp only [List.flatMap_cons, List.flatMap_nil, List.append_nil, Int.toNat_ofNat,
    List.append_cancel_left_eq] at hB
  rw [read_chunks_join recv_log recv_log_keeps chunks [] rx hrx.good, ← hB, wire_record,
    read_eq_loop recv_log recv_log_keeps ((serial_header tx.version p.length c ++ p).length + 1)
      [] rx _ hrx.good (by omega)]
  have hah := after_header_serial_header rx tx.version p.length c hrx hv hp2 hc
  have hrec := record_step recv_log (serial_header tx.version p.length c ++ p).length [] rx
    (serial_header tx.version p.length c) p [] hrx (serial_header_length _ _ _)
    (by rw [hah]; simp; omega) (by rw [hah]; simp; exact hp2) (by rw [hah]; simp)
    (by rw [hah])
  rw [List.append_nil] at hrec
  rw [hrec]
  simp only [recv_log, Option.some_bind, loop_nil, List.nil_append]
  have hch : (after_header rx (serial_header tx.version p.length c)).in_channel = c := by
    rw [hah]
  refine ⟨{ delivered (after_header rx (serial_header tx.version p.length c)) p with
            need_header := true }, ?_, ?_, ?_, ?_⟩
  · rw [hch]
  · rfl
  · simp [delivered, hah]
  · simp [delivered, hah, hrx.over]

theorem mtu_chunks_get_length (m : List Nat) (i : Nat) (hi : i < (mtu_chunks m).length) :
    ((m.drop (MAX_SERIAL_PAYLOAD * i)).take MAX_SERIAL_PAYLOAD).length
      = if i + 1 < (mtu_chunks m).length then 4000
        else m.length - 4000 * ((mtu_chunks m).length - 1) := by
  have hl := mtu_chunks_length m.length m rfl
  rw [hl] at hi ⊢
  simp only [List.length_take, List.length_drop, MAX_SERIAL_PAYLOAD]
  split_ifs with h <;> omega

theorem mtu_chunks_mem (n : Nat) : ∀ (m : List Nat), m.length = n →
    ∀ b ∈ mtu_chunks m, 1 ≤ b.length ∧ b.length ≤ MAX_SERIAL_PAYLOAD := by
  induction n using Nat.strong_induction_on with
  | _ n ih =>
    intro m hn b hb
    by_cases h0 : m = []
    · subst h0; simp [mtu_chunks_nil] at hb
    · have hpos : 0 < m.length := List.length_pos.mpr h0
      rw [mtu_chunks_cons m h0, List.mem_cons] at hb
      rcases hb with hb | hb
      · subst hb
        simp only [List.length_take, MAX_SERIAL_PAYLOAD]
        omega
      · exact ih (m.drop MAX_SERIAL_PAYLOAD).length
          (by simp only [List.length_drop, MAX_SERIAL_PAYLOAD]; omega) _ rfl b hb

/-- C3. MTU fragmentation of an unframed send: for a channel in [0,255] and a
message of n >= 1 bytes, `qemud_serial_send` without framing writes
ceil(n/4000) records in order, record i being a six-byte header followed by
chunk i, the slice of the message at offset 4000*i; every chunk but the last
has 4000 bytes and the last has n - 4000*(ceil(n/4000)-1); the chunks
concatenated are the message; a header is the two lowercase hex digits of the
channel and the four of the chunk length, length first when the version is
LEGACY and channel first otherwise. -/
theorem C3_unframed_fragmentation (s : QemudSerial) (c : Nat) (m : List Nat)
    (hc : c ≤ 255) (hn : 1 ≤ m.length) :
    ∃ chunks : List (List Nat),
      (qemud_serial_send s c false m).cs
        = s.cs ++ chunks.flatMap (fun chunk =>
            (if s.version = QemudVersion.LEGACY
              then int2hex 4 chunk.length ++ int2hex 2 c
              else int2hex 2 c ++ int2hex 4 chunk.length) ++ chunk)
      ∧ chunks.length = (m.length + 3999) / 4000
      ∧ chunks.flatten = m
      ∧ (∀ i, i < chunks.length →
          chunks[i]? = some ((m.drop (4000 * i)).take 4000)
          ∧ (i + 1 < chunks.length → ((m.drop (4000 * i)).take 4000).length = 4000)
          ∧ (i + 1 = chunks.length →
              ((m.drop (4000 * i)).take 4000).length = m.length - 4000 * (chunks.length - 1)))
      ∧ hex2int (int2hex 2 c) 2 = c
      ∧ (∀ chunk ∈ chunks, hex2int (int2hex 4 chunk.length) 4 = chunk.length) := by
  have h0 : m ≠ [] := List.length_pos.mp hn
  refine ⟨mtu_chunks m, ?_, mtu_chunks_length _ m rfl, mtu_chunks_flatten _ m rfl, ?_, ?_, ?_⟩
  · rw [send_unframed s c m h0 (by omega)]
    simp only [Int.toNat_ofNat]
    rfl
  · intro i hi
    refine ⟨mtu_chunks_get _ m i rfl hi, ?_, ?_⟩
    · intro h
      have := mtu_chunks_get_length m i hi
      rw [if_pos h] at this
      exact this
    · intro h
      have := mtu_chunks_get_length m i hi
      rw [if_neg (by omega)] at this
      exact this
  · have := hex2int_int2hex 2 c [] (by omega)
    rw [List.append_nil] at this
    exact this
  · intro chunk hmem
    have := (mtu_chunks_mem _ m rfl chunk hmem).2
    have := hex2int_int2hex 4 chunk.length [] (by simp only [MAX_SERIAL_PAYLOAD] at this; omega)
    rw [List.append_nil] at this
    exact this

/-- C4. Structure of a framed send: for a channel in [0,255] and a message of
n bytes, 1 <= n <= 65535, `qemud_serial_send` with framing writes records,
each a header followed by a body of exactly the length the header declares;
the declared lengths are in [1,4000] and sum to n + 4; the first record
declares min(n + 4, 4000) and its body is the four lowercase hex digits of n
followed by the first min(n, 3996) bytes of the message; the later bodies are
the rest of the message and nothing else; all bodies concatenated are the four
hex digits of n followed by the message. -/
theorem C4_framed_send_structure (s : QemudSerial) (c : Nat) (m : List Nat)
    (hc : c ≤ 255) (hn1 : 1 ≤ m.length) (hn2 : m.length ≤ MAX_FRAME_PAYLOAD) :
    ∃ bodies : List (List Nat),
      (qemud_serial_send s c true m).cs
        = s.cs ++ bodies.flatMap (fun body => serial_header s.version body.length c ++ body)
      ∧ (∀ body ∈ bodies, 1 ≤ body.length ∧ body.length ≤ 4000
          ∧ hex2int (int2hex 4 body.length) 4 = body.length)
      ∧ (bodies.map List.length).sum = m.length + 4
      ∧ bodies.head? = some (int2hex 4 m.length ++ m.take (min m.length 3996))
      ∧ bodies.head?.map List.length = some (min (m.length + 4) 4000)
      ∧ bodies.tail.flatten = m.drop (min m.length 3996)
      ∧ bodies.flatten = int2hex 4 m.length ++ m
      ∧ hex2int (int2hex 4 m.length) 4 = m.length
      ∧ hex2int (int2hex 2 c) 2 = c := by
  have h0 : m ≠ [] := List.length_pos.mp hn1
  have hl4 : (int2hex 4 m.length).length = 4 := int2hex_length _ _
  have hne : int2hex 4 m.length ++ m ≠ [] := by simp [h0]
  have hflat := mtu_chunks_flatten _ (int2hex 4 m.length ++ m) rfl
  have hhead : mtu_chunks (int2hex 4 m.length ++ m)
      = (int2hex 4 m.length ++ m.take (min m.length 3996))
        :: mtu_chunks (m.drop (min m.length 3996)) := by
    rw [mtu_chunks_cons _ hne]
    have ht : (int2hex 4 m.length ++ m).take MAX_SERIAL_PAYLOAD
        = int2hex 4 m.length ++ m.take (min m.length 3996) := by
      rw [List.take_append_eq_append_take, hl4, List.take_of_length_le (by rw [hl4]; decide)]
      congr 1
      rw [List.take_eq_take]; simp [MAX_SERIAL_PAYLOAD, Nat.min_comm]
    have hd : (int2hex 4 m.length ++ m).drop MAX_SERIAL_PAYLOAD
        = m.drop (min m.length 3996) := by
      rw [List.drop_append_eq_append_drop, hl4, List.drop_of_length_le (by rw [hl4]; decide)]
      simp only [List.nil_append, MAX_SERIAL_PAYLOAD]
      by_cases hcase : 3996 ≤ m.length
      · rw [min_eq_right hcase]
      · rw [min_eq_left (by omega), List.drop_length, List.drop_of_length_le (by omega)]
    rw [ht, hd]
  refine ⟨mtu_chunks (int2hex 4 m.length ++ m), ?_, ?_, ?_, ?_, ?_, ?_, hflat, ?_, ?_⟩
  · rw [send_framed s c m h0 (by omega)]
    simp only [Int.toNat_ofNat]
    rfl
  · intro body hmem
    have := mtu_chunks_mem _ _ rfl body hmem
    simp only [MAX_SERIAL_PAYLOAD] at this
    refine ⟨this.1, this.2, ?_⟩
    have := hex2int_int2hex 4 body.length [] (by omega)
    rw [List.append_nil] at this
    exact this
  · rw [← List.length_flatten, hflat]
    simp [hl4]; omega
  · rw [hhead]; rfl
  · rw [hhead]
    simp only [List.head?_cons, Option.map_some', List.length_append, hl4, List.length_take]
    congr 1
    omega
  · rw [hhead, List.tail_cons]
    exact mtu_chunks_flatten _ _ rfl
  · have := hex2int_int2hex 4 m.length [] (by simp only [MAX_FRAME_PAYLOAD] at hn2; omega)
    rw [List.append_nil] at this
    exact this
  · have := hex2int_int2hex 2 c [] (by omega)
    rw [List.append_nil] at this
    exact this

theorem serial_idle_header_state (v : QemudVersion) : HeaderState (serial_idle v) :=
  ⟨rfl, rfl, rfl⟩

theorem after_header_header_state (s : QemudSerial) (hdr : List Nat) (hs : HeaderState s) :
    HeaderState (after_header s hdr) := by
  refine ⟨?_, ?_, ?_⟩
  · unfold after_header; rw [parse_need_header]; exact hs.need
  · unfold after_header; rw [parse_header]
  · unfold after_header; rw [parse_overflow]; exact hs.over

/-- C5 (the code at a failing input). A NORMAL codec in header state
receives, cut into chunks in any way, the header "001001" (channel 0, length
4097), 4097 bytes, and then the well-formed record "010001A". No record is
delivered: `overflow` is still 4097 afterwards, `qemud_serial_can_read` still
asks for 4097 bytes, and from then on every input is discarded without a
delivery. -/
theorem C5_overflow_is_never_left :
    (bytes "001001" ++ (List.replicate 4097 0 ++ bytes "010001A")).length = 6 + 4097 + 7
    ∧ ∀ chunks : List (List Nat),
        chunks.flatten = bytes "001001" ++ (List.replicate 4097 0 ++ bytes "010001A") →
        ∃ s1, qemud_serial_read_chunks recv_log [] (serial_idle QemudVersion.NORMAL) chunks
            = some ([], s1)
          ∧ s1.overflow = 4097
          ∧ qemud_serial_can_read s1 = 4097
          ∧ ∀ more, qemud_serial_read recv_log [] s1 more = some ([], s1) := by
  have hs := serial_idle_header_state QemudVersion.NORMAL
  have hah := after_header_normal (serial_idle QemudVersion.NORMAL) (bytes "001001") rfl
    (by decide) (by intro h; cases h)
  have e1 : hex2int ((bytes "001001").drop 2) 4 = 4097 := by decide
  have e2 : hex2int (bytes "001001") 2 = 0 := by decide
  rw [e1, e2] at hah
  have hlen : (bytes "001001" ++ (List.replicate 4097 0 ++ bytes "010001A")).length
      = 6 + 4097 + 7 := by
    simp only [List.length_append, List.length_replicate]
    rfl
  have key : ∀ rest : List Nat, rest.length ≤ 5000 →
      qemud_serial_read recv_log [] (serial_idle QemudVersion.NORMAL) (bytes "001001" ++ rest)
        = some ([], { after_header (serial_idle QemudVersion.NORMAL) (bytes "001001") with
                        overflow := 4097 }) := by
    intro rest hr
    rw [read_eq_loop recv_log recv_log_keeps (5006 + 1) _ _ _ hs.good
        (by simp only [List.length_append]; have : (bytes "001001").length = 6 := rfl; omega),
      big_header_step recv_log 5006 [] _ (bytes "001001") rest hs rfl
        (by rw [hah]; decide) (by rw [hah])]
    have : (after_header (serial_idle QemudVersion.NORMAL) (bytes "001001")).in_size = 4097 := by
      rw [hah]
    rw [this]
    exact loop_overflow recv_log _ _ _ _ (by decide) (by omega)
  refine ⟨hlen, ?_⟩
  intro chunks hchunks
  rw [read_chunks_join recv_log recv_log_keeps chunks [] _ hs.good, hchunks]
  refine ⟨_, key _ (by simp only [List.length_append, List.length_replicate]; decide), rfl,
    ?_, ?_⟩
  · simp [qemud_serial_can_read]
  · intro more
    exact loop_overflow recv_log _ _ _ _ (by decide) (by omega)

/-- C6. Malformed-header recovery: when the six bytes that complete a header
parse to a length <= 0 or to a channel < 0, `qemud_serial_read` delivers no
record and is back in header state (empty header sink, `overflow` = 0), having
consumed the six bytes only: a well-formed record that follows the bad header
directly is delivered unchanged, however the bytes are cut into chunks. -/
theorem C6_malformed_header_recovery (s : QemudSerial) (hdr : List Nat) (c : Nat)
    (p : List Nat) (chunks : List (List Nat))
    (hs : HeaderState s) (hh : hdr.length = 6)
    (hbad : (after_header s hdr).in_size ≤ 0 ∨ (after_header s hdr).in_channel < 0)
    (hc : c ≤ 255) (hp1 : 1 ≤ p.length) (hp2 : p.length ≤ MAX_SERIAL_PAYLOAD)
    (hchunks : chunks.flatten
      = hdr ++ (serial_header (after_header s hdr).version p.length c ++ p)) :
    (∃ s1, qemud_serial_read recv_log [] s hdr = some ([], s1)
      ∧ s1.need_header = true ∧ s1.header = ⟨0, 6⟩ ∧ s1.overflow = 0)
    ∧ (∃ s2, qemud_serial_read_chunks recv_log [] s chunks = some ([((c : Int), p)], s2)
      ∧ s2.need_header = true ∧ s2.header = ⟨0, 6⟩ ∧ s2.overflow = 0) := by
  have hs1 := after_header_header_state s hdr hs
  constructor
  · refine ⟨after_header s hdr, ?_, hs1.need, hs1.sink, hs1.over⟩
    rw [read_eq_loop recv_log recv_log_keeps (hdr.length + 1) _ _ _ hs.good (by omega)]
    have := bad_header_step recv_log hdr.length [] s hdr [] hs hh hbad
    rw [List.append_nil] at this
    rw [this, loop_nil]
  · rw [read_chunks_join recv_log recv_log_keeps chunks [] s hs.good, hchunks]
    rw [read_eq_loop recv_log recv_log_keeps
        (6 + (serial_header (after_header s hdr).version p.length c ++ p).length + 1 + 1)
        _ _ _ hs.good (by simp only [List.length_append]; omega),
      bad_header_step recv_log _ [] s hdr _ hs hh hbad]
    have hv : SameOrientation (after_header s hdr).version (after_header s hdr).version := by
      cases (after_header s hdr).version
      · exact Or.inr ⟨by decide, Or.inr rfl⟩
      · exact Or.inl ⟨rfl, rfl⟩
      · exact Or.inr ⟨by decide, Or.inl rfl⟩
    have hah := after_header_serial_header (after_header s hdr) (after_header s hdr).version
      p.length c hs1 hv hp2 hc
    have hrec := record_step recv_log
      (6 + (serial_header (after_header s hdr).version p.length c ++ p).length) []
      (after_header s hdr)
      (serial_header (after_header s hdr).version p.length c) p [] hs1
      (serial_header_length _ _ _)
      (by rw [hah]; simp; omega) (by rw [hah]; simp; exact hp2) (by rw [hah]; simp)
      (by rw [hah])
    rw [List.append_nil] at hrec
    rw [hrec]
    simp only [recv_log, Option.some_bind, loop_nil, List.nil_append]
    have hch : (after_header (after_header s hdr)
        (serial_header (after_header s hdr).version p.length c)).in_channel = c := by
      rw [hah]
    refine ⟨{ delivered (after_header (after_header s hdr)
        (serial_header (after_header s hdr).version p.length c)) p with
              need_header := true }, ?_, ?_, ?_, ?_⟩
    · rw [hch]
    · rfl
    · simp [delivered, hah]
    · simp [delivered, hah, hs1.over]

/-- Witness of C1: "hello" on channel 3, sent by a NORMAL codec and read in
three chunks by a codec whose version is still UNKNOWN. -/
theorem C1_unframed_round_trip_witness :
    ∃ rx1, qemud_serial_read_chunks recv_log [] (serial_idle QemudVersion.UNKNOWN)
        [bytes "0300", bytes "05he", bytes "llo"] = some ([(((3 : Nat) : Int), bytes "hello")], rx1)
      ∧ rx1.need_header = true ∧ rx1.header.len = 0 ∧ rx1.overflow = 0 :=
  C1_unframed_round_trip 3 (bytes "hello") (serial_idle QemudVersion.NORMAL)
    (serial_idle QemudVersion.UNKNOWN) [bytes "0300", bytes "05he", bytes "llo"]
    (by decide) (by decide) (by decide) (serial_idle_header_state _)
    (Or.inr ⟨by decide, Or.inr rfl⟩)
    (by rw [send_unframed _ _ _ (by decide) (by decide),
          mtu_chunks_single _ (by decide) (by decide)]; decide)

/-- Witness of C3, the scenario of the specification: 5000 bytes on channel 3
in NORMAL orientation are written as "030fa0", 4000 bytes, "0303e8", 1000
bytes. -/
theorem C3_unframed_fragmentation_witness :
    (qemud_serial_send (serial_idle QemudVersion.NORMAL) 3 false (List.replicate 5000 7)).cs
      = bytes "030fa0" ++ List.replicate 4000 7 ++ (bytes "0303e8" ++ List.replicate 1000 7) := by
  obtain ⟨chunks, hcs, hlen, -, hget, -, -⟩ :=
    C3_unframed_fragmentation (serial_idle QemudVersion.NORMAL) 3 (List.replicate 5000 7)
      (by decide) (by rw [List.length_replicate]; decide)
  rw [List.length_replicate] at hlen
  have h2 : chunks.length = 2 := by rw [hlen]
  have g0 := (hget 0 (by omega)).1
  have g1 := (hget 1 (by omega)).1
  match chunks, h2, g0, g1 with
  | [a, b], _, g0, g1 =>
    simp only [List.getElem?_cons_zero, List.getElem?_cons_succ, Option.some.injEq] at g0 g1
    have ea : a = List.replicate 4000 7 := by
      rw [g0, List.drop_replicate, List.take_replicate]
      congr 1
    have eb : b = List.replicate 1000 7 := by
      rw [g1, List.drop_replicate, List.take_replicate]
      congr 1
    subst ea eb
    rw [Nat.cast_ofNat] at hcs
    rw [hcs]
    simp only [List.flatMap_cons, List.flatMap_nil, List.length_replicate, List.append_nil]
    have e1 : int2hex 2 3 ++ int2hex 4 4000 = bytes "030fa0" := by decide
    have e2 : int2hex 2 3 ++ int2hex 4 1000 = bytes "0303e8" := by decide
    have e3 : (serial_idle QemudVersion.NORMAL).cs = [] := rfl
    have e4 : ((serial_idle QemudVersion.NORMAL).version = QemudVersion.LEGACY) = False := by
      simp [serial_idle]
    simp only [e4, if_false, e1, e2, e3, List.nil_append]

/-- Witness of C4: the framed send of "hello" on channel 3 is one record whose
body is "0005hello". -/
theorem C4_framed_send_structure_witness :
    ∃ bodies : List (List Nat),
      (qemud_serial_send (serial_idle QemudVersion.NORMAL) ((3 : Nat) : Int) true
          (bytes "hello")).cs
        = bodies.flatMap (fun body => serial_header QemudVersion.NORMAL body.length 3 ++ body)
      ∧ bodies.head? = some (bytes "0005hello")
      ∧ bodies.flatten = bytes "0005hello" := by
  obtain ⟨bodies, hcs, -, -, hhead, -, -, hflat, -, -⟩ :=
    C4_framed_send_structure (serial_idle QemudVersion.NORMAL) 3 (bytes "hello")
      (by decide) (by decide) (by decide)
  exact ⟨bodies, hcs, hhead, hflat⟩

/-- Witness of C6: the header "zzzzzz" is dropped and the record "010001A"
behind it is delivered, the bytes arriving in three chunks. -/
theorem C6_malformed_header_recovery_witness :
    (∃ s1, qemud_serial_read recv_log [] (serial_idle QemudVersion.NORMAL) (bytes "zzzzzz")
        = some ([], s1)
      ∧ s1.need_header = true ∧ s1.header = ⟨0, 6⟩ ∧ s1.overflow = 0)
    ∧ (∃ s2, qemud_serial_read_chunks recv_log [] (serial_idle QemudVersion.NORMAL)
          [bytes "zzz", bytes "zzz0100", bytes "01A"] = some ([(((1 : Nat) : Int), bytes "A")], s2)
      ∧ s2.need_header = true ∧ s2.header = ⟨0, 6⟩ ∧ s2.overflow = 0) :=
  have hah := after_header_normal (serial_idle QemudVersion.NORMAL) (bytes "zzzzzz") rfl
    (by decide) (by intro h; cases h)
  C6_malformed_header_recovery (serial_idle QemudVersion.NORMAL) (bytes "zzzzzz") 1 (bytes "A")
    [bytes "zzz", bytes "zzz0100", bytes "01A"] (serial_idle_header_state _) rfl
    (by rw [hah]; left; decide) (by decide) (by decide) (by decide)
    (by rw [hah]; decide)

/-! ## The framing client -/

theorem client_loop_nil (fuel : Nat) (c : QemudClient) (calls : List (List Nat)) :
    qemud_client_recv_loop fuel c calls [] = some (c, calls) := by
  cases fuel <;> simp [qemud_client_recv_loop]

theorem client_loop_succ (fuel : Nat) (c : QemudClient) (calls : List (List Nat))
    (msg : List Nat) (h : msg ≠ []) :
    qemud_client_recv_loop (fuel + 1) c calls msg =
      client_loop_after fuel (qemud_client_recv_body c calls msg) := by
  have hl : msg.length > 0 := List.length_pos.mpr h
  simp only [qemud_client_recv_loop, hl, if_true]
  cases qemud_client_recv_body c calls msg with
  | brk r => rfl
  | cont p y => rfl

/-- With the header sink full of a frame header that parses to 0 or to -1 and
input left, the loop of `qemud_client_recv` makes no progress: it never
ends. -/
theorem client_loop_stuck (fuel : Nat) : ∀ (c : QemudClient) (calls : List (List Nat))
    (msg : List Nat), c.need_header = true → c.header.size ≤ c.header.len →
    hex2int c.header0 4 ≤ 0 → msg ≠ [] →
    qemud_client_recv_loop fuel c calls msg = none := by
  induction fuel with
  | zero =>
    intro c calls msg _ _ _ hm
    have hl : msg.length > 0 := List.length_pos.mpr hm
    simp [qemud_client_recv_loop, hl]
  | succ n ih =>
    intro c calls msg hn hf hz hm
    rw [client_loop_succ _ _ _ _ hm]
    have hb : qemud_client_recv_body c calls msg = LoopStep.cont (c, calls) msg := by
      unfold qemud_client_recv_body
      rw [if_pos hn, fill_full _ _ _ hf]
      simp only [Bool.not_true, Bool.false_eq_true, if_false]
      by_cases h0 : hex2int c.header0 4 = 0
      · rw [if_pos h0]
      · rw [if_neg h0, if_pos (by omega)]
    rw [hb]
    exact ih c calls msg hn hf hz hm

theorem hex2int_memcpy_zero (d hdr : List Nat) (n : Nat) (h : hdr.length = n) :
    hex2int (memcpy d 0 hdr) n = hex2int hdr n := by
  rw [memcpy_zero]
  have := hex2int_drop_append hdr (d.drop hdr.length) 0 n (by omega)
  simpa using this

/-- The first iteration on a message that starts with a frame header. -/
theorem client_header_step (c : QemudClient) (calls : List (List Nat)) (hdr rest : List Nat)
    (hn : c.need_header = true) (hs : c.header = ⟨0, 4⟩) (hh : hdr.length = 4) :
    qemud_client_recv_body c calls (hdr ++ rest) =
      if hex2int hdr 4 ≤ 0 then
        LoopStep.cont ({ c with header := ⟨4, 4⟩, header0 := memcpy c.header0 0 hdr }, calls) rest
      else
        qemud_client_recv_payload
          { c with header := ⟨0, 4⟩, header0 := memcpy c.header0 0 hdr,
                   need_header := false,
                   payload := ⟨0, (hex2int hdr 4).toNat⟩,
                   payload_buff := List.replicate ((hex2int hdr 4).toNat + 1) 0 }
          calls rest := by
  unfold qemud_client_recv_body
  rw [if_pos hn, fill_all _ _ hdr rest (by rw [hs]) (by rw [hs]; exact hh) (by rw [hs]; decide)]
  simp only [Bool.not_true, Bool.false_eq_true, if_false, hs,
    hex2int_memcpy_zero _ _ _ hh, qemud_sink_reset]
  by_cases h0 : hex2int hdr 4 = 0
  · rw [if_pos h0, if_pos (by omega)]
  · rw [if_neg h0]
    by_cases h1 : hex2int hdr 4 < 0
    · rw [if_pos h1, if_pos (by omega)]
    · rw [if_neg h1, if_neg (by omega)]

/-- The payload part of an iteration when the message does not complete the
frame. -/
theorem client_payload_part (c : QemudClient) (calls : List (List Nat)) (msg : List Nat)
    (h : c.payload.len + msg.length < c.payload.size) :
    qemud_client_recv_payload c calls msg =
      LoopStep.brk ({ c with payload := ⟨c.payload.len + msg.length, c.payload.size⟩,
                             payload_buff := memcpy c.payload_buff c.payload.len msg }, calls) := by
  unfold qemud_client_recv_payload
  rw [fill_lt _ _ _ (by omega)]
  have : min (c.payload.size - c.payload.len) msg.length = msg.length := by omega
  rw [this]
  simp only [List.take_length, List.drop_length]
  have hf : decide (c.payload.len + msg.length = c.payload.size) = false := by
    simp; omega
  rw [hf]
  rfl

/-- The payload part of an iteration when the message completes the frame
exactly. -/
theorem client_payload_full (c : QemudClient) (calls : List (List Nat)) (msg : List Nat)
    (h : c.payload.len + msg.length = c.payload.size) (hpos : 0 < msg.length)
    (hr : c.clie_recv ≠ QemudClientRecv.null) :
    qemud_client_recv_payload c calls msg =
      LoopStep.cont
        ({ c with payload := ⟨c.payload.size, c.payload.size⟩, payload_buff := [],
                  need_header := true },
          calls ++ [(memcpy c.payload_buff c.payload.len msg).take c.payload.size]) [] := by
  unfold qemud_client_recv_payload
  rw [fill_lt _ _ _ (by omega)]
  have : min (c.payload.size - c.payload.len) msg.length = msg.length := by omega
  rw [this]
  simp only [List.take_length, List.drop_length]
  have hf : decide (c.payload.len + msg.length = c.payload.size) = true := by
    simp; omega
  rw [hf]
  simp only [Bool.not_true, Bool.false_eq_true, if_false, ne_eq, hr, not_false_eq_true, if_true,
    take_set_self, h]

theorem memcpy_take_append (d pre msg : List Nat) (h : d.take pre.length = pre) :
    (memcpy d pre.length msg).take (pre.length + msg.length) = pre ++ msg := by
  unfold memcpy
  rw [h, List.take_append_eq_append_take, List.take_of_length_le (by simp)]
  simp

/-- A message inside a frame: the client stores it, and delivers the frame if
the message completes it. -/
theorem client_recv_mid (c : QemudClient) (n : Nat) (pre msg : List Nat)
    (hc : ClientMid c n pre) (hm : msg ≠ []) (hle : pre.length + msg.length ≤ n) :
    ∃ c1, qemud_client_recv c msg
        = some (c1, if pre.length + msg.length = n then [pre ++ msg] else [])
      ∧ (pre.length + msg.length = n → ClientIdle c1)
      ∧ (pre.length + msg.length < n → ClientMid c1 n (pre ++ msg)) := by
  have hpos : 0 < msg.length := List.length_pos.mpr hm
  unfold qemud_client_recv
  simp only [hc.framing, Bool.not_true, Bool.false_eq_true, if_false, hc.need, false_and,
    and_false]
  rw [client_loop_succ _ _ _ _ hm]
  unfold qemud_client_recv_body
  simp only [hc.need, Bool.false_eq_true, if_false]
  by_cases hfull : pre.length + msg.length = n
  · rw [client_payload_full c [] msg (by rw [hc.pay]; exact hfull) hpos hc.recv]
    have hd : (memcpy c.payload_buff c.payload.len msg).take c.payload.size = pre ++ msg := by
      rw [hc.pay]
      simp only
      rw [← hfull, memcpy_take_append _ _ _ hc.buff]
    rw [hd, if_pos hfull]
    refine ⟨{ c with payload := ⟨c.payload.size, c.payload.size⟩, payload_buff := [],
                     need_header := true }, ?_, ?_, ?_⟩
    · simp only [client_loop_after, client_loop_nil, List.nil_append]
    · intro _
      exact ⟨hc.framing, rfl, hc.sink, hc.recv⟩
    · intro h; omega
  · rw [client_payload_part c [] msg (by rw [hc.pay]; simp only; omega)]
    simp only [client_loop_after, hfull, if_false]
    refine ⟨_, rfl, ?_, ?_⟩
    · intro h; first | exact absurd h hfull | exact False.elim h
    · intro _
      refine ⟨hc.framing, hc.need, hc.sink, hc.recv, ?_, ?_, ?_⟩
      · simp only [hc.pay, List.length_append]
      · simp only [hc.pay, List.length_append]
        exact memcpy_take_append _ _ _ hc.buff
      · simp only [List.length_append]; omega

/-- The first message of a frame: the frame header and the first bytes of the
frame. -/
theorem client_recv_idle (c : QemudClient) (n : Nat) (q : List Nat)
    (hc : ClientIdle c) (hn1 : 1 ≤ n) (hn2 : n ≤ MAX_FRAME_PAYLOAD) (hle : q.length ≤ n) :
    ∃ c1, qemud_client_recv c (int2hex 4 n ++ q)
        = some (c1, if q.length = n then [q] else [])
      ∧ (q.length = n → ClientIdle c1)
      ∧ (q.length < n → ClientMid c1 n q) := by
  have hl4 : (int2hex 4 n).length = 4 := int2hex_length _ _
  have hne : int2hex 4 n ++ q ≠ [] := by
    intro h
    have := congrArg List.length h
    simp [hl4] at this
  have hhex : hex2int (int2hex 4 n) 4 = n := by
    have := hex2int_int2hex 4 n [] (by simp only [MAX_FRAME_PAYLOAD] at hn2; omega)
    rw [List.append_nil] at this
    exact this
  unfold qemud_client_recv
  have hneed : ¬ (qemud_sink_needed c.header = 0) := by
    rw [hc.sink]; decide
  simp only [hc.framing, Bool.not_true, Bool.false_eq_true, if_false, hneed, false_and,
    and_false]
  rw [client_loop_succ _ _ _ _ hne, client_header_step c [] _ q hc.need hc.sink hl4, hhex,
    if_neg (by omega), Int.toNat_ofNat]
  by_cases hfull : q.length = n
  · have hq : 0 < q.length := by omega
    rw [client_payload_full
      { c with header := ⟨0, 4⟩, header0 := memcpy c.header0 0 (int2hex 4 n),
               need_header := false, payload := ⟨0, n⟩,
               payload_buff := List.replicate (n + 1) 0 }
      [] q (by simp only; omega) hq hc.recv]
    have hd : (memcpy (List.replicate (n + 1) 0) 0 q).take n = q := by
      have := memcpy_take_append (List.replicate (n + 1) 0) [] q rfl
      simp only [List.length_nil, Nat.zero_add, List.nil_append] at this
      rw [← hfull] at this ⊢
      exact this
    simp only
    rw [hd, if_pos hfull]
    refine ⟨{ c with header := ⟨0, 4⟩, header0 := memcpy c.header0 0 (int2hex 4 n),
                     need_header := true, payload := ⟨n, n⟩, payload_buff := [] }, ?_, ?_, ?_⟩
    · simp only [client_loop_after, client_loop_nil, List.nil_append]
    · intro _
      exact ⟨hc.framing, rfl, rfl, hc.recv⟩
    · intro h; omega
  · rw [client_payload_part
      { c with header := ⟨0, 4⟩, header0 := memcpy c.header0 0 (int2hex 4 n),
               need_header := false, payload := ⟨0, n⟩,
               payload_buff := List.replicate (n + 1) 0 }
      [] q (by simp only; omega)]
    simp only [client_loop_after, hfull, if_false]
    refine ⟨_, rfl, ?_, ?_⟩
    · intro h; first | exact absurd h hfull | exact False.elim h
    · intro _
      refine ⟨hc.framing, rfl, rfl, hc.recv, ?_, ?_, ?_⟩
      · simp only [Nat.zero_add]
      · have := memcpy_take_append (List.replicate (n + 1) 0) [] q rfl
        simp only [List.length_nil, Nat.zero_add, List.nil_append] at this
        exact this
      · omega

/-- The rest of a frame, message by message: the frame is delivered when its
last byte arrives. -/
theorem client_feed_mid (n : Nat) (msgs : List (List Nat)) :
    ∀ (c : QemudClient) (calls : List (List Nat)) (pre : List Nat), ClientMid c n pre →
      (∀ msg ∈ msgs, msg ≠ []) → pre.length + msgs.flatten.length = n →
      ∃ c1, client_feed (c, calls) msgs = some (c1, calls ++ [pre ++ msgs.flatten])
        ∧ ClientIdle c1 := by
  induction msgs with
  | nil =>
    intro c calls pre hc _ hlen
    have := hc.lt
    simp at hlen
    omega
  | cons msg rest ih =>
    intro c calls pre hc hne hlen
    have hm : msg ≠ [] := hne msg (List.mem_cons_self _ _)
    have hrest : ∀ x ∈ rest, x ≠ [] := fun x hx => hne x (List.mem_cons_of_mem _ hx)
    simp only [List.flatten_cons, List.length_append] at hlen
    obtain ⟨c1, h1, hidle, hmid⟩ := client_recv_mid c n pre msg hc hm (by omega)
    simp only [client_feed, h1]
    cases rest with
    | nil =>
      simp only [List.flatten_nil, List.length_nil, Nat.add_zero] at hlen
      simp only [hlen, if_true, client_feed, List.flatten_cons, List.flatten_nil,
        List.append_nil]
      exact ⟨c1, rfl, hidle hlen⟩
    | cons m2 rest2 =>
      have h2 : m2 ≠ [] := hrest m2 (List.mem_cons_self _ _)
      have h2l : 0 < m2.length := List.length_pos.mpr h2
      have hlt : pre.length + msg.length < n := by
        simp only [List.flatten_cons, List.length_append] at hlen
        omega
      rw [if_neg (by omega), List.append_nil]
      obtain ⟨c2, hfeed, hc2⟩ := ih c1 calls (pre ++ msg) (hmid hlt) hrest
        (by simp only [List.length_append]; omega)
      refine ⟨c2, ?_, hc2⟩
      rw [hfeed]
      simp only [List.flatten_cons, List.append_assoc]

theorem recv_client_keeps : RecvKeeps recv_client := by
  intro a s c m a1 s1 h
  unfold recv_client at h
  cases hr : qemud_client_recv a.1 m with
  | none => rw [hr] at h; cases h
  | some r =>
    rw [hr] at h
    simp only [Option.some.injEq, Prod.mk.injEq] at h
    rw [← h.2]

theorem same_orientation_after (tx rx : QemudVersion) (h : SameOrientation tx rx) :
    SameOrientation tx
      (if tx = QemudVersion.LEGACY then QemudVersion.LEGACY else QemudVersion.NORMAL) := by
  rcases h with ⟨h1, _⟩ | ⟨h1, _⟩
  · rw [if_pos h1]; exact Or.inl ⟨h1, rfl⟩
  · rw [if_neg h1]; exact Or.inr ⟨h1, Or.inl rfl⟩

/-- The records of one sender, read in one piece, reach the client one after
the other. -/
theorem read_records_client (tx : QemudVersion) (c : Nat) (hc : c ≤ 255)
    (bodies : List (List Nat)) :
    ∀ (a : QemudClient × List (List Nat)) (s : QemudSerial), HeaderState s →
      SameOrientation tx s.version →
      (∀ b ∈ bodies, 1 ≤ b.length ∧ b.length ≤ MAX_SERIAL_PAYLOAD) →
      ∃ s1, qemud_serial_read recv_client a s (bodies.flatMap (wire_record tx c))
        = (client_feed a bodies).map (fun a1 => (a1, s1)) := by
  induction bodies with
  | nil =>
    intro a s _ _ _
    exact ⟨s, by simp [qemud_serial_read, loop_nil, client_feed]⟩
  | cons b rest ih =>
    intro a s hs hv hb
    have hb1 := hb b (List.mem_cons_self _ _)
    have hrest : ∀ x ∈ rest, 1 ≤ x.length ∧ x.length ≤ MAX_SERIAL_PAYLOAD :=
      fun x hx => hb x (List.mem_cons_of_mem _ hx)
    have hah := after_header_serial_header s tx b.length c hs hv hb1.2 hc
    simp only [List.flatMap_cons, wire_record]
    rw [read_eq_loop recv_client recv_client_keeps
      ((serial_header tx b.length c ++ b ++ rest.flatMap (wire_record tx c)).length + 1)
      _ _ _ hs.good (by omega)]
    rw [record_step recv_client _ a s (serial_header tx b.length c) b _ hs
      (serial_header_length _ _ _)
      (by rw [hah]; simp; omega) (by rw [hah]; simp; exact hb1.2) (by rw [hah]; simp)
      (by rw [hah])]
    simp only [recv_client, client_feed]
    cases hr : qemud_client_recv a.1 b with
    | none => exact ⟨s, rfl⟩
    | some r =>
      simp only [Option.some_bind]
      have hs1 : HeaderState
          { delivered (after_header s (serial_header tx b.length c)) b with
            need_header := true } := by
        refine ⟨rfl, ?_, ?_⟩
        · simp [delivered, hah]
        · simp [delivered, hah, hs.over]
      have hv1 : SameOrientation tx
          ({ delivered (after_header s (serial_header tx b.length c)) b with
            need_header := true } : QemudSerial).version := by
        simp only [delivered, hah]
        exact same_orientation_after tx s.version hv
      obtain ⟨s1, h1⟩ := ih (r.1, a.2 ++ r.2) _ hs1 hv1 hrest
      refine ⟨s1, ?_⟩
      rw [← h1]
      exact (read_eq_loop recv_client recv_client_keeps _ _ _ _ hs1.good
        (by simp only [List.length_append]; omega)).symm

theorem mtu_chunks_framed (n : Nat) (m : List Nat) :
    mtu_chunks (int2hex 4 n ++ m)
      = (int2hex 4 n ++ m.take 3996) :: mtu_chunks (m.drop 3996) := by
  have hl4 : (int2hex 4 n).length = 4 := int2hex_length _ _
  have hne : int2hex 4 n ++ m ≠ [] := by
    intro h
    have := congrArg List.length h
    simp [hl4] at this
  rw [mtu_chunks_cons _ hne, List.take_append_eq_append_take, List.drop_append_eq_append_drop,
    hl4, List.take_of_length_le (by rw [hl4]; decide),
    List.drop_of_length_le (by rw [hl4]; decide)]
  rfl

theorem mtu_chunks_ne_nil (m : List Nat) : ∀ b ∈ mtu_chunks m, b ≠ [] := by
  intro b hb
  have := (mtu_chunks_mem _ m rfl b hb).1
  exact List.length_pos.mp this

/-- The bodies of a framed send, handed to an idle framing client one after
the other, make it deliver the message once. -/
theorem client_feed_framed (c : QemudClient) (p : List Nat) (hc : ClientIdle c)
    (hp1 : 1 ≤ p.length) (hp2 : p.length ≤ MAX_FRAME_PAYLOAD) :
    ∃ c1, client_feed (c, []) (mtu_chunks (int2hex 4 p.length ++ p)) = some (c1, [p])
      ∧ ClientIdle c1 := by
  rw [mtu_chunks_framed]
  obtain ⟨c1, h1, hidle, hmid⟩ := client_recv_idle c p.length (p.take 3996) hc hp1 hp2
    (by simp only [List.length_take]; omega)
  simp only [client_feed, h1]
  by_cases hshort : p.length ≤ 3996
  · have e1 : p.take 3996 = p := List.take_of_length_le hshort
    have e2 : p.drop 3996 = [] := List.drop_of_length_le hshort
    rw [e1, e2, mtu_chunks_nil, if_pos rfl]
    rw [e1] at hidle
    exact ⟨c1, rfl, hidle rfl⟩
  · have hl : (p.take 3996).length = 3996 := by simp only [List.length_take]; omega
    rw [if_neg (by omega), List.append_nil]
    obtain ⟨c2, h2, hc2⟩ := client_feed_mid p.length (mtu_chunks (p.drop 3996)) c1 []
      (p.take 3996) (hmid (by omega)) (mtu_chunks_ne_nil _)
      (by rw [mtu_chunks_flatten _ _ rfl, hl, List.length_drop]; omega)
    refine ⟨c2, ?_, hc2⟩
    rw [h2, mtu_chunks_flatten _ _ rfl, List.take_append_drop]
    rfl

theorem client_idle_is_idle : ClientIdle client_idle :=
  ⟨rfl, rfl, rfl, by decide⟩

/-- A frame header that parses to 0 or to -1, followed by more bytes in the
same message: `qemud_client_recv` does not return. -/
theorem client_recv_zero_frame (c : QemudClient) (hdr rest : List Nat)
    (hc : ClientIdle c) (hh : hdr.length = 4) (hz : hex2int hdr 4 ≤ 0) (hr : rest ≠ []) :
    qemud_client_recv c (hdr ++ rest) = none := by
  have hne : hdr ++ rest ≠ [] := by simp [hr]
  unfold qemud_client_recv
  have hneed : ¬ (qemud_sink_needed c.header = 0) := by
    rw [hc.sink]; decide
  simp only [hc.framing, Bool.not_true, Bool.false_eq_true, if_false, hneed, false_and,
    and_false]
  rw [client_loop_succ _ _ _ _ hne, client_header_step c [] hdr rest hc.need hc.sink hh,
    if_pos hz]
  exact client_loop_stuck _ _ _ _ hc.need (le_refl _)
    (by simp only; rw [hex2int_memcpy_zero _ _ _ hh]; exact hz) hr

theorem client_feed_none (a : QemudClient × List (List Nat)) (msg : List Nat)
    (rest : List (List Nat)) (h : qemud_client_recv a.1 msg = none) :
    client_feed a (msg :: rest) = none := by
  simp only [client_feed]
  rw [h]

theorem read_chunks_single {α : Type}
    (recv : α → QemudSerial → Int → List Nat → Option (α × QemudSerial))
    (a : α) (s : QemudSerial) (x : List Nat) :
    qemud_serial_read_chunks recv a s [x] = qemud_serial_read recv a s x := by
  simp only [qemud_serial_read_chunks]
  cases qemud_serial_read recv a s x with
  | none => rfl
  | some r => rfl

/-- C2 fails beyond the range of the frame header: a message of 65536 bytes
(at most 255 * 4000) on channel 1 is sent framed with the frame header "0000";
however the transport bytes are cut into chunks, the client reads an empty
frame in the first record, keeps its header sink full and never returns, so
its receive callback is not invoked at all. -/
theorem C2_framed_round_trip_counterexample :
    (List.replicate 65536 0).length ≤ 255 * 4000
    ∧ ∀ chunks : List (List Nat),
        chunks.flatten = (qemud_serial_send (serial_idle QemudVersion.NORMAL) 1 true
            (List.replicate 65536 0)).cs →
        qemud_serial_read_chunks recv_client (client_idle, [])
          (serial_idle QemudVersion.NORMAL) chunks = none := by
  have hp : (List.replicate 65536 0).length = 65536 := List.length_replicate _ _
  constructor
  · omega
  have hne : List.replicate 65536 0 ≠ [] := by
    intro h
    have := congrArg List.length h
    rw [hp, List.length_nil] at this
    omega
  have hcs : (serial_idle QemudVersion.NORMAL).cs = [] := rfl
  have hver : (serial_idle QemudVersion.NORMAL).version = QemudVersion.NORMAL := rfl
  have e1 : Int.toNat 1 = 1 := rfl
  have hsend : (qemud_serial_send (serial_idle QemudVersion.NORMAL) 1 true
      (List.replicate 65536 0)).cs
      = (mtu_chunks (int2hex FRAME_HEADER_SIZE (List.replicate 65536 0).length
          ++ List.replicate 65536 0)).flatMap (wire_record QemudVersion.NORMAL 1) := by
    rw [send_framed _ _ _ hne (by decide)]
    simp only
    rw [hcs, List.nil_append, hver, e1]
  intro chunks hchunks
  rw [read_chunks_join recv_client recv_client_keeps chunks _ _
    (serial_idle_header_state QemudVersion.NORMAL).good, hchunks, hsend]
  obtain ⟨s1, h1⟩ := read_records_client QemudVersion.NORMAL 1 (by decide)
    (mtu_chunks (int2hex FRAME_HEADER_SIZE (List.replicate 65536 0).length
      ++ List.replicate 65536 0))
    (client_idle, []) (serial_idle QemudVersion.NORMAL) (serial_idle_header_state _)
    (Or.inr ⟨by decide, Or.inl rfl⟩) (mtu_chunks_mem _ _ rfl)
  rw [h1]
  clear h1
  have hfeed : client_feed (client_idle, [])
      (mtu_chunks (int2hex FRAME_HEADER_SIZE (List.replicate 65536 0).length
        ++ List.replicate 65536 0)) = none := by
    have e4 : FRAME_HEADER_SIZE = 4 := rfl
    have hz : hex2int (int2hex 4 65536) 4 ≤ 0 := by decide
    have hr : List.take 3996 (List.replicate 65536 0) ≠ [] := by
      intro h
      have := congrArg List.length h
      rw [List.length_take, hp, List.length_nil] at this
      omega
    rw [e4, mtu_chunks_framed, hp]
    exact client_feed_none _ _ _
      (client_recv_zero_frame client_idle (int2hex 4 65536) _ client_idle_is_idle
        (int2hex_length _ _) hz hr)
  rw [hfeed]
  rfl

/-- C2 as amended. Framed round trip for a payload of 1 to 65535 bytes (what
four hex digits can announce): for a channel in [0,255], the bytes
`qemud_serial_send` writes with framing, cut into chunks in any way, read by
`qemud_serial_read` of a codec in header state with the same header
orientation and handed record by record to `qemud_client_recv` of a framing
client that starts idle, invoke the receive callback of the client exactly
once, with the payload. -/
theorem C2_framed_round_trip_amended (c : Nat) (p : List Nat) (tx rx : QemudSerial)
    (cl : QemudClient) (chunks : List (List Nat))
    (hc : c ≤ 255) (hp1 : 1 ≤ p.length) (hp2 : p.length ≤ MAX_FRAME_PAYLOAD)
    (hrx : HeaderState rx) (hv : SameOrientation tx.version rx.version)
    (hcl : ClientIdle cl)
    (hB : (qemud_serial_send tx c true p).cs = tx.cs ++ chunks.flatten) :
    ∃ cl1 rx1, qemud_serial_read_chunks recv_client (cl, []) rx chunks
      = some ((cl1, [p]), rx1) := by
  have h0 : p ≠ [] := List.length_pos.mp hp1
  rw [send_framed tx c p h0 (by omega)] at hB
  simp only [List.append_cancel_left_eq, Int.toNat_ofNat] at hB
  rw [read_chunks_join recv_client recv_client_keeps chunks _ rx hrx.good, ← hB]
  obtain ⟨rx1, h1⟩ := read_records_client tx.version c hc
    (mtu_chunks (int2hex FRAME_HEADER_SIZE p.length ++ p)) (cl, []) rx hrx hv
    (mtu_chunks_mem _ _ rfl)
  obtain ⟨cl1, h2, _⟩ := client_feed_framed cl p hcl hp1 hp2
  have e4 : FRAME_HEADER_SIZE = 4 := rfl
  rw [e4] at h1 ⊢
  rw [h2] at h1
  rw [h1]
  exact ⟨cl1, rx1, rfl⟩

/-- Witness of C2 as amended: "hello" framed on channel 3, read in two
chunks. -/
theorem C2_framed_round_trip_amended_witness :
    ∃ cl1 rx1, qemud_serial_read_chunks recv_client (client_idle, [])
        (serial_idle QemudVersion.UNKNOWN) [bytes "0300090", bytes "005hello"]
      = some ((cl1, [bytes "hello"]), rx1) :=
  C2_framed_round_trip_amended 3 (bytes "hello") (serial_idle QemudVersion.NORMAL)
    (serial_idle QemudVersion.UNKNOWN) client_idle [bytes "0300090", bytes "005hello"]
    (by decide) (by decide) (by decide) (serial_idle_header_state _)
    (Or.inr ⟨by decide, Or.inr rfl⟩) client_idle_is_idle
    (by
      have e4 : FRAME_HEADER_SIZE = 4 := rfl
      rw [send_framed _ _ _ (by decide) (by decide), e4, mtu_chunks_framed,
        List.drop_of_length_le (by decide), mtu_chunks_nil]
      decide)

/-! ## The control protocol -/

theorem strchr_name (name rest : List Nat) (hn : NameOk name) :
    strchr 58 (name ++ 58 :: rest) = some name.length := by
  induction name with
  | nil => simp [strchr]
  | cons b t ih =>
    have hb := hn b (List.mem_cons_self _ _)
    have ht : NameOk t := fun x hx => hn x (List.mem_cons_of_mem _ hx)
    simp only [List.cons_append, strchr, hb.1, hb.2, if_false, List.length_cons]
    show (match strchr 58 (t ++ 58 :: rest) with
      | none => none
      | some i => some (i + 1)) = _
    rw [ih ht]

theorem cstr_name (name rest : List Nat) (hn : NameOk name) :
    cstr (name ++ 0 :: rest) = name := by
  induction name with
  | nil => simp [cstr]
  | cons b t ih =>
    have hb := hn b (List.mem_cons_self _ _)
    have ht : NameOk t := fun x hx => hn x (List.mem_cons_of_mem _ hx)
    have := ih ht
    unfold cstr at this ⊢
    simp only [List.cons_append, List.takeWhile_cons, ne_eq, hb.2, not_false_eq_true,
      decide_True, if_true, this]

theorem set_append_cons (a b : List Nat) (x y : Nat) :
    (a ++ x :: b).set a.length y = a ++ y :: b := by
  induction a with
  | nil => rfl
  | cons h t ih => simp [List.set, ih]

theorem hex2int_append_right (hh rest : List Nat) (n : Nat) (h : hh.length = n) :
    hex2int (hh ++ rest) n = hex2int hh n := by
  have := hex2int_drop_append hh rest 0 n (by omega)
  simpa using this

@[simp] theorem store_zero_clients (m : QemudMultiplexer) (q : Nat) :
    (store_zero m q).clients = m.clients := rfl

@[simp] theorem store_zero_services (m : QemudMultiplexer) (q : Nat) :
    (store_zero m q).services = m.services := rfl

@[simp] theorem store_zero_next_addr (m : QemudMultiplexer) (q : Nat) :
    (store_zero m q).next_addr = m.next_addr := rfl

@[simp] theorem store_zero_events (m : QemudMultiplexer) (q : Nat) :
    (store_zero m q).events = m.events := rfl

@[simp] theorem store_zero_cs (m : QemudMultiplexer) (q : Nat) :
    (store_zero m q).serial.cs = m.serial.cs := rfl

@[simp] theorem store_zero_version (m : QemudMultiplexer) (q : Nat) :
    (store_zero m q).serial.version = m.serial.version := rfl

theorem store_zero_data0 (m : QemudMultiplexer) (q : Nat) :
    (store_zero m q).serial.data0 = m.serial.data0.set q 0 := rfl

/-- The function `qemud_multiplexer_connect` does not look at `data0`. -/
theorem connect_store (m : QemudMultiplexer) (q : Nat) (name : List Nat) (channel : Int) :
    qemud_multiplexer_connect (store_zero m q) name channel
      = (store_zero (qemud_multiplexer_connect m name channel).1 q,
          (qemud_multiplexer_connect m name channel).2) := by
  unfold qemud_multiplexer_connect store_zero
  cases hf : m.services.find? (fun sv => sv.name = name) with
  | none => rfl
  | some sv =>
    simp only []
    split_ifs
    · rfl
    · cases sv.serv_connect <;> rfl

/-- The function `qemud_serial_send` does not look at `data0`. -/
theorem send_store (s : QemudSerial) (d : List Nat) (channel : Int) (framing : Bool)
    (msg : List Nat) :
    qemud_serial_send { s with data0 := d } channel framing msg
      = { qemud_serial_send s channel framing msg with data0 := d } := by
  unfold qemud_serial_send
  simp only []
  split_ifs <;> rfl

theorem send_data0 (s : QemudSerial) (channel : Int) (framing : Bool) (msg : List Nat) :
    (qemud_serial_send s channel framing msg).data0 = s.data0 := by
  unfold qemud_serial_send
  simp only []
  split_ifs <;> rfl

/-- A well-formed `connect:` request is handed to
`qemud_multiplexer_connect` and answered; the ':' behind the name has been
overwritten with a zero. -/
theorem control_recv_connect (m : QemudMultiplexer) (name hh : List Nat)
    (hn : NameOk name) (hh2 : hh.length = 2) (hpos : 0 < hex2int hh 2) :
    qemud_multiplexer_control_recv m (connect_msg name hh) =
      store_zero
        { (qemud_multiplexer_connect m name (hex2int hh 2)).1 with
          serial := qemud_serial_send (qemud_multiplexer_connect m name (hex2int hh 2)).1.serial
            0 false
            (connect_reply (qemud_multiplexer_connect m name (hex2int hh 2)).2 (hex2int hh 2)) }
        (8 + name.length) := by
  have h8 : (bytes "connect:").length = 8 := rfl
  have hlen : (connect_msg name hh).length = 8 + name.length + 3 := by
    simp only [connect_msg, List.length_append, List.length_cons, h8, hh2]
  have htake : (connect_msg name hh).take 8 = bytes "connect:" := by
    unfold connect_msg
    rw [List.append_assoc, List.take_left' h8]
  have hdrop : (connect_msg name hh ++ [0]).drop 8 = name ++ 58 :: (hh ++ [0]) := by
    unfold connect_msg
    rw [List.append_assoc, List.append_assoc, List.drop_left' h8]
    simp
  have hset : (connect_msg name hh ++ [0]).set (8 + name.length) 0
      = (bytes "connect:" ++ name) ++ 0 :: (hh ++ [0]) := by
    have := set_append_cons (bytes "connect:" ++ name) (hh ++ [0]) 58 0
    rw [List.length_append, h8] at this
    rw [← this]
    unfold connect_msg
    simp
  have hname : cstr (((connect_msg name hh ++ [0]).set (8 + name.length) 0).drop 8) = name := by
    rw [hset, List.append_assoc, List.drop_left' h8]
    exact cstr_name name _ hn
  have hchan : hex2int (((connect_msg name hh ++ [0]).set (8 + name.length) 0).drop
      (8 + name.length + 1)) 2 = hex2int hh 2 := by
    rw [hset]
    have hl : (bytes "connect:" ++ name ++ [0]).length = 8 + name.length + 1 := by
      simp only [List.length_append, h8, List.length_singleton]
    have : bytes "connect:" ++ name ++ 0 :: (hh ++ [0])
        = (bytes "connect:" ++ name ++ [0]) ++ (hh ++ [0]) := by simp
    rw [this, List.drop_left' hl]
    exact hex2int_append_right hh [0] 2 hh2
  have key := connect_store m (8 + name.length) name (hex2int hh 2)
  unfold qemud_multiplexer_control_recv
  simp only [hlen, htake, hdrop, strchr_name name _ hn]
  rw [if_pos ⟨by omega, trivial⟩]
  simp only [ne_eq, not_true_eq_false, if_false, hname, hchan]
  rw [if_neg (by omega)]
  unfold store_zero at key ⊢
  rw [key]
  simp only []
  rw [send_store]
  simp only [send_data0]
  rfl

set_option maxRecDepth 100000 in
theorem fmt_02x_eq : ∀ h, h < 256 → fmt_02x h = int2hex 2 h := by
  decide

/-- An unframed send of a message that fits one packet. -/
theorem send_one_record (s : QemudSerial) (channel : Nat) (msg : List Nat)
    (h1 : 1 ≤ msg.length) (h2 : msg.length ≤ MAX_SERIAL_PAYLOAD) :
    qemud_serial_send s channel false msg
      = { s with cs := s.cs ++ (serial_header s.version msg.length channel ++ msg) } := by
  rw [send_unframed s channel msg (List.length_pos.mp h1) (by omega),
    mtu_chunks_single msg h1 h2]
  simp only [List.flatMap_cons, List.flatMap_nil, List.append_nil, wire_record,
    Int.toNat_ofNat]

theorem bufprint_short (cap : Nat) (text : List Nat) (h : text.length < cap) :
    bufprint cap text = text := by
  unfold bufprint
  exact List.take_of_length_le (by omega)

/-- The three replies to a `connect:` request for a channel in [1,255]. -/
theorem connect_reply_ok (h : Nat) (h255 : h ≤ 255) :
    connect_reply 0 h = bytes "ok:connect:" ++ int2hex 2 h := by
  unfold connect_reply
  rw [if_neg (by decide), Int.toNat_ofNat, fmt_02x_eq h (by omega),
    bufprint_short _ _ (by simp [int2hex_length]; decide)]

theorem connect_reply_unknown (h : Nat) (h255 : h ≤ 255) :
    connect_reply (-1) h = bytes "ko:connect:" ++ int2hex 2 h ++ bytes ":unknown service" := by
  unfold connect_reply
  rw [if_pos (by decide), if_pos rfl, Int.toNat_ofNat, fmt_02x_eq h (by omega),
    bufprint_short _ _ (by simp [int2hex_length]; decide)]

theorem connect_reply_busy (h : Nat) (h255 : h ≤ 255) :
    connect_reply (-2) h = bytes "ko:connect:" ++ int2hex 2 h ++ bytes ":service busy" := by
  unfold connect_reply
  rw [if_pos (by decide), if_neg (by decide), Int.toNat_ofNat, fmt_02x_eq h (by omega),
    bufprint_short _ _ (by simp [int2hex_length]; decide)]

theorem update_client_fresh (a : Nat) (f : QemudClient → QemudClient) (l : List QemudClient)
    (h : ∀ x ∈ l, x.addr ≠ a) : update_client a f l = l := by
  unfold update_client
  induction l with
  | nil => rfl
  | cons x t ih =>
    have hx := h x (List.mem_cons_self _ _)
    have ht : ∀ y ∈ t, y.addr ≠ a := fun y hy => h y (List.mem_cons_of_mem _ hy)
    simp only [List.map_cons, hx, if_false, ih ht]

/-- The service a name stands for is still the one the registry finds under
that name after an assignment through its address, and it is the updated
object. -/
theorem find_update_service (l : List QemudService) (name : List Nat) (sv : QemudService)
    (f : QemudService → QemudService) (hf : ∀ s, (f s).name = s.name)
    (h : l.find? (fun s => s.name = name) = some sv) :
    (update_service sv.addr f l).find? (fun s => s.name = name) = some (f sv) := by
  unfold update_service
  induction l with
  | nil => simp at h
  | cons x t ih =>
    simp only [List.find?_cons] at h
    by_cases hx : x.name = name
    · simp only [hx, decide_True] at h
      cases h
      simp only [List.map_cons, if_true, List.find?_cons, hf, hx, decide_True]
    · simp only [hx, decide_False] at h
      simp only [List.map_cons, List.find?_cons]
      have : (if x.addr = sv.addr then f x else x).name = x.name := by
        split_ifs
        · exact hf x
        · rfl
      simp only [this, hx, decide_False]
      exact ih h

/-- What `qemud_multiplexer_connect` does when the service found has room and
its callback accepts. -/
theorem connect_accept (m : QemudMultiplexer) (sv : QemudService) (name : List Nat)
    (channel : Int) (o : Nat) (r : QemudClientRecv) (cl : Bool)
    (hfind : m.services.find? (fun s => s.name = name) = some sv)
    (hcap : ¬ (sv.max_clients > 0 ∧ sv.num_clients ≥ sv.max_clients))
    (hcb : sv.serv_connect = QemudServiceConnect.accept o r cl)
    (hfresh : ∀ x ∈ m.clients, x.addr ≠ m.next_addr) :
    qemud_multiplexer_connect m name channel =
      ({ m with
          clients :=
            { addr := m.next_addr, channel := channel, clie_opaque := o, clie_recv := r,
              clie_close := cl, service := some sv.addr, framing := false, need_header := true,
              header := { len := 0, size := FRAME_HEADER_SIZE },
              header0 := List.replicate FRAME_HEADER_SIZE 0,
              payload := { len := 0, size := 0 }, payload_buff := [] } :: m.clients
          services := update_service sv.addr
            (fun s => { s with clients := m.next_addr :: s.clients,
                               num_clients := s.num_clients + 1 }) m.services
          next_addr := m.next_addr + 1
          events := m.events ++ [QemudEvent.connect sv.serv_opaque sv.addr channel] }, 0) := by
  unfold qemud_multiplexer_connect
  rw [hfind]
  simp only [hcap, if_false, hcb]
  unfold qemud_client_new qemud_client_alloc qemud_service_add_client qemud_client_prepend
  simp only [update_client, List.map_cons, if_true]
  have := update_client_fresh m.next_addr (fun x => { x with service := some sv.addr })
    m.clients hfresh
  unfold update_client at this
  rw [this]

/-- C7. Connect success: for the service registered under a name without ':'
and zero byte, with room (max_clients = 0 or num_clients < max_clients) and a
connect callback that accepts through `qemud_client_new`, and a channel id h
in [1,255] written as two hex digits, the control message
"connect:<name>:<hh>" handled with version not LEGACY writes exactly the
record "00000d" "ok:connect:" hex2(h) (a payload of 13 bytes on channel 0),
calls the connect callback once, puts a new client with channel id h at the
head of the global list and of the list of the service, and adds 1 to the
num_clients of the service. -/
theorem C7_connect_success (m : QemudMultiplexer) (sv : QemudService) (name hh : List Nat)
    (h o : Nat) (r : QemudClientRecv) (cl : Bool)
    (hn : NameOk name)
    (hfind : m.services.find? (fun s => s.name = name) = some sv)
    (hcap : sv.max_clients = 0 ∨ sv.num_clients < sv.max_clients)
    (hcb : sv.serv_connect = QemudServiceConnect.accept o r cl)
    (hh2 : hh.length = 2) (hhex : hex2int hh 2 = (h : Int)) (h1 : 1 ≤ h) (h255 : h ≤ 255)
    (hver : m.serial.version ≠ QemudVersion.LEGACY)
    (hfresh : ∀ x ∈ m.clients, x.addr ≠ m.next_addr) :
    ∃ c : QemudClient,
      (qemud_multiplexer_control_recv m (connect_msg name hh)).serial.cs
        = m.serial.cs ++ (bytes "00000d" ++ (bytes "ok:connect:" ++ int2hex 2 h))
      ∧ (bytes "ok:connect:" ++ int2hex 2 h).length = 13
      ∧ (qemud_multiplexer_control_recv m (connect_msg name hh)).clients = c :: m.clients
      ∧ c.channel = (h : Int) ∧ c.service = some sv.addr
      ∧ (qemud_multiplexer_control_recv m (connect_msg name hh)).services.find?
          (fun s => s.name = name)
        = some { sv with clients := c.addr :: sv.clients, num_clients := sv.num_clients + 1 }
      ∧ (qemud_multiplexer_control_recv m (connect_msg name hh)).events
        = m.events ++ [QemudEvent.connect sv.serv_opaque sv.addr h] := by
  have hcap2 : ¬ (sv.max_clients > 0 ∧ sv.num_clients ≥ sv.max_clients) := by
    rcases hcap with h0 | h0 <;> omega
  have hl : (bytes "ok:connect:" ++ int2hex 2 h).length = 13 := by
    simp only [List.length_append, int2hex_length]; rfl
  rw [control_recv_connect m name hh hn hh2 (by rw [hhex]; omega), hhex,
    connect_accept m sv name h o r cl hfind hcap2 hcb hfresh]
  rw [connect_reply_ok h h255]
  have hsend := send_one_record m.serial 0 (bytes "ok:connect:" ++ int2hex 2 h)
    (by rw [hl]; decide) (by rw [hl]; decide)
  rw [Nat.cast_zero] at hsend
  rw [hsend]
  refine ⟨{ addr := m.next_addr, channel := h, clie_opaque := o, clie_recv := r,
            clie_close := cl, service := some sv.addr, framing := false, need_header := true,
            header := { len := 0, size := FRAME_HEADER_SIZE },
            header0 := List.replicate FRAME_HEADER_SIZE 0,
            payload := { len := 0, size := 0 }, payload_buff := [] },
    ?_, hl, rfl, rfl, rfl, ?_, rfl⟩
  · simp only [hl, serial_header, hver, if_false]
    rfl
  · exact find_update_service m.services name sv _ (fun _ => rfl) hfind

theorem find_none_of_names (l : List QemudService) (name : List Nat)
    (h : ∀ s ∈ l, s.name ≠ name) : l.find? (fun s => s.name = name) = none := by
  rw [List.find?_eq_none]
  intro s hs
  simpa using h s hs

theorem unknown_reply_length (h : Nat) :
    (bytes "ko:connect:" ++ int2hex 2 h ++ bytes ":unknown service").length = 29 := by
  simp only [List.length_append, int2hex_length]; rfl

/-- C8. Connect to an unknown service: for a name without ':' and zero byte
that no registered service has, and a channel id h in [1,255] written as two
hex digits, the control message "connect:<name>:<hh>" writes exactly one
record on channel 0 with payload "ko:connect:" hex2(h) ":unknown service"; no
callback is called, no client is created, the global client list and the
services are as before. The only other change is in the message itself, in
`data0`: the ':' behind the name has been overwritten with the zero that ends
the name. The same record is written when the service exists and has room but
its connect callback returns NULL; the client list and the services are
unchanged then too. -/
theorem C8_connect_unknown_service (m : QemudMultiplexer) (name hh : List Nat) (h : Nat)
    (hn : NameOk name) (hh2 : hh.length = 2) (hhex : hex2int hh 2 = (h : Int))
    (h1 : 1 ≤ h) (h255 : h ≤ 255) :
    ((∀ s ∈ m.services, s.name ≠ name) →
      qemud_multiplexer_control_recv m (connect_msg name hh)
        = { m with serial := { m.serial with
              cs := m.serial.cs ++
                (serial_header m.serial.version 29 0
                  ++ (bytes "ko:connect:" ++ int2hex 2 h ++ bytes ":unknown service"))
              data0 := m.serial.data0.set (8 + name.length) 0 } })
    ∧ (∀ sv, m.services.find? (fun s => s.name = name) = some sv →
        (sv.max_clients = 0 ∨ sv.num_clients < sv.max_clients) →
        sv.serv_connect = QemudServiceConnect.refuse →
        (qemud_multiplexer_control_recv m (connect_msg name hh)).serial.cs
            = m.serial.cs ++ (serial_header m.serial.version 29 0
                ++ (bytes "ko:connect:" ++ int2hex 2 h ++ bytes ":unknown service"))
          ∧ (qemud_multiplexer_control_recv m (connect_msg name hh)).clients = m.clients
          ∧ (qemud_multiplexer_control_recv m (connect_msg name hh)).services = m.services) := by
  have hl := unknown_reply_length h
  have hsend := fun s : QemudSerial => send_one_record s 0
    (bytes "ko:connect:" ++ int2hex 2 h ++ bytes ":unknown service")
    (by rw [hl]; decide) (by rw [hl]; decide)
  simp only [Nat.cast_zero, hl] at hsend
  constructor
  · intro hnone
    have hfind := find_none_of_names m.services name hnone
    have hc : qemud_multiplexer_connect m name h = (m, -1) := by
      unfold qemud_multiplexer_connect
      rw [hfind]
    rw [control_recv_connect m name hh hn hh2 (by rw [hhex]; omega), hhex, hc]
    simp only
    rw [connect_reply_unknown h h255, hsend]
    rfl
  · intro sv hfind hcap hcb
    have hcap2 : ¬ (sv.max_clients > 0 ∧ sv.num_clients ≥ sv.max_clients) := by
      rcases hcap with h0 | h0 <;> omega
    have hc : qemud_multiplexer_connect m name h
        = ({ m with events := m.events ++ [QemudEvent.connect sv.serv_opaque sv.addr h] }, -1) := by
      unfold qemud_multiplexer_connect
      rw [hfind]
      simp only [hcap2, if_false, hcb]
    rw [control_recv_connect m name hh hn hh2 (by rw [hhex]; omega), hhex, hc]
    simp only
    rw [connect_reply_unknown h h255, hsend]
    exact ⟨rfl, rfl, rfl⟩

/-- A well-formed `disconnect:` message is handed to
`qemud_multiplexer_disconnect`. -/
theorem control_recv_disconnect (m : QemudMultiplexer) (hh : List Nat)
    (hh2 : hh.length = 2) (hpos : 0 < hex2int hh 2) :
    qemud_multiplexer_control_recv m (disconnect_msg hh)
      = qemud_multiplexer_disconnect m (hex2int hh 2) := by
  have h11 : (bytes "disconnect:").length = 11 := rfl
  have hlen : (disconnect_msg hh).length = 13 := by
    simp only [disconnect_msg, List.length_append, h11, hh2]
  have ht8 : (disconnect_msg hh).take 8 ≠ bytes "connect:" := by
    unfold disconnect_msg
    rw [List.take_append_of_le_length (by rw [h11]; decide)]
    decide
  have ht11 : (disconnect_msg hh).take 11 = bytes "disconnect:" := by
    unfold disconnect_msg
    exact List.take_left' h11
  have hd11 : (disconnect_msg hh).drop 11 = hh := by
    unfold disconnect_msg
    exact List.drop_left' h11
  unfold qemud_multiplexer_control_recv
  simp only [hlen, ht8, and_false, if_false, ht11, and_self, if_true, hd11]
  rw [if_neg (by omega)]

theorem remove_node_mem (c : Nat) (l : List Nat) (h : c ∈ l) :
    remove_node c l = some (l.erase c) := by
  induction l with
  | nil => simp at h
  | cons x t ih =>
    by_cases hx : x = c
    · subst hx
      simp [remove_node]
    · have ht : c ∈ t := by
        rcases List.mem_cons.mp h with h1 | h1
        · exact absurd h1.symm hx
        · exact h1
      simp only [remove_node, hx, if_false, ih ht]
      rw [List.erase_cons_tail]
      simpa using hx

/-- Unlinking the first client found by a search removes exactly that one when
no two clients share an address. -/
theorem unlink_found (p : QemudClient → Bool) (l : List QemudClient) (c : QemudClient)
    (hfind : l.find? p = some c) (hnd : (l.map (fun x => x.addr)).Nodup) :
    ∃ pre post, l = pre ++ c :: post ∧ (∀ x ∈ pre, p x = false)
      ∧ unlink_client c.addr l = pre ++ post := by
  induction l with
  | nil => simp at hfind
  | cons x t ih =>
    simp only [List.map_cons, List.nodup_cons, List.mem_map, not_exists, not_and] at hnd
    simp only [List.find?_cons] at hfind
    cases hp : p x with
    | true =>
      rw [hp] at hfind
      cases hfind
      exact ⟨[], t, rfl, by simp, by simp [unlink_client]⟩
    | false =>
      rw [hp] at hfind
      obtain ⟨pre, post, h1, h2, h3⟩ := ih hfind hnd.2
      have hc : c ∈ t := by rw [h1]; simp
      have hne : x.addr ≠ c.addr := fun he => hnd.1 c hc he.symm
      refine ⟨x :: pre, post, by rw [h1]; rfl, ?_, ?_⟩
      · intro y hy
        rcases List.mem_cons.mp hy with h | h
        · rw [h]; exact hp
        · exact h2 y h
      · simp only [unlink_client, hne, if_false, h3, List.cons_append]

/-- C10. Peer disconnect: for a channel id h in [1,255] written as two hex
digits, the 13-byte control message "disconnect:<hh>", when the global list
holds a client with channel id h, removes the first such client from the
global list, removes it from the client list of its service and subtracts 1
from the num_clients of that service, calls its close callback once (if it
has one) and writes nothing to the transport; the other clients and services
are unchanged. When no client has channel id h, the multiplexer is
unchanged. -/
theorem C10_peer_disconnect (m : QemudMultiplexer) (hh : List Nat) (h : Nat)
    (hh2 : hh.length = 2) (hhex : hex2int hh 2 = (h : Int)) (h1 : 1 ≤ h) (h255 : h ≤ 255) :
    (disconnect_msg hh).length = 13
    ∧ (∀ c, m.clients.find? (fun x => x.channel = (h : Int)) = some c →
        (m.clients.map (fun x => x.addr)).Nodup →
        (∀ a, c.service = some a → ∀ s ∈ m.services, s.addr = a → c.addr ∈ s.clients) →
        (∃ pre post, m.clients = pre ++ c :: post ∧ (∀ x ∈ pre, x.channel ≠ (h : Int))
          ∧ (qemud_multiplexer_control_recv m (disconnect_msg hh)).clients = pre ++ post)
        ∧ (qemud_multiplexer_control_recv m (disconnect_msg hh)).serial = m.serial
        ∧ (qemud_multiplexer_control_recv m (disconnect_msg hh)).events
          = m.events ++ (if c.clie_close then [QemudEvent.close c.clie_opaque] else [])
        ∧ (qemud_multiplexer_control_recv m (disconnect_msg hh)).services
          = (match c.service with
            | none => m.services
            | some a => m.services.map (fun s =>
                if s.addr = a then
                  { s with clients := s.clients.erase c.addr, num_clients := s.num_clients - 1 }
                else s)))
    ∧ (m.clients.find? (fun x => x.channel = (h : Int)) = none →
        qemud_multiplexer_control_recv m (disconnect_msg hh) = m) := by
  have hrecv := control_recv_disconnect m hh hh2 (by rw [hhex]; omega)
  rw [hhex] at hrecv
  refine ⟨?_, ?_, ?_⟩
  · simp only [disconnect_msg, List.length_append, hh2]; rfl
  · intro c hfind hnd hsvc
    rw [hrecv]
    unfold qemud_multiplexer_disconnect
    rw [hfind]
    unfold qemud_client_disconnect qemud_client_remove
    simp only [gt_iff_lt, Int.reduceNeg, Int.reduceLT, if_false]
    obtain ⟨pre, post, hl, hpre, hun⟩ := unlink_found _ m.clients c hfind hnd
    refine ⟨⟨pre, post, hl, ?_, ?_⟩, ?_, ?_, ?_⟩
    · intro x hx
      simpa using hpre x hx
    · cases hs : c.service <;> cases hcl : c.clie_close <;> simp [hun]
    · cases hs : c.service <;> cases hcl : c.clie_close <;> simp
    · cases hs : c.service <;> cases hcl : c.clie_close <;> simp
    · cases hs : c.service with
      | none => cases hcl : c.clie_close <;> simp
      | some a =>
        have hupd : update_service a (fun s => qemud_service_remove_client s c.addr) m.services
            = m.services.map (fun s =>
                if s.addr = a then
                  { s with clients := s.clients.erase c.addr, num_clients := s.num_clients - 1 }
                else s) := by
          unfold update_service
          apply List.map_congr_left
          intro s hsmem
          by_cases ha : s.addr = a
          · rw [if_pos ha, if_pos ha]
            unfold qemud_service_remove_client
            simp only [remove_node_mem _ _ (hsvc a hs s hsmem ha)]
          · rw [if_neg ha, if_neg ha]
        cases hcl : c.clie_close <;> simp [hupd]
  · intro hnone
    rw [hrecv]
    unfold qemud_multiplexer_disconnect
    rw [hnone]

/-- An accepted `connect:` request. -/
theorem control_recv_accept (m : QemudMultiplexer) (sv : QemudService) (name hh : List Nat)
    (o : Nat) (r : QemudClientRecv) (cl : Bool)
    (hn : NameOk name) (hc : ChannelOk hh)
    (hfind : m.services.find? (fun s => s.name = name) = some sv)
    (hcap : ¬ (sv.max_clients > 0 ∧ sv.num_clients ≥ sv.max_clients))
    (hcb : sv.serv_connect = QemudServiceConnect.accept o r cl)
    (hfresh : ∀ x ∈ m.clients, x.addr ≠ m.next_addr) :
    qemud_multiplexer_control_recv m (connect_msg name hh) =
      store_zero
      { serial := { m.serial with cs := m.serial.cs ++ (wire_record m.serial.version 0
                      (bytes "ok:connect:" ++ int2hex 2 (hex2int hh 2).toNat)) }
        clients :=
          { addr := m.next_addr, channel := hex2int hh 2, clie_opaque := o, clie_recv := r,
            clie_close := cl, service := some sv.addr, framing := false, need_header := true,
            header := { len := 0, size := FRAME_HEADER_SIZE },
            header0 := List.replicate FRAME_HEADER_SIZE 0,
            payload := { len := 0, size := 0 }, payload_buff := [] } :: m.clients
        services := update_service sv.addr
          (fun s => { s with clients := m.next_addr :: s.clients,
                             num_clients := s.num_clients + 1 }) m.services
        next_addr := m.next_addr + 1
        events := m.events ++ [QemudEvent.connect sv.serv_opaque sv.addr (hex2int hh 2)] }
      (8 + name.length) := by
  obtain ⟨hh2, hlo, hhi⟩ := hc
  have hcast : ((hex2int hh 2).toNat : Int) = hex2int hh 2 := Int.toNat_of_nonneg (by omega)
  have hl : (bytes "ok:connect:" ++ int2hex 2 (hex2int hh 2).toNat).length = 13 := by
    simp only [List.length_append, int2hex_length]; rfl
  rw [control_recv_connect m name hh hn hh2 (by omega),
    connect_accept m sv name _ o r cl hfind hcap hcb hfresh]
  simp only
  have hrep := connect_reply_ok (hex2int hh 2).toNat (by omega)
  rw [hcast] at hrep
  rw [hrep]
  have hsend := send_one_record m.serial 0
    (bytes "ok:connect:" ++ int2hex 2 (hex2int hh 2).toNat) (by rw [hl]; decide)
    (by rw [hl]; decide)
  rw [Nat.cast_zero] at hsend
  rw [hsend]
  rfl

/-- A `connect:` request to a service that is full. -/
theorem control_recv_busy (m : QemudMultiplexer) (sv : QemudService) (name hh : List Nat)
    (hn : NameOk name) (hc : ChannelOk hh)
    (hfind : m.services.find? (fun s => s.name = name) = some sv)
    (hfull : sv.max_clients > 0 ∧ sv.num_clients ≥ sv.max_clients) :
    qemud_multiplexer_control_recv m (connect_msg name hh) =
      store_zero
      { m with serial := { m.serial with cs := m.serial.cs ++ (wire_record m.serial.version 0
          (bytes "ko:connect:" ++ int2hex 2 (hex2int hh 2).toNat ++ bytes ":service busy")) } }
      (8 + name.length) := by
  obtain ⟨hh2, hlo, hhi⟩ := hc
  have hcast : ((hex2int hh 2).toNat : Int) = hex2int hh 2 := Int.toNat_of_nonneg (by omega)
  have hl : (bytes "ko:connect:" ++ int2hex 2 (hex2int hh 2).toNat
      ++ bytes ":service busy").length = 26 := by
    simp only [List.length_append, int2hex_length]; rfl
  have hcon : qemud_multiplexer_connect m name (hex2int hh 2) = (m, -2) := by
    unfold qemud_multiplexer_connect
    rw [hfind]
    simp only [hfull, and_self, if_true]
  rw [control_recv_connect m name hh hn hh2 (by omega), hcon]
  simp only
  have hrep := connect_reply_busy (hex2int hh 2).toNat (by omega)
  rw [hcast] at hrep
  rw [hrep]
  have hsend := send_one_record m.serial 0
    (bytes "ko:connect:" ++ int2hex 2 (hex2int hh 2).toNat ++ bytes ":service busy")
    (by rw [hl]; decide) (by rw [hl]; decide)
  rw [Nat.cast_zero] at hsend
  rw [hsend]
  rfl

/-- A run of `connect:` requests for one service with a cap: what is written,
how many clients the service has, and how many clients there are. -/
theorem capacity_run (name : List Nat) (k : Nat) (o : Nat) (r : QemudClientRecv) (cl : Bool)
    (hn : NameOk name) (hk : 0 < k) (hhs : List (List Nat)) :
    ∀ (m : QemudMultiplexer) (sv : QemudService) (j : Nat),
      m.services.find? (fun s => s.name = name) = some sv →
      sv.max_clients = (k : Int) → sv.num_clients = (j : Int) → j ≤ k →
      sv.serv_connect = QemudServiceConnect.accept o r cl →
      (∀ x ∈ m.clients, x.addr < m.next_addr) →
      (∀ hh ∈ hhs, ChannelOk hh) →
      (connect_all m name hhs).serial.cs
          = m.serial.cs ++ capacity_replies m.serial.version (k - j) hhs
        ∧ (∃ sv1, (connect_all m name hhs).services.find? (fun s => s.name = name) = some sv1
            ∧ sv1.num_clients = ((min k (j + hhs.length) : Nat) : Int)
            ∧ sv1.max_clients = (k : Int))
        ∧ (connect_all m name hhs).clients.length
            = m.clients.length + min (k - j) hhs.length := by
  induction hhs with
  | nil =>
    intro m sv j hfind hmax hnum hj _ _ _
    refine ⟨by simp [connect_all, capacity_replies], ⟨sv, hfind, ?_, hmax⟩, by simp [connect_all]⟩
    rw [hnum, List.length_nil, Nat.add_zero, min_eq_right hj]
  | cons hh rest ih =>
    intro m sv j hfind hmax hnum hj hcb hfresh hch
    have hc := hch hh (List.mem_cons_self _ _)
    have hrest : ∀ x ∈ rest, ChannelOk x := fun x hx => hch x (List.mem_cons_of_mem _ hx)
    simp only [connect_all]
    by_cases hroom : j < k
    · have hcap : ¬ (sv.max_clients > 0 ∧ sv.num_clients ≥ sv.max_clients) := by
        rw [hmax, hnum]; omega
      have hfr : ∀ x ∈ m.clients, x.addr ≠ m.next_addr := fun x hx =>
        Nat.ne_of_lt (hfresh x hx)
      have hm1 := control_recv_accept m sv name hh o r cl hn hc hfind hcap hcb hfr
      generalize qemud_multiplexer_control_recv m (connect_msg name hh) = m1 at hm1 ⊢
      have hfind1 : m1.services.find? (fun s => s.name = name)
          = some { sv with clients := m.next_addr :: sv.clients,
                           num_clients := sv.num_clients + 1 } := by
        rw [hm1]
        exact find_update_service m.services name sv
          (fun s => { s with clients := m.next_addr :: s.clients,
                             num_clients := s.num_clients + 1 }) (fun _ => rfl) hfind
      have hfresh1 : ∀ x ∈ m1.clients, x.addr < m1.next_addr := by
        rw [hm1]
        intro x hx
        rcases List.mem_cons.mp hx with hx | hx
        · rw [hx]; exact Nat.lt_succ_self _
        · exact Nat.lt_succ_of_lt (hfresh x hx)
      have hcs1 : m1.serial.cs = m.serial.cs ++ wire_record m.serial.version 0
          (bytes "ok:connect:" ++ int2hex 2 (hex2int hh 2).toNat) := by rw [hm1]; rfl
      have hv1 : m1.serial.version = m.serial.version := by rw [hm1]; rfl
      have hlen1 : m1.clients.length = m.clients.length + 1 := by rw [hm1]; rfl
      obtain ⟨h1, ⟨sv1, h2, h3, h4⟩, h5⟩ := ih m1
        { sv with clients := m.next_addr :: sv.clients, num_clients := sv.num_clients + 1 }
        (j + 1) hfind1 hmax
        (by show sv.num_clients + 1 = ((j + 1 : Nat) : Int); rw [hnum]; push_cast; rfl)
        (by omega) hcb hfresh1 hrest
      refine ⟨?_, ⟨sv1, h2, ?_, h4⟩, ?_⟩
      · rw [h1, hcs1, hv1]
        obtain ⟨d, hd⟩ : ∃ d, k - j = d + 1 := ⟨k - j - 1, by omega⟩
        have hd2 : k - (j + 1) = d := by omega
        rw [hd, hd2]
        simp only [capacity_replies, List.append_assoc]
      · rw [h3, List.length_cons]
        congr 2
        omega
      · rw [h5, hlen1]
        simp only [List.length_cons]
        omega
    · have hjk : j = k := by omega
      have hfull : sv.max_clients > 0 ∧ sv.num_clients ≥ sv.max_clients := by
        rw [hmax, hnum]; omega
      rw [control_recv_busy m sv name hh hn hc hfind hfull]
      obtain ⟨h1, ⟨sv1, h2, h3, h4⟩, h5⟩ := ih
        (store_zero
          { m with serial := { m.serial with cs := m.serial.cs ++ (wire_record m.serial.version 0
            (bytes "ko:connect:" ++ int2hex 2 (hex2int hh 2).toNat ++ bytes ":service busy")) } }
          (8 + name.length))
        sv j hfind hmax hnum hj hcb hfresh hrest
      refine ⟨?_, ⟨sv1, h2, ?_, h4⟩, ?_⟩
      · rw [h1]
        have hz : k - j = 0 := by omega
        rw [hz]
        simp only [capacity_replies, List.append_assoc, store_zero_cs, store_zero_version]
      · rw [h3, List.length_cons]
        congr 1
        omega
      · rw [h5]
        simp only [List.length_cons, store_zero_clients]
        omega

/-- Closing a client of a full service makes room for one. -/
theorem close_makes_room (m : QemudMultiplexer) (sv : QemudService) (name : List Nat)
    (c : QemudClient)
    (hfind : m.services.find? (fun s => s.name = name) = some sv)
    (hsvc : c.service = some sv.addr) (hmem : c.addr ∈ sv.clients)
    (hfresh : ∀ x ∈ m.clients, x.addr < m.next_addr) :
    (qemud_client_close m c).services.find? (fun s => s.name = name)
        = some { sv with clients := sv.clients.erase c.addr,
                         num_clients := sv.num_clients - 1 }
      ∧ (∀ x ∈ (qemud_client_close m c).clients, x.addr < (qemud_client_close m c).next_addr)
      ∧ (qemud_client_close m c).serial.version = m.serial.version := by
  have hsub : ∀ (a : Nat) (l : List QemudClient), ∀ x ∈ unlink_client a l, x ∈ l := by
    intro a l
    induction l with
    | nil => intro x hx; simp [unlink_client] at hx
    | cons y t ih =>
      intro x hx
      simp only [unlink_client] at hx
      split_ifs at hx
      · exact List.mem_cons_of_mem _ hx
      · rcases List.mem_cons.mp hx with h | h
        · rw [h]; exact List.mem_cons_self _ _
        · exact List.mem_cons_of_mem _ (ih x h)
  have hver : ∀ (s : QemudSerial) (ch : Int) (msg : List Nat),
      (qemud_serial_send s ch false msg).version = s.version := by
    intro s ch msg
    unfold qemud_serial_send
    simp only
    split_ifs <;> rfl
  have hf := find_update_service m.services name sv
    (fun s => qemud_service_remove_client s c.addr)
    (by
      intro s
      show (qemud_service_remove_client s c.addr).name = s.name
      unfold qemud_service_remove_client
      split <;> rfl)
    hfind
  have hrem : qemud_service_remove_client sv c.addr
      = { sv with clients := sv.clients.erase c.addr, num_clients := sv.num_clients - 1 } := by
    unfold qemud_service_remove_client
    simp only [remove_node_mem _ _ hmem]
  simp only [hrem] at hf
  unfold qemud_client_close qemud_client_disconnect qemud_client_remove
  rw [hsvc]
  refine ⟨?_, ?_, ?_⟩
  · cases hcl : c.clie_close <;> by_cases h1 : c.channel > 0 <;> simp [h1, hf]
  · intro x hx
    have hx1 : x ∈ unlink_client c.addr m.clients := by
      cases hcl : c.clie_close <;> by_cases h1 : c.channel > 0 <;>
        simp [hcl, h1] at hx <;> exact hx
    have := hfresh x (hsub _ _ x hx1)
    cases hcl : c.clie_close <;> by_cases h1 : c.channel > 0 <;> simp [h1] <;> exact this
  · cases hcl : c.clie_close <;> by_cases h1 : c.channel > 0 <;> simp [h1, hver]

/-- C9. Service capacity: for a service with max_clients = k > 0 that has j
clients and whose connect callback accepts through `qemud_client_new`, in a
run of well-formed "connect:" requests for it (no disconnect or close in
between) the first k - j requests (the first k for a service without clients)
are answered "ok:connect:<hh>" and every later one "ko:connect:<hh>:service
busy" without creating a client; the service then has min(k, j + number of
requests) clients, never more than max_clients. When the service is full, a
request is answered "service busy", and after `qemud_client_close` of one of
its clients the next request is answered "ok:connect:<hh>" again. -/
theorem C9_service_capacity (m : QemudMultiplexer) (sv : QemudService) (name : List Nat)
    (k j o : Nat) (r : QemudClientRecv) (cl : Bool)
    (hn : NameOk name)
    (hfind : m.services.find? (fun s => s.name = name) = some sv)
    (hmax : sv.max_clients = (k : Int)) (hk : 0 < k)
    (hnum : sv.num_clients = (j : Int)) (hj : j ≤ k)
    (hcb : sv.serv_connect = QemudServiceConnect.accept o r cl)
    (hfresh : ∀ x ∈ m.clients, x.addr < m.next_addr) :
    (∀ hhs : List (List Nat), (∀ hh ∈ hhs, ChannelOk hh) →
      (connect_all m name hhs).serial.cs
          = m.serial.cs ++ capacity_replies m.serial.version (k - j) hhs
        ∧ (∃ sv1, (connect_all m name hhs).services.find? (fun s => s.name = name) = some sv1
            ∧ sv1.num_clients = ((min k (j + hhs.length) : Nat) : Int)
            ∧ sv1.num_clients ≤ sv1.max_clients)
        ∧ (connect_all m name hhs).clients.length
            = m.clients.length + min (k - j) hhs.length)
    ∧ (∀ (c : QemudClient) (hh : List Nat), j = k → c ∈ m.clients →
        c.service = some sv.addr → c.addr ∈ sv.clients → ChannelOk hh →
        (qemud_multiplexer_control_recv m (connect_msg name hh)).serial.cs
            = m.serial.cs ++ wire_record m.serial.version 0
                (bytes "ko:connect:" ++ int2hex 2 (hex2int hh 2).toNat ++ bytes ":service busy")
          ∧ (qemud_multiplexer_control_recv m (connect_msg name hh)).clients = m.clients
          ∧ (qemud_multiplexer_control_recv (qemud_client_close m c) (connect_msg name hh)).serial.cs
            = (qemud_client_close m c).serial.cs ++ wire_record m.serial.version 0
                (bytes "ok:connect:" ++ int2hex 2 (hex2int hh 2).toNat)
          ∧ (∃ sv2, (qemud_multiplexer_control_recv (qemud_client_close m c)
                (connect_msg name hh)).services.find? (fun s => s.name = name) = some sv2
              ∧ sv2.num_clients = (k : Int))) := by
  constructor
  · intro hhs hch
    obtain ⟨h1, ⟨sv1, h2, h3, h4⟩, h5⟩ :=
      capacity_run name k o r cl hn hk hhs m sv j hfind hmax hnum hj hcb hfresh hch
    refine ⟨h1, ⟨sv1, h2, h3, ?_⟩, h5⟩
    rw [h3, h4]
    have : min k (j + hhs.length) ≤ k := min_le_left _ _
    exact_mod_cast this
  · intro c hh hjk _ hsvc hmem hc
    have hfull : sv.max_clients > 0 ∧ sv.num_clients ≥ sv.max_clients := by
      rw [hmax, hnum]; omega
    obtain ⟨hf2, hfresh2, hv2⟩ := close_makes_room m sv name c hfind hsvc hmem hfresh
    have hsv2 : ∃ sv2 : QemudService,
        (qemud_client_close m c).services.find? (fun s => s.name = name) = some sv2
        ∧ sv2.max_clients = (k : Int) ∧ sv2.num_clients = (k : Int) - 1
        ∧ sv2.serv_connect = QemudServiceConnect.accept o r cl :=
      ⟨_, hf2, hmax, by simp only [hnum, hjk], hcb⟩
    obtain ⟨sv2, hfind2, hmax2, hnum2, hcb2⟩ := hsv2
    have hacc := control_recv_accept (qemud_client_close m c) sv2 name hh o r cl hn hc hfind2
      (by rw [hmax2, hnum2]; omega) hcb2 (fun x hx => Nat.ne_of_lt (hfresh2 x hx))
    rw [control_recv_busy m sv name hh hn hc hfind hfull, hacc]
    refine ⟨rfl, rfl, ?_, ?_⟩
    · simp only [hv2]
      rfl
    · refine ⟨_, find_update_service _ name sv2 _ (fun _ => rfl) hfind2, ?_⟩
      simp only [hnum2]
      omega

theorem name_ok_gsm : NameOk (bytes "gsm") := by
  unfold NameOk
  decide

theorem channel_ok_42 : ChannelOk (bytes "42") := ⟨rfl, by decide, by decide⟩

theorem channel_ok_43 : ChannelOk (bytes "43") := ⟨rfl, by decide, by decide⟩

/-- Witness of C7: "connect:gsm:42" on `mux_example` is answered
"00000dok:connect:42" and creates a client on channel 0x42. -/
theorem C7_connect_success_witness :
    ∃ c : QemudClient,
      (qemud_multiplexer_control_recv mux_example
          (connect_msg (bytes "gsm") (bytes "42"))).serial.cs = bytes "00000dok:connect:42"
      ∧ (qemud_multiplexer_control_recv mux_example
          (connect_msg (bytes "gsm") (bytes "42"))).clients = c :: mux_example.clients
      ∧ c.channel = 66 := by
  obtain ⟨c, h1, -, h3, h4, -⟩ :=
    C7_connect_success mux_example (gsm_service 0 []) (bytes "gsm") (bytes "42") 66 5
      QemudClientRecv.user true name_ok_gsm rfl (Or.inr (by decide)) rfl rfl (by decide)
      (by decide) (by decide) (by decide) (by decide)
  exact ⟨c, h1.trans (by decide), h3, h4⟩

/-- Witness of C8: "connect:wifi:07" on `mux_example` is answered
"00001dko:connect:07:unknown service"; the only other change is the zero
stored at offset 12 of `data0`, where the ':' behind "wifi" lies in the
message. -/
theorem C8_connect_unknown_service_witness :
    qemud_multiplexer_control_recv mux_example (connect_msg (bytes "wifi") (bytes "07"))
      = { mux_example with serial := { mux_example.serial with
            cs := bytes "00001dko:connect:07:unknown service"
            data0 := mux_example.serial.data0.set 12 0 } } := by
  have h := (C8_connect_unknown_service mux_example (bytes "wifi") (bytes "07") 7
    (by unfold NameOk; decide) rfl (by decide) (by decide) (by decide)).1 (by decide)
  have e : mux_example.serial.cs ++ (serial_header mux_example.serial.version 29 0
      ++ (bytes "ko:connect:" ++ int2hex 2 7 ++ bytes ":unknown service"))
      = bytes "00001dko:connect:07:unknown service" := by decide
  rw [e] at h
  exact h

/-- Witness of C9: `mux_example` answers "connect:gsm:42" with ok and
"connect:gsm:43" with service busy. -/
theorem C9_service_capacity_witness :
    (connect_all mux_example (bytes "gsm") [bytes "42", bytes "43"]).serial.cs
      = bytes "00000dok:connect:4200001ako:connect:43:service busy" :=
  (((C9_service_capacity mux_example (gsm_service 0 []) (bytes "gsm") 1 0 5
      QemudClientRecv.user true name_ok_gsm rfl rfl (by decide) rfl (by decide) rfl
      (by decide)).1 [bytes "42", bytes "43"]
    (by
      intro hh hmem
      rcases List.mem_cons.mp hmem with h | h
      · rw [h]; exact channel_ok_42
      · rw [List.mem_singleton.mp h]; exact channel_ok_43)).1).trans (by decide)

/-- Witness of C10: "disconnect:42" on `mux_connected` removes the client of
channel 0x42, calls its close callback, empties the client list of "gsm" and
writes nothing. -/
theorem C10_peer_disconnect_witness :
    (qemud_multiplexer_control_recv mux_connected (disconnect_msg (bytes "42"))).serial
        = mux_connected.serial
      ∧ (qemud_multiplexer_control_recv mux_connected (disconnect_msg (bytes "42"))).events
        = [QemudEvent.close 5]
      ∧ (qemud_multiplexer_control_recv mux_connected (disconnect_msg (bytes "42"))).services
        = [gsm_service 0 []] := by
  obtain ⟨-, h2, h3, h4⟩ :=
    (C10_peer_disconnect mux_connected (bytes "42") 66 rfl (by decide) (by decide)
      (by decide)).2.1 gsm_client (by decide) (by decide)
      (by
        intro a ha s hs hsa
        have : s = gsm_service 1 [3] := List.mem_singleton.mp hs
        rw [this]
        decide)
  exact ⟨h2, h3.trans (by decide), h4.trans (by decide)⟩

/-! ## Local close -/

/-- Unlinking a client of the global list removes exactly that one when no two
clients share an address. -/
theorem unlink_mem (l : List QemudClient) (c : QemudClient) (hc : c ∈ l)
    (hnd : (l.map (fun x => x.addr)).Nodup) :
    ∃ pre post, l = pre ++ c :: post ∧ unlink_client c.addr l = pre ++ post := by
  induction l with
  | nil => simp at hc
  | cons x t ih =>
    simp only [List.map_cons, List.nodup_cons, List.mem_map, not_exists, not_and] at hnd
    rcases List.mem_cons.mp hc with h | h
    · subst h
      exact ⟨[], t, rfl, by simp [unlink_client]⟩
    · obtain ⟨pre, post, h1, h3⟩ := ih h hnd.2
      have hne : x.addr ≠ c.addr := fun he => hnd.1 c h he.symm
      refine ⟨x :: pre, post, by rw [h1]; rfl, ?_⟩
      simp only [unlink_client, hne, if_false, h3, List.cons_append]

/-- The service list once `qemud_service_remove_client` has run on the service
at address `a`, which lists the client `c`. -/
theorem update_service_remove (l : List QemudService) (a c : Nat)
    (h : ∀ s ∈ l, s.addr = a → c ∈ s.clients) :
    update_service a (fun s => qemud_service_remove_client s c) l
      = l.map (fun s =>
          if s.addr = a then
            { s with clients := s.clients.erase c, num_clients := s.num_clients - 1 }
          else s) := by
  unfold update_service
  apply List.map_congr_left
  intro s hsmem
  by_cases ha : s.addr = a
  · rw [if_pos ha, if_pos ha]
    unfold qemud_service_remove_client
    simp only [remove_node_mem _ _ (h s hsmem ha)]
  · rw [if_neg ha, if_neg ha]

theorem disconnect_text (h : Nat) (h255 : h ≤ 255) :
    bufprint 128 (bytes "disconnect:" ++ fmt_02x h) = bytes "disconnect:" ++ int2hex 2 h := by
  rw [fmt_02x_eq h (by omega)]
  apply bufprint_short
  simp only [List.length_append, int2hex_length]
  decide

/-- What `qemud_client_disconnect` does to a client with a channel id in
[1,255] that is attached to a service. -/
theorem close_attached (m : QemudMultiplexer) (c : QemudClient) (a h : Nat)
    (hch : c.channel = (h : Int)) (h1 : 1 ≤ h) (h255 : h ≤ 255)
    (hsv : c.service = some a)
    (hatt : ∀ s ∈ m.services, s.addr = a → c.addr ∈ s.clients) :
    qemud_client_close m c
      = { m with
          clients := unlink_client c.addr m.clients
          serial := { m.serial with cs := m.serial.cs
              ++ (serial_header m.serial.version 13 0 ++ (bytes "disconnect:" ++ int2hex 2 h)) }
          events := m.events ++ (if c.clie_close then [QemudEvent.close c.clie_opaque] else [])
          services := m.services.map (fun s =>
              if s.addr = a then
                { s with clients := s.clients.erase c.addr, num_clients := s.num_clients - 1 }
              else s) } := by
  have hlen : (bytes "disconnect:" ++ int2hex 2 h).length = 13 := by
    simp only [List.length_append, int2hex_length]
    rfl
  have hsend : qemud_serial_send m.serial 0 false (bytes "disconnect:" ++ int2hex 2 h)
      = { m.serial with cs := m.serial.cs
            ++ (serial_header m.serial.version 13 0 ++ (bytes "disconnect:" ++ int2hex 2 h)) } := by
    have := send_one_record m.serial 0 (bytes "disconnect:" ++ int2hex 2 h)
      (by rw [hlen]; decide) (by rw [hlen]; decide)
    rw [hlen] at this
    exact this
  have hpos : c.channel > 0 := by rw [hch]; omega
  have htxt : bufprint 128 (bytes "disconnect:" ++ fmt_02x c.channel.toNat)
      = bytes "disconnect:" ++ int2hex 2 h := by
    rw [hch, Int.toNat_ofNat]
    exact disconnect_text h h255
  unfold qemud_client_close qemud_client_disconnect qemud_client_remove
  simp only [hpos, if_true, htxt, hsv, hsend]
  cases c.clie_close <;> simp [update_service_remove _ _ _ hatt]

/-- C11. Local close: `qemud_client_close` on a client of the global list with
channel id h in [1,255] that is attached to a service writes exactly one record
on channel 0, the 13 bytes "disconnect:" followed by the two lowercase hex
digits of h (after the header "00000d" when the version is not LEGACY), removes
the client from the global list, calls its close callback once (if it has one),
removes it from the client list of its service and subtracts 1 from the
num_clients of that service. For a client with channel id <= 0 nothing is
written. -/
theorem C11_local_close (m : QemudMultiplexer) (c : QemudClient) (a h : Nat)
    (hc : c ∈ m.clients) (hnd : (m.clients.map (fun x => x.addr)).Nodup)
    (hch : c.channel = (h : Int)) (h1 : 1 ≤ h) (h255 : h ≤ 255)
    (hsv : c.service = some a)
    (hatt : ∀ s ∈ m.services, s.addr = a → c.addr ∈ s.clients) :
    ((qemud_client_close m c).serial
        = { m.serial with cs := m.serial.cs
              ++ (serial_header m.serial.version 13 0 ++ (bytes "disconnect:" ++ int2hex 2 h)) }
      ∧ (bytes "disconnect:" ++ int2hex 2 h).length = 13
      ∧ (m.serial.version ≠ QemudVersion.LEGACY →
          (qemud_client_close m c).serial.cs
            = m.serial.cs ++ (bytes "00000d" ++ (bytes "disconnect:" ++ int2hex 2 h)))
      ∧ (∃ pre post, m.clients = pre ++ c :: post
          ∧ (qemud_client_close m c).clients = pre ++ post)
      ∧ (qemud_client_close m c).events
          = m.events ++ (if c.clie_close then [QemudEvent.close c.clie_opaque] else [])
      ∧ (qemud_client_close m c).services
          = m.services.map (fun s =>
              if s.addr = a then
                { s with clients := s.clients.erase c.addr, num_clients := s.num_clients - 1 }
              else s))
    ∧ (∀ c0 : QemudClient, c0.channel ≤ 0 → (qemud_client_close m c0).serial = m.serial) := by
  have hlen : (bytes "disconnect:" ++ int2hex 2 h).length = 13 := by
    simp only [List.length_append, int2hex_length]
    rfl
  obtain ⟨pre, post, hl, hun⟩ := unlink_mem m.clients c hc hnd
  have hcl := close_attached m c a h hch h1 h255 hsv hatt
  rw [hun] at hcl
  refine ⟨⟨?_, hlen, ?_, ⟨pre, post, hl, ?_⟩, ?_, ?_⟩, ?_⟩
  · rw [hcl]
  · intro hv
    rw [hcl]
    have e : serial_header m.serial.version 13 0 = bytes "00000d" := by
      unfold serial_header
      rw [if_neg hv]
      decide
    simp only [e]
  · rw [hcl]
  · rw [hcl]
  · rw [hcl]
  · intro c0 h0
    unfold qemud_client_close qemud_client_disconnect qemud_client_remove
    have : ¬ c0.channel > 0 := by omega
    cases c0.clie_close <;> cases c0.service <;> simp [this]

/-- Witness of C11: closing the client of channel 0x42 of `mux_connected`
writes "00000ddisconnect:42", calls the close callback and empties the client
list of "gsm". -/
theorem C11_local_close_witness :
    (qemud_client_close mux_connected gsm_client).serial.cs = bytes "00000ddisconnect:42"
      ∧ (qemud_client_close mux_connected gsm_client).events = [QemudEvent.close 5]
      ∧ (qemud_client_close mux_connected gsm_client).services = [gsm_service 0 []] := by
  obtain ⟨-, -, h3, -, h5, h6⟩ :=
    (C11_local_close mux_connected gsm_client 2 66 (List.mem_cons_self _ _) (by decide)
      rfl (by decide) (by decide) rfl
      (by
        intro s hs hsa
        have : s = gsm_service 1 [3] := List.mem_singleton.mp hs
        rw [this]
        decide)).1
  exact ⟨(h3 (by decide)).trans (by decide), h5.trans (by decide), h6.trans (by decide)⟩

/-! ## Unknown and malformed control messages -/

/-- C12. Unknown control command: a channel-0 payload that is none of (a)
longer than 8 bytes and starting with "connect:", (b) exactly 13 bytes and
starting with "disconnect:", (c) longer than 11 bytes and starting with
"ok:connect:" makes `qemud_multiplexer_control_recv` write exactly the record
"000012ko:unknown command" when the version is NORMAL and nothing when the
version is LEGACY; nothing but the transport changes. -/
theorem C12_unknown_command (m : QemudMultiplexer) (msg : List Nat)
    (ha : ¬ (msg.length > 8 ∧ msg.take 8 = bytes "connect:"))
    (hb : ¬ (msg.length = 13 ∧ msg.take 11 = bytes "disconnect:"))
    (hc : ¬ (msg.length > 11 ∧ msg.take 11 = bytes "ok:connect:")) :
    (m.serial.version = QemudVersion.NORMAL →
      qemud_multiplexer_control_recv m msg
        = { m with serial := { m.serial with
              cs := m.serial.cs ++ bytes "000012ko:unknown command" } })
    ∧ (m.serial.version = QemudVersion.LEGACY → qemud_multiplexer_control_recv m msg = m)
    ∧ (bytes "ko:unknown command").length = 18 := by
  refine ⟨?_, ?_, rfl⟩
  · intro hv
    unfold qemud_multiplexer_control_recv
    simp only []
    rw [if_neg ha, if_neg hb, if_neg hc, if_neg (by rw [hv]; decide)]
    have hsend : qemud_serial_send m.serial 0 false (bytes "ko:unknown command")
        = { m.serial with cs := m.serial.cs
              ++ (serial_header m.serial.version (bytes "ko:unknown command").length 0
                ++ bytes "ko:unknown command") } :=
      send_one_record m.serial 0 (bytes "ko:unknown command") (by decide) (by decide)
    have e : serial_header m.serial.version (bytes "ko:unknown command").length 0
        ++ bytes "ko:unknown command" = bytes "000012ko:unknown command" := by
      rw [hv]
      decide
    rw [bufprint_short 64 _ (by decide), hsend, e]
  · intro hv
    unfold qemud_multiplexer_control_recv
    simp only []
    rw [if_neg ha, if_neg hb, if_neg hc, if_pos hv]

/-- Witness of C12: "hello" on `mux_example` is answered
"000012ko:unknown command". -/
theorem C12_unknown_command_witness :
    qemud_multiplexer_control_recv mux_example (bytes "hello")
      = { mux_example with serial := { mux_example.serial with
            cs := bytes "000012ko:unknown command" } } :=
  (C12_unknown_command mux_example (bytes "hello") (by decide) (by decide) (by decide)).1 rfl

theorem strchr_none (rest : List Nat) (h : 58 ∉ rest) : strchr 58 (rest ++ [0]) = none := by
  induction rest with
  | nil => simp [strchr]
  | cons b t ih =>
    have hb : b ≠ 58 := fun e => h (by rw [e]; exact List.mem_cons_self _ _)
    have ht : 58 ∉ t := fun e => h (List.mem_cons_of_mem _ e)
    by_cases h0 : b = 0
    · simp [strchr, hb, h0]
    · simp only [List.cons_append, strchr, hb, h0, if_false]
      show (match strchr 58 (t ++ [0]) with
        | none => none
        | some i => some (i + 1)) = _
      rw [ih ht]

/-- The function `strchr` stops at the first ':' unless a zero byte comes
first. -/
theorem strchr_first (name tail : List Nat) (h : 58 ∉ name) :
    strchr 58 (name ++ 58 :: tail) = none ∨ strchr 58 (name ++ 58 :: tail) = some name.length := by
  induction name with
  | nil => right; simp [strchr]
  | cons b t ih =>
    have hb : b ≠ 58 := fun e => h (by rw [e]; exact List.mem_cons_self _ _)
    have ht : 58 ∉ t := fun e => h (List.mem_cons_of_mem _ e)
    by_cases h0 : b = 0
    · left; simp [strchr, hb, h0]
    · simp only [List.cons_append, strchr, hb, h0, if_false, List.length_cons]
      rcases ih ht with e | e
      · left
        show (match strchr 58 (t ++ 58 :: tail) with
          | none => none
          | some i => some (i + 1)) = _
        rw [e]
      · right
        show (match strchr 58 (t ++ 58 :: tail) with
          | none => none
          | some i => some (i + 1)) = _
        rw [e]

theorem hex2int_loop_bad (l : List Nat) : ∀ (acc : Int), (∃ b ∈ l, hexdigit b = none) →
    hex2int_loop l acc = -1 := by
  induction l with
  | nil => intro acc h; simp at h
  | cons x t ih =>
    intro acc h
    cases hx : hexdigit x with
    | none => simp [hex2int_loop, hx]
    | some d =>
      simp only [hex2int_loop, hx]
      apply ih
      obtain ⟨b, hb, hbad⟩ := h
      rcases List.mem_cons.mp hb with e | e
      · rw [e, hx] at hbad; cases hbad
      · exact ⟨b, e, hbad⟩

/-- A channel id that is "00" or not two hexadecimal digits is not positive. -/
theorem hex2int_bad (hh : List Nat) (h2 : hh.length = 2)
    (h : hh = bytes "00" ∨ ∃ b ∈ hh, hexdigit b = none) : hex2int hh 2 ≤ 0 := by
  rcases h with h | h
  · rw [h]; decide
  · unfold hex2int
    rw [List.take_of_length_le (by omega), hex2int_loop_bad hh 0 h]
    decide

/-- A malformed `connect:` message: either nothing at all is changed, or the
message is "connect:<name>:<hh>" with a name without ':' and a channel id that
is not positive, and then the only change is the zero stored over the ':' in
the message, which lies in `data0`. -/
theorem control_recv_malformed (m : QemudMultiplexer) (msg : List Nat)
    (hlen : msg.length > 8) (hpre : msg.take 8 = bytes "connect:")
    (hbad : MalformedConnect (msg.drop 8)) :
    qemud_multiplexer_control_recv m msg = m
    ∨ ∃ name hh, msg = connect_msg name hh ∧ 58 ∉ name ∧ hh.length = 2 ∧ hex2int hh 2 ≤ 0
        ∧ qemud_multiplexer_control_recv m msg = store_zero m (8 + name.length) := by
  have hdrop : (msg ++ [0]).drop 8 = msg.drop 8 ++ [0] := by
    rw [List.drop_append_of_le_length (by omega)]
  unfold qemud_multiplexer_control_recv
  simp only []
  rw [if_pos ⟨hlen, hpre⟩, hdrop]
  rcases hbad with hno | ⟨name, tail, hrest, hname, htail⟩
  · rw [strchr_none _ hno]
    exact Or.inl rfl
  · have hmsg : msg = bytes "connect:" ++ (name ++ 58 :: tail) := by
      rw [← hpre, ← hrest, List.take_append_drop]
    have hl : msg.length = 8 + name.length + 1 + tail.length := by
      rw [hmsg]
      simp only [List.length_append, List.length_cons]
      have : (bytes "connect:").length = 8 := rfl
      omega
    have hstr : msg.drop 8 ++ [0] = name ++ 58 :: (tail ++ [0]) := by
      rw [hrest]; simp
    rw [hstr]
    rcases strchr_first name (tail ++ [0]) hname with e | e
    · rw [e]
      exact Or.inl rfl
    · rw [e]
      simp only []
      by_cases h2 : tail.length = 2
      · rw [if_neg (by omega)]
        have hset : (msg ++ [0]).set (8 + name.length) 0
            = (bytes "connect:" ++ name ++ [0]) ++ (tail ++ [0]) := by
          have := set_append_cons (bytes "connect:" ++ name) (tail ++ [0]) 58 0
          have h8 : (bytes "connect:").length = 8 := rfl
          rw [List.length_append, h8] at this
          rw [hmsg, ← List.append_assoc, List.append_assoc _ _ [0], List.cons_append, this]
          simp
        have hl1 : (bytes "connect:" ++ name ++ [0]).length = 8 + name.length + 1 := by
          simp only [List.length_append, List.length_singleton]
          rfl
        have hch0 : hex2int tail 2 ≤ 0 :=
          hex2int_bad tail h2 (by
            rcases htail with h | h
            · exact absurd h2 h
            · exact h)
        have hchan : hex2int (((msg ++ [0]).set (8 + name.length) 0).drop (8 + name.length + 1)) 2
            ≤ 0 := by
          rw [hset, List.drop_left' hl1, hex2int_append_right tail [0] 2 h2]
          exact hch0
        rw [if_pos hchan]
        refine Or.inr ⟨name, tail, ?_, hname, h2, hch0, rfl⟩
        rw [hmsg]
        unfold connect_msg
        rw [List.append_assoc]
      · rw [if_pos (by omega)]
        exact Or.inl rfl

/-- C13. Malformed connect is rejected: a channel-0 payload longer than 8
bytes that starts with "connect:" and in which the first ':' after the prefix
is missing, or is not followed by exactly two bytes, or is followed by "00" or
by two bytes that are not both hexadecimal digits, calls no connect callback
(no callback at all), creates no client, changes no service and writes
nothing to the transport; the version is as before. Either the multiplexer is
unchanged altogether, or, when the ':' is exactly three bytes before the end
and only the channel id is bad, the one change is in the message itself, in
`data0`: the ':' has been overwritten with a zero before the id was looked
at. -/
theorem C13_malformed_connect (m : QemudMultiplexer) (msg : List Nat)
    (hlen : msg.length > 8) (hpre : msg.take 8 = bytes "connect:")
    (hbad : MalformedConnect (msg.drop 8)) :
    (qemud_multiplexer_control_recv m msg).events = m.events
    ∧ (qemud_multiplexer_control_recv m msg).clients = m.clients
    ∧ (qemud_multiplexer_control_recv m msg).services = m.services
    ∧ (qemud_multiplexer_control_recv m msg).next_addr = m.next_addr
    ∧ (qemud_multiplexer_control_recv m msg).serial.cs = m.serial.cs
    ∧ (qemud_multiplexer_control_recv m msg).serial.version = m.serial.version
    ∧ (qemud_multiplexer_control_recv m msg = m
        ∨ ∃ name hh, msg = connect_msg name hh ∧ 58 ∉ name ∧ hh.length = 2
            ∧ hex2int hh 2 ≤ 0
            ∧ qemud_multiplexer_control_recv m msg
                = { m with serial :=
                      { m.serial with data0 := m.serial.data0.set (8 + name.length) 0 } }) := by
  have h := control_recv_malformed m msg hlen hpre hbad
  rcases h with e | ⟨name, hh, h1, h2, h3, h4, e⟩
  · rw [e]
    exact ⟨rfl, rfl, rfl, rfl, rfl, rfl, Or.inl rfl⟩
  · rw [e]
    exact ⟨rfl, rfl, rfl, rfl, rfl, rfl, Or.inr ⟨name, hh, h1, h2, h3, h4, rfl⟩⟩

theorem malformed_examples :
    MalformedConnect ((bytes "connect:gsm:00").drop 8)
    ∧ MalformedConnect ((bytes "connect:gsm:421").drop 8)
    ∧ MalformedConnect ((bytes "connect:gsm").drop 8)
    ∧ MalformedConnect ((bytes "connect:gsm:4g").drop 8) := by
  refine ⟨Or.inr ⟨bytes "gsm", bytes "00", by decide, by decide, Or.inr (Or.inl rfl)⟩,
    Or.inr ⟨bytes "gsm", bytes "421", by decide, by decide, Or.inl (by decide)⟩,
    Or.inl (by decide),
    Or.inr ⟨bytes "gsm", bytes "4g", by decide, by decide, Or.inr (Or.inr (by decide))⟩⟩

/-- Witness of C13: "connect:gsm:00" on `mux_example` calls no callback,
creates no client, changes no service and writes nothing. -/
theorem C13_malformed_connect_witness :
    (qemud_multiplexer_control_recv mux_example (bytes "connect:gsm:00")).events
        = mux_example.events
    ∧ (qemud_multiplexer_control_recv mux_example (bytes "connect:gsm:00")).clients
        = mux_example.clients
    ∧ (qemud_multiplexer_control_recv mux_example (bytes "connect:gsm:00")).services
        = mux_example.services
    ∧ (qemud_multiplexer_control_recv mux_example (bytes "connect:gsm:00")).serial.cs
        = mux_example.serial.cs :=
  have h := C13_malformed_connect mux_example (bytes "connect:gsm:00") (by decide) (by decide)
    (Or.inr ⟨bytes "gsm", bytes "00", by decide, by decide, Or.inr (Or.inl rfl)⟩)
  ⟨h.1, h.2.1, h.2.2.1, h.2.2.2.2.1⟩

/-! ## Legacy detection and the probe -/

theorem serial_init_header_state (cs data0 : List Nat) :
    HeaderState (qemud_serial_init cs data0) :=
  ⟨rfl, rfl, rfl⟩

/-- Reading exactly the six bytes of a header leaves the codec with the
fields parsed from that header. -/
theorem read_header_only {α : Type}
    (recv : α → QemudSerial → Int → List Nat → Option (α × QemudSerial))
    (hr : RecvKeeps recv) (a : α) (s : QemudSerial) (hdr : List Nat)
    (hs : HeaderState s) (hh : hdr.length = 6) :
    ∃ s1, qemud_serial_read recv a s hdr = some (a, s1)
      ∧ s1.version = (after_header s hdr).version
      ∧ s1.in_size = (after_header s hdr).in_size
      ∧ s1.in_channel = (after_header s hdr).in_channel := by
  have hne : hdr ≠ [] := by
    intro h
    rw [h] at hh
    cases hh
  rw [read_eq_loop recv hr (hdr.length + 1) a s hdr hs.good (by omega),
    loop_succ recv _ a s hdr hne]
  have hstep := header_step recv a s hdr [] hs hh
  rw [List.append_nil] at hstep
  rw [hstep]
  by_cases h1 : (after_header s hdr).in_size ≤ 0 ∨ (after_header s hdr).in_channel < 0
  · rw [if_pos h1, loop_after_cont, loop_nil]
    exact ⟨_, rfl, rfl, rfl, rfl⟩
  · rw [if_neg h1]
    by_cases h2 : (after_header s hdr).in_size > MAX_SERIAL_PAYLOAD
    · rw [if_pos h2, loop_after_cont, loop_nil]
      exact ⟨_, rfl, rfl, rfl, rfl⟩
    · rw [if_neg h2, payload_empty recv a _ (by
        show 0 < (after_header s hdr).in_size.toNat
        omega), loop_after_brk]
      exact ⟨_, rfl, rfl, rfl, rfl⟩

/-- The first header seen with the version unknown, when it is "001200":
legacy orientation, length first. -/
theorem after_header_detect_legacy (s : QemudSerial) (hv : s.version = QemudVersion.UNKNOWN) :
    (after_header s (bytes "001200")).version = QemudVersion.LEGACY
    ∧ (after_header s (bytes "001200")).in_size = 18
    ∧ (after_header s (bytes "001200")).in_channel = 0 := by
  have e6 : (memcpy s.data0 0 (bytes "001200")).take 6 = bytes "001200" :=
    memcpy_zero_take s.data0 (bytes "001200")
  have e1 : hex2int ((memcpy s.data0 0 (bytes "001200")).drop 4) 2 = 0 := by
    rw [memcpy_zero, hex2int_drop_append _ _ _ _ (by decide)]; decide
  have e2 : hex2int ((memcpy s.data0 0 (bytes "001200")).drop 0) 4 = 18 := by
    rw [memcpy_zero, hex2int_drop_append _ _ _ _ (by decide)]; decide
  unfold after_header qemud_serial_read_parse
  simp only [LEGACY_LENGTH_OFFSET, LENGTH_SIZE, LEGACY_CHANNEL_OFFSET, CHANNEL_SIZE, hv, e6]
  simp [e1]
  exact e2

/-- C14. Legacy detection: once `qemud_serial_read` has been given the first
six inbound bytes of a freshly initialised codec, in chunks of any size, the
version is LEGACY if and only if these bytes are "001200" and NORMAL
otherwise, and the length and the channel of this header are read in the
orientation chosen: length from bytes 0..3 and channel from bytes 4..5 for
LEGACY, channel from bytes 0..1 and length from bytes 2..5 for NORMAL. -/
theorem C14_legacy_detection {α : Type}
    (recv : α → QemudSerial → Int → List Nat → Option (α × QemudSerial))
    (hr : RecvKeeps recv) (a : α) (cs data0 hdr : List Nat) (chunks : List (List Nat))
    (hh : hdr.length = 6) (hchunks : chunks.flatten = hdr) :
    (qemud_serial_init cs data0).version = QemudVersion.UNKNOWN
    ∧ ∃ s1, qemud_serial_read_chunks recv a (qemud_serial_init cs data0) chunks = some (a, s1)
      ∧ (s1.version = QemudVersion.LEGACY ↔ hdr = bytes "001200")
      ∧ (hdr ≠ bytes "001200" → s1.version = QemudVersion.NORMAL)
      ∧ (s1.version = QemudVersion.LEGACY →
          s1.in_size = hex2int hdr 4 ∧ s1.in_channel = hex2int (hdr.drop 4) 2)
      ∧ (s1.version = QemudVersion.NORMAL →
          s1.in_channel = hex2int hdr 2 ∧ s1.in_size = hex2int (hdr.drop 2) 4) := by
  have hs := serial_init_header_state cs data0
  have hv : (qemud_serial_init cs data0).version = QemudVersion.UNKNOWN := rfl
  refine ⟨hv, ?_⟩
  rw [read_chunks_join recv hr chunks a _ hs.good, hchunks]
  obtain ⟨s1, h1, h2, h3, h4⟩ := read_header_only recv hr a _ hdr hs hh
  refine ⟨s1, h1, ?_⟩
  by_cases hp : hdr = bytes "001200"
  · obtain ⟨d1, d2, d3⟩ := after_header_detect_legacy _ hv
    rw [hp] at h2 h3 h4 ⊢
    rw [d1] at h2
    rw [d2] at h3
    rw [d3] at h4
    refine ⟨⟨fun _ => rfl, fun _ => h2⟩, fun h => absurd rfl h, fun _ => ⟨?_, ?_⟩, ?_⟩
    · rw [h3]; decide
    · rw [h4]; decide
    · intro h
      rw [h2] at h
      cases h
  · have hn := after_header_normal (qemud_serial_init cs data0) hdr hh (by rw [hv]; decide)
      (fun _ => hp)
    rw [hn] at h2 h3 h4
    refine ⟨⟨fun h => ?_, fun h => absurd h hp⟩, fun _ => h2, fun h => ?_, fun _ => ⟨h4, h3⟩⟩
    · rw [h2] at h
      cases h
    · rw [h2] at h
      cases h

/-- Witness of C14: the header "001200", cut in two, makes a fresh codec
LEGACY, with length 18 and channel 0. -/
theorem C14_legacy_detection_witness :
    ∃ s1, qemud_serial_read_chunks recv_log [] (qemud_serial_init [] []) [bytes "001", bytes "200"]
        = some ([], s1)
      ∧ s1.version = QemudVersion.LEGACY ∧ s1.in_size = 18 ∧ s1.in_channel = 0 := by
  obtain ⟨s1, h1, h2, -, h4, -⟩ :=
    (C14_legacy_detection recv_log recv_log_keeps [] [] [] (bytes "001200")
      [bytes "001", bytes "200"] rfl rfl).2
  have hv := h2.mpr rfl
  exact ⟨s1, h1, hv, (h4 hv).1.trans (by decide), (h4 hv).2.trans (by decide)⟩

/-- Records read one after the other by `qemud_serial_read` are handed to the
receiver in order, and the reader is in header state after the last one. -/
theorem read_records_log (tx : QemudVersion) (recs : List (Nat × List Nat)) :
    ∀ (a : List (Int × List Nat)) (s : QemudSerial), HeaderState s →
      SameOrientation tx s.version →
      (∀ r ∈ recs, r.1 ≤ 255 ∧ 1 ≤ r.2.length ∧ r.2.length ≤ MAX_SERIAL_PAYLOAD) →
      ∃ s1, qemud_serial_read recv_log a s (recs.flatMap (fun r => wire_record tx r.1 r.2))
          = some (a ++ recs.map (fun r => ((r.1 : Int), r.2)), s1)
        ∧ HeaderState s1 ∧ s1.cs = s.cs := by
  induction recs with
  | nil =>
    intro a s hs _ _
    exact ⟨s, by simp [qemud_serial_read, loop_nil], hs, rfl⟩
  | cons b rest ih =>
    intro a s hs hv hb
    have hb1 := hb b (List.mem_cons_self _ _)
    have hrest : ∀ x ∈ rest, x.1 ≤ 255 ∧ 1 ≤ x.2.length ∧ x.2.length ≤ MAX_SERIAL_PAYLOAD :=
      fun x hx => hb x (List.mem_cons_of_mem _ hx)
    have hah := after_header_serial_header s tx b.2.length b.1 hs hv hb1.2.2 hb1.1
    simp only [List.flatMap_cons, wire_record]
    rw [read_eq_loop recv_log recv_log_keeps
      ((serial_header tx b.2.length b.1 ++ b.2
          ++ rest.flatMap (fun r => serial_header tx r.2.length r.1 ++ r.2)).length + 1)
      _ _ _ hs.good (by omega)]
    rw [record_step recv_log _ a s (serial_header tx b.2.length b.1) b.2 _ hs
      (serial_header_length _ _ _)
      (by rw [hah]; simp; omega) (by rw [hah]; simp; exact hb1.2.2) (by rw [hah]; simp)
      (by rw [hah])]
    simp only [recv_log, Option.some_bind]
    have hs1 : HeaderState
        { delivered (after_header s (serial_header tx b.2.length b.1)) b.2 with
          need_header := true } := by
      refine ⟨rfl, ?_, ?_⟩
      · simp [delivered, hah]
      · simp [delivered, hah, hs.over]
    have hv1 : SameOrientation tx
        ({ delivered (after_header s (serial_header tx b.2.length b.1)) b.2 with
          need_header := true } : QemudSerial).version := by
      simp only [delivered, hah]
      exact same_orientation_after tx s.version hv
    have hch : (after_header s (serial_header tx b.2.length b.1)).in_channel = (b.1 : Int) := by
      rw [hah]
    obtain ⟨s1, h1, h2, h3⟩ := ih (a ++ [((b.1 : Int), b.2)]) _ hs1 hv1 hrest
    refine ⟨s1, ?_, h2, ?_⟩
    · rw [hch]
      have e := read_eq_loop recv_log recv_log_keeps
        ((serial_header tx b.2.length b.1 ++ b.2
          ++ rest.flatMap (fun r => serial_header tx r.2.length r.1 ++ r.2)).length)
        (a ++ [((b.1 : Int), b.2)]) _ (rest.flatMap (fun r => wire_record tx r.1 r.2)) hs1.good
        (by simp only [List.length_append, wire_record]; omega)
      simp only [wire_record] at e h1
      rw [← e, h1]
      simp
    · rw [h3]
      simp [delivered, hah]

theorem legacy_probe_cs (s : QemudSerial) :
    (qemud_serial_send_legacy_probe s).cs = s.cs ++ legacy_probe := by
  simp only [qemud_serial_send_legacy_probe, legacy_probe, List.append_assoc]

set_option maxRecDepth 100000 in
theorem legacy_probe_normal :
    legacy_probe = [((0 : Nat), legacy_probe.drop 6)].flatMap
      (fun r => wire_record QemudVersion.NORMAL r.1 r.2) := by
  decide

set_option maxRecDepth 100000 in
theorem legacy_probe_legacy :
    legacy_probe = [((0 : Nat), bytes "X"), (0, bytes "connect:gsm"), (0, bytes "connect:gps"),
        (0, bytes "connect:control"), (16, List.replicate 194 0)].flatMap
      (fun r => wire_record QemudVersion.LEGACY r.1 r.2) := by
  decide

set_option maxRecDepth 100000 in
/-- C15. The probe is one normal-orientation record: the 262 bytes written by
`qemud_serial_send_legacy_probe`, read by `qemud_serial_read` in normal
orientation in chunks of any size, start with the header "000100", channel 0
and length 256, and the body is exactly the 256 bytes that follow: one record
is delivered, on channel 0, and the reader ends in header state with an empty
header sink. -/
theorem C15_probe_normal (tx rx : QemudSerial) (chunks : List (List Nat))
    (hrx : HeaderState rx) (hv : rx.version = QemudVersion.NORMAL)
    (hB : (qemud_serial_send_legacy_probe tx).cs = tx.cs ++ chunks.flatten) :
    chunks.flatten.length = 262
    ∧ chunks.flatten.take 6 = bytes "000100"
    ∧ (after_header rx (chunks.flatten.take 6)).in_channel = 0
    ∧ (after_header rx (chunks.flatten.take 6)).in_size = 256
    ∧ (chunks.flatten.drop 6).length = 256
    ∧ ∃ rx1, qemud_serial_read_chunks recv_log [] rx chunks
          = some ([(0, chunks.flatten.drop 6)], rx1)
        ∧ rx1.need_header = true ∧ rx1.header = ⟨0, 6⟩ ∧ rx1.overflow = 0 := by
  rw [legacy_probe_cs, List.append_cancel_left_eq] at hB
  rw [← hB]
  have hah := after_header_normal rx (legacy_probe.take 6) (by decide) (by rw [hv]; decide)
    (fun _ => by decide)
  refine ⟨by decide, by decide, ?_, ?_, by decide, ?_⟩
  · rw [hah]
    show hex2int (legacy_probe.take 6) 2 = 0
    decide
  · rw [hah]
    show hex2int ((legacy_probe.take 6).drop 2) 4 = 256
    decide
  · obtain ⟨s1, h1, h2, -⟩ := read_records_log QemudVersion.NORMAL [((0 : Nat), legacy_probe.drop 6)]
      [] rx hrx (Or.inr ⟨by decide, Or.inl hv⟩)
      (by
        intro r hr
        rw [List.mem_singleton.mp hr]
        decide)
    rw [← legacy_probe_normal] at h1
    rw [read_chunks_join recv_log recv_log_keeps chunks [] rx hrx.good, ← hB, h1]
    exact ⟨s1, rfl, h2.need, h2.sink, h2.over⟩

/-- Witness of C15: the probe of a fresh codec, delivered in one chunk to a
reader in normal orientation, is one record on channel 0. -/
theorem C15_probe_normal_witness :
    ∃ rx1, qemud_serial_read_chunks recv_log [] (serial_idle QemudVersion.NORMAL) [legacy_probe]
        = some ([(0, legacy_probe.drop 6)], rx1)
      ∧ rx1.need_header = true ∧ rx1.header = ⟨0, 6⟩ ∧ rx1.overflow = 0 := by
  have h := (C15_probe_normal (serial_idle QemudVersion.NORMAL) (serial_idle QemudVersion.NORMAL)
    [legacy_probe] (serial_idle_header_state _) rfl
    (by rw [legacy_probe_cs]; simp)).2.2.2.2.2
  simpa using h

set_option maxRecDepth 100000 in
/-- C16. The probe under legacy orientation: the bytes written by
`qemud_serial_send_legacy_probe`, read by `qemud_serial_read` with version
LEGACY in chunks of any size, give exactly five records, in this order: "X",
"connect:gsm", "connect:gps" and "connect:control" on channel 0, then 194
zero bytes on channel 16; the reader ends in header state. -/
theorem C16_probe_legacy (tx rx : QemudSerial) (chunks : List (List Nat))
    (hrx : HeaderState rx) (hv : rx.version = QemudVersion.LEGACY)
    (hB : (qemud_serial_send_legacy_probe tx).cs = tx.cs ++ chunks.flatten) :
    ∃ rx1, qemud_serial_read_chunks recv_log [] rx chunks
        = some ([(0, bytes "X"), (0, bytes "connect:gsm"), (0, bytes "connect:gps"),
            (0, bytes "connect:control"), (16, List.replicate 194 0)], rx1)
      ∧ rx1.need_header = true ∧ rx1.header = ⟨0, 6⟩ ∧ rx1.overflow = 0 := by
  rw [legacy_probe_cs, List.append_cancel_left_eq] at hB
  obtain ⟨s1, h1, h2, -⟩ := read_records_log QemudVersion.LEGACY
    [((0 : Nat), bytes "X"), (0, bytes "connect:gsm"), (0, bytes "connect:gps"),
      (0, bytes "connect:control"), (16, List.replicate 194 0)]
    [] rx hrx (Or.inl ⟨rfl, hv⟩)
    (by
      intro r hr
      simp only [List.mem_cons, List.mem_singleton, List.not_mem_nil, or_false] at hr
      rcases hr with h | h | h | h | h <;> rw [h] <;> decide)
  rw [← legacy_probe_legacy] at h1
  rw [read_chunks_join recv_log recv_log_keeps chunks [] rx hrx.good, ← hB, h1]
  exact ⟨s1, rfl, h2.need, h2.sink, h2.over⟩

/-- Witness of C16: the probe of a fresh codec, delivered in one chunk to a
legacy reader, is five records, four on channel 0 and one on channel 16. -/
theorem C16_probe_legacy_witness :
    ∃ rx1, qemud_serial_read_chunks recv_log [] (serial_idle QemudVersion.LEGACY) [legacy_probe]
        = some ([(0, bytes "X"), (0, bytes "connect:gsm"), (0, bytes "connect:gps"),
            (0, bytes "connect:control"), (16, List.replicate 194 0)], rx1)
      ∧ rx1.need_header = true ∧ rx1.header = ⟨0, 6⟩ ∧ rx1.overflow = 0 :=
  C16_probe_legacy (serial_idle QemudVersion.LEGACY) (serial_idle QemudVersion.LEGACY)
    [legacy_probe] (serial_idle_header_state _) rfl
    (by rw [legacy_probe_cs]; simp)

/-! ## The multiplexer as the receiver of the serial codec -/

theorem send_header (s : QemudSerial) (channel : Int) (framing : Bool) (msg : List Nat) :
    (qemud_serial_send s channel framing msg).header = s.header := by
  unfold qemud_serial_send
  simp only []
  split_ifs <;> rfl

theorem connect_serial (m : QemudMultiplexer) (name : List Nat) (channel : Int) :
    (qemud_multiplexer_connect m name channel).1.serial = m.serial := by
  unfold qemud_multiplexer_connect
  cases m.services.find? (fun sv => sv.name = name) with
  | none => rfl
  | some sv =>
    simp only []
    split_ifs
    · rfl
    · cases sv.serv_connect <;> rfl

theorem client_disconnect_header (m : QemudMultiplexer) (c : QemudClient) :
    (qemud_client_disconnect m c).serial.header = m.serial.header := by
  unfold qemud_client_disconnect qemud_client_remove
  cases c.service <;> cases c.clie_close <;> by_cases h : c.channel > 0 <;>
    simp [h, send_header]

theorem multiplexer_disconnect_header (m : QemudMultiplexer) (channel : Int) :
    (qemud_multiplexer_disconnect m channel).serial.header = m.serial.header := by
  unfold qemud_multiplexer_disconnect
  cases m.clients.find? (fun c => c.channel = channel) with
  | none => rfl
  | some c => exact client_disconnect_header m _

/-- The control-message handler leaves the header sink of the serial object
alone. -/
theorem control_recv_header (m : QemudMultiplexer) (msg : List Nat) :
    (qemud_multiplexer_control_recv m msg).serial.header = m.serial.header := by
  unfold qemud_multiplexer_control_recv
  simp only []
  split_ifs <;> (try split) <;> (try split_ifs) <;> (try split) <;>
    first
    | rfl
    | exact multiplexer_disconnect_header m _
    | simp only [send_header, connect_serial]

theorem client_deliver_header (c : QemudClient) (calls : List (List Nat)) :
    ∀ m : QemudMultiplexer, (client_deliver c m calls).serial.header = m.serial.header := by
  induction calls with
  | nil => intro m; rfl
  | cons msg rest ih =>
    intro m
    simp only [client_deliver]
    rw [ih]
    cases c.clie_recv
    · rfl
    · exact control_recv_header m msg
    · rfl

theorem multiplexer_recv_keeps : RecvKeeps multiplexer_recv := by
  intro m s channel msg m1 s1 h
  unfold multiplexer_recv qemud_multiplexer_serial_recv at h
  simp only [] at h
  cases hf : m.clients.find? (fun c => c.channel = channel) with
  | none =>
    rw [hf] at h
    simp only [Option.some.injEq, Prod.mk.injEq] at h
    rw [← h.2]
  | some c =>
    rw [hf] at h
    simp only [] at h
    cases hr : qemud_client_recv c msg with
    | none =>
      rw [hr] at h
      cases h
    | some r =>
      rw [hr] at h
      simp only [Option.some.injEq, Prod.mk.injEq] at h
      rw [← h.2, client_deliver_header]

/-- A channel-0 payload that is no "connect:", "disconnect:" or "ok:connect:"
message is answered "ko:unknown command", except in LEGACY mode. -/
theorem control_recv_other (m : QemudMultiplexer) (msg : List Nat)
    (ha : ¬ (msg.length > 8 ∧ msg.take 8 = bytes "connect:"))
    (hb : ¬ (msg.length = 13 ∧ msg.take 11 = bytes "disconnect:"))
    (hc : ¬ (msg.length > 11 ∧ msg.take 11 = bytes "ok:connect:")) :
    qemud_multiplexer_control_recv m msg =
      if m.serial.version = QemudVersion.LEGACY then m
      else { m with serial :=
        qemud_serial_send m.serial 0 false (bufprint 64 (bytes "ko:unknown command")) } := by
  unfold qemud_multiplexer_control_recv
  simp only []
  rw [if_neg ha, if_neg hb, if_neg hc]

/-- A well-formed `ok:connect:` message in LEGACY mode is handed to
`qemud_multiplexer_connect`, with "control" translated to "hw-control", and is
not answered; the ':' behind the name has been overwritten with a zero. -/
theorem control_recv_legacy_connect (m : QemudMultiplexer) (name hh : List Nat)
    (hn : NameOk name) (hh2 : hh.length = 2) (hpos : 0 < hex2int hh 2)
    (hv : m.serial.version = QemudVersion.LEGACY) :
    qemud_multiplexer_control_recv m (legacy_connect_msg name hh) =
      store_zero
        (qemud_multiplexer_connect m
          (if name = bytes "control" then bytes "hw-control" else name) (hex2int hh 2)).1
        (11 + name.length) := by
  have h11 : (bytes "ok:connect:").length = 11 := rfl
  have hlen : (legacy_connect_msg name hh).length = 11 + name.length + 3 := by
    simp only [legacy_connect_msg, List.length_append, List.length_cons, h11, hh2]
  have ht8 : (legacy_connect_msg name hh).take 8 ≠ bytes "connect:" := by
    unfold legacy_connect_msg
    rw [List.append_assoc, List.take_append_of_le_length (by rw [h11]; decide)]
    decide
  have htake : (legacy_connect_msg name hh).take 11 = bytes "ok:connect:" := by
    unfold legacy_connect_msg
    rw [List.append_assoc, List.take_left' h11]
  have ht11 : (legacy_connect_msg name hh).take 11 ≠ bytes "disconnect:" := by
    rw [htake]
    decide
  have hdrop : (legacy_connect_msg name hh ++ [0]).drop 11 = name ++ 58 :: (hh ++ [0]) := by
    unfold legacy_connect_msg
    rw [List.append_assoc, List.append_assoc, List.drop_left' h11]
    simp
  have hset : (legacy_connect_msg name hh ++ [0]).set (11 + name.length) 0
      = (bytes "ok:connect:" ++ name) ++ 0 :: (hh ++ [0]) := by
    have := set_append_cons (bytes "ok:connect:" ++ name) (hh ++ [0]) 58 0
    rw [List.length_append, h11] at this
    rw [← this]
    unfold legacy_connect_msg
    simp
  have hname : cstr (((legacy_connect_msg name hh ++ [0]).set (11 + name.length) 0).drop 11)
      = name := by
    rw [hset, List.append_assoc, List.drop_left' h11]
    exact cstr_name name _ hn
  have hchan : hex2int (((legacy_connect_msg name hh ++ [0]).set (11 + name.length) 0).drop
      (11 + name.length + 1)) 2 = hex2int hh 2 := by
    rw [hset]
    have hl : (bytes "ok:connect:" ++ name ++ [0]).length = 11 + name.length + 1 := by
      simp only [List.length_append, h11, List.length_singleton]
    have : bytes "ok:connect:" ++ name ++ 0 :: (hh ++ [0])
        = (bytes "ok:connect:" ++ name ++ [0]) ++ (hh ++ [0]) := by simp
    rw [this, List.drop_left' hl]
    exact hex2int_append_right hh [0] 2 hh2
  unfold qemud_multiplexer_control_recv
  simp only [hlen, hdrop, strchr_name name _ hn]
  rw [if_neg (fun h => ht8 h.2), if_neg (fun h => ht11 h.2), if_pos ⟨by omega, htake⟩]
  simp only [ne_eq, not_true_eq_false, if_false, hname, hchan]
  rw [if_neg (by omega)]
  split
  · rename_i h
    exact absurd (hv.symm.trans h) (by decide)
  · exact congrArg Prod.fst (connect_store m (11 + name.length) _ (hex2int hh 2))
  · rename_i h
    exact absurd (hv.symm.trans h) (by decide)

/-- Writing an object back through its own address changes nothing. -/
theorem update_client_self (l : List QemudClient) (c : QemudClient) (hc : c ∈ l)
    (hnd : (l.map (fun x => x.addr)).Nodup) :
    update_client c.addr (fun _ => c) l = l := by
  unfold update_client
  have : ∀ x ∈ l, (if x.addr = c.addr then c else x) = x := by
    intro x hx
    by_cases h : x.addr = c.addr
    · rw [if_pos h]
      exact (List.inj_on_of_nodup_map hnd hx hc h).symm
    · rw [if_neg h]
  rw [List.map_congr_left this, List.map_id']

/-- A record for channel 0 reaches `qemud_multiplexer_control_recv` when the
first client on channel 0 is the control client. -/
theorem multiplexer_recv_control (m : QemudMultiplexer) (s : QemudSerial) (msg : List Nat)
    (c0 : QemudClient)
    (hfind : m.clients.find? (fun c => c.channel = 0) = some c0)
    (hfr : c0.framing = false) (hrecv : c0.clie_recv = QemudClientRecv.control)
    (hnd : (m.clients.map (fun x => x.addr)).Nodup) :
    multiplexer_recv m s 0 msg
      = some (qemud_multiplexer_control_recv { m with serial := s } msg,
          (qemud_multiplexer_control_recv { m with serial := s } msg).serial) := by
  have hupd := update_client_self m.clients c0 (List.mem_of_find?_eq_some hfind) hnd
  unfold multiplexer_recv qemud_multiplexer_serial_recv
  simp only [hfind]
  unfold qemud_client_recv
  simp only [hfr, Bool.not_false, if_true, hrecv, hupd]
  simp only [ne_eq, reduceCtorEq, not_false_eq_true, if_true, client_deliver, hrecv]

/-- A well-formed record for channel 0 at the head of the input is handled by
`qemud_multiplexer_control_recv`, and the loop goes on with what follows. -/
theorem control_record_step (fuel : Nat) (m : QemudMultiplexer) (s : QemudSerial)
    (hdr body rest : List Nat) (c0 : QemudClient)
    (hs : HeaderState s) (hh : hdr.length = 6)
    (h1 : 0 < (after_header s hdr).in_size)
    (h2 : (after_header s hdr).in_size ≤ MAX_SERIAL_PAYLOAD)
    (h3 : (after_header s hdr).in_channel = 0)
    (hb : (body.length : Int) = (after_header s hdr).in_size)
    (hfind : m.clients.find? (fun c => c.channel = 0) = some c0)
    (hfr : c0.framing = false) (hrecv : c0.clie_recv = QemudClientRecv.control)
    (hnd : (m.clients.map (fun x => x.addr)).Nodup) :
    qemud_serial_read_loop multiplexer_recv (fuel + 1) m s (hdr ++ body ++ rest) =
      qemud_serial_read_loop multiplexer_recv fuel
        (qemud_multiplexer_control_recv
          { m with serial := delivered (after_header s hdr) body } body)
        { (qemud_multiplexer_control_recv
            { m with serial := delivered (after_header s hdr) body } body).serial with
          need_header := true } rest := by
  rw [record_step multiplexer_recv fuel m s hdr body rest hs hh h1 h2 (by rw [h3]) hb, h3,
    multiplexer_recv_control m _ body c0 hfind hfr hrecv hnd]
  rfl

theorem hw_control_mux_eq (cs data0 : List Nat) (max : Int) (so o : Nat) (r : QemudClientRecv)
    (cl : Bool) :
    hw_control_mux cs data0 max so o r cl =
      ({ serial := qemud_serial_init cs data0, clients := [control_client],
         services := [{ addr := 2, name := bytes "hw-control", max_clients := max,
                        num_clients := 0, clients := [],
                        serv_connect := QemudServiceConnect.accept o r cl, serv_opaque := so }],
         next_addr := 3, events := [] },
       { addr := 2, name := bytes "hw-control", max_clients := max,
         num_clients := 0, clients := [],
         serv_connect := QemudServiceConnect.accept o r cl, serv_opaque := so }) := by
  have hn : cstr (bytes "hw-control") = bytes "hw-control" := by decide
  unfold hw_control_mux qemud_service_new
  rw [hn]
  rfl

/-- The reply "001200" "ko:unknown command" of a legacy daemon, as the first
record read: the version becomes LEGACY and the control handler stays
silent. -/
theorem legacy_reply_step (fuel : Nat) (m : QemudMultiplexer) (s : QemudSerial)
    (rest : List Nat) (c0 : QemudClient)
    (hs : HeaderState s) (hv : s.version = QemudVersion.UNKNOWN)
    (hfind : m.clients.find? (fun c => c.channel = 0) = some c0)
    (hfr : c0.framing = false) (hrecv : c0.clie_recv = QemudClientRecv.control)
    (hnd : (m.clients.map (fun x => x.addr)).Nodup) :
    ∃ s1 s2, HeaderState s2 ∧ s2.version = QemudVersion.LEGACY ∧ s2.cs = s.cs
      ∧ qemud_serial_read_loop multiplexer_recv (fuel + 1) m s
          (bytes "001200" ++ bytes "ko:unknown command" ++ rest)
        = qemud_serial_read_loop multiplexer_recv fuel { m with serial := s1 } s2 rest := by
  obtain ⟨d1, d2, d3⟩ := after_header_detect_legacy s hv
  have hah := after_header_header_state s (bytes "001200") hs
  have hcs : (after_header s (bytes "001200")).cs = s.cs := by
    unfold after_header
    rw [parse_cs]
  have hstep := control_record_step fuel m s (bytes "001200") (bytes "ko:unknown command") rest c0
    hs rfl (by rw [d2]; decide) (by rw [d2]; decide) d3 (by rw [d2]; rfl) hfind hfr hrecv hnd
  have hsil : qemud_multiplexer_control_recv
      { m with serial := delivered (after_header s (bytes "001200")) (bytes "ko:unknown command") }
      (bytes "ko:unknown command")
      = { m with serial :=
            delivered (after_header s (bytes "001200")) (bytes "ko:unknown command") } := by
    rw [control_recv_other _ _ (by decide) (by decide) (by decide)]
    rw [if_pos (by simp only [delivered]; exact d1)]
  rw [hsil] at hstep
  refine ⟨_, _, ?_, ?_, ?_, hstep⟩
  · exact ⟨rfl, by simp only [delivered]; exact hah.sink, by simp only [delivered]; exact hah.over⟩
  · simp only [delivered]; exact d1
  · simp only [delivered]; exact hcs

/-- The message "001500" "ok:connect:control:0a" read in LEGACY mode: the
service "hw-control" is asked to connect channel 10, and nothing is written. -/
theorem legacy_connect_step (fuel : Nat) (m : QemudMultiplexer) (s : QemudSerial)
    (c0 : QemudClient) (sv : QemudService) (o : Nat) (r : QemudClientRecv) (cl : Bool)
    (hs : HeaderState s) (hv : s.version = QemudVersion.LEGACY)
    (hfind : m.clients.find? (fun c => c.channel = 0) = some c0)
    (hfr : c0.framing = false) (hrecv : c0.clie_recv = QemudClientRecv.control)
    (hnd : (m.clients.map (fun x => x.addr)).Nodup)
    (hsv : m.services.find? (fun x => x.name = bytes "hw-control") = some sv)
    (hcap : ¬ (sv.max_clients > 0 ∧ sv.num_clients ≥ sv.max_clients))
    (hcb : sv.serv_connect = QemudServiceConnect.accept o r cl)
    (hfresh : ∀ x ∈ m.clients, x.addr ≠ m.next_addr) :
    ∃ s1 s2, s2.version = QemudVersion.LEGACY ∧ s2.cs = s.cs
      ∧ qemud_serial_read_loop multiplexer_recv (fuel + 1) m s
          (bytes "001500" ++ bytes "ok:connect:control:0a" ++ [])
        = some ({ m with
              serial := s1
              clients :=
                { addr := m.next_addr, channel := 10, clie_opaque := o, clie_recv := r,
                  clie_close := cl, service := some sv.addr, framing := false,
                  need_header := true,
                  header := { len := 0, size := FRAME_HEADER_SIZE },
                  header0 := List.replicate FRAME_HEADER_SIZE 0,
                  payload := { len := 0, size := 0 }, payload_buff := [] } :: m.clients
              services := update_service sv.addr
                (fun x => { x with clients := m.next_addr :: x.clients,
                                   num_clients := x.num_clients + 1 }) m.services
              next_addr := m.next_addr + 1
              events := m.events ++ [QemudEvent.connect sv.serv_opaque sv.addr 10] }, s2) := by
  have hal := after_header_legacy s (bytes "001500") rfl hv
  have hsize : (after_header s (bytes "001500")).in_size = 21 := by
    rw [hal]
    show hex2int (bytes "001500") 4 = 21
    decide
  have hchan : (after_header s (bytes "001500")).in_channel = 0 := by
    rw [hal]
    show hex2int ((bytes "001500").drop 4) 2 = 0
    decide
  have hver : (after_header s (bytes "001500")).version = QemudVersion.LEGACY := by
    rw [hal]
    exact hv
  have hcs : (after_header s (bytes "001500")).cs = s.cs := by
    unfold after_header
    rw [parse_cs]
  have hstep := control_record_step fuel m s (bytes "001500") (bytes "ok:connect:control:0a") [] c0
    hs rfl (by rw [hsize]; decide) (by rw [hsize]; decide) hchan (by rw [hsize]; rfl)
    hfind hfr hrecv hnd
  have hmsg : bytes "ok:connect:control:0a" = legacy_connect_msg (bytes "control") (bytes "0a") := by
    decide
  have hconn : qemud_multiplexer_control_recv
      { m with serial :=
          delivered (after_header s (bytes "001500")) (bytes "ok:connect:control:0a") }
      (bytes "ok:connect:control:0a")
      = store_zero ({ m with
            serial :=
              delivered (after_header s (bytes "001500")) (bytes "ok:connect:control:0a")
            clients :=
              { addr := m.next_addr, channel := 10, clie_opaque := o, clie_recv := r,
                clie_close := cl, service := some sv.addr, framing := false,
                need_header := true,
                header := { len := 0, size := FRAME_HEADER_SIZE },
                header0 := List.replicate FRAME_HEADER_SIZE 0,
                payload := { len := 0, size := 0 }, payload_buff := [] } :: m.clients
            services := update_service sv.addr
              (fun x => { x with clients := m.next_addr :: x.clients,
                                 num_clients := x.num_clients + 1 }) m.services
            next_addr := m.next_addr + 1
            events := m.events ++ [QemudEvent.connect sv.serv_opaque sv.addr 10] }
          : QemudMultiplexer) (11 + (bytes "control").length) := by
    have h10 : hex2int (bytes "0a") 2 = 10 := by decide
    nth_rewrite 2 [hmsg]
    rw [control_recv_legacy_connect _ (bytes "control") (bytes "0a") (by unfold NameOk; decide)
      rfl (by rw [h10]; decide) (by simp only [delivered]; exact hver), if_pos rfl, h10,
      connect_accept
        { m with serial :=
            delivered (after_header s (bytes "001500")) (bytes "ok:connect:control:0a") }
        sv (bytes "hw-control") 10 o r cl hsv hcap hcb hfresh]
  rw [hconn, loop_nil] at hstep
  refine ⟨_, _, ?_, ?_, hstep⟩
  · simp only [delivered]; exact hver
  · simp only [delivered]; exact hcs

/-- C17. Legacy connect scenario: a freshly initialised multiplexer on which
the service "hw-control" is registered (accepting through `qemud_client_new`)
reads the bytes "001200" "ko:unknown command" "001500" "ok:connect:control:0a"
in chunks of any size. The version becomes LEGACY, the connect callback of
"hw-control" is called once, with channel 10, a client with channel id 10 is
attached to that service, and nothing is written to the transport. -/
theorem C17_legacy_connect (cs data0 : List Nat) (max : Int) (so o : Nat) (r : QemudClientRecv)
    (cl : Bool) (chunks : List (List Nat))
    (hchunks : chunks.flatten = bytes "001200" ++ bytes "ko:unknown command"
      ++ bytes "001500" ++ bytes "ok:connect:control:0a") :
    ∃ m1 c, multiplexer_read (hw_control_mux cs data0 max so o r cl).1 chunks = some m1
      ∧ (hw_control_mux cs data0 max so o r cl).1.serial.version = QemudVersion.UNKNOWN
      ∧ m1.serial.version = QemudVersion.LEGACY
      ∧ m1.serial.cs = (hw_control_mux cs data0 max so o r cl).1.serial.cs
      ∧ m1.events = [QemudEvent.connect so (hw_control_mux cs data0 max so o r cl).2.addr 10]
      ∧ m1.clients = c :: (hw_control_mux cs data0 max so o r cl).1.clients
      ∧ c.channel = 10
      ∧ c.service = some (hw_control_mux cs data0 max so o r cl).2.addr
      ∧ c.clie_opaque = o ∧ c.clie_recv = r ∧ c.clie_close = cl
      ∧ m1.services = [{ (hw_control_mux cs data0 max so o r cl).2 with
                          clients := [c.addr], num_clients := 1 }] := by
  rw [hw_control_mux_eq]
  simp only []
  have hs0 := serial_init_header_state cs data0
  obtain ⟨s1, s2, hs2, hv2, hcs2, hstep1⟩ := legacy_reply_step (49 + 1)
    { serial := qemud_serial_init cs data0, clients := [control_client],
      services := [{ addr := 2, name := bytes "hw-control", max_clients := max,
                     num_clients := 0, clients := [],
                     serv_connect := QemudServiceConnect.accept o r cl, serv_opaque := so }],
      next_addr := 3, events := [] }
    (qemud_serial_init cs data0) (bytes "001500" ++ bytes "ok:connect:control:0a" ++ [])
    control_client hs0 rfl rfl rfl rfl (List.nodup_singleton _)
  obtain ⟨s3, s4, hv4, hcs4, hstep2⟩ := legacy_connect_step 49
    { serial := s1, clients := [control_client],
      services := [{ addr := 2, name := bytes "hw-control", max_clients := max,
                     num_clients := 0, clients := [],
                     serv_connect := QemudServiceConnect.accept o r cl, serv_opaque := so }],
      next_addr := 3, events := [] }
    s2 control_client
    { addr := 2, name := bytes "hw-control", max_clients := max,
      num_clients := 0, clients := [],
      serv_connect := QemudServiceConnect.accept o r cl, serv_opaque := so }
    o r cl hs2 hv2 rfl rfl rfl (List.nodup_singleton _) (by simp) (by simp) rfl
    (by
      intro x hx
      rw [List.mem_singleton.mp hx]
      show (1 : Nat) ≠ 3
      decide)
  have hin : bytes "001200" ++ bytes "ko:unknown command" ++ bytes "001500"
      ++ bytes "ok:connect:control:0a"
      = bytes "001200" ++ bytes "ko:unknown command"
        ++ (bytes "001500" ++ bytes "ok:connect:control:0a" ++ []) := by
    simp only [List.append_assoc, List.append_nil]
  simp only [] at hstep1 hstep2
  unfold multiplexer_read
  simp only []
  rw [read_chunks_join multiplexer_recv multiplexer_recv_keeps chunks _ _ hs0.good, hchunks,
    read_eq_loop multiplexer_recv multiplexer_recv_keeps (49 + 1 + 1) _ _ _ hs0.good (by decide),
    hin, hstep1, hstep2]
  simp only []
  refine ⟨_, _, rfl, rfl, hv4, ?_, rfl, rfl, rfl, rfl, rfl, rfl, rfl, ?_⟩
  · show s4.cs = (qemud_serial_init cs data0).cs
    rw [hcs4, hcs2]
  · simp [update_service]

/-- Witness of C17: the scenario with the input cut in the middle of the
second header. -/
theorem C17_legacy_connect_witness :
    ∃ m1 c, multiplexer_read (hw_control_mux [] [] 1 77 5 QemudClientRecv.user true).1
        [bytes "001200ko:unknown command001", bytes "500ok:connect:control:0a"] = some m1
      ∧ m1.serial.version = QemudVersion.LEGACY
      ∧ m1.serial.cs = legacy_probe
      ∧ m1.events = [QemudEvent.connect 77 2 10]
      ∧ m1.clients = [c, control_client]
      ∧ c.channel = 10 ∧ c.service = some 2 := by
  obtain ⟨m1, c, h1, -, h3, h4, h5, h6, h7, h8, -⟩ :=
    C17_legacy_connect [] [] 1 77 5 QemudClientRecv.user true
      [bytes "001200ko:unknown command001", bytes "500ok:connect:control:0a"] (by decide)
  exact ⟨m1, c, h1, h3, h4.trans rfl, h5, h6, h7, h8⟩

/-! ## Broadcast -/

theorem broadcast_eq_foldl (m : QemudMultiplexer) (sv : QemudService) (msg : List Nat) :
    qemud_service_broadcast m sv msg = sv.clients.foldl (broadcast_step msg) m := rfl

/-- The loop of `qemud_service_broadcast` over clients that do not use
framing. -/
theorem broadcast_fold (msg : List Nat) (hm1 : 1 ≤ msg.length)
    (hm2 : msg.length ≤ MAX_SERIAL_PAYLOAD) (cl : List QemudClient) :
    ∀ m : QemudMultiplexer,
      (∀ c ∈ cl, m.clients.find? (fun x => x.addr = c.addr) = some c) →
      (∀ c ∈ cl, c.framing = false) →
      (∀ c ∈ cl, 1 ≤ c.channel) →
      (cl.map (fun c => c.addr)).foldl (broadcast_step msg) m
        = { m with serial := { m.serial with cs := m.serial.cs ++ cl.flatMap (fun c =>
              serial_header m.serial.version msg.length c.channel.toNat ++ msg) } } := by
  induction cl with
  | nil =>
    intro m _ _ _
    simp
  | cons c rest ih =>
    intro m hfind hfr hch
    have hc := hfind c (List.mem_cons_self _ _)
    have hcast : c.channel = ((c.channel.toNat : Nat) : Int) := by
      have := hch c (List.mem_cons_self _ _)
      omega
    have hsend : qemud_client_send m c msg
        = { m with serial := { m.serial with cs := m.serial.cs
              ++ (serial_header m.serial.version msg.length c.channel.toNat ++ msg) } } := by
      unfold qemud_client_send
      rw [hfr c (List.mem_cons_self _ _)]
      nth_rewrite 1 [hcast]
      rw [send_one_record m.serial c.channel.toNat msg hm1 hm2]
    have hstep : broadcast_step msg m c.addr
        = { m with serial := { m.serial with cs := m.serial.cs
              ++ (serial_header m.serial.version msg.length c.channel.toNat ++ msg) } } := by
      unfold broadcast_step
      rw [hc]
      exact hsend
    rw [List.map_cons, List.foldl_cons, hstep,
      ih { m with serial := { m.serial with cs := m.serial.cs
              ++ (serial_header m.serial.version msg.length c.channel.toNat ++ msg) } }
        (fun x hx => hfind x (List.mem_cons_of_mem _ hx))
        (fun x hx => hfr x (List.mem_cons_of_mem _ hx))
        (fun x hx => hch x (List.mem_cons_of_mem _ hx))]
    simp only [List.flatMap_cons, List.append_assoc]

/-- C18. Broadcast: for a service whose client list is c1..cn in list order
(most recently attached first), all without framing and with channel ids in
[1,255], and a message m of 1 to 4000 bytes, `qemud_service_broadcast` writes
exactly n records, the i-th being the header for the channel of ci and the
length of m followed by m, in list order, and nothing else; n is the
num_clients of the service when that counts its list; no client or service
changes. -/
theorem C18_broadcast (m : QemudMultiplexer) (sv : QemudService) (cl : List QemudClient)
    (msg : List Nat)
    (hlist : sv.clients = cl.map (fun c => c.addr))
    (hfind : ∀ c ∈ cl, m.clients.find? (fun x => x.addr = c.addr) = some c)
    (hfr : ∀ c ∈ cl, c.framing = false)
    (hch : ∀ c ∈ cl, 1 ≤ c.channel ∧ c.channel ≤ 255)
    (hm1 : 1 ≤ msg.length) (hm2 : msg.length ≤ 4000) :
    qemud_service_broadcast m sv msg
        = { m with serial := { m.serial with cs := m.serial.cs
              ++ (cl.map (fun c =>
                    serial_header m.serial.version msg.length c.channel.toNat ++ msg)).flatten } }
      ∧ (cl.map (fun c =>
            serial_header m.serial.version msg.length c.channel.toNat ++ msg)).length
          = sv.clients.length
      ∧ (sv.num_clients = (sv.clients.length : Int) →
          (((cl.map (fun c =>
            serial_header m.serial.version msg.length c.channel.toNat ++ msg)).length : Nat) : Int)
            = sv.num_clients)
      ∧ (∀ c ∈ cl, hex2int (int2hex 2 c.channel.toNat) 2 = c.channel)
      ∧ hex2int (int2hex 4 msg.length) 4 = msg.length := by
  have hlen : (cl.map (fun c =>
      serial_header m.serial.version msg.length c.channel.toNat ++ msg)).length
      = sv.clients.length := by
    rw [hlist, List.length_map, List.length_map]
  refine ⟨?_, hlen, ?_, ?_, ?_⟩
  · rw [broadcast_eq_foldl, hlist,
      broadcast_fold msg hm1 hm2 cl m hfind hfr (fun c hc => (hch c hc).1), List.flatMap_def]
  · intro hn
    rw [hlen, hn]
  · intro c hc
    have := hch c hc
    have h := hex2int_int2hex 2 c.channel.toNat [] (by
      have : c.channel.toNat ≤ 255 := by omega
      show c.channel.toNat < 256
      omega)
    rw [List.append_nil] at h
    rw [h]
    omega
  · have h := hex2int_int2hex 4 msg.length [] (by
      show msg.length < 65536
      omega)
    rw [List.append_nil] at h
    exact h

/-- Witness of C18: "hi" broadcast to the two clients of "gsm" is written for
channel 0x43, then for channel 0x42. -/
theorem C18_broadcast_witness :
    (qemud_service_broadcast mux_two gsm_service2 (bytes "hi")).serial.cs
      = bytes "430002hi420002hi" := by
  have h := (C18_broadcast mux_two gsm_service2 [gsm_client2, gsm_client] (bytes "hi") rfl
    (by
      intro c hc
      simp only [List.mem_cons, List.mem_singleton, List.not_mem_nil, or_false] at hc
      rcases hc with h | h <;> rw [h] <;> rfl)
    (by
      intro c hc
      simp only [List.mem_cons, List.mem_singleton, List.not_mem_nil, or_false] at hc
      rcases hc with h | h <;> rw [h] <;> rfl)
    (by
      intro c hc
      simp only [List.mem_cons, List.mem_singleton, List.not_mem_nil, or_false] at hc
      rcases hc with h | h <;> rw [h] <;> decide)
    (by decide) (by decide)).1
  rw [h]
  decide

theorem unlink_absent (a : Nat) (l : List QemudClient) (h : ∀ x ∈ l, x.addr ≠ a) :
    unlink_client a l = l := by
  induction l with
  | nil => rfl
  | cons x t ih =>
    have hx := h x (List.mem_cons_self _ _)
    simp only [unlink_client, hx, if_false, ih (fun y hy => h y (List.mem_cons_of_mem _ hy))]

/-! ## The framing flag -/

theorem client_payload_framing (c : QemudClient) (calls : List (List Nat)) (msg : List Nat) :
    (match qemud_client_recv_payload c calls msg with
      | LoopStep.brk r => r.1.framing
      | LoopStep.cont r _ => r.1.framing) = c.framing := by
  unfold qemud_client_recv_payload
  cases qemud_sink_fill c.payload c.payload_buff msg with
  | mk payload r1 =>
    cases r1 with
    | mk buff r2 =>
      cases r2 with
      | mk rest full =>
        cases full <;> simp

theorem client_body_framing (c : QemudClient) (calls : List (List Nat)) (msg : List Nat) :
    (match qemud_client_recv_body c calls msg with
      | LoopStep.brk r => r.1.framing
      | LoopStep.cont r _ => r.1.framing) = c.framing := by
  unfold qemud_client_recv_body
  cases c.need_header with
  | false => exact client_payload_framing c calls msg
  | true =>
    simp only [if_true]
    cases qemud_sink_fill c.header c.header0 msg with
    | mk header r1 =>
      cases r1 with
      | mk header0 r2 =>
        cases r2 with
        | mk rest full =>
          cases full with
          | false => simp
          | true =>
            simp only [Bool.not_true, Bool.false_eq_true, if_false]
            split_ifs
            · rfl
            · rfl
            · rw [client_payload_framing]

/-- The loop of `qemud_client_recv` does not touch the framing flag. -/
theorem client_loop_framing (fuel : Nat) :
    ∀ (c : QemudClient) (calls : List (List Nat)) (msg : List Nat)
      (r : QemudClient × List (List Nat)),
      qemud_client_recv_loop fuel c calls msg = some r → r.1.framing = c.framing := by
  induction fuel with
  | zero =>
    intro c calls msg r h
    unfold qemud_client_recv_loop at h
    split_ifs at h
    cases h
    rfl
  | succ n ih =>
    intro c calls msg r h
    unfold qemud_client_recv_loop at h
    split_ifs at h
    · have hb := client_body_framing c calls msg
      cases hs : qemud_client_recv_body c calls msg with
      | brk r1 =>
        rw [hs] at h hb
        simp only [Option.some.injEq] at h
        rw [← h]
        exact hb
      | cont r1 rest =>
        rw [hs] at h hb
        obtain ⟨c1, calls1⟩ := r1
        simp only at h hb
        rw [ih c1 calls1 rest r h]
        exact hb
    · cases h
      rfl

/-- A reachable client that does not use framing waits for a header: the
flag `need_header` is cleared only while framing is on, and
`qemud_client_set_framing` sets it again before it turns framing off. -/
theorem reachable_need_header (c : QemudClient) (h : ClientReachable c) :
    c.framing = false → c.need_header = true := by
  induction h with
  | alloc m ch o r cl => intro _; rfl
  | new m sv ch o r cl => intro _; rfl
  | set_framing c f _ ih =>
    intro hf
    unfold qemud_client_set_framing at hf ⊢
    cases hfr : c.framing <;> cases hn : c.need_header <;> simp_all
  | recv c c1 msg calls _ hr ih =>
    intro hf
    unfold qemud_client_recv at hr
    cases hfr : c.framing with
    | false =>
      rw [hfr] at hr
      simp only [Bool.not_false, if_true, Option.some.injEq, Prod.mk.injEq] at hr
      rw [← hr.1]
      exact ih hfr
    | true =>
      rw [hfr] at hr
      simp only [Bool.not_true, Bool.false_eq_true, if_false] at hr
      have hfc : c1.framing = c.framing := by
        split_ifs at hr
        all_goals first
          | exact client_loop_framing _ _ _ _ _ hr
          | (simp only [Option.some.injEq, Prod.mk.injEq] at hr
             rw [← hr.1])
      rw [hfc, hfr] at hf
      cases hf

/-- C20. Enabling framing is idempotent: for a client state reachable from
`qemud_client_alloc` through `qemud_client_set_framing` and
`qemud_client_recv`, the client after two calls of
`qemud_client_set_framing(c, true)` is the client after one call: framing
flag, `need_header`, the two sinks and every other field are the same. -/
theorem C20_set_framing_idempotent (c : QemudClient) (h : ClientReachable c) :
    qemud_client_set_framing (qemud_client_set_framing c true) true
      = qemud_client_set_framing c true := by
  have hinv := reachable_need_header c h
  unfold qemud_client_set_framing
  cases hfr : c.framing <;> cases hn : c.need_header <;> simp_all

theorem client_mid_frame_reachable : ClientReachable client_mid_frame :=
  ClientReachable.recv
    (qemud_client_set_framing
      (qemud_client_alloc mux_example 66 5 QemudClientRecv.user true).2 true)
    client_mid_frame (bytes "0005he") []
    (ClientReachable.set_framing _ true (ClientReachable.alloc mux_example 66 5
      QemudClientRecv.user true))
    (by decide)

/-- Witness of C20: on a client that is in the middle of a frame, the first
call releases the payload buffer and the second changes nothing. -/
theorem C20_set_framing_idempotent_witness :
    qemud_client_set_framing (qemud_client_set_framing client_mid_frame true) true
      = qemud_client_set_framing client_mid_frame true
    ∧ (qemud_client_set_framing client_mid_frame true).need_header = true
    ∧ (qemud_client_set_framing client_mid_frame true).payload_buff = [] :=
  ⟨C20_set_framing_idempotent client_mid_frame client_mid_frame_reachable, rfl, rfl⟩

/-- Without the reachability the two calls differ: on a client with framing
off and `need_header` cleared the first call only sets the flag, and the second
one sets `need_header`. -/
theorem set_framing_twice_unreachable :
    qemud_client_set_framing
        (qemud_client_set_framing { client_mid_frame with framing := false } true) true
      ≠ qemud_client_set_framing { client_mid_frame with framing := false } true := by
  decide

/-! ## The connect scenario, end to end -/

theorem delivered_header_state (s : QemudSerial) (hdr body : List Nat) (hs : HeaderState s) :
    HeaderState { delivered (after_header s hdr) body with need_header := true } := by
  have hah := after_header_header_state s hdr hs
  exact ⟨rfl, by simp only [delivered]; exact hah.sink, by simp only [delivered]; exact hah.over⟩

theorem send_header_state (s : QemudSerial) (channel : Int) (framing : Bool) (msg : List Nat)
    (hs : HeaderState s) : HeaderState (qemud_serial_send s channel framing msg) := by
  unfold qemud_serial_send
  simp only []
  split_ifs <;> first | exact hs | exact ⟨hs.need, hs.sink, hs.over⟩

theorem send_version (s : QemudSerial) (channel : Int) (framing : Bool) (msg : List Nat) :
    (qemud_serial_send s channel framing msg).version = s.version := by
  unfold qemud_serial_send
  simp only []
  split_ifs <;> rfl

/-- The inbound bytes "000008connect:gsm:42" in normal orientation: the header
announces 8 bytes, so the control handler is given "connect:" alone, which it
answers "ko:unknown command"; the six bytes "gsm:42" that follow are read as a
header and dropped. -/
theorem scenario_as_written (m : QemudMultiplexer) (c0 : QemudClient)
    (chunks : List (List Nat))
    (hs : HeaderState m.serial) (hv : m.serial.version = QemudVersion.NORMAL)
    (hfind : m.clients.find? (fun c => c.channel = 0) = some c0)
    (hfr : c0.framing = false) (hrecv : c0.clie_recv = QemudClientRecv.control)
    (hnd : (m.clients.map (fun x => x.addr)).Nodup)
    (hchunks : chunks.flatten = bytes "000008connect:gsm:42") :
    ∃ m1, multiplexer_read m chunks = some m1
      ∧ m1.serial.cs = m.serial.cs ++ bytes "000012ko:unknown command"
      ∧ m1.clients = m.clients ∧ m1.services = m.services ∧ m1.events = m.events := by
  have hin : bytes "000008connect:gsm:42"
      = bytes "000008" ++ bytes "connect:" ++ (bytes "gsm:42" ++ []) := by decide
  have hah := after_header_normal m.serial (bytes "000008") rfl (by rw [hv]; decide)
    (fun _ => by decide)
  have hsize : (after_header m.serial (bytes "000008")).in_size = 8 := by
    rw [hah]
    show hex2int ((bytes "000008").drop 2) 4 = 8
    decide
  have hchan : (after_header m.serial (bytes "000008")).in_channel = 0 := by
    rw [hah]
    show hex2int (bytes "000008") 2 = 0
    decide
  have hver : (after_header m.serial (bytes "000008")).version = QemudVersion.NORMAL := by
    rw [hah]
  have hcs : (after_header m.serial (bytes "000008")).cs = m.serial.cs := by
    rw [hah]
  have hstep := control_record_step (18 + 1) m m.serial (bytes "000008") (bytes "connect:")
    (bytes "gsm:42" ++ []) c0 hs rfl (by rw [hsize]; decide) (by rw [hsize]; decide) hchan
    (by rw [hsize]; rfl) hfind hfr hrecv hnd
  have hother : qemud_multiplexer_control_recv
      { m with serial := delivered (after_header m.serial (bytes "000008")) (bytes "connect:") }
      (bytes "connect:")
      = { m with serial := (qemud_serial_send
            (delivered (after_header m.serial (bytes "000008")) (bytes "connect:")) 0 false
            (bufprint 64 (bytes "ko:unknown command"))) } := by
    rw [control_recv_other _ _ (by decide) (by decide) (by decide)]
    rw [if_neg (by simp only [delivered]; rw [hver]; decide)]
  rw [hother] at hstep
  simp only [] at hstep
  have hsend : qemud_serial_send
      (delivered (after_header m.serial (bytes "000008")) (bytes "connect:")) 0 false
      (bufprint 64 (bytes "ko:unknown command"))
      = { delivered (after_header m.serial (bytes "000008")) (bytes "connect:") with
          cs := m.serial.cs ++ bytes "000012ko:unknown command" } := by
    have h1 : qemud_serial_send
        (delivered (after_header m.serial (bytes "000008")) (bytes "connect:")) 0 false
        (bytes "ko:unknown command") = _ :=
      send_one_record _ 0 (bytes "ko:unknown command") (by decide) (by decide)
    rw [bufprint_short 64 _ (by decide), h1]
    have e : serial_header
        (delivered (after_header m.serial (bytes "000008")) (bytes "connect:")).version
        (bytes "ko:unknown command").length 0 ++ bytes "ko:unknown command"
        = bytes "000012ko:unknown command" := by
      simp only [delivered]
      rw [hver]
      decide
    rw [e]
    simp only [delivered]
    rw [hcs]
  rw [hsend] at hstep
  have hs2 : HeaderState
      { ({ delivered (after_header m.serial (bytes "000008")) (bytes "connect:") with
          cs := m.serial.cs ++ bytes "000012ko:unknown command" } : QemudSerial) with
        need_header := true } := by
    have h := delivered_header_state m.serial (bytes "000008") (bytes "connect:") hs
    exact ⟨rfl, h.sink, h.over⟩
  have hbad := bad_header_step multiplexer_recv 18
    { m with serial := ({ delivered (after_header m.serial (bytes "000008")) (bytes "connect:")
        with cs := m.serial.cs ++ bytes "000012ko:unknown command" }) }
    _ (bytes "gsm:42") [] hs2 rfl
    (by
      left
      rw [after_header_normal _ (bytes "gsm:42") rfl
        (by simp only [delivered]; rw [hver]; decide) (fun _ => by decide)]
      show hex2int ((bytes "gsm:42").drop 2) 4 ≤ 0
      decide)
  rw [hbad, loop_nil] at hstep
  unfold multiplexer_read
  rw [read_chunks_join multiplexer_recv multiplexer_recv_keeps chunks _ _ hs.good, hchunks,
    read_eq_loop multiplexer_recv multiplexer_recv_keeps (18 + 1 + 1) _ _ _ hs.good (by decide),
    hin, hstep]
  refine ⟨_, rfl, ?_, rfl, rfl, rfl⟩
  simp only []
  unfold after_header
  rw [parse_cs]

/-- The inbound bytes "00000econnect:gsm:42" in normal orientation, with a
service "gsm" that has no client yet and accepts: the request is answered
"ok:connect:42" and the client is attached. -/
theorem scenario_amended (m : QemudMultiplexer) (c0 : QemudClient) (sv : QemudService)
    (o : Nat) (r : QemudClientRecv) (cl : Bool) (chunks : List (List Nat))
    (hs : HeaderState m.serial) (hv : m.serial.version = QemudVersion.NORMAL)
    (hfind : m.clients.find? (fun c => c.channel = 0) = some c0)
    (hfr : c0.framing = false) (hrecv : c0.clie_recv = QemudClientRecv.control)
    (hnd : (m.clients.map (fun x => x.addr)).Nodup)
    (hfresh : ∀ x ∈ m.clients, x.addr ≠ m.next_addr)
    (hsv : m.services.find? (fun x => x.name = bytes "gsm") = some sv)
    (hnum : sv.num_clients = 0)
    (hcb : sv.serv_connect = QemudServiceConnect.accept o r cl)
    (hchunks : chunks.flatten = bytes "00000econnect:gsm:42") :
    ∃ m1 c, multiplexer_read m chunks = some m1
      ∧ m1.serial.cs = m.serial.cs ++ bytes "00000dok:connect:42"
      ∧ m1.clients = c :: m.clients
      ∧ c.channel = 66 ∧ c.service = some sv.addr
      ∧ m1.services.find? (fun x => x.name = bytes "gsm")
          = some { sv with clients := c.addr :: sv.clients, num_clients := 1 }
      ∧ m1.events = m.events ++ [QemudEvent.connect sv.serv_opaque sv.addr 66] := by
  have hin : bytes "00000econnect:gsm:42"
      = bytes "00000e" ++ connect_msg (bytes "gsm") (bytes "42") ++ [] := by decide
  have hah := after_header_normal m.serial (bytes "00000e") rfl (by rw [hv]; decide)
    (fun _ => by decide)
  have hsize : (after_header m.serial (bytes "00000e")).in_size = 14 := by
    rw [hah]
    show hex2int ((bytes "00000e").drop 2) 4 = 14
    decide
  have hchan : (after_header m.serial (bytes "00000e")).in_channel = 0 := by
    rw [hah]
    show hex2int (bytes "00000e") 2 = 0
    decide
  have hver : (after_header m.serial (bytes "00000e")).version = QemudVersion.NORMAL := by
    rw [hah]
  have hcs : (after_header m.serial (bytes "00000e")).cs = m.serial.cs := by
    rw [hah]
  have hstep := control_record_step 20 m m.serial (bytes "00000e")
    (connect_msg (bytes "gsm") (bytes "42")) [] c0 hs rfl (by rw [hsize]; decide)
    (by rw [hsize]; decide) hchan (by rw [hsize]; rfl) hfind hfr hrecv hnd
  have h66 : hex2int (bytes "42") 2 = 66 := by decide
  have hacc := control_recv_accept
    { m with serial := (delivered (after_header m.serial (bytes "00000e"))
        (connect_msg (bytes "gsm") (bytes "42"))) }
    sv (bytes "gsm") (bytes "42") o r cl (by unfold NameOk; decide)
    ⟨rfl, by decide, by decide⟩ hsv (by rw [hnum]; omega) hcb hfresh
  rw [hacc, loop_nil] at hstep
  unfold multiplexer_read
  rw [read_chunks_join multiplexer_recv multiplexer_recv_keeps chunks _ _ hs.good, hchunks,
    read_eq_loop multiplexer_recv multiplexer_recv_keeps (20 + 1) _ _ _ hs.good (by decide),
    hin, hstep]
  refine ⟨_, _, rfl, ?_, rfl, h66, rfl, ?_, ?_⟩
  · simp only [delivered]
    rw [hcs, hver]
    rfl
  · have hf := find_update_service m.services (bytes "gsm") sv
      (fun s => { s with clients := m.next_addr :: s.clients,
                         num_clients := s.num_clients + 1 }) (fun _ => rfl) hsv
    simp only [store_zero_services]
    rw [hf]
    simp [hnum]
  · simp only [h66, store_zero_events]

/-- C21 refuted. On `mux_example` (NORMAL mode, the control client, a service
"gsm" that accepts), the inbound bytes "000008connect:gsm:42", in chunks of
any size, are answered "000012ko:unknown command", not "00000eok:connect:42";
no client is created and the service is unchanged. -/
theorem C21_connect_scenario_counterexample :
    mux_example.serial.version = QemudVersion.NORMAL
    ∧ (bytes "connect:gsm:42").length = 14
    ∧ ∀ chunks : List (List Nat), chunks.flatten = bytes "000008connect:gsm:42" →
        ∃ m1, multiplexer_read mux_example chunks = some m1
          ∧ m1.serial.cs = bytes "000012ko:unknown command"
          ∧ m1.serial.cs ≠ bytes "00000eok:connect:42"
          ∧ m1.clients = mux_example.clients ∧ m1.services = mux_example.services := by
  refine ⟨rfl, rfl, ?_⟩
  intro chunks hchunks
  obtain ⟨m1, h1, h2, h3, h4, -⟩ := scenario_as_written mux_example control_client chunks
    (serial_idle_header_state _) rfl rfl rfl rfl (by decide) hchunks
  have e : m1.serial.cs = bytes "000012ko:unknown command" := h2.trans (by decide)
  refine ⟨m1, h1, e, ?_, h3, h4⟩
  rw [e]
  decide

/-- C21 amended. End-to-end connect scenario: on a multiplexer in NORMAL mode
whose reader is in header state, with the control client on channel 0 and a
registered service "gsm" that has no client and accepts through
`qemud_client_new`, the inbound bytes "00000econnect:gsm:42" (a payload of 14
bytes on channel 0), in chunks of any size, make the multiplexer write exactly
"00000dok:connect:42"; afterwards a client with channel id 0x42 is attached to
"gsm", whose num_clients is 1. -/
theorem C21_connect_scenario_amended (m : QemudMultiplexer) (c0 : QemudClient)
    (sv : QemudService) (o : Nat) (r : QemudClientRecv) (cl : Bool) (chunks : List (List Nat))
    (hs : HeaderState m.serial) (hv : m.serial.version = QemudVersion.NORMAL)
    (hfind : m.clients.find? (fun c => c.channel = 0) = some c0)
    (hfr : c0.framing = false) (hrecv : c0.clie_recv = QemudClientRecv.control)
    (hnd : (m.clients.map (fun x => x.addr)).Nodup)
    (hfresh : ∀ x ∈ m.clients, x.addr ≠ m.next_addr)
    (hsv : m.services.find? (fun x => x.name = bytes "gsm") = some sv)
    (hnum : sv.num_clients = 0)
    (hcb : sv.serv_connect = QemudServiceConnect.accept o r cl)
    (hchunks : chunks.flatten = bytes "00000econnect:gsm:42") :
    ∃ m1 c, multiplexer_read m chunks = some m1
      ∧ m1.serial.cs = m.serial.cs ++ bytes "00000dok:connect:42"
      ∧ m1.clients = c :: m.clients
      ∧ c.channel = 66 ∧ c.service = some sv.addr
      ∧ (∃ sv1, m1.services.find? (fun x => x.name = bytes "gsm") = some sv1
          ∧ sv1.clients = c.addr :: sv.clients ∧ sv1.num_clients = 1)
      ∧ m1.events = m.events ++ [QemudEvent.connect sv.serv_opaque sv.addr 66] := by
  obtain ⟨m1, c, h1, h2, h3, h4, h5, h6, h7⟩ :=
    scenario_amended m c0 sv o r cl chunks hs hv hfind hfr hrecv hnd hfresh hsv hnum hcb hchunks
  exact ⟨m1, c, h1, h2, h3, h4, h5, ⟨_, h6, rfl, rfl⟩, h7⟩

/-- Witness of C21 amended: `mux_example` reads "00000econnect:gsm:42" in two
chunks and answers "00000dok:connect:42". -/
theorem C21_connect_scenario_amended_witness :
    ∃ m1 c, multiplexer_read mux_example [bytes "00000econn", bytes "ect:gsm:42"] = some m1
      ∧ m1.serial.cs = bytes "00000dok:connect:42"
      ∧ m1.clients = [c, control_client]
      ∧ c.channel = 66 ∧ c.service = some 2
      ∧ (∃ sv1, m1.services.find? (fun x => x.name = bytes "gsm") = some sv1
          ∧ sv1.clients = [c.addr] ∧ sv1.num_clients = 1) := by
  obtain ⟨m1, c, h1, h2, h3, h4, h5, h6, -⟩ :=
    C21_connect_scenario_amended mux_example control_client (gsm_service 0 []) 5
      QemudClientRecv.user true [bytes "00000econn", bytes "ect:gsm:42"]
      (serial_idle_header_state _) rfl rfl rfl rfl (by decide) (by decide) rfl rfl rfl
      (by decide)
  exact ⟨m1, c, h1, h2.trans (by decide), h3, h4, h5, h6⟩

/-! ## Empty and corrupt frames, the special case, the framed round trip -/

/-- A frame header that is zero or does not parse, with input after it: the
loop of `qemud_client_recv` does not end, whatever the fuel. -/
theorem client_loop_bad_header (c : QemudClient) (calls : List (List Nat)) (hdr rest : List Nat)
    (hn : c.need_header = true) (hs : c.header = ⟨0, 4⟩) (hh : hdr.length = 4)
    (hz : hex2int hdr 4 ≤ 0) (hr : rest ≠ []) (fuel : Nat) :
    qemud_client_recv_loop fuel c calls (hdr ++ rest) = none := by
  have hne : hdr ++ rest ≠ [] := by simp [hr]
  cases fuel with
  | zero =>
    have hl : (hdr ++ rest).length > 0 := List.length_pos.mpr hne
    unfold qemud_client_recv_loop
    rw [if_pos hl]
  | succ n =>
    rw [client_loop_succ _ _ _ _ hne, client_header_step c calls hdr rest hn hs hh, if_pos hz]
    exact client_loop_stuck _ _ _ _ hn (le_refl _)
      (by simp only; rw [hex2int_memcpy_zero _ _ _ hh]; exact hz) hr

/-- Without the special case, or when it does not apply, `qemud_client_recv`
is the loop. -/
theorem client_recv_slow_eq (c : QemudClient) (msg : List Nat) (h : ¬ fast_path c msg) :
    qemud_client_recv c msg = qemud_client_recv_slow c msg := by
  unfold qemud_client_recv qemud_client_recv_slow
  cases hf : c.framing with
  | false => rfl
  | true =>
    simp only [Bool.not_true, Bool.false_eq_true, if_false]
    rw [if_neg]
    intro hc
    exact h ⟨hf, hc.1, hc.2.1, hc.2.2.1, hc.2.2.2.1, hc.2.2.2.2⟩

/-- A framing client that has read a zero frame header and nothing more: the
header sink stays full. -/
theorem client_recv_zero_header (c : QemudClient) (hc : ClientIdle c) :
    qemud_client_recv c (bytes "0000")
      = some ({ c with header := ⟨4, 4⟩, header0 := memcpy c.header0 0 (bytes "0000") }, []) := by
  have hneed : ¬ (qemud_sink_needed c.header = 0) := by
    rw [hc.sink]; decide
  have hnf : ¬ fast_path c (bytes "0000") := fun h => hneed h.2.2.2.1
  rw [client_recv_slow_eq _ _ hnf]
  unfold qemud_client_recv_slow
  rw [if_neg (by rw [hc.framing]; decide)]
  have hstep := client_header_step c [] (bytes "0000") [] hc.need hc.sink rfl
  rw [List.append_nil, if_pos (by decide)] at hstep
  have hl : 2 * (bytes "0000").length + 2 = 9 + 1 := rfl
  rw [hl, client_loop_succ _ _ _ _ (by decide), hstep]
  show qemud_client_recv_loop 9 _ [] [] = _
  exact client_loop_nil _ _ _

/-- C22, the defect. A client with framing on that waits for a frame (idle
state) and is given "0000" followed by more bytes in one message never returns
from `qemud_client_recv`: the header sink stays full, `qemud_sink_fill`
consumes nothing and the frame size is 0 at every iteration. When the message
ends right after "0000" the call returns with the header sink full, so the
client is not idle; from then on a message is either a whole frame taken by
the special case, which leaves the sink full, or the call never returns. -/
theorem C22_zero_frame_never_skipped :
    ClientIdle client_idle
    ∧ (∀ (c : QemudClient) (rest : List Nat), ClientIdle c → rest ≠ [] →
        (∀ fuel, qemud_client_recv_loop fuel c [] (bytes "0000" ++ rest) = none)
        ∧ qemud_client_recv c (bytes "0000" ++ rest) = none)
    ∧ (∀ c : QemudClient, ClientIdle c →
        ∃ c1, qemud_client_recv c (bytes "0000") = some (c1, [])
          ∧ c1.need_header = true ∧ c1.header = ⟨4, 4⟩
          ∧ ∀ msg, msg ≠ [] →
              (fast_path c1 msg ∧ qemud_client_recv c1 msg = some (c1, [msg.drop 4]))
              ∨ (¬ fast_path c1 msg ∧ qemud_client_recv c1 msg = none
                  ∧ ∀ fuel, qemud_client_recv_loop fuel c1 [] msg = none)) := by
  refine ⟨client_idle_is_idle, ?_, ?_⟩
  · intro c rest hc hr
    exact ⟨client_loop_bad_header c [] (bytes "0000") rest hc.need hc.sink rfl (by decide) hr,
      client_recv_zero_frame c (bytes "0000") rest hc rfl (by decide) hr⟩
  · intro c hc
    refine ⟨_, client_recv_zero_header c hc, hc.need, rfl, ?_⟩
    intro msg hm
    have hz : hex2int (memcpy c.header0 0 (bytes "0000")) 4 ≤ 0 := by
      rw [hex2int_memcpy_zero c.header0 (bytes "0000") 4 rfl]
      decide
    have hstuck : ∀ fuel, qemud_client_recv_loop fuel
        { c with header := ⟨4, 4⟩, header0 := memcpy c.header0 0 (bytes "0000") } [] msg
        = none :=
      fun fuel => client_loop_stuck fuel _ _ _ hc.need (le_refl _) hz hm
    by_cases hfp : fast_path
        { c with header := ⟨4, 4⟩, header0 := memcpy c.header0 0 (bytes "0000") } msg
    · left
      refine ⟨hfp, ?_⟩
      unfold qemud_client_recv
      rw [if_neg (by simp only []; rw [hc.framing]; decide)]
      simp only []
      rw [if_pos ⟨hfp.2.1, hfp.2.2.1, hfp.2.2.2.1, hfp.2.2.2.2.1, hfp.2.2.2.2.2⟩,
        if_pos hc.recv]
      rfl
    · right
      refine ⟨hfp, ?_, hstuck⟩
      rw [client_recv_slow_eq _ _ hfp]
      unfold qemud_client_recv_slow
      rw [if_neg (by simp only []; rw [hc.framing]; decide)]
      exact hstuck _

/-- C23, the defect. The loop of `qemud_client_recv` does not terminate on
every input: a client fresh from `qemud_client_alloc` on which framing has
been turned on, given a message that starts with four bytes that are no
hexadecimal number (or are "0000") and goes on, stays in the loop for ever:
whatever the number of iterations allowed, the loop has not ended. The four
bytes stay in the header sink and the byte after them is never read. -/
theorem C23_corrupt_frame_never_returns :
    hex2int (bytes "zzzz") 4 < 0
    ∧ ∀ (m : QemudMultiplexer) (channel_id : Int) (o : Nat) (r : QemudClientRecv) (cl : Bool)
        (hdr rest : List Nat), hdr.length = 4 → hex2int hdr 4 ≤ 0 → rest ≠ [] →
        ClientReachable (qemud_client_set_framing (qemud_client_alloc m channel_id o r cl).2 true)
        ∧ (qemud_client_set_framing (qemud_client_alloc m channel_id o r cl).2 true).framing
            = true
        ∧ (∀ fuel, qemud_client_recv_loop fuel
              (qemud_client_set_framing (qemud_client_alloc m channel_id o r cl).2 true) []
              (hdr ++ rest) = none)
        ∧ qemud_client_recv
            (qemud_client_set_framing (qemud_client_alloc m channel_id o r cl).2 true)
            (hdr ++ rest) = none := by
  refine ⟨by decide, ?_⟩
  intro m ch o r cl hdr rest hh hz hr
  have hloop : ∀ fuel, qemud_client_recv_loop fuel
      (qemud_client_set_framing (qemud_client_alloc m ch o r cl).2 true) [] (hdr ++ rest)
      = none :=
    client_loop_bad_header _ [] hdr rest rfl rfl hh hz hr
  refine ⟨ClientReachable.set_framing _ true (ClientReachable.alloc m ch o r cl), rfl, hloop, ?_⟩
  have hnf : ¬ fast_path (qemud_client_set_framing (qemud_client_alloc m ch o r cl).2 true)
      (hdr ++ rest) := by
    intro h
    have h4 : qemud_sink_needed (⟨0, 4⟩ : QemudSink) = 0 := h.2.2.2.1
    exact absurd h4 (by decide)
  rw [client_recv_slow_eq _ _ hnf]
  unfold qemud_client_recv_slow
  rw [if_neg (by
    show ¬ (!true) = true
    decide)]
  exact hloop _

/-- C30. The special case is dead while the header sink is not full: for a
client with framing on whose frame header sink still needs bytes (as in the
idle state, where it is empty), `qemud_client_recv` never takes the special
case and is the routine without it, for every message; and the special case is
taken only when `need_header` is set and the header sink is full. -/
theorem C30_fast_path_dead (c : QemudClient) (msg : List Nat)
    (hf : c.framing = true) (hn : qemud_sink_needed c.header > 0) :
    ¬ fast_path c msg
    ∧ qemud_client_recv c msg = qemud_client_recv_slow c msg
    ∧ qemud_client_recv c msg = qemud_client_recv_loop (2 * msg.length + 2) c [] msg
    ∧ (∀ (c1 : QemudClient) (msg1 : List Nat), fast_path c1 msg1 →
        c1.need_header = true ∧ c1.header.size ≤ c1.header.len
        ∧ qemud_client_recv c1 msg1
          = some (c1, if c1.clie_recv ≠ QemudClientRecv.null then [msg1.drop 4] else []))
    ∧ (∀ (c1 : QemudClient) (msg1 : List Nat), ¬ fast_path c1 msg1 →
        qemud_client_recv c1 msg1 = qemud_client_recv_slow c1 msg1) := by
  have hnf : ¬ fast_path c msg := by
    intro h
    have := h.2.2.2.1
    omega
  refine ⟨hnf, client_recv_slow_eq c msg hnf, ?_, ?_,
    fun c1 msg1 h => client_recv_slow_eq c1 msg1 h⟩
  · rw [client_recv_slow_eq c msg hnf]
    unfold qemud_client_recv_slow
    rw [if_neg (by rw [hf]; decide)]
  intro c1 msg1 h
  refine ⟨h.2.2.1, ?_, ?_⟩
  · have := h.2.2.2.1
    unfold qemud_sink_needed at this
    omega
  · unfold qemud_client_recv
    simp only [h.1, Bool.not_true, Bool.false_eq_true, if_false]
    rw [if_pos ⟨h.2.1, h.2.2.1, h.2.2.2.1, h.2.2.2.2.1, h.2.2.2.2.2⟩]
    rfl

/-- Witness of C30: on the idle client the message "0005hello", which has the
shape the special case looks for, goes through the loop. -/
theorem C30_fast_path_dead_witness :
    ¬ fast_path client_idle (bytes "0005hello")
    ∧ qemud_client_recv client_idle (bytes "0005hello")
        = qemud_client_recv_slow client_idle (bytes "0005hello") :=
  ⟨(C30_fast_path_dead client_idle (bytes "0005hello") rfl (by decide)).1,
    (C30_fast_path_dead client_idle (bytes "0005hello") rfl (by decide)).2.1⟩

/-- Where the special case is taken it is not the loop: with the header sink
left full by a zero frame header, the frame "0001" "A" is delivered by the
special case, and the routine without it does not return. -/
theorem fast_path_matters :
    fast_path { client_idle with header := ⟨4, 4⟩, header0 := bytes "0000" } (bytes "0001A")
    ∧ qemud_client_recv { client_idle with header := ⟨4, 4⟩, header0 := bytes "0000" }
        (bytes "0001A")
      = some ({ client_idle with header := ⟨4, 4⟩, header0 := bytes "0000" }, [bytes "A"])
    ∧ qemud_client_recv_slow { client_idle with header := ⟨4, 4⟩, header0 := bytes "0000" }
        (bytes "0001A") = none := by
  refine ⟨by unfold fast_path; decide, by decide, ?_⟩
  unfold qemud_client_recv_slow
  rw [if_neg (by decide)]
  exact client_loop_stuck _ _ _ _ rfl (le_refl _) (by decide) (by decide)

/-- C29. Framed round trip within the range of the frame header: for a
channel c in [0,255] and a payload p of 1 to 65535 bytes, the records written
by `qemud_serial_send(c, framing, p)`, read by `qemud_serial_read` in chunks
of any size and handed in order to `qemud_client_recv` of an idle client with
framing on, call the receive callback exactly once, with p, and leave the
client idle: `need_header` set and the frame header sink empty. -/
theorem C29_framed_round_trip_in_range (c : Nat) (p : List Nat) (tx rx : QemudSerial)
    (cl : QemudClient) (chunks : List (List Nat))
    (hc : c ≤ 255) (hp1 : 1 ≤ p.length) (hp2 : p.length ≤ 65535)
    (hrx : HeaderState rx) (hv : SameOrientation tx.version rx.version)
    (hcl : cl.framing = true ∧ cl.need_header = true ∧ cl.header = ⟨0, 4⟩
      ∧ cl.clie_recv ≠ QemudClientRecv.null)
    (hB : (qemud_serial_send tx c true p).cs = tx.cs ++ chunks.flatten) :
    MAX_FRAME_PAYLOAD = 65535
    ∧ hex2int (int2hex 4 p.length) 4 = p.length
    ∧ ∃ cl1 rx1, qemud_serial_read_chunks recv_client (cl, []) rx chunks
          = some ((cl1, [p]), rx1)
        ∧ cl1.framing = true ∧ cl1.need_header = true ∧ cl1.header = ⟨0, 4⟩ := by
  have hidle : ClientIdle cl := ⟨hcl.1, hcl.2.1, hcl.2.2.1, hcl.2.2.2⟩
  have h0 : p ≠ [] := List.length_pos.mp hp1
  have hhex := hex2int_int2hex 4 p.length [] (by
    show p.length < 65536
    omega)
  rw [List.append_nil] at hhex
  refine ⟨rfl, hhex, ?_⟩
  rw [send_framed tx c p h0 (by omega)] at hB
  simp only [List.append_cancel_left_eq, Int.toNat_ofNat] at hB
  rw [read_chunks_join recv_client recv_client_keeps chunks _ rx hrx.good, ← hB]
  obtain ⟨rx1, h1⟩ := read_records_client tx.version c hc
    (mtu_chunks (int2hex FRAME_HEADER_SIZE p.length ++ p)) (cl, []) rx hrx hv
    (mtu_chunks_mem _ _ rfl)
  obtain ⟨cl1, h2, hi⟩ := client_feed_framed cl p hidle hp1 hp2
  have e4 : FRAME_HEADER_SIZE = 4 := rfl
  rw [e4] at h1 ⊢
  rw [h2] at h1
  rw [h1]
  exact ⟨cl1, rx1, rfl, hi.framing, hi.need, hi.sink⟩

/-- Witness of C29: "hello" framed on channel 3, read one byte, then the
rest. -/
theorem C29_framed_round_trip_in_range_witness :
    ∃ cl1 rx1, qemud_serial_read_chunks recv_client (client_idle, [])
        (serial_idle QemudVersion.NORMAL) [bytes "0", bytes "300090005hello"]
      = some ((cl1, [bytes "hello"]), rx1)
      ∧ cl1.framing = true ∧ cl1.need_header = true ∧ cl1.header = ⟨0, 4⟩ :=
  (C29_framed_round_trip_in_range 3 (bytes "hello") (serial_idle QemudVersion.NORMAL)
    (serial_idle QemudVersion.NORMAL) client_idle [bytes "0", bytes "300090005hello"]
    (by decide) (by decide) (by decide) (serial_idle_header_state _)
    (Or.inr ⟨by decide, Or.inl rfl⟩) ⟨rfl, rfl, rfl, by decide⟩
    (by
      have h := send_framed (serial_idle QemudVersion.NORMAL) ((3 : Nat) : Int) (bytes "hello")
        (by decide) (by decide)
      rw [h, mtu_chunks_single _ (by decide) (by decide)]
      decide)).2.2

/-! ## Dispatch of inbound records, and the version -/

theorem client_deliver_user (c : QemudClient) (h : c.clie_recv = QemudClientRecv.user)
    (calls : List (List Nat)) :
    ∀ m : QemudMultiplexer, client_deliver c m calls
      = { m with events := m.events
            ++ calls.map (fun msg => QemudEvent.recv c.clie_opaque msg c.addr) } := by
  induction calls with
  | nil => intro m; simp [client_deliver]
  | cons msg rest ih =>
    intro m
    simp only [client_deliver, h]
    rw [ih]
    simp

theorem find_first (p : QemudClient → Bool) (pre post : List QemudClient) (c : QemudClient)
    (hpre : ∀ x ∈ pre, p x = false) (hc : p c = true) :
    (pre ++ c :: post).find? p = some c := by
  induction pre with
  | nil => simp [List.find?_cons, hc]
  | cons x t ih =>
    have hx := hpre x (List.mem_cons_self _ _)
    simp only [List.cons_append, List.find?_cons, hx]
    exact ih (fun y hy => hpre y (List.mem_cons_of_mem _ hy))

theorem find_absent (p : QemudClient → Bool) (l : List QemudClient)
    (h : ∀ x ∈ l, p x = false) : l.find? p = none := by
  induction l with
  | nil => rfl
  | cons x t ih =>
    simp only [List.find?_cons, h x (List.mem_cons_self _ _)]
    exact ih (fun y hy => h y (List.mem_cons_of_mem _ hy))

/-- C25. Inbound dispatch: a record (channel, bytes) given to
`qemud_multiplexer_serial_recv` goes to `qemud_client_recv` of the first
client of the global list whose channel id is the channel, and to that client
only: the callback calls that result are calls of its receive callback. When
no client has that channel id the multiplexer is unchanged: no callback is
called and nothing is written. -/
theorem C25_inbound_dispatch (m : QemudMultiplexer) (channel : Int) (msg : List Nat) :
    ((∀ c ∈ m.clients, c.channel ≠ channel) →
      qemud_multiplexer_serial_recv m channel msg = some m)
    ∧ (∀ (pre post : List QemudClient) (c : QemudClient),
        m.clients = pre ++ c :: post → (∀ x ∈ pre, x.channel ≠ channel) →
        c.channel = channel →
        qemud_multiplexer_serial_recv m channel msg
            = (qemud_client_recv c msg).map (fun r =>
                client_deliver c
                  { m with clients := update_client c.addr (fun _ => r.1) m.clients } r.2)
          ∧ (c.clie_recv = QemudClientRecv.user →
              ∀ c1 calls, qemud_client_recv c msg = some (c1, calls) →
                qemud_multiplexer_serial_recv m channel msg
                  = some { m with
                      clients := update_client c.addr (fun _ => c1) m.clients
                      events := m.events
                        ++ calls.map (fun x => QemudEvent.recv c.clie_opaque x c.addr) })
          ∧ (c.clie_recv = QemudClientRecv.user → c.framing = false →
              (m.clients.map (fun x => x.addr)).Nodup →
                qemud_multiplexer_serial_recv m channel msg
                  = some { m with
                      events := m.events ++ [QemudEvent.recv c.clie_opaque msg c.addr] })
          ∧ (c.clie_recv = QemudClientRecv.null → c.framing = false →
              (m.clients.map (fun x => x.addr)).Nodup →
                qemud_multiplexer_serial_recv m channel msg = some m)) := by
  refine ⟨?_, ?_⟩
  · intro h
    unfold qemud_multiplexer_serial_recv
    rw [find_absent _ _ (fun x hx => by simpa using h x hx)]
  · intro pre post c hl hpre hc
    have hfind : m.clients.find? (fun x => x.channel = channel) = some c := by
      rw [hl]
      exact find_first _ pre post c (fun x hx => by simpa using hpre x hx) (by simpa using hc)
    have hmem : c ∈ m.clients := by rw [hl]; simp
    have hgen : qemud_multiplexer_serial_recv m channel msg
        = (qemud_client_recv c msg).map (fun r =>
            client_deliver c
              { m with clients := update_client c.addr (fun _ => r.1) m.clients } r.2) := by
      unfold qemud_multiplexer_serial_recv
      rw [hfind]
      simp only []
      cases hr : qemud_client_recv c msg with
      | none => rfl
      | some r => rfl
    refine ⟨hgen, ?_, ?_, ?_⟩
    · intro hu c1 calls hr
      rw [hgen, hr]
      simp only [Option.map_some']
      rw [client_deliver_user c hu]
    · intro hu hf hnd
      have hr : qemud_client_recv c msg = some (c, [msg]) := by
        unfold qemud_client_recv
        rw [if_pos (by rw [hf]; rfl), if_pos (by rw [hu]; decide)]
      rw [hgen, hr]
      simp only [Option.map_some']
      rw [client_deliver_user c hu, update_client_self _ _ hmem hnd]
      rfl
    · intro hn hf hnd
      have hr : qemud_client_recv c msg = some (c, []) := by
        unfold qemud_client_recv
        rw [if_pos (by rw [hf]; rfl), if_neg (by rw [hn]; decide)]
      rw [hgen, hr]
      simp only [Option.map_some']
      rw [update_client_self _ _ hmem hnd]
      rfl

/-- Witness of C25: on `mux_two` a record for channel 0x42 goes to the client
of "gsm" on that channel, which is the second of the list, and a record for
channel 9 goes nowhere. -/
theorem C25_inbound_dispatch_witness :
    qemud_multiplexer_serial_recv mux_two 66 (bytes "hi")
        = some { mux_two with events := [QemudEvent.recv 5 (bytes "hi") 3] }
    ∧ qemud_multiplexer_serial_recv mux_two 9 (bytes "hi") = some mux_two := by
  have h := C25_inbound_dispatch mux_two 66 (bytes "hi")
  have h9 := (C25_inbound_dispatch mux_two 9 (bytes "hi")).1 (by
    intro c hc
    simp only [mux_two, List.mem_cons, List.mem_singleton, List.not_mem_nil, or_false] at hc
    rcases hc with e | e | e <;> rw [e] <;> decide)
  refine ⟨?_, h9⟩
  have h2 := (h.2 [gsm_client2] [control_client] gsm_client rfl (by
    intro x hx
    rw [List.mem_singleton.mp hx]
    decide) rfl).2.2.1 rfl rfl (by decide)
  exact h2

theorem parse_version_known (s : QemudSerial) (h : s.version ≠ QemudVersion.UNKNOWN) :
    (qemud_serial_read_parse s).version = s.version := by
  unfold qemud_serial_read_parse
  simp only [h, if_false]
  split_ifs <;> rfl

theorem client_disconnect_version (m : QemudMultiplexer) (c : QemudClient) :
    (qemud_client_disconnect m c).serial.version = m.serial.version := by
  unfold qemud_client_disconnect qemud_client_remove
  cases c.service <;> cases c.clie_close <;> by_cases h : c.channel > 0 <;>
    simp [h, send_version]

theorem multiplexer_disconnect_version (m : QemudMultiplexer) (channel : Int) :
    (qemud_multiplexer_disconnect m channel).serial.version = m.serial.version := by
  unfold qemud_multiplexer_disconnect
  cases m.clients.find? (fun c => c.channel = channel) with
  | none => rfl
  | some c => exact client_disconnect_version m _

/-- The control-message handler does not change a version that is known. -/
theorem control_recv_version (m : QemudMultiplexer) (msg : List Nat)
    (h : m.serial.version ≠ QemudVersion.UNKNOWN) :
    (qemud_multiplexer_control_recv m msg).serial.version = m.serial.version := by
  unfold qemud_multiplexer_control_recv
  simp only []
  split_ifs <;> (try split) <;> (try split_ifs) <;> (try split) <;>
    first
    | rfl
    | exact multiplexer_disconnect_version m _
    | (exfalso; apply h; assumption)
    | simp only [send_version, connect_serial]

theorem client_deliver_version (c : QemudClient) (calls : List (List Nat)) :
    ∀ m : QemudMultiplexer, m.serial.version ≠ QemudVersion.UNKNOWN →
      (client_deliver c m calls).serial.version = m.serial.version := by
  induction calls with
  | nil => intro m _; rfl
  | cons msg rest ih =>
    intro m h
    simp only [client_deliver]
    cases c.clie_recv
    · exact ih m h
    · rw [ih _ (by rw [control_recv_version m msg h]; exact h), control_recv_version m msg h]
    · exact ih _ h

theorem multiplexer_recv_version : VersionKeeps multiplexer_recv := by
  intro m s channel msg m1 s1 h hv
  unfold multiplexer_recv qemud_multiplexer_serial_recv at h
  simp only [] at h
  cases hf : m.clients.find? (fun c => c.channel = channel) with
  | none =>
    rw [hf] at h
    simp only [Option.some.injEq, Prod.mk.injEq] at h
    rw [← h.2]
  | some c =>
    rw [hf] at h
    simp only [] at h
    cases hr : qemud_client_recv c msg with
    | none =>
      rw [hr] at h
      cases h
    | some r =>
      rw [hr] at h
      simp only [Option.some.injEq, Prod.mk.injEq] at h
      rw [← h.2, client_deliver_version _ _ _ hv]

theorem payload_version {α : Type}
    (recv : α → QemudSerial → Int → List Nat → Option (α × QemudSerial))
    (hr : VersionKeeps recv) (a : α) (s : QemudSerial) (x : List Nat)
    (hv : s.version ≠ QemudVersion.UNKNOWN) (r : LoopStep (α × QemudSerial))
    (h : qemud_serial_read_payload recv a s x = some r) :
    r.state.2.version = s.version := by
  unfold qemud_serial_read_payload at h
  cases hfill : qemud_sink_fill s.payload s.data0 x with
  | mk payload r1 =>
    cases r1 with
    | mk data0 r2 =>
      cases r2 with
      | mk rest full =>
        rw [hfill] at h
        simp only [] at h
        cases full with
        | false =>
          simp only [Bool.not_false, if_true, Option.some.injEq] at h
          subst h
          rfl
        | true =>
          simp only [Bool.not_true, Bool.false_eq_true, if_false] at h
          cases hrecv : recv a
              { s with payload := payload, data0 := data0.set payload.size 0 }
              s.in_channel ((data0.set payload.size 0).take payload.size) with
          | none =>
            rw [hrecv] at h
            cases h
          | some p =>
            rw [hrecv] at h
            simp only [Option.some.injEq] at h
            subst h
            obtain ⟨a1, s1⟩ := p
            have := hr _ _ _ _ _ _ hrecv hv
            exact this

theorem body_version {α : Type}
    (recv : α → QemudSerial → Int → List Nat → Option (α × QemudSerial))
    (hr : VersionKeeps recv) (a : α) (s : QemudSerial) (x : List Nat)
    (hv : s.version ≠ QemudVersion.UNKNOWN) (r : LoopStep (α × QemudSerial))
    (h : qemud_serial_read_body recv a s x = some r) :
    r.state.2.version = s.version := by
  unfold qemud_serial_read_body at h
  by_cases hov : s.overflow > 0
  · rw [if_pos hov] at h
    simp only [Option.some.injEq] at h
    subst h
    rfl
  · rw [if_neg hov] at h
    cases hn : s.need_header with
    | false =>
      rw [hn] at h
      simp only [Bool.false_eq_true, if_false] at h
      exact payload_version recv hr a s x hv r h
    | true =>
      rw [hn] at h
      simp only [if_true] at h
      cases hfill : qemud_sink_fill s.header s.data0 x with
      | mk header r1 =>
        cases r1 with
        | mk data0 r2 =>
          cases r2 with
          | mk rest full =>
            rw [hfill] at h
            simp only [] at h
            cases full with
            | false =>
              simp only [Bool.not_false, if_true, Option.some.injEq] at h
              subst h
              rfl
            | true =>
              simp only [Bool.not_true, Bool.false_eq_true, if_false] at h
              have hp : (qemud_serial_read_parse
                  { s with need_header := true, header := header, data0 := data0 }).version
                  = s.version :=
                parse_version_known _ hv
              split_ifs at h
              · simp only [Option.some.injEq] at h
                subst h
                exact hp
              · simp only [Option.some.injEq] at h
                subst h
                exact hp
              · have := payload_version recv hr a _ rest (by
                  show (qemud_serial_read_parse
                    { s with need_header := true, header := header, data0 := data0 }).version
                    ≠ _
                  rw [hp]; exact hv) r h
                exact this.trans hp

theorem loop_version {α : Type}
    (recv : α → QemudSerial → Int → List Nat → Option (α × QemudSerial))
    (hr : VersionKeeps recv) (fuel : Nat) :
    ∀ (a : α) (s : QemudSerial) (x : List Nat) (r : α × QemudSerial),
      s.version ≠ QemudVersion.UNKNOWN →
      qemud_serial_read_loop recv fuel a s x = some r → r.2.version = s.version := by
  induction fuel with
  | zero =>
    intro a s x r _ h
    unfold qemud_serial_read_loop at h
    split_ifs at h
    simp only [Option.some.injEq] at h
    rw [← h]
  | succ n ih =>
    intro a s x r hv h
    unfold qemud_serial_read_loop at h
    split_ifs at h
    · cases hb : qemud_serial_read_body recv a s x with
      | none =>
        rw [hb] at h
        cases h
      | some st =>
        have hbv := body_version recv hr a s x hv st hb
        rw [hb] at h
        cases st with
        | brk p =>
          simp only [Option.some.injEq] at h
          rw [← h]
          exact hbv
        | cont p y =>
          obtain ⟨a1, s1⟩ := p
          simp only [LoopStep.state] at h hbv
          rw [ih a1 s1 y r (by rw [hbv]; exact hv) h, hbv]
    · simp only [Option.some.injEq] at h
      rw [← h]

theorem read_chunks_version {α : Type}
    (recv : α → QemudSerial → Int → List Nat → Option (α × QemudSerial))
    (hr : VersionKeeps recv) (chunks : List (List Nat)) :
    ∀ (a : α) (s : QemudSerial) (r : α × QemudSerial),
      s.version ≠ QemudVersion.UNKNOWN →
      qemud_serial_read_chunks recv a s chunks = some r → r.2.version = s.version := by
  induction chunks with
  | nil =>
    intro a s r _ h
    simp only [qemud_serial_read_chunks, Option.some.injEq] at h
    rw [← h]
  | cons x rest ih =>
    intro a s r hv h
    simp only [qemud_serial_read_chunks] at h
    cases h1 : qemud_serial_read recv a s x with
    | none =>
      rw [h1] at h
      cases h
    | some p =>
      rw [h1] at h
      obtain ⟨a1, s1⟩ := p
      have hv1 : s1.version = s.version := loop_version recv hr _ a s x (a1, s1) hv h1
      simp only at h
      rw [ih a1 s1 r (by rw [hv1]; exact hv) h, hv1]

/-- C27. Version immutability: a version that is LEGACY or NORMAL is changed
by no operation: not by `qemud_serial_send`, not by
`qemud_multiplexer_control_recv` on any message, and not by
`qemud_serial_read` on any input, with the receiver of the multiplexer or with
any receiver that itself leaves a known version alone. The version changes
only from UNKNOWN. -/
theorem C27_version_immutable :
    (∀ (s : QemudSerial) (channel : Int) (framing : Bool) (msg : List Nat),
        (qemud_serial_send s channel framing msg).version = s.version)
    ∧ (∀ (m : QemudMultiplexer) (msg : List Nat), m.serial.version ≠ QemudVersion.UNKNOWN →
        (qemud_multiplexer_control_recv m msg).serial.version = m.serial.version)
    ∧ (∀ (α : Type) (recv : α → QemudSerial → Int → List Nat → Option (α × QemudSerial)),
        VersionKeeps recv → ∀ (a : α) (s : QemudSerial) (x : List Nat) (r : α × QemudSerial),
        s.version ≠ QemudVersion.UNKNOWN →
        qemud_serial_read recv a s x = some r → r.2.version = s.version)
    ∧ VersionKeeps multiplexer_recv
    ∧ (∀ (m m1 : QemudMultiplexer) (chunks : List (List Nat)),
        m.serial.version ≠ QemudVersion.UNKNOWN →
        multiplexer_read m chunks = some m1 → m1.serial.version = m.serial.version)
    ∧ (∀ (m : QemudMultiplexer) (msg : List Nat),
        (qemud_multiplexer_control_recv m msg).serial.version ≠ m.serial.version →
        m.serial.version = QemudVersion.UNKNOWN) := by
  refine ⟨send_version, control_recv_version,
    fun α recv hr a s x r hv h => loop_version recv hr _ a s x r hv h,
    multiplexer_recv_version, ?_, ?_⟩
  · intro m m1 chunks hv h
    unfold multiplexer_read at h
    cases h1 : qemud_serial_read_chunks multiplexer_recv m m.serial chunks with
    | none =>
      rw [h1] at h
      cases h
    | some p =>
      rw [h1] at h
      obtain ⟨m2, s2⟩ := p
      simp only [Option.some.injEq] at h
      rw [← h]
      exact read_chunks_version multiplexer_recv multiplexer_recv_version chunks m m.serial
        (m2, s2) hv h1
  · intro m msg h
    by_contra hv
    exact h (control_recv_version m msg hv)

/-! ## Safety of the scratch array -/

theorem memcpy_length (dst src : List Nat) (off : Nat) (h : off + src.length ≤ dst.length) :
    (memcpy dst off src).length = dst.length := by
  unfold memcpy
  simp only [List.length_append, List.length_take, List.length_drop]
  omega

/-- In the list model a copy keeps the length of the destination exactly when
it stays inside it. -/
theorem memcpy_length_iff (dst src : List Nat) (off : Nat) (hs : src ≠ []) :
    (memcpy dst off src).length = dst.length ↔ off + src.length ≤ dst.length := by
  have hl : 0 < src.length := List.length_pos.mpr hs
  unfold memcpy
  simp only [List.length_append, List.length_take, List.length_drop]
  omega

theorem init_safe (cs data0 : List Nat) (h : data0.length = MAX_SERIAL_PAYLOAD + 1) :
    Safe (qemud_serial_init cs data0) :=
  ⟨rfl, (by show 0 < 6; decide), h, (fun hn => by cases hn), (fun hn => by cases hn), (fun hn => by cases hn)⟩

/-- The payload part of an iteration keeps the scratch array safe, and what
it hands to the receiver passes the check. -/
theorem payload_step_safe {α : Type}
    (recv : α → QemudSerial → Int → List Nat → Option (α × QemudSerial))
    (hr : RecvFrame recv) (a : α) (s : QemudSerial) (x : List Nat)
    (hs : s.header.size = 6) (hl : s.header.len < 6)
    (hd : s.data0.length = MAX_SERIAL_PAYLOAD + 1)
    (h1 : 1 ≤ s.in_size ∧ s.in_size ≤ MAX_SERIAL_PAYLOAD)
    (hps : (s.payload.size : Int) = s.in_size)
    (hp : s.payload.len < s.payload.size) :
    qemud_serial_read_payload (recv_checked recv) a s x = qemud_serial_read_payload recv a s x
    ∧ ∀ r, qemud_serial_read_payload recv a s x = some r → Safe r.state.2 := by
  have hM : MAX_SERIAL_PAYLOAD = 4000 := rfl
  rw [hM] at hd h1
  have hsz : s.payload.size ≤ 4000 := by omega
  have hcopy : (memcpy s.data0 s.payload.len
      (x.take (min (s.payload.size - s.payload.len) x.length))).length = 4001 := by
    rw [memcpy_length _ _ _ (by
      rw [List.length_take, hd]
      omega), hd]
  unfold qemud_serial_read_payload
  rw [fill_lt _ _ _ hp]
  simp only []
  by_cases hfull : s.payload.len + min (s.payload.size - s.payload.len) x.length
      = s.payload.size
  · simp only [hfull, decide_True, Bool.not_true, Bool.false_eq_true, if_false]
    have hlen : ((memcpy s.data0 s.payload.len
        (x.take (min (s.payload.size - s.payload.len) x.length))).set s.payload.size 0).length
        = 4001 := by
      rw [List.length_set, hcopy]
    have hmsg : (List.take s.payload.size ((memcpy s.data0 s.payload.len
        (x.take (min (s.payload.size - s.payload.len) x.length))).set s.payload.size 0)).length
        = s.payload.size := by
      rw [List.length_take, hlen]
      omega
    have hcheck : recv_checked recv a
        { s with payload := ⟨s.payload.size, s.payload.size⟩,
                 data0 := (memcpy s.data0 s.payload.len
                    (x.take (min (s.payload.size - s.payload.len) x.length))).set
                      s.payload.size 0 }
        s.in_channel
        (List.take s.payload.size ((memcpy s.data0 s.payload.len
          (x.take (min (s.payload.size - s.payload.len) x.length))).set s.payload.size 0))
        = recv a
        { s with payload := ⟨s.payload.size, s.payload.size⟩,
                 data0 := (memcpy s.data0 s.payload.len
                    (x.take (min (s.payload.size - s.payload.len) x.length))).set
                      s.payload.size 0 }
        s.in_channel
        (List.take s.payload.size ((memcpy s.data0 s.payload.len
          (x.take (min (s.payload.size - s.payload.len) x.length))).set s.payload.size 0)) := by
      unfold recv_checked
      rw [if_pos]
      rw [hmsg]
      refine ⟨by omega, by omega, ?_, ?_, rfl⟩
      · simp only []
        rw [hlen]
        rfl
      · simp only []
        rw [List.getElem?_set_self (by rw [hcopy]; omega)]
    refine ⟨by rw [hcheck], ?_⟩
    intro r hres
    cases hrecv : recv a
        { s with payload := ⟨s.payload.size, s.payload.size⟩,
                 data0 := (memcpy s.data0 s.payload.len
                    (x.take (min (s.payload.size - s.payload.len) x.length))).set
                      s.payload.size 0 }
        s.in_channel
        (List.take s.payload.size ((memcpy s.data0 s.payload.len
          (x.take (min (s.payload.size - s.payload.len) x.length))).set s.payload.size 0)) with
    | none =>
      rw [hrecv] at hres
      cases hres
    | some p =>
      rw [hrecv] at hres
      obtain ⟨a1, s1⟩ := p
      simp only [Option.some.injEq] at hres
      subst hres
      have hfr := hr _ _ _ _ _ _ hrecv
      simp only [LoopStep.state]
      refine ⟨?_, ?_, ?_, (fun hn => by cases hn), (fun hn => by cases hn),
        (fun hn => by cases hn)⟩
      · rw [hfr.1]; exact hs
      · rw [hfr.1]; exact hl
      · rw [hfr.2]; exact hlen
  · simp only [hfull, decide_False, Bool.not_false, if_true]
    refine ⟨trivial, ?_⟩
    intro r hres
    simp only [Option.some.injEq] at hres
    subst hres
    simp only [LoopStep.state]
    refine ⟨hs, hl, hcopy, fun _ => h1, fun _ => hps, fun _ => ?_⟩
    simp only []
    omega

/-- One iteration keeps the scratch array safe, and what it hands to the
receiver passes the check. -/
theorem body_step_safe {α : Type}
    (recv : α → QemudSerial → Int → List Nat → Option (α × QemudSerial))
    (hr : RecvFrame recv) (a : α) (s : QemudSerial) (x : List Nat) (hg : Safe s) :
    qemud_serial_read_body (recv_checked recv) a s x = qemud_serial_read_body recv a s x
    ∧ ∀ r, qemud_serial_read_body recv a s x = some r → Safe r.state.2 := by
  have hM : MAX_SERIAL_PAYLOAD = 4000 := rfl
  have hdl : s.data0.length = 4001 := hg.dlen
  unfold qemud_serial_read_body
  by_cases hov : s.overflow > 0
  · rw [if_pos hov, if_pos hov]
    refine ⟨rfl, ?_⟩
    intro r hres
    simp only [Option.some.injEq] at hres
    subst hres
    exact hg
  rw [if_neg hov, if_neg hov]
  by_cases hnh : s.need_header = true
  · rw [if_pos hnh, if_pos hnh]
    have hlt : s.header.len < s.header.size := by rw [hg.hsize]; exact hg.hlen
    have hcopy : (memcpy s.data0 s.header.len
        (x.take (min (s.header.size - s.header.len) x.length))).length = 4001 := by
      rw [memcpy_length _ _ _ (by
        rw [List.length_take, hdl, hg.hsize]
        have := hg.hlen
        omega), hdl]
    rw [fill_lt _ _ _ hlt]
    simp only []
    by_cases hfull : s.header.len + min (s.header.size - s.header.len) x.length = s.header.size
    · simp only [hfull, decide_True, Bool.not_true, Bool.false_eq_true, if_false]
      by_cases hbad : (qemud_serial_read_parse
          { s with header := ⟨s.header.size, s.header.size⟩,
                   data0 := memcpy s.data0 s.header.len
                      (x.take (min (s.header.size - s.header.len) x.length)) }).in_size ≤ 0
          ∨ (qemud_serial_read_parse
          { s with header := ⟨s.header.size, s.header.size⟩,
                   data0 := memcpy s.data0 s.header.len
                      (x.take (min (s.header.size - s.header.len) x.length)) }).in_channel < 0
      · rw [if_pos hbad, if_pos hbad]
        refine ⟨rfl, ?_⟩
        intro r hres
        simp only [Option.some.injEq] at hres
        subst hres
        simp only [LoopStep.state]
        refine ⟨?_, ?_, ?_, ?_, ?_, ?_⟩
        · rw [parse_header]; exact hg.hsize
        · rw [parse_header]; show 0 < 6; decide
        · rw [parse_data0]; exact hcopy
        · rw [parse_need_header]; intro hn; rw [hnh] at hn; cases hn
        · rw [parse_need_header]; intro hn; rw [hnh] at hn; cases hn
        · rw [parse_need_header]; intro hn; rw [hnh] at hn; cases hn
      · rw [if_neg hbad, if_neg hbad]
        by_cases hbig : (qemud_serial_read_parse
            { s with header := ⟨s.header.size, s.header.size⟩,
                     data0 := memcpy s.data0 s.header.len
                        (x.take (min (s.header.size - s.header.len) x.length)) }).in_size
            > MAX_SERIAL_PAYLOAD
        · rw [if_pos hbig, if_pos hbig]
          refine ⟨rfl, ?_⟩
          intro r hres
          simp only [Option.some.injEq] at hres
          subst hres
          simp only [LoopStep.state]
          refine ⟨?_, ?_, ?_, ?_, ?_, ?_⟩
          · rw [parse_header]; exact hg.hsize
          · rw [parse_header]; show 0 < 6; decide
          · rw [parse_data0]; exact hcopy
          · rw [parse_need_header]; intro hn; rw [hnh] at hn; cases hn
          · rw [parse_need_header]; intro hn; rw [hnh] at hn; cases hn
          · rw [parse_need_header]; intro hn; rw [hnh] at hn; cases hn
        · rw [if_neg hbig, if_neg hbig]
          simp only [not_or, not_le, not_lt] at hbad
          apply payload_step_safe recv hr a _ _
          · simp only []; rw [parse_header]; exact hg.hsize
          · simp only []; rw [parse_header]; show 0 < 6; decide
          · simp only []; rw [parse_data0]; exact hcopy
          · simp only []
            omega
          · simp only [qemud_sink_reset]
            omega
          · simp only [qemud_sink_reset]
            omega
    · simp only [hfull, decide_False, Bool.not_false, if_true]
      refine ⟨trivial, ?_⟩
      intro r hres
      simp only [Option.some.injEq] at hres
      subst hres
      simp only [LoopStep.state]
      refine ⟨hg.hsize, ?_, hcopy, ?_, ?_, ?_⟩
      · have := hg.hsize
        have := hg.hlen
        simp only []
        omega
      · intro hn; rw [hnh] at hn; cases hn
      · intro hn; rw [hnh] at hn; cases hn
      · intro hn; rw [hnh] at hn; cases hn
  · rw [if_neg hnh, if_neg hnh]
    have hnf : s.need_header = false := by simpa using hnh
    exact payload_step_safe recv hr a s x hg.hsize hg.hlen hg.dlen (hg.size1 hnf)
      (hg.psize hnf) (hg.plen hnf)

theorem loop_safe {α : Type}
    (recv : α → QemudSerial → Int → List Nat → Option (α × QemudSerial))
    (hr : RecvFrame recv) (fuel : Nat) :
    ∀ (a : α) (s : QemudSerial) (x : List Nat), Safe s →
      qemud_serial_read_loop (recv_checked recv) fuel a s x
          = qemud_serial_read_loop recv fuel a s x
        ∧ ∀ r, qemud_serial_read_loop recv fuel a s x = some r → Safe r.2 := by
  induction fuel with
  | zero =>
    intro a s x hg
    unfold qemud_serial_read_loop
    refine ⟨rfl, ?_⟩
    intro r h
    split_ifs at h
    simp only [Option.some.injEq] at h
    subst h
    exact hg
  | succ n ih =>
    intro a s x hg
    obtain ⟨hb1, hb2⟩ := body_step_safe recv hr a s x hg
    unfold qemud_serial_read_loop
    by_cases hx : x.length > 0
    · rw [if_pos hx, if_pos hx, hb1]
      cases hb : qemud_serial_read_body recv a s x with
      | none => exact ⟨rfl, fun r h => by cases h⟩
      | some st =>
        have hst := hb2 st hb
        cases st with
        | brk p =>
          refine ⟨rfl, ?_⟩
          intro r h
          simp only [Option.some.injEq] at h
          subst h
          exact hst
        | cont p y =>
          obtain ⟨a1, s1⟩ := p
          exact ih a1 s1 y hst
    · rw [if_neg hx, if_neg hx]
      refine ⟨rfl, ?_⟩
      intro r h
      simp only [Option.some.injEq] at h
      subst h
      exact hg

theorem reachable_safe {α : Type}
    (recv : α → QemudSerial → Int → List Nat → Option (α × QemudSerial))
    (hr : RecvFrame recv) (s : QemudSerial) (h : SerialReachable recv s) : Safe s := by
  induction h with
  | init cs data0 hd => exact init_safe cs data0 hd
  | read a a1 s s1 chunk _ hread ih =>
    exact (loop_safe recv hr _ a s chunk ih).2 (a1, s1) hread

theorem recv_log_frame : RecvFrame recv_log := by
  intro a s c m a1 s1 h
  simp only [recv_log, Option.some.injEq, Prod.mk.injEq] at h
  rw [← h.2]
  exact ⟨rfl, rfl⟩

/-! ## The receiver of the multiplexer leaves the sinks of the reader alone -/

theorem SerialSame.refl (s : QemudSerial) : SerialSame s s := ⟨rfl, rfl⟩

theorem SerialSame.trans {s2 s1 s : QemudSerial} (h2 : SerialSame s2 s1) (h1 : SerialSame s1 s) :
    SerialSame s2 s := by
  obtain ⟨e2, l2⟩ := h2
  obtain ⟨e1, l1⟩ := h1
  refine ⟨?_, l2.trans l1⟩
  rw [e2, e1]

theorem version_same (s : QemudSerial) (v : QemudVersion) :
    SerialSame { s with version := v } s :=
  ⟨rfl, rfl⟩

theorem data0_same (s : QemudSerial) (q : Nat) :
    SerialSame { s with data0 := s.data0.set q 0 } s :=
  ⟨rfl, List.length_set _ _ _⟩

theorem send_same (s : QemudSerial) (channel : Int) (framing : Bool) (msg : List Nat) :
    SerialSame (qemud_serial_send s channel framing msg) s := by
  unfold qemud_serial_send
  simp only []
  split_ifs <;> exact ⟨rfl, rfl⟩

theorem client_disconnect_same (m : QemudMultiplexer) (c : QemudClient) :
    SerialSame (qemud_client_disconnect m c).serial m.serial := by
  unfold qemud_client_disconnect qemud_client_remove
  cases c.service <;> cases c.clie_close <;> by_cases h : c.channel > 0 <;>
    simp [h, send_same, SerialSame.refl]

theorem multiplexer_disconnect_same (m : QemudMultiplexer) (channel : Int) :
    SerialSame (qemud_multiplexer_disconnect m channel).serial m.serial := by
  unfold qemud_multiplexer_disconnect
  cases m.clients.find? (fun c => c.channel = channel) with
  | none => exact SerialSame.refl _
  | some c => exact client_disconnect_same m _

theorem connect_same (m : QemudMultiplexer) (name : List Nat) (channel : Int) :
    SerialSame (qemud_multiplexer_connect m name channel).1.serial m.serial := by
  rw [connect_serial]
  exact SerialSame.refl _

/-- The control-message handler changes nothing of the serial object but the
transport output, the version and the byte of `data0` where it stores a
zero. -/
theorem control_recv_same (m : QemudMultiplexer) (msg : List Nat) :
    SerialSame (qemud_multiplexer_control_recv m msg).serial m.serial := by
  unfold qemud_multiplexer_control_recv
  simp only []
  split_ifs <;> (try split) <;> (try split_ifs) <;> (try split) <;>
    first
    | exact SerialSame.refl _
    | exact data0_same _ _
    | exact multiplexer_disconnect_same m _
    | exact send_same _ _ _ _
    | exact connect_same m _ _
    | (rw [connect_serial]
       exact data0_same _ _)
    | (rw [connect_serial]
       exact (version_same _ _).trans (data0_same _ _))
    | (simp only [connect_serial]
       exact (send_same _ _ _ _).trans (data0_same _ _))

theorem client_deliver_same (c : QemudClient) (calls : List (List Nat)) :
    ∀ m : QemudMultiplexer, SerialSame (client_deliver c m calls).serial m.serial := by
  induction calls with
  | nil => intro m; exact SerialSame.refl _
  | cons msg rest ih =>
    intro m
    simp only [client_deliver]
    cases c.clie_recv
    · exact ih m
    · exact (ih _).trans (control_recv_same m msg)
    · exact ih _

/-- The receiver of the multiplexer changes nothing of the serial object but
the transport output, the version and bytes of `data0` (the zero the control
handler stores in the message); the size of `data0` is kept. -/
theorem multiplexer_recv_frame : RecvFrame multiplexer_recv := by
  intro m s channel msg m1 s1 h
  unfold multiplexer_recv qemud_multiplexer_serial_recv at h
  simp only [] at h
  cases hf : m.clients.find? (fun c => c.channel = channel) with
  | none =>
    rw [hf] at h
    simp only [Option.some.injEq, Prod.mk.injEq] at h
    rw [← h.2]
    exact ⟨rfl, rfl⟩
  | some c =>
    rw [hf] at h
    simp only [] at h
    cases hr : qemud_client_recv c msg with
    | none =>
      rw [hr] at h
      cases h
    | some r =>
      rw [hr] at h
      simp only [Option.some.injEq, Prod.mk.injEq] at h
      rw [← h.2]
      exact client_deliver_same c r.2 _

/-! ## A connect request read by a freshly initialised multiplexer -/

theorem client_disconnect_data0 (m : QemudMultiplexer) (c : QemudClient) :
    (qemud_client_disconnect m c).serial.data0 = m.serial.data0 := by
  unfold qemud_client_disconnect qemud_client_remove
  cases c.service <;> cases c.clie_close <;> by_cases h : c.channel > 0 <;>
    simp [h, send_data0]

theorem multiplexer_disconnect_data0 (m : QemudMultiplexer) (channel : Int) :
    (qemud_multiplexer_disconnect m channel).serial.data0 = m.serial.data0 := by
  unfold qemud_multiplexer_disconnect
  cases m.clients.find? (fun c => c.channel = channel) with
  | none => rfl
  | some c => exact client_disconnect_data0 m _

theorem data0_set_or (d : List Nat) (q n : Nat) (h : q + 3 = n) :
    d.set q 0 = d ∨ ∃ q1, q1 + 3 = n ∧ d.set q 0 = d.set q1 0 :=
  Or.inr ⟨q, h, rfl⟩

/-- What the control handler writes into `data0`: nothing, or one zero, at an
offset inside the message (three bytes before its end). -/
theorem control_recv_data0 (m : QemudMultiplexer) (msg : List Nat) :
    (qemud_multiplexer_control_recv m msg).serial.data0 = m.serial.data0
    ∨ ∃ q, q + 3 = msg.length
        ∧ (qemud_multiplexer_control_recv m msg).serial.data0 = m.serial.data0.set q 0 := by
  unfold qemud_multiplexer_control_recv
  simp only []
  split_ifs <;> (try split) <;> (try split_ifs) <;> (try split) <;>
    first
    | exact Or.inl rfl
    | exact Or.inl (multiplexer_disconnect_data0 m _)
    | exact Or.inl (send_data0 _ _ _ _)
    | exact data0_set_or m.serial.data0 _ _ (by omega)
    | (simp only [send_data0, connect_serial]
       exact data0_set_or m.serial.data0 _ _ (by omega))

/-- The message "connect:<name>:00": nothing is changed, or only the ':'
before "00" is overwritten with a zero, whatever the name. -/
theorem control_recv_connect_zero (m : QemudMultiplexer) (name : List Nat) :
    qemud_multiplexer_control_recv m (connect_msg name (bytes "00")) = m
    ∨ qemud_multiplexer_control_recv m (connect_msg name (bytes "00"))
        = store_zero m (8 + name.length) := by
  have h8 : (bytes "connect:").length = 8 := rfl
  have hlen : (connect_msg name (bytes "00")).length = 8 + name.length + 3 := by
    unfold connect_msg
    simp only [List.length_append, List.length_cons, h8]
    rfl
  have htake : (connect_msg name (bytes "00")).take 8 = bytes "connect:" := by
    unfold connect_msg
    rw [List.append_assoc, List.take_left' h8]
  unfold qemud_multiplexer_control_recv
  simp only []
  rw [if_pos ⟨by omega, htake⟩]
  cases hq : strchr 58 ((connect_msg name (bytes "00") ++ [0]).drop 8) with
  | none => exact Or.inl rfl
  | some i =>
    simp only []
    by_cases h5 : 8 + i + 3 ≠ (connect_msg name (bytes "00")).length
    · rw [if_pos h5]
      exact Or.inl rfl
    · rw [if_neg h5]
      have hi : i = name.length := by omega
      have hsplit : connect_msg name (bytes "00") ++ [0]
          = (bytes "connect:" ++ name ++ [58]) ++ (bytes "00" ++ [0]) := by
        unfold connect_msg
        simp
      have hl1 : (bytes "connect:" ++ name ++ [58]).length = 8 + i + 1 := by
        simp only [List.length_append, List.length_singleton, h8, hi]
      have hchan : hex2int (((connect_msg name (bytes "00") ++ [0]).set (8 + i) 0).drop
          (8 + i + 1)) 2 ≤ 0 := by
        rw [List.drop_set_of_lt _ _ (by omega), hsplit, List.drop_left' hl1]
        decide
      rw [if_pos hchan, hi]
      exact Or.inr rfl

/-- The message "connect:<name>:00" with a name without ':' and zero byte:
the ':' before "00" is overwritten with a zero before the channel id is
looked at, and nothing else happens. -/
theorem control_recv_zero_store (m : QemudMultiplexer) (name : List Nat) (hn : NameOk name) :
    qemud_multiplexer_control_recv m (connect_msg name (bytes "00"))
      = store_zero m (8 + name.length) := by
  have h8 : (bytes "connect:").length = 8 := rfl
  have hlen : (connect_msg name (bytes "00")).length = 8 + name.length + 3 := by
    unfold connect_msg
    simp only [List.length_append, List.length_cons, h8]
    rfl
  have hdrop : (connect_msg name (bytes "00") ++ [0]).drop 8 = name ++ 58 :: (bytes "00" ++ [0]) := by
    unfold connect_msg
    rw [List.append_assoc, List.append_assoc, List.drop_left' h8]
    simp
  have htake : (connect_msg name (bytes "00")).take 8 = bytes "connect:" := by
    unfold connect_msg
    rw [List.append_assoc, List.take_left' h8]
  have hsplit : connect_msg name (bytes "00") ++ [0]
      = (bytes "connect:" ++ name ++ [58]) ++ (bytes "00" ++ [0]) := by
    unfold connect_msg
    simp
  have hl1 : (bytes "connect:" ++ name ++ [58]).length = 8 + name.length + 1 := by
    simp only [List.length_append, List.length_singleton, h8]
  have hchan : hex2int (((connect_msg name (bytes "00") ++ [0]).set (8 + name.length) 0).drop
      (8 + name.length + 1)) 2 ≤ 0 := by
    rw [List.drop_set_of_lt _ _ (by omega), hsplit, List.drop_left' hl1]
    decide
  unfold qemud_multiplexer_control_recv
  simp only []
  rw [if_pos ⟨by omega, htake⟩, hdrop, strchr_name name _ hn]
  simp only []
  rw [if_neg (by omega), if_pos hchan]
  rfl

/-- A whole record for channel 0, read in chunks of any size from header
state: the control handler runs once, on the multiplexer whose `data0` holds
the payload, and the reader is back in header state. -/
theorem control_record_read (m : QemudMultiplexer) (hdr body : List Nat) (c0 : QemudClient)
    (chunks : List (List Nat))
    (hs : HeaderState m.serial) (hh : hdr.length = 6)
    (h1 : 0 < (after_header m.serial hdr).in_size)
    (h2 : (after_header m.serial hdr).in_size ≤ MAX_SERIAL_PAYLOAD)
    (h3 : (after_header m.serial hdr).in_channel = 0)
    (hb : (body.length : Int) = (after_header m.serial hdr).in_size)
    (hfind : m.clients.find? (fun c => c.channel = 0) = some c0)
    (hfr : c0.framing = false) (hrecv : c0.clie_recv = QemudClientRecv.control)
    (hnd : (m.clients.map (fun x => x.addr)).Nodup)
    (hchunks : chunks.flatten = hdr ++ body) :
    multiplexer_read m chunks =
      some { qemud_multiplexer_control_recv (handler_state m hdr body) body with
             serial :=
               { (qemud_multiplexer_control_recv (handler_state m hdr body) body).serial with
                 need_header := true } } := by
  have hstep := control_record_step (hdr ++ body).length m m.serial hdr body [] c0 hs hh h1 h2 h3
    hb hfind hfr hrecv hnd
  rw [loop_nil, List.append_nil] at hstep
  unfold multiplexer_read
  rw [read_chunks_join multiplexer_recv multiplexer_recv_keeps chunks _ _ hs.good, hchunks,
    read_eq_loop multiplexer_recv multiplexer_recv_keeps ((hdr ++ body).length + 1) _ _ _ hs.good
      (by omega),
    hstep]
  rfl

theorem reachable_chunks {α : Type}
    (recv : α → QemudSerial → Int → List Nat → Option (α × QemudSerial))
    (chunks : List (List Nat)) :
    ∀ (a : α) (s : QemudSerial) (r : α × QemudSerial),
      SerialReachable recv s → qemud_serial_read_chunks recv a s chunks = some r →
      SerialReachable recv r.2 := by
  induction chunks with
  | nil =>
    intro a s r hp h
    simp only [qemud_serial_read_chunks, Option.some.injEq] at h
    rw [← h]
    exact hp
  | cons x rest ih =>
    intro a s r hp h
    simp only [qemud_serial_read_chunks] at h
    cases h1 : qemud_serial_read recv a s x with
    | none =>
      rw [h1] at h
      cases h
    | some p =>
      rw [h1] at h
      obtain ⟨a1, s1⟩ := p
      simp only at h
      exact ih a1 s1 r (SerialReachable.read a a1 s s1 x hp h1) h

/-- The serial object after inbound bytes have been read by the multiplexer
is reachable for its receiver. -/
theorem multiplexer_read_reachable (m m1 : QemudMultiplexer) (chunks : List (List Nat))
    (h : SerialReachable multiplexer_recv m.serial)
    (hread : multiplexer_read m chunks = some m1) :
    SerialReachable multiplexer_recv m1.serial := by
  unfold multiplexer_read at hread
  cases h1 : qemud_serial_read_chunks multiplexer_recv m m.serial chunks with
  | none =>
    rw [h1] at hread
    cases hread
  | some p =>
    rw [h1] at hread
    obtain ⟨m2, s2⟩ := p
    simp only [Option.some.injEq] at hread
    rw [← hread]
    exact reachable_chunks multiplexer_recv chunks m m.serial (m2, s2) h h1

theorem gsm_mux_eq :
    gsm_mux =
      { serial := qemud_serial_init [] (List.replicate 4001 0), clients := [control_client],
        services := [{ addr := 2, name := bytes "gsm", max_clients := 1, num_clients := 0,
                       clients := [],
                       serv_connect := QemudServiceConnect.accept 5 QemudClientRecv.user true,
                       serv_opaque := 7 }],
        next_addr := 3, events := [] } := by
  have hn : cstr (bytes "gsm") = bytes "gsm" := by decide
  unfold gsm_mux qemud_service_new
  rw [hn]
  rfl

theorem gsm_mux_inbound : InboundReachable gsm_mux :=
  InboundReachable.register _ _ _ _ _ (InboundReachable.init _ _)

theorem gsm_mux_serial : SerialReachable multiplexer_recv gsm_mux.serial :=
  SerialReachable.init [] (List.replicate 4001 0) (List.length_replicate _ _)

/-- The header "00000e" read by the reader of `gsm_mux`, whose version is not
known yet: normal orientation, channel 0, 14 bytes. -/
theorem gsm_mux_header :
    (after_header gsm_mux.serial (bytes "00000e")).in_size = 14
    ∧ (after_header gsm_mux.serial (bytes "00000e")).in_channel = 0
    ∧ (after_header gsm_mux.serial (bytes "00000e")).version = QemudVersion.NORMAL
    ∧ (after_header gsm_mux.serial (bytes "00000e")).cs = legacy_probe
    ∧ (after_header gsm_mux.serial (bytes "00000e")).data0.length = 4001 := by
  have hah := after_header_normal gsm_mux.serial (bytes "00000e") rfl
    (by show QemudVersion.UNKNOWN ≠ QemudVersion.LEGACY; decide) (fun _ => by decide)
  rw [hah]
  refine ⟨?_, ?_, rfl, ?_, ?_⟩
  · show hex2int ((bytes "00000e").drop 2) 4 = 14
    decide
  · show hex2int (bytes "00000e") 2 = 0
    decide
  · show (qemud_serial_init [] (List.replicate 4001 0)).cs = legacy_probe
    unfold qemud_serial_init
    rw [legacy_probe_cs]
    rfl
  · show (memcpy (List.replicate 4001 0) 0 (bytes "00000e")).length = 4001
    rw [memcpy_length _ _ _ (by rw [List.length_replicate]; decide), List.length_replicate]

theorem gsm_mux_control :
    gsm_mux.clients.find? (fun c => c.channel = 0) = some control_client
    ∧ (gsm_mux.clients.map (fun x => x.addr)).Nodup
    ∧ HeaderState gsm_mux.serial := by
  rw [gsm_mux_eq]
  exact ⟨rfl, List.nodup_singleton _, serial_init_header_state _ _⟩

/-- The record "00000e" "connect:gsm:42" read by `gsm_mux` in chunks of any
size: the request is answered, a client on channel 0x42 is attached to "gsm",
and the ':' behind the name has been overwritten in `data0`. -/
theorem gsm_connect_run (chunks : List (List Nat))
    (hchunks : chunks.flatten = bytes "00000econnect:gsm:42") :
    ∃ m1 c, multiplexer_read gsm_mux chunks = some m1
      ∧ m1.clients = [c, control_client] ∧ c.channel = 66 ∧ c.service = some 2
      ∧ m1.serial.cs = legacy_probe ++ bytes "00000dok:connect:42"
      ∧ m1.serial.version = QemudVersion.NORMAL
      ∧ m1.events = [QemudEvent.connect 7 2 66]
      ∧ m1.serial.data0
          = ((handler_state gsm_mux (bytes "00000e") (bytes "connect:gsm:42")).serial.data0).set
              11 0
      ∧ HeaderState m1.serial := by
  obtain ⟨hsize, hchan, hver, hcs, -⟩ := gsm_mux_header
  obtain ⟨hfind, hnd, hs⟩ := gsm_mux_control
  have hread := control_record_read gsm_mux (bytes "00000e") (bytes "connect:gsm:42")
    control_client chunks hs rfl (by rw [hsize]; decide) (by rw [hsize]; decide) hchan
    (by rw [hsize]; rfl) hfind rfl rfl hnd (by rw [hchunks]; decide)
  have hmsg : bytes "connect:gsm:42" = connect_msg (bytes "gsm") (bytes "42") := by decide
  have hacc := control_recv_accept
    (handler_state gsm_mux (bytes "00000e") (bytes "connect:gsm:42"))
    { addr := 2, name := bytes "gsm", max_clients := 1, num_clients := 0, clients := [],
      serv_connect := QemudServiceConnect.accept 5 QemudClientRecv.user true, serv_opaque := 7 }
    (bytes "gsm") (bytes "42") 5 QemudClientRecv.user true (by unfold NameOk; decide)
    ⟨rfl, by decide, by decide⟩ (by rw [gsm_mux_eq]; rfl) (by decide) rfl
    (by
      rw [gsm_mux_eq]
      intro x hx
      rw [List.mem_singleton.mp hx]
      show (1 : Nat) ≠ 3
      decide)
  rw [← hmsg] at hacc
  rw [hacc] at hread
  have h66 : hex2int (bytes "42") 2 = 66 := by decide
  have hw : wire_record QemudVersion.NORMAL 0
      (bytes "ok:connect:" ++ int2hex 2 (hex2int (bytes "42") 2).toNat)
      = bytes "00000dok:connect:42" := by decide
  refine ⟨_,
    { addr := gsm_mux.next_addr, channel := hex2int (bytes "42") 2, clie_opaque := 5,
      clie_recv := QemudClientRecv.user, clie_close := true, service := some 2,
      framing := false, need_header := true,
      header := { len := 0, size := FRAME_HEADER_SIZE },
      header0 := List.replicate FRAME_HEADER_SIZE 0,
      payload := { len := 0, size := 0 }, payload_buff := [] },
    hread, ?_, h66, rfl, ?_, hver, ?_, rfl, ?_⟩
  · show _ :: gsm_mux.clients = _
    rw [gsm_mux_eq]
    rfl
  · show (after_header gsm_mux.serial (bytes "00000e")).cs
        ++ wire_record (after_header gsm_mux.serial (bytes "00000e")).version 0
            (bytes "ok:connect:" ++ int2hex 2 (hex2int (bytes "42") 2).toNat) = _
    rw [hcs, hver, hw]
  · show gsm_mux.events ++ _ = _
    rw [gsm_mux_eq, h66]
    rfl
  · have hah := after_header_header_state gsm_mux.serial (bytes "00000e") hs
    exact ⟨rfl, hah.sink, hah.over⟩

/-- The multiplexer `gsm_mux` at the moment the control handler is given
"connect:gsm:00": `data0` holds the message, with the ':' at offset 11. -/
theorem gsm_zero_handler_state :
    (handler_state gsm_mux (bytes "00000e") (bytes "connect:gsm:00")).serial.data0.length = 4001
    ∧ (handler_state gsm_mux (bytes "00000e") (bytes "connect:gsm:00")).serial.data0.take 14
        = bytes "connect:gsm:00"
    ∧ (handler_state gsm_mux (bytes "00000e") (bytes "connect:gsm:00")).serial.data0[11]?
        = some 58 := by
  obtain ⟨-, -, -, -, hlen⟩ := gsm_mux_header
  have h14 : (bytes "connect:gsm:00").length = 14 := rfl
  have hd : (handler_state gsm_mux (bytes "00000e") (bytes "connect:gsm:00")).serial.data0
      = (bytes "connect:gsm:00"
          ++ (after_header gsm_mux.serial (bytes "00000e")).data0.drop 14).set 14 0 := by
    show (memcpy _ 0 _).set _ 0 = _
    rw [memcpy_zero, h14]
  have hl : (bytes "connect:gsm:00"
      ++ (after_header gsm_mux.serial (bytes "00000e")).data0.drop 14).length = 4001 := by
    rw [List.length_append, List.length_drop, hlen, h14]
  rw [hd]
  refine ⟨by rw [List.length_set, hl], ?_, ?_⟩
  · rw [take_set_self, List.take_left' h14]
  · rw [List.getElem?_set_ne (by decide), List.getElem?_append_left (by rw [h14]; decide)]
    rfl

/-- The record "00000e" "connect:gsm:00" read by `gsm_mux`: the handler only
overwrites the ':' at offset 11 of the message in `data0`. -/
theorem gsm_zero_run :
    qemud_multiplexer_control_recv
        (handler_state gsm_mux (bytes "00000e") (bytes "connect:gsm:00")) (bytes "connect:gsm:00")
      = store_zero (handler_state gsm_mux (bytes "00000e") (bytes "connect:gsm:00")) 11
    ∧ ∀ chunks : List (List Nat), chunks.flatten = bytes "00000econnect:gsm:00" →
        multiplexer_read gsm_mux chunks =
          some { qemud_multiplexer_control_recv
                  (handler_state gsm_mux (bytes "00000e") (bytes "connect:gsm:00"))
                  (bytes "connect:gsm:00") with
                 serial :=
                   { (qemud_multiplexer_control_recv
                       (handler_state gsm_mux (bytes "00000e") (bytes "connect:gsm:00"))
                       (bytes "connect:gsm:00")).serial with
                     need_header := true } } := by
  have hmsg : bytes "connect:gsm:00" = connect_msg (bytes "gsm") (bytes "00") := by decide
  constructor
  · have := control_recv_zero_store
      (handler_state gsm_mux (bytes "00000e") (bytes "connect:gsm:00")) (bytes "gsm")
      (by unfold NameOk; decide)
    rw [← hmsg] at this
    exact this
  · intro chunks hchunks
    obtain ⟨hsize, hchan, -, -, -⟩ := gsm_mux_header
    obtain ⟨hfind, hnd, hs⟩ := gsm_mux_control
    exact control_record_read gsm_mux (bytes "00000e") (bytes "connect:gsm:00")
      control_client chunks hs rfl (by rw [hsize]; decide) (by rw [hsize]; decide) hchan
      (by rw [hsize]; rfl) hfind rfl rfl hnd (by rw [hchunks]; decide)

/-- A chunk that the reader takes without calling the receiver. -/
theorem multiplexer_read_single (m : QemudMultiplexer) (x : List Nat) (s1 : QemudSerial)
    (h : qemud_serial_read multiplexer_recv m m.serial x = some (m, s1)) :
    multiplexer_read m [x] = some { m with serial := s1 } := by
  unfold multiplexer_read
  simp only [qemud_serial_read_chunks, h]

/-- The header "420005" and the first two bytes of its payload, read in normal
orientation from header state: the reader is in the middle of the payload. -/
theorem partial_payload_read {α : Type}
    (recv : α → QemudSerial → Int → List Nat → Option (α × QemudSerial))
    (hr : RecvKeeps recv) (a : α) (s : QemudSerial)
    (hs : HeaderState s) (hv : s.version = QemudVersion.NORMAL) :
    ∃ s1, qemud_serial_read recv a s (bytes "420005he") = some (a, s1)
      ∧ s1.need_header = false ∧ s1.in_size = 5 ∧ s1.payload = ⟨2, 5⟩ ∧ s1.overflow = 0 := by
  rw [read_eq_loop recv hr (7 + 1) _ _ _ hs.good (by decide),
    loop_succ _ _ _ _ _ (by decide)]
  have hstep := header_step recv a s (bytes "420005") (bytes "he") hs rfl
  have hah := after_header_normal s (bytes "420005") rfl (by rw [hv]; decide)
    (fun h => by rw [hv] at h; cases h)
  have hsz : (after_header s (bytes "420005")).in_size = 5 := by
    rw [hah]
    show hex2int ((bytes "420005").drop 2) 4 = 5
    decide
  have hch : (after_header s (bytes "420005")).in_channel = 66 := by
    rw [hah]
    show hex2int (bytes "420005") 2 = 66
    decide
  have hov : (after_header s (bytes "420005")).overflow = 0 :=
    (after_header_header_state s _ hs).over
  rw [if_neg (by rw [hsz, hch]; decide), if_neg (by rw [hsz]; decide)] at hstep
  have hin : bytes "420005he" = bytes "420005" ++ bytes "he" := by decide
  rw [hin, hstep]
  unfold qemud_serial_read_payload
  rw [fill_lt _ _ _ (by
    show 0 < (after_header s (bytes "420005")).in_size.toNat
    rw [hsz]; decide)]
  simp only [hsz]
  exact ⟨_, rfl, rfl, rfl, rfl, hov⟩

/-- C24. Scratch-buffer safety of the decoder: in every state reachable from
`qemud_serial_init` by calls of `qemud_serial_read` on any chunks, the header
sink holds at most 6 bytes, `data0` still has its 4001 bytes (no copy went
beyond it), and while a payload is read (`need_header` false) `in_size` is in
[1,4000], the payload sink has that size and is not over-full. From such a
state every payload handed to the receiver has 1 to 4000 bytes, is the start
of `data0` and is followed there by a zero byte (the reader with the checking
receiver is the reader); and outside overflow mode what
`qemud_serial_can_read` returns is the free space of the active sink. This
holds for every receiver that leaves the sinks and the size of `data0` alone
and may write into `data0`, as the receiver of the multiplexer does: the
control handler stores at most one zero there, inside the message. -/
theorem C24_scratch_safety {α : Type}
    (recv : α → QemudSerial → Int → List Nat → Option (α × QemudSerial))
    (hr : RecvFrame recv) (s : QemudSerial) (h : SerialReachable recv s) :
    s.header.len ≤ 6 ∧ s.header.size = 6
    ∧ s.data0.length = MAX_SERIAL_PAYLOAD + 1
    ∧ (s.need_header = false →
        1 ≤ s.in_size ∧ s.in_size ≤ 4000 ∧ (s.payload.size : Int) = s.in_size
        ∧ s.payload.len ≤ s.payload.size)
    ∧ (∀ (a : α) (chunk : List Nat),
        qemud_serial_read (recv_checked recv) a s chunk = qemud_serial_read recv a s chunk)
    ∧ (¬ s.overflow > 0 → s.need_header = true →
        (s.header.len : Int) + qemud_serial_can_read s = 6)
    ∧ (¬ s.overflow > 0 → s.need_header = false →
        (s.payload.len : Int) + qemud_serial_can_read s = s.payload.size
        ∧ s.payload.size ≤ 4000)
    ∧ RecvFrame multiplexer_recv
    ∧ (∀ (m : QemudMultiplexer) (msg : List Nat),
        (qemud_multiplexer_control_recv m msg).serial.data0 = m.serial.data0
        ∨ ∃ q, q + 3 = msg.length
            ∧ (qemud_multiplexer_control_recv m msg).serial.data0
                = m.serial.data0.set q 0) := by
  have hg := reachable_safe recv hr s h
  have hM : MAX_SERIAL_PAYLOAD = 4000 := rfl
  refine ⟨le_of_lt hg.hlen, hg.hsize, hg.dlen, ?_, ?_, ?_, ?_, multiplexer_recv_frame,
    control_recv_data0⟩
  · intro hn
    have h1 := hg.size1 hn
    have h2 := hg.psize hn
    have h3 := hg.plen hn
    exact ⟨h1.1, by omega, h2, le_of_lt h3⟩
  · intro a chunk
    exact (loop_safe recv hr _ a s chunk hg).1
  · intro hov hn
    unfold qemud_serial_can_read qemud_sink_needed
    rw [if_neg hov, if_pos hn, hg.hsize]
    omega
  · intro hov hn
    have h1 := hg.size1 hn
    have h2 := hg.psize hn
    have h3 := hg.plen hn
    unfold qemud_serial_can_read qemud_sink_needed
    rw [if_neg hov, if_neg (by rw [hn]; decide)]
    omega

/-- Witness of C24, with the receiver of the multiplexer: `gsm_mux` reads the
record "00000e" "connect:gsm:42" in two chunks (the control handler answers and
overwrites the ':' in `data0`), then the header "420005" and the first two
bytes of its payload. -/
theorem C24_scratch_safety_witness :
    ∃ m1 m2, multiplexer_read gsm_mux [bytes "00000econn", bytes "ect:gsm:42"] = some m1
      ∧ m1.serial.cs = legacy_probe ++ bytes "00000dok:connect:42"
      ∧ multiplexer_read m1 [bytes "420005he"] = some m2
      ∧ m2.serial.need_header = false
      ∧ m2.serial.header.len ≤ 6 ∧ m2.serial.data0.length = 4001
      ∧ (m2.serial.need_header = false →
          1 ≤ m2.serial.in_size ∧ m2.serial.in_size ≤ 4000
          ∧ (m2.serial.payload.size : Int) = m2.serial.in_size
          ∧ m2.serial.payload.len ≤ m2.serial.payload.size) := by
  obtain ⟨m1, c, hread, -, -, -, hcs, hver, -, -, hs⟩ :=
    gsm_connect_run [bytes "00000econn", bytes "ect:gsm:42"] (by decide)
  obtain ⟨s2, h2, hn2, -⟩ :=
    partial_payload_read multiplexer_recv multiplexer_recv_keeps m1 m1.serial hs hver
  have hread2 := multiplexer_read_single m1 _ s2 h2
  have hreach : SerialReachable multiplexer_recv s2 :=
    multiplexer_read_reachable m1 _ _
      (multiplexer_read_reachable gsm_mux m1 _ gsm_mux_serial hread) hread2
  obtain ⟨c1, -, c3, c4, -⟩ := C24_scratch_safety multiplexer_recv multiplexer_recv_frame s2 hreach
  exact ⟨m1, _, hread, hcs, hread2, hn2, c1, c3, c4⟩

/-! ## Bookkeeping of services and clients -/

theorem remove_node_not_mem (c : Nat) (l : List Nat) (h : c ∉ l) : remove_node c l = none := by
  induction l with
  | nil => rfl
  | cons x t ih =>
    have hx : x ≠ c := fun e => h (by rw [e]; exact List.mem_cons_self _ _)
    have ht : c ∉ t := fun e => h (List.mem_cons_of_mem _ e)
    simp only [remove_node, hx, if_false, ih ht]

/-- The function `qemud_service_remove_client` in terms of the list. -/
theorem remove_client_eq (s : QemudService) (c : Nat) :
    qemud_service_remove_client s c
      = if c ∈ s.clients then
          { s with clients := s.clients.erase c, num_clients := s.num_clients - 1 }
        else s := by
  unfold qemud_service_remove_client
  by_cases h : c ∈ s.clients
  · rw [if_pos h, remove_node_mem _ _ h]
  · rw [if_neg h, remove_node_not_mem _ _ h]

theorem update_service_addr (a : Nat) (f : QemudService → QemudService)
    (hf : ∀ s, (f s).addr = s.addr) (l : List QemudService) :
    (update_service a f l).map (fun x => x.addr) = l.map (fun x => x.addr) := by
  unfold update_service
  rw [List.map_map]
  apply List.map_congr_left
  intro s _
  simp only [Function.comp]
  split_ifs
  · exact hf s
  · rfl

theorem update_service_nodup (a : Nat) (f : QemudService → QemudService)
    (l : List QemudService) (hf : ∀ s, (f s).addr = s.addr)
    (h : (l.map (fun x => x.addr)).Nodup) :
    ((update_service a f l).map (fun x => x.addr)).Nodup := by
  rw [update_service_addr a f hf l]
  exact h

theorem mem_update_service (a : Nat) (f : QemudService → QemudService)
    (l : List QemudService) (sv1 : QemudService) (h : sv1 ∈ update_service a f l) :
    ∃ sv ∈ l, sv1 = if sv.addr = a then f sv else sv := by
  unfold update_service at h
  obtain ⟨sv, hsv, e⟩ := List.mem_map.mp h
  exact ⟨sv, hsv, e.symm⟩

/-- The function `qemud_client_new` on a multiplexer whose next address is
fresh. -/
theorem client_new_eq (m : QemudMultiplexer) (a : Nat) (channel : Int) (o : Nat)
    (r : QemudClientRecv) (cl : Bool) (hfresh : ∀ x ∈ m.clients, x.addr ≠ m.next_addr) :
    (qemud_client_new m a channel o r cl).1 =
      { m with
        clients :=
          { addr := m.next_addr, channel := channel, clie_opaque := o, clie_recv := r,
            clie_close := cl, service := some a, framing := false, need_header := true,
            header := { len := 0, size := FRAME_HEADER_SIZE },
            header0 := List.replicate FRAME_HEADER_SIZE 0,
            payload := { len := 0, size := 0 }, payload_buff := [] } :: m.clients
        services := update_service a
          (fun s => { s with clients := m.next_addr :: s.clients,
                             num_clients := s.num_clients + 1 }) m.services
        next_addr := m.next_addr + 1 } := by
  unfold qemud_client_new qemud_client_alloc qemud_service_add_client qemud_client_prepend
  simp only [update_client, List.map_cons, if_true]
  have := update_client_fresh m.next_addr (fun x => { x with service := some a })
    m.clients hfresh
  unfold update_client at this
  rw [this]

theorem bk_frame (m : QemudMultiplexer) (s : QemudSerial) (ev : List QemudEvent)
    (h : Bookkeeping m) : Bookkeeping { m with serial := s, events := ev } :=
  ⟨h.cnodup, h.cfresh, h.snodup, h.sfresh, h.count, h.lnodup, h.back⟩

theorem bk_of_eq (m m1 : QemudMultiplexer) (hc : m1.clients = m.clients)
    (hs : m1.services = m.services) (hn : m1.next_addr = m.next_addr)
    (h : Bookkeeping m) : Bookkeeping m1 := by
  refine ⟨?_, ?_, ?_, ?_, ?_, ?_, ?_⟩
  · rw [hc]; exact h.cnodup
  · rw [hc, hn]; exact h.cfresh
  · rw [hs]; exact h.snodup
  · rw [hs, hn]; exact h.sfresh
  · rw [hs]; exact h.count
  · rw [hs]; exact h.lnodup
  · rw [hs, hc]; exact h.back

theorem bk_init (cs data0 : List Nat) : Bookkeeping (qemud_multiplexer_init cs data0) := by
  refine ⟨?_, ?_, ?_, ?_, ?_, ?_, ?_⟩
  · exact List.nodup_singleton _
  · intro c hc
    rw [List.mem_singleton.mp hc]
    show (1 : Nat) < 2
    decide
  · exact List.nodup_nil
  · intro sv hsv; cases hsv
  · intro sv hsv; cases hsv
  · intro sv hsv; cases hsv
  · intro sv hsv; cases hsv

theorem bk_register (m : QemudMultiplexer) (name : List Nat) (max_clients : Int) (so : Nat)
    (cb : QemudServiceConnect) (h : Bookkeeping m) :
    Bookkeeping (qemud_service_new m name max_clients so cb).1 := by
  unfold qemud_service_new
  refine ⟨h.cnodup, ?_, ?_, ?_, ?_, ?_, ?_⟩
  · intro c hc
    have := h.cfresh c hc
    show c.addr < m.next_addr + 1
    omega
  · show (m.next_addr :: m.services.map (fun x => x.addr)).Nodup
    rw [List.nodup_cons]
    refine ⟨?_, h.snodup⟩
    intro hmem
    obtain ⟨sv, hsv, e⟩ := List.mem_map.mp hmem
    have := h.sfresh sv hsv
    omega
  · intro sv hsv
    show sv.addr < m.next_addr + 1
    rcases List.mem_cons.mp hsv with e | e
    · rw [e]
      show m.next_addr < m.next_addr + 1
      omega
    · have := h.sfresh sv e
      omega
  · intro sv hsv
    rcases List.mem_cons.mp hsv with e | e
    · rw [e]; rfl
    · exact h.count sv e
  · intro sv hsv
    rcases List.mem_cons.mp hsv with e | e
    · rw [e]; exact List.nodup_nil
    · exact h.lnodup sv e
  · intro sv hsv a ha
    rcases List.mem_cons.mp hsv with e | e
    · rw [e] at ha; cases ha
    · exact h.back sv e a ha

theorem bk_client_new (m : QemudMultiplexer) (a : Nat) (channel : Int) (o : Nat)
    (r : QemudClientRecv) (cl : Bool) (h : Bookkeeping m) :
    Bookkeeping (qemud_client_new m a channel o r cl).1 := by
  have hfresh : ∀ x ∈ m.clients, x.addr ≠ m.next_addr := fun x hx => by
    have := h.cfresh x hx
    omega
  have hnot : ∀ sv ∈ m.services, m.next_addr ∉ sv.clients := by
    intro sv hsv hmem
    obtain ⟨c, hc, e, -⟩ := h.back sv hsv _ hmem
    exact hfresh c hc e
  rw [client_new_eq m a channel o r cl hfresh]
  refine ⟨?_, ?_, ?_, ?_, ?_, ?_, ?_⟩
  · show (m.next_addr :: m.clients.map (fun x => x.addr)).Nodup
    rw [List.nodup_cons]
    refine ⟨?_, h.cnodup⟩
    intro hmem
    obtain ⟨c, hc, e⟩ := List.mem_map.mp hmem
    exact hfresh c hc e
  · intro c hc
    show c.addr < m.next_addr + 1
    rcases List.mem_cons.mp hc with e | e
    · rw [e]
      show m.next_addr < m.next_addr + 1
      omega
    · have := h.cfresh c e
      omega
  · refine update_service_nodup _ _ _ ?_ h.snodup
    intro s
    rfl
  · intro sv1 hsv1
    obtain ⟨sv, hsv, e⟩ := mem_update_service _ _ _ _ hsv1
    have := h.sfresh sv hsv
    show sv1.addr < m.next_addr + 1
    rw [e]
    split_ifs
    · show sv.addr < m.next_addr + 1
      omega
    · omega
  · intro sv1 hsv1
    obtain ⟨sv, hsv, e⟩ := mem_update_service _ _ _ _ hsv1
    have := h.count sv hsv
    rw [e]
    split_ifs
    · show sv.num_clients + 1 = ((m.next_addr :: sv.clients).length : Int)
      rw [List.length_cons, this]
      omega
    · exact this
  · intro sv1 hsv1
    obtain ⟨sv, hsv, e⟩ := mem_update_service _ _ _ _ hsv1
    rw [e]
    split_ifs
    · show (m.next_addr :: sv.clients).Nodup
      rw [List.nodup_cons]
      exact ⟨hnot sv hsv, h.lnodup sv hsv⟩
    · exact h.lnodup sv hsv
  · intro sv1 hsv1 a1 ha1
    obtain ⟨sv, hsv, e⟩ := mem_update_service _ _ _ _ hsv1
    by_cases ha : sv.addr = a
    · rw [if_pos ha] at e
      rw [e] at ha1 ⊢
      rcases List.mem_cons.mp ha1 with e1 | e1
      · refine ⟨_, List.mem_cons_self _ _, e1.symm, ?_⟩
        show some a = some sv.addr
        rw [ha]
      · obtain ⟨c, hc, hca, hcs⟩ := h.back sv hsv a1 e1
        exact ⟨c, List.mem_cons_of_mem _ hc, hca, hcs⟩
    · rw [if_neg ha] at e
      rw [e] at ha1 ⊢
      obtain ⟨c, hc, hca, hcs⟩ := h.back sv hsv a1 ha1
      exact ⟨c, List.mem_cons_of_mem _ hc, hca, hcs⟩

/-- The function `qemud_client_disconnect` on the lists, for an object that
is in the global list. -/
theorem disconnect_lists (m : QemudMultiplexer) (c c0 : QemudClient)
    (hc0 : c0 ∈ m.clients) (ha : c.addr = c0.addr)
    (hnd : (m.clients.map (fun x => x.addr)).Nodup) :
    ∃ pre post, m.clients = pre ++ c0 :: post
      ∧ (qemud_client_disconnect m c).clients = pre ++ post
      ∧ (qemud_client_disconnect m c).next_addr = m.next_addr
      ∧ (qemud_client_disconnect m c).services
          = (match c.service with
            | some a => update_service a (fun s => qemud_service_remove_client s c.addr)
                m.services
            | none => m.services) := by
  obtain ⟨pre, post, hl, hun⟩ := unlink_mem m.clients c0 hc0 hnd
  refine ⟨pre, post, hl, ?_, ?_, ?_⟩
  · unfold qemud_client_disconnect qemud_client_remove
    rw [ha, hun]
    cases c.service <;> cases c.clie_close <;> by_cases h : c.channel > 0 <;> simp [h]
  · unfold qemud_client_disconnect qemud_client_remove
    cases c.service <;> cases c.clie_close <;> by_cases h : c.channel > 0 <;> simp [h]
  · unfold qemud_client_disconnect qemud_client_remove
    cases c.service <;> cases c.clie_close <;> by_cases h : c.channel > 0 <;> simp [h]

theorem bk_disconnect (m : QemudMultiplexer) (c c0 : QemudClient)
    (hc0 : c0 ∈ m.clients) (ha : c.addr = c0.addr) (hs : c.service = c0.service)
    (h : Bookkeeping m) : Bookkeeping (qemud_client_disconnect m c) := by
  obtain ⟨pre, post, hl, hcl, hna, hsv⟩ := disconnect_lists m c c0 hc0 ha h.cnodup
  have hsub : ∀ x, x ∈ pre ++ post → x ∈ m.clients := by
    intro x hx
    rw [hl]
    rcases List.mem_append.mp hx with e | e
    · exact List.mem_append_left _ e
    · exact List.mem_append_right _ (List.mem_cons_of_mem _ e)
  have hkeep : ∀ x ∈ m.clients, x.addr ≠ c0.addr → x ∈ pre ++ post := by
    intro x hx hne
    rw [hl] at hx
    rcases List.mem_append.mp hx with e | e
    · exact List.mem_append_left _ e
    · rcases List.mem_cons.mp e with e1 | e1
      · rw [e1] at hne; exact absurd rfl hne
      · exact List.mem_append_right _ e1
  have hunique : ∀ x ∈ m.clients, x.addr = c0.addr → x = c0 :=
    fun x hx e => List.inj_on_of_nodup_map h.cnodup hx hc0 e
  /- the services after the call, one by one -/
  have hserv : ∀ sv1 ∈ (qemud_client_disconnect m c).services,
      ∃ sv ∈ m.services, sv1.addr = sv.addr
        ∧ (sv1 = sv ∨ (c.service = some sv.addr ∧ c.addr ∈ sv.clients
            ∧ sv1 = { sv with clients := sv.clients.erase c.addr,
                              num_clients := sv.num_clients - 1 }))
        ∧ (c.service = some sv.addr → c.addr ∉ sv1.clients) := by
    intro sv1 hsv1
    rw [hsv] at hsv1
    cases hcs : c.service with
    | none =>
      rw [hcs] at hsv1
      exact ⟨sv1, hsv1, rfl, Or.inl rfl, fun e => by cases e⟩
    | some a =>
      rw [hcs] at hsv1
      simp only [] at hsv1
      obtain ⟨sv, hsvm, e⟩ := mem_update_service _ _ _ _ hsv1
      by_cases hsa : sv.addr = a
      · rw [if_pos hsa, remove_client_eq] at e
        by_cases hin : c.addr ∈ sv.clients
        · rw [if_pos hin] at e
          refine ⟨sv, hsvm, by rw [e], Or.inr ⟨by rw [hsa], hin, e⟩, ?_⟩
          intro _
          rw [e]
          show c.addr ∉ sv.clients.erase c.addr
          exact fun hmem => ((h.lnodup sv hsvm).mem_erase_iff.mp hmem).1 rfl
        · rw [if_neg hin] at e
          refine ⟨sv, hsvm, by rw [e], Or.inl e, ?_⟩
          intro _
          rw [e]
          exact hin
      · rw [if_neg hsa] at e
        refine ⟨sv, hsvm, by rw [e], Or.inl e, ?_⟩
        intro hh
        simp only [Option.some.injEq] at hh
        exact absurd hh.symm hsa
  refine ⟨?_, ?_, ?_, ?_, ?_, ?_, ?_⟩
  · rw [hcl]
    have hnd := h.cnodup
    rw [hl] at hnd
    simp only [List.map_append, List.map_cons] at hnd ⊢
    exact (List.nodup_middle.mp hnd).of_cons
  · intro x hx
    rw [hcl] at hx
    rw [hna]
    exact h.cfresh x (hsub x hx)
  · rw [hsv]
    cases c.service with
    | none => exact h.snodup
    | some a =>
      refine update_service_nodup _ _ _ ?_ h.snodup
      intro s
      rw [remove_client_eq]
      split_ifs <;> rfl
  · intro sv1 hsv1
    obtain ⟨sv, hsvm, e, -, -⟩ := hserv sv1 hsv1
    rw [hna, e]
    exact h.sfresh sv hsvm
  · intro sv1 hsv1
    obtain ⟨sv, hsvm, -, e, -⟩ := hserv sv1 hsv1
    have hcnt := h.count sv hsvm
    rcases e with e | ⟨-, hin, e⟩
    · rw [e]; exact hcnt
    · rw [e]
      show sv.num_clients - 1 = ((sv.clients.erase c.addr).length : Int)
      rw [List.length_erase_of_mem hin, hcnt]
      have : 0 < sv.clients.length := List.length_pos_of_mem hin
      omega
  · intro sv1 hsv1
    obtain ⟨sv, hsvm, -, e, -⟩ := hserv sv1 hsv1
    rcases e with e | ⟨-, -, e⟩
    · rw [e]; exact h.lnodup sv hsvm
    · rw [e]
      exact (h.lnodup sv hsvm).erase _
  · intro sv1 hsv1 a1 ha1
    obtain ⟨sv, hsvm, eaddr, e, hgone⟩ := hserv sv1 hsv1
    have ha1old : a1 ∈ sv.clients := by
      rcases e with e | ⟨-, -, e⟩
      · rw [e] at ha1; exact ha1
      · rw [e] at ha1
        exact List.mem_of_mem_erase ha1
    obtain ⟨c1, hc1, hc1a, hc1s⟩ := h.back sv hsvm a1 ha1old
    refine ⟨c1, ?_, hc1a, by rw [eaddr]; exact hc1s⟩
    rw [hcl]
    apply hkeep c1 hc1
    intro hsame
    have hc1c0 : c1 = c0 := hunique c1 hc1 hsame
    have hcsv : c.service = some sv.addr := by rw [hs, ← hc1c0]; exact hc1s
    apply hgone hcsv
    rw [ha, ← hsame, hc1a]
    exact ha1

theorem bk_step (m m1 : QemudMultiplexer) (h : Bookkeeping m) (hstep : Step m m1) :
    Bookkeeping m1 := by
  cases hstep with
  | same s ev => exact bk_frame m s ev h
  | new m0 s sv channel o r cl hc hs hn _ _ =>
    have h0 : Bookkeeping m0 := bk_of_eq m m0 hc hs hn h
    have h1 := bk_client_new m0 sv.addr channel o r cl h0
    exact bk_of_eq (qemud_client_new m0 sv.addr channel o r cl).1 _ rfl rfl rfl h1
  | drop c hc _ => exact bk_disconnect m _ c hc rfl rfl h

theorem step_new_events (m : QemudMultiplexer) (s : QemudSerial) (ev : List QemudEvent)
    (sv : QemudService) (channel : Int) (o : Nat) (r : QemudClientRecv) (cl : Bool)
    (hsv : sv ∈ m.services) (hch : 0 < channel) :
    Step m { (qemud_client_new { m with serial := s, events := ev } sv.addr channel o r cl).1
             with serial := s } :=
  Step.new { m with serial := s, events := ev } s sv channel o r cl rfl rfl rfl hsv hch

/-- The function `qemud_multiplexer_connect` with a positive channel id is a
step, whatever is done to the transport afterwards. -/
theorem connect_step (m : QemudMultiplexer) (s0 s : QemudSerial) (name : List Nat)
    (channel : Int) (hch : 0 < channel) :
    Step m { (qemud_multiplexer_connect { m with serial := s0 } name channel).1
             with serial := s } := by
  unfold qemud_multiplexer_connect
  cases hf : m.services.find? (fun sv => sv.name = name) with
  | none =>
    simp only [hf]
    exact Step.same s m.events
  | some sv =>
    simp only [hf]
    split_ifs
    · exact Step.same s m.events
    · cases hcb : sv.serv_connect with
      | refuse =>
        simp only []
        exact Step.same s _
      | accept o r cl =>
        simp only []
        exact Step.new _ s sv channel o r cl rfl rfl rfl (List.mem_of_find?_eq_some hf) hch

theorem step_self (m : QemudMultiplexer) : Step m m := Step.same m.serial m.events

theorem disconnect_step (m : QemudMultiplexer) (channel : Int) (hch : 0 < channel) :
    Step m (qemud_multiplexer_disconnect m channel) := by
  unfold qemud_multiplexer_disconnect
  cases hf : m.clients.find? (fun c => c.channel = channel) with
  | none => exact step_self m
  | some c =>
    simp only []
    refine Step.drop c (List.mem_of_find?_eq_some hf) ?_
    have := List.find?_some hf
    simp only [decide_eq_true_eq] at this
    rw [this]
    exact hch

/-- Every control message is a step. -/
theorem control_recv_step (m : QemudMultiplexer) (msg : List Nat) :
    Step m (qemud_multiplexer_control_recv m msg) := by
  unfold qemud_multiplexer_control_recv
  simp only []
  split_ifs <;> (try split) <;> (try split_ifs) <;> (try split) <;>
    first
    | exact step_self m
    | exact Step.same _ m.events
    | exact connect_step m _ _ _ _ (by omega)
    | exact disconnect_step m _ (by omega)

theorem reachable_bookkeeping (m : QemudMultiplexer) (h : ServiceReachable m) :
    Bookkeeping m := by
  induction h with
  | init cs data0 => exact bk_init cs data0
  | register m name max_clients so cb _ ih => exact bk_register m name max_clients so cb ih
  | client_new m sv channel o r cl _ _ ih => exact bk_client_new m sv.addr channel o r cl ih
  | close m c _ hc ih => exact bk_disconnect m c c hc rfl rfl ih
  | control m msg _ ih => exact bk_step m _ ih (control_recv_step m msg)

theorem mux_after_connect_reachable : ServiceReachable mux_after_connect :=
  ServiceReachable.control _ _ (ServiceReachable.register _ _ _ _ _ (ServiceReachable.init [] []))

/-- C26. Service bookkeeping invariant: in every state reachable from
`qemud_multiplexer_init` through `qemud_service_register`, `qemud_client_new`,
`qemud_client_close` and the handling of control messages (the close callback
is only recorded, it does not re-enter), every service has `num_clients` equal
to the length of its client list, no client is in that list twice, and every
client of the list is a client of the global list, the only one at its
address, whose `service` field is that service. And
`qemud_service_remove_client` of a client that is not in the list of a service
changes nothing of the service, so neither the list nor `num_clients`. -/
theorem C26_service_bookkeeping (m : QemudMultiplexer) (h : ServiceReachable m) :
    (∀ sv ∈ m.services,
        sv.num_clients = (sv.clients.length : Int)
        ∧ sv.clients.Nodup
        ∧ ∀ a ∈ sv.clients, ∃ c ∈ m.clients, c.addr = a ∧ c.service = some sv.addr
            ∧ ∀ c1 ∈ m.clients, c1.addr = a → c1 = c)
    ∧ (∀ (s : QemudService) (c : Nat), c ∉ s.clients →
        qemud_service_remove_client s c = s
        ∧ (qemud_service_remove_client s c).clients = s.clients
        ∧ (qemud_service_remove_client s c).num_clients = s.num_clients) := by
  have hb := reachable_bookkeeping m h
  refine ⟨?_, ?_⟩
  · intro sv hsv
    refine ⟨hb.count sv hsv, hb.lnodup sv hsv, ?_⟩
    intro a ha
    obtain ⟨c, hc, hca, hcs⟩ := hb.back sv hsv a ha
    exact ⟨c, hc, hca, hcs, fun c1 hc1 e =>
      List.inj_on_of_nodup_map hb.cnodup hc1 hc (e.trans hca.symm)⟩
  · intro s c hc
    have : qemud_service_remove_client s c = s := by
      rw [remove_client_eq, if_neg hc]
    rw [this]
    exact ⟨rfl, rfl, rfl⟩

/-- Witness of C26: the multiplexer on which "gsm" was registered and which
handled "connect:gsm:42". -/
theorem C26_service_bookkeeping_witness :
    ServiceReachable mux_after_connect
    ∧ (∀ sv ∈ mux_after_connect.services,
        sv.num_clients = (sv.clients.length : Int)
        ∧ sv.clients.Nodup
        ∧ ∀ a ∈ sv.clients, ∃ c ∈ mux_after_connect.clients,
            c.addr = a ∧ c.service = some sv.addr
            ∧ ∀ c1 ∈ mux_after_connect.clients, c1.addr = a → c1 = c) :=
  ⟨mux_after_connect_reachable,
    (C26_service_bookkeeping mux_after_connect mux_after_connect_reachable).1⟩

/-! ## The control client -/

theorem payload_inv {α : Type} (P : α → Prop)
    (recv : α → QemudSerial → Int → List Nat → Option (α × QemudSerial))
    (hr : RecvInv P recv) (a : α) (s : QemudSerial) (x : List Nat)
    (hp : P a) (r : LoopStep (α × QemudSerial))
    (h : qemud_serial_read_payload recv a s x = some r) : P r.state.1 := by
  unfold qemud_serial_read_payload at h
  cases hfill : qemud_sink_fill s.payload s.data0 x with
  | mk payload r1 =>
    cases r1 with
    | mk data0 r2 =>
      cases r2 with
      | mk rest full =>
        rw [hfill] at h
        simp only [] at h
        cases full with
        | false =>
          simp only [Bool.not_false, if_true, Option.some.injEq] at h
          subst h
          exact hp
        | true =>
          simp only [Bool.not_true, Bool.false_eq_true, if_false] at h
          cases hrecv : recv a
              { s with payload := payload, data0 := data0.set payload.size 0 }
              s.in_channel ((data0.set payload.size 0).take payload.size) with
          | none =>
            rw [hrecv] at h
            cases h
          | some p =>
            rw [hrecv] at h
            simp only [Option.some.injEq] at h
            subst h
            obtain ⟨a1, s1⟩ := p
            exact hr _ _ _ _ _ _ hp hrecv

theorem body_inv {α : Type} (P : α → Prop)
    (recv : α → QemudSerial → Int → List Nat → Option (α × QemudSerial))
    (hr : RecvInv P recv) (a : α) (s : QemudSerial) (x : List Nat)
    (hp : P a) (r : LoopStep (α × QemudSerial))
    (h : qemud_serial_read_body recv a s x = some r) : P r.state.1 := by
  unfold qemud_serial_read_body at h
  by_cases hov : s.overflow > 0
  · rw [if_pos hov] at h
    simp only [Option.some.injEq] at h
    subst h
    exact hp
  · rw [if_neg hov] at h
    cases hn : s.need_header with
    | false =>
      rw [hn] at h
      simp only [Bool.false_eq_true, if_false] at h
      exact payload_inv P recv hr a s x hp r h
    | true =>
      rw [hn] at h
      simp only [if_true] at h
      cases hfill : qemud_sink_fill s.header s.data0 x with
      | mk header r1 =>
        cases r1 with
        | mk data0 r2 =>
          cases r2 with
          | mk rest full =>
            rw [hfill] at h
            simp only [] at h
            cases full with
            | false =>
              simp only [Bool.not_false, if_true, Option.some.injEq] at h
              subst h
              exact hp
            | true =>
              simp only [Bool.not_true, Bool.false_eq_true, if_false] at h
              split_ifs at h
              · simp only [Option.some.injEq] at h
                subst h
                exact hp
              · simp only [Option.some.injEq] at h
                subst h
                exact hp
              · exact payload_inv P recv hr a _ rest hp r h

theorem loop_inv {α : Type} (P : α → Prop)
    (recv : α → QemudSerial → Int → List Nat → Option (α × QemudSerial))
    (hr : RecvInv P recv) (fuel : Nat) :
    ∀ (a : α) (s : QemudSerial) (x : List Nat) (r : α × QemudSerial),
      P a → qemud_serial_read_loop recv fuel a s x = some r → P r.1 := by
  induction fuel with
  | zero =>
    intro a s x r hp h
    unfold qemud_serial_read_loop at h
    split_ifs at h
    simp only [Option.some.injEq] at h
    rw [← h]
    exact hp
  | succ n ih =>
    intro a s x r hp h
    unfold qemud_serial_read_loop at h
    split_ifs at h
    · cases hb : qemud_serial_read_body recv a s x with
      | none =>
        rw [hb] at h
        cases h
      | some st =>
        have hbv := body_inv P recv hr a s x hp st hb
        rw [hb] at h
        cases st with
        | brk p =>
          simp only [Option.some.injEq] at h
          rw [← h]
          exact hbv
        | cont p y =>
          obtain ⟨a1, s1⟩ := p
          simp only [LoopStep.state] at h hbv
          exact ih a1 s1 y r hbv h
    · simp only [Option.some.injEq] at h
      rw [← h]
      exact hp

theorem read_chunks_inv {α : Type} (P : α → Prop)
    (recv : α → QemudSerial → Int → List Nat → Option (α × QemudSerial))
    (hr : RecvInv P recv) (chunks : List (List Nat)) :
    ∀ (a : α) (s : QemudSerial) (r : α × QemudSerial),
      P a → qemud_serial_read_chunks recv a s chunks = some r → P r.1 := by
  induction chunks with
  | nil =>
    intro a s r hp h
    simp only [qemud_serial_read_chunks, Option.some.injEq] at h
    rw [← h]
    exact hp
  | cons x rest ih =>
    intro a s r hp h
    simp only [qemud_serial_read_chunks] at h
    cases h1 : qemud_serial_read recv a s x with
    | none =>
      rw [h1] at h
      cases h
    | some p =>
      rw [h1] at h
      obtain ⟨a1, s1⟩ := p
      have hp1 : P a1 := loop_inv P recv hr _ a s x (a1, s1) hp h1
      simp only at h
      exact ih a1 s1 r hp1 h

theorem ci_of_eq (m m1 : QemudMultiplexer) (hc : m1.clients = m.clients)
    (hs : m1.services = m.services) (hn : m1.next_addr = m.next_addr)
    (h : ControlInv m) : ControlInv m1 := by
  refine ⟨bk_of_eq m m1 hc hs hn h.bk, ?_, ?_, ?_⟩
  · rw [hc]; exact h.ctl
  · rw [hc]; exact h.only
  · rw [hc]; exact h.noframe

theorem ci_init (cs data0 : List Nat) : ControlInv (qemud_multiplexer_init cs data0) := by
  refine ⟨bk_init cs data0, ?_, ?_, ?_⟩
  · exact List.mem_singleton.mpr rfl
  · intro c hc _
    exact List.mem_singleton.mp hc
  · intro c hc
    rw [List.mem_singleton.mp hc]

theorem ci_register (m : QemudMultiplexer) (name : List Nat) (max_clients : Int) (so : Nat)
    (cb : QemudServiceConnect) (h : ControlInv m) :
    ControlInv (qemud_service_new m name max_clients so cb).1 :=
  ⟨bk_register m name max_clients so cb h.bk, h.ctl, h.only, h.noframe⟩

theorem ci_step (m m1 : QemudMultiplexer) (h : ControlInv m) (hstep : Step m m1) :
    ControlInv m1 := by
  have hbk := bk_step m m1 h.bk hstep
  cases hstep with
  | same s ev => exact ⟨hbk, h.ctl, h.only, h.noframe⟩
  | new m0 s sv channel o r cl hc hs hn hsv hch =>
    have hfresh : ∀ x ∈ m0.clients, x.addr ≠ m0.next_addr := fun x hx => by
      rw [hc] at hx
      rw [hn]
      have := h.bk.cfresh x hx
      omega
    have hcl := congrArg QemudMultiplexer.clients
      (client_new_eq m0 sv.addr channel o r cl hfresh)
    simp only [] at hcl
    rw [hc] at hcl
    refine ⟨hbk, ?_, ?_, ?_⟩
    · show control_client ∈ (qemud_client_new m0 sv.addr channel o r cl).1.clients
      rw [hcl]
      exact List.mem_cons_of_mem _ h.ctl
    · intro c hcm hz
      have hcm1 : c ∈ (qemud_client_new m0 sv.addr channel o r cl).1.clients := hcm
      rw [hcl] at hcm1
      rcases List.mem_cons.mp hcm1 with e | e
      · rw [e] at hz
        have hz1 : channel = 0 := hz
        omega
      · exact h.only c e hz
    · intro c hcm
      have hcm1 : c ∈ (qemud_client_new m0 sv.addr channel o r cl).1.clients := hcm
      rw [hcl] at hcm1
      rcases List.mem_cons.mp hcm1 with e | e
      · rw [e]
      · exact h.noframe c e
  | drop c hc hch =>
    obtain ⟨pre, post, hl, hcl, -, -⟩ :=
      disconnect_lists m { c with channel := -1 } c hc rfl h.bk.cnodup
    have hsub : ∀ x, x ∈ pre ++ post → x ∈ m.clients := by
      intro x hx
      rw [hl]
      rcases List.mem_append.mp hx with e | e
      · exact List.mem_append_left _ e
      · exact List.mem_append_right _ (List.mem_cons_of_mem _ e)
    refine ⟨hbk, ?_, ?_, ?_⟩
    · rw [hcl]
      have hm := h.ctl
      rw [hl] at hm
      rcases List.mem_append.mp hm with e | e
      · exact List.mem_append_left _ e
      · rcases List.mem_cons.mp e with e1 | e1
        · rw [← e1] at hch
          exact absurd hch (by decide)
        · exact List.mem_append_right _ e1
    · intro x hx hz
      rw [hcl] at hx
      exact h.only x (hsub x hx) hz
    · intro x hx
      rw [hcl] at hx
      exact h.noframe x (hsub x hx)

/-- One record handed to `qemud_multiplexer_serial_recv` is a step, when no
client is in framing mode. -/
theorem serial_recv_step (m m1 : QemudMultiplexer) (channel : Int) (msg : List Nat)
    (hnd : (m.clients.map (fun x => x.addr)).Nodup)
    (hnf : ∀ c ∈ m.clients, c.framing = false)
    (h : qemud_multiplexer_serial_recv m channel msg = some m1) : Step m m1 := by
  unfold qemud_multiplexer_serial_recv at h
  cases hf : m.clients.find? (fun c => c.channel = channel) with
  | none =>
    rw [hf] at h
    simp only [Option.some.injEq] at h
    rw [← h]
    exact step_self m
  | some c =>
    have hcm := List.mem_of_find?_eq_some hf
    have hupd := update_client_self m.clients c hcm hnd
    rw [hf] at h
    unfold qemud_client_recv at h
    simp only [hnf c hcm, Bool.not_false, if_true, hupd, Option.some.injEq] at h
    rw [← h]
    cases hr : c.clie_recv with
    | null =>
      simp only [ne_eq, not_true_eq_false, if_false, client_deliver]
      exact step_self m
    | control =>
      simp only [ne_eq, reduceCtorEq, not_false_eq_true, if_true, client_deliver, hr]
      exact control_recv_step m msg
    | user =>
      simp only [ne_eq, reduceCtorEq, not_false_eq_true, if_true, client_deliver, hr]
      exact Step.same m.serial _

theorem multiplexer_recv_inv : RecvInv ControlInv multiplexer_recv := by
  intro m s channel msg m1 s1 hp h
  unfold multiplexer_recv at h
  cases hr : qemud_multiplexer_serial_recv { m with serial := s } channel msg with
  | none =>
    rw [hr] at h
    cases h
  | some m2 =>
    rw [hr] at h
    simp only [Option.some.injEq, Prod.mk.injEq] at h
    rw [← h.1]
    have hp1 : ControlInv { m with serial := s } := ci_of_eq m _ rfl rfl rfl hp
    exact ci_step _ _ hp1 (serial_recv_step _ _ channel msg hp1.bk.cnodup hp1.noframe hr)

theorem reachable_inv (m : QemudMultiplexer) (h : InboundReachable m) : ControlInv m := by
  induction h with
  | init cs data0 => exact ci_init cs data0
  | register m name max_clients so cb _ ih => exact ci_register m name max_clients so cb ih
  | read m m1 chunks _ hread ih =>
    unfold multiplexer_read at hread
    cases h1 : qemud_serial_read_chunks multiplexer_recv m m.serial chunks with
    | none =>
      rw [h1] at hread
      cases hread
    | some p =>
      rw [h1] at hread
      obtain ⟨m2, s2⟩ := p
      simp only [Option.some.injEq] at hread
      rw [← hread]
      have := read_chunks_inv ControlInv multiplexer_recv multiplexer_recv_inv chunks m
        m.serial (m2, s2) ih h1
      exact ci_of_eq m2 _ rfl rfl rfl this

/-- The message "disconnect:00" changes nothing. -/
theorem control_recv_disconnect_zero (m : QemudMultiplexer) :
    qemud_multiplexer_control_recv m (bytes "disconnect:00") = m := by
  unfold qemud_multiplexer_control_recv
  simp only []
  rw [if_neg (by decide), if_pos (by decide), if_pos (by decide)]

/-- C28 refuted in its last part. The multiplexer `gsm_mux` is a state after
`qemud_multiplexer_init` (a service has been registered). When it reads the
record "00000e" "connect:gsm:00", in chunks of any size, the control handler is
called with the message in `data0`, the ':' at offset 11; it stores a zero
there before it looks at the channel id "00" and rejects the message. So the
message does change state: the multiplexer the handler returns is not the one
it was given. -/
theorem C28_control_client_stays_counterexample :
    InboundReachable gsm_mux
    ∧ (∀ chunks : List (List Nat), chunks.flatten = bytes "00000econnect:gsm:00" →
        multiplexer_read gsm_mux chunks =
          some { qemud_multiplexer_control_recv
                  (handler_state gsm_mux (bytes "00000e") (bytes "connect:gsm:00"))
                  (bytes "connect:gsm:00") with
                 serial :=
                   { (qemud_multiplexer_control_recv
                       (handler_state gsm_mux (bytes "00000e") (bytes "connect:gsm:00"))
                       (bytes "connect:gsm:00")).serial with
                     need_header := true } })
    ∧ (handler_state gsm_mux (bytes "00000e") (bytes "connect:gsm:00")).serial.data0.take 14
        = bytes "connect:gsm:00"
    ∧ (handler_state gsm_mux (bytes "00000e") (bytes "connect:gsm:00")).serial.data0[11]?
        = some 58
    ∧ (qemud_multiplexer_control_recv
        (handler_state gsm_mux (bytes "00000e") (bytes "connect:gsm:00"))
        (bytes "connect:gsm:00")).serial.data0[11]? = some 0
    ∧ qemud_multiplexer_control_recv
        (handler_state gsm_mux (bytes "00000e") (bytes "connect:gsm:00"))
        (bytes "connect:gsm:00")
      ≠ handler_state gsm_mux (bytes "00000e") (bytes "connect:gsm:00") := by
  obtain ⟨hlen, htake, h58⟩ := gsm_zero_handler_state
  obtain ⟨hrun, hread⟩ := gsm_zero_run
  have h0 : (qemud_multiplexer_control_recv
      (handler_state gsm_mux (bytes "00000e") (bytes "connect:gsm:00"))
      (bytes "connect:gsm:00")).serial.data0[11]? = some 0 := by
    rw [hrun, store_zero_data0, List.getElem?_set_self (by rw [hlen]; decide)]
  refine ⟨gsm_mux_inbound, hread, htake, h58, h0, ?_⟩
  intro e
  rw [e, h58] at h0
  exact absurd h0 (by decide)

/-- C28 amended. The control client is never removed: in every state reached
from `qemud_multiplexer_init` by registering services and processing inbound
transport bytes (the connect callbacks create clients through
`qemud_client_new` with the channel id they are given), the client made by
`qemud_multiplexer_init` is in the global list, with channel id 0; it is the
only client with channel id 0 and the one a record for channel 0 is
dispatched to; no two clients share an address. On any multiplexer the message
"disconnect:00" changes no state, and "connect:<name>:00", for any name,
creates no client, calls no callback, changes no service and writes nothing:
either nothing is changed or only one byte of `data0`, where the ':' before
"00" is overwritten with a zero; the latter is what happens when the name has
no ':' and no zero byte. -/
theorem C28_control_client_stays_amended (m : QemudMultiplexer) (h : InboundReachable m) :
    control_client ∈ m.clients
    ∧ control_client.channel = 0
    ∧ (∀ c ∈ m.clients, c.channel = 0 → c = control_client)
    ∧ (m.clients.map (fun x => x.addr)).Nodup
    ∧ m.clients.find? (fun c => c.channel = 0) = some control_client
    ∧ (∀ m1 : QemudMultiplexer,
        qemud_multiplexer_control_recv m1 (bytes "disconnect:00") = m1)
    ∧ (∀ (m1 : QemudMultiplexer) (name : List Nat),
        (qemud_multiplexer_control_recv m1 (connect_msg name (bytes "00")) = m1
          ∨ qemud_multiplexer_control_recv m1 (connect_msg name (bytes "00"))
              = { m1 with serial :=
                    { m1.serial with data0 := m1.serial.data0.set (8 + name.length) 0 } })
        ∧ (NameOk name →
            qemud_multiplexer_control_recv m1 (connect_msg name (bytes "00"))
              = { m1 with serial :=
                    { m1.serial with data0 := m1.serial.data0.set (8 + name.length) 0 } })
        ∧ (qemud_multiplexer_control_recv m1 (connect_msg name (bytes "00"))).clients
            = m1.clients
        ∧ (qemud_multiplexer_control_recv m1 (connect_msg name (bytes "00"))).services
            = m1.services
        ∧ (qemud_multiplexer_control_recv m1 (connect_msg name (bytes "00"))).events
            = m1.events
        ∧ (qemud_multiplexer_control_recv m1 (connect_msg name (bytes "00"))).serial.cs
            = m1.serial.cs
        ∧ (qemud_multiplexer_control_recv m1 (connect_msg name (bytes "00"))).serial.version
            = m1.serial.version) := by
  have hi := reachable_inv m h
  refine ⟨hi.ctl, rfl, hi.only, hi.bk.cnodup, ?_, control_recv_disconnect_zero, ?_⟩
  · cases hf : m.clients.find? (fun c => c.channel = 0) with
    | none =>
      have := List.find?_eq_none.mp hf control_client hi.ctl
      exact absurd (show decide (control_client.channel = 0) = true from by decide) this
    | some c =>
      have hz := List.find?_some hf
      simp only [decide_eq_true_eq] at hz
      rw [hi.only c (List.mem_of_find?_eq_some hf) hz]
  · intro m1 name
    refine ⟨control_recv_connect_zero m1 name, control_recv_zero_store m1 name, ?_⟩
    rcases control_recv_connect_zero m1 name with e | e
    · rw [e]
      exact ⟨rfl, rfl, rfl, rfl, rfl⟩
    · rw [e]
      exact ⟨rfl, rfl, rfl, rfl, rfl⟩

/-- Witness of C28 amended: `gsm_mux` after it has read the record "00000e"
"connect:gsm:42" in two chunks. The control handler was called and created a
client on channel 0x42; the control client is still there, behind it. -/
theorem C28_control_client_stays_amended_witness :
    ∃ m1 c, multiplexer_read gsm_mux [bytes "00000econn", bytes "ect:gsm:42"] = some m1
      ∧ m1.clients = [c, control_client] ∧ c.channel = 66
      ∧ control_client ∈ m1.clients
      ∧ (∀ x ∈ m1.clients, x.channel = 0 → x = control_client)
      ∧ m1.clients.find? (fun x => x.channel = 0) = some control_client := by
  obtain ⟨m1, c, hread, hcl, hch, -⟩ :=
    gsm_connect_run [bytes "00000econn", bytes "ect:gsm:42"] (by decide)
  have hreach : InboundReachable m1 := InboundReachable.read gsm_mux m1 _ gsm_mux_inbound hread
  have h := C28_control_client_stays_amended m1 hreach
  exact ⟨m1, c, hread, hcl, hch, h.1, h.2.2.1, h.2.2.2.2.1⟩

/-! ## The decoder never stalls the transport -/

/-- What `qemud_serial_can_read` returns depends on neither the transport
output nor the version nor the content of `data0`. -/
theorem can_read_same (s1 s : QemudSerial) (h : SerialSame s1 s) :
    qemud_serial_can_read s1 = qemud_serial_can_read s := by
  rw [h.1]
  rfl

/-- In a safe state `qemud_serial_can_read` is positive. -/
theorem safe_can_read (s : QemudSerial) (hg : Safe s) : 0 < qemud_serial_can_read s := by
  unfold qemud_serial_can_read qemud_sink_needed
  by_cases hov : s.overflow > 0
  · rw [if_pos hov]
    exact hov
  · rw [if_neg hov]
    by_cases hn : s.need_header = true
    · rw [if_pos hn, hg.hsize]
      have := hg.hlen
      omega
    · rw [if_neg hn]
      have := hg.plen (by simpa using hn)
      omega

/-- C31. The decoder never stalls the transport: in every state reachable
from `qemud_serial_init` by calls of `qemud_serial_read` on any chunks (with a
receiver that leaves the sinks and the size of `data0` alone, as the receiver
of the multiplexer does, whose control handler writes into the message),
`qemud_serial_can_read` returns a strictly positive value: `overflow` when
`overflow > 0`, otherwise `6 - header.len >= 1` in header state, otherwise
`payload.size - payload.len >= 1`. A `qemud_serial_send` in between does not
change that value. -/
theorem C31_can_read_positive {α : Type}
    (recv : α → QemudSerial → Int → List Nat → Option (α × QemudSerial))
    (hr : RecvFrame recv) (s : QemudSerial) (h : SerialReachable recv s) :
    0 < qemud_serial_can_read s
    ∧ (s.overflow > 0 → qemud_serial_can_read s = s.overflow)
    ∧ (¬ s.overflow > 0 → s.need_header = true →
        qemud_serial_can_read s = 6 - (s.header.len : Int) ∧ 1 ≤ 6 - (s.header.len : Int))
    ∧ (¬ s.overflow > 0 → s.need_header = false →
        qemud_serial_can_read s = (s.payload.size : Int) - (s.payload.len : Int)
        ∧ 1 ≤ (s.payload.size : Int) - (s.payload.len : Int))
    ∧ (∀ (channel : Int) (framing : Bool) (msg : List Nat),
        qemud_serial_can_read (qemud_serial_send s channel framing msg)
          = qemud_serial_can_read s)
    ∧ RecvFrame multiplexer_recv := by
  have hg := reachable_safe recv hr s h
  refine ⟨safe_can_read s hg, ?_, ?_, ?_, ?_, multiplexer_recv_frame⟩
  · intro hov
    unfold qemud_serial_can_read
    rw [if_pos hov]
  · intro hov hn
    unfold qemud_serial_can_read qemud_sink_needed
    rw [if_neg hov, if_pos hn, hg.hsize]
    have := hg.hlen
    exact ⟨by rfl, by omega⟩
  · intro hov hn
    unfold qemud_serial_can_read qemud_sink_needed
    rw [if_neg hov, if_neg (by rw [hn]; decide)]
    have := hg.plen hn
    exact ⟨rfl, by omega⟩
  · intro channel framing msg
    exact can_read_same _ _ (send_same s channel framing msg)

/-- Witness of C31, with the receiver of the multiplexer: `gsm_mux` reads the
record "00000e" "connect:gsm:42" in two chunks (the control handler answers and
overwrites the ':' in `data0`), then the header "001001", which announces 4097
bytes and puts the decoder in overflow mode; `qemud_serial_can_read` is
positive after each. -/
theorem C31_can_read_positive_witness :
    ∃ m1 m2, multiplexer_read gsm_mux [bytes "00000econn", bytes "ect:gsm:42"] = some m1
      ∧ m1.serial.cs = legacy_probe ++ bytes "00000dok:connect:42"
      ∧ 0 < qemud_serial_can_read m1.serial
      ∧ multiplexer_read m1 [bytes "001001"] = some m2
      ∧ 0 < qemud_serial_can_read m2.serial := by
  obtain ⟨m1, c, hread, -, -, -, hcs, -, -, -, hs⟩ :=
    gsm_connect_run [bytes "00000econn", bytes "ect:gsm:42"] (by decide)
  obtain ⟨s2, h2, -⟩ := read_header_only multiplexer_recv multiplexer_recv_keeps m1
    m1.serial (bytes "001001") hs rfl
  have hread2 := multiplexer_read_single m1 _ s2 h2
  have hreach1 : SerialReachable multiplexer_recv m1.serial :=
    multiplexer_read_reachable gsm_mux m1 _ gsm_mux_serial hread
  have hreach2 : SerialReachable multiplexer_recv s2 :=
    multiplexer_read_reachable m1 _ _ hreach1 hread2
  exact ⟨m1, _, hread, hcs,
    (C31_can_read_positive multiplexer_recv multiplexer_recv_frame m1.serial hreach1).1,
    hread2,
    (C31_can_read_positive multiplexer_recv multiplexer_recv_frame s2 hreach2).1⟩

end Qemud
